import Mathlib

/-!
# BugIt backend: ingestion pipeline and consistency validation

A shallow embedding of the Go packages `models`, `validate`, `storage` and
`ingest` of the BugIt backend, followed by theorems about them.

Conventions of the embedding

* Go `string` is Lean `String`, read as its list of characters; the helpers of
  Go's `strings` package are defined on `String.data`.
* Go `[]byte` is `List Nat` (each element a byte value).
* Go `int` / `int64` is `Int`; none of the embedded code does arithmetic that
  could overflow.
* Go `time.Time` is `Option Int`: `none` is the zero time, `some ms` a time
  given in Unix milliseconds.
* A Go function returning `(T, error)` returns `Except`.
* Functions of the Go standard library (`encoding/json`, `path/filepath`,
  `crypto/sha256`, `encoding/hex`, `os`, `archive/zip`) are either modelled
  under the name of the library function or taken as parameters; each such
  place says so.
-/

namespace BugIt

deriving instance DecidableEq for Except

/-! ## Go `strings` helpers -/

namespace strings

/-- Go `strings.HasPrefix`. -/
def HasPrefix (s p : String) : Bool := p.data.isPrefixOf s.data

/-- Go `strings.HasSuffix`. -/
def HasSuffix (s p : String) : Bool := p.data.isSuffixOf s.data

/-- Substring test on character lists: `sub` occurs in `s` as a contiguous block. -/
def containsList (sub : List Char) : List Char → Bool
  | [] => sub.isEmpty
  | c :: cs => sub.isPrefixOf (c :: cs) || containsList sub cs

/-- Go `strings.Contains`. -/
def Contains (s sub : String) : Bool := containsList sub.data s.data

/-- Go `strings.ContainsAny`: some character of `chars` occurs in `s`. -/
def ContainsAny (s chars : String) : Bool := s.data.any (fun c => chars.data.contains c)

end strings

/-! ## A JSON value, as far as the manifest decoder looks into it -/

/-- A parsed JSON document. Numbers keep their literal text. -/
inductive JSON where
  | null : JSON
  | bool (b : Bool) : JSON
  | num (literal : String) : JSON
  | str (s : String) : JSON
  | arr (elems : List JSON) : JSON
  | obj (members : List (String × JSON)) : JSON

/-! ## Package `models` -/

namespace models

/-- Go `models.ManifestBuildInfo`. -/
structure ManifestBuildInfo where
  BuildID : String := ""
  CommitHash : String := ""
  Branch : String := ""
  BuildConfig : String := ""
  EngineVersion : String := ""
  ProjectName : String := ""
  ProjectVersion : String := ""
  RVRVersion : String := ""

/-- Go `models.ManifestSession`. -/
structure ManifestSession where
  SessionID : String := ""
  MapName : String := ""
  GameModeName : String := ""
  TesterName : String := ""
  TestCaseName : String := ""

/-- Go `models.ManifestHardware`. -/
structure ManifestHardware where
  Platform : String := ""
  OSVersion : String := ""
  CPUBrand : String := ""
  GPUBrand : String := ""
  RHIName : String := ""
  DeviceID : String := ""

/-- Go `models.ManifestArtifact`; the field `Type` is spelled `Type_`. -/
structure ManifestArtifact where
  Filename : String := ""
  Type_ : String := ""
  MimeType : String := ""
deriving DecidableEq, Repr

/-- The fields of `models.Manifest` that carry a JSON tag other than `"-"`: what
`json.Unmarshal(data, aux)` stores through the `ManifestAlias` pointer. An absent
`artifacts` or `metadata` key leaves the raw message empty (`none`). -/
structure ManifestAlias where
  SchemaVersion : String := ""
  BundleID : String := ""
  ContentHash : String := ""
  ReportTimestampUtc : Int := 0
  Notes : String := ""
  BuildInfo : Option ManifestBuildInfo := none
  SessionInfo : Option ManifestSession := none
  HardwareInfo : Option ManifestHardware := none
  RawArtifacts : Option JSON := none
  Metadata : Option JSON := none

/-- Go `models.Manifest`: the tagged fields together with the derived ones. -/
structure Manifest extends ManifestAlias where
  Timestamp : Option Int := none
  Artifacts : List ManifestArtifact := []
  BuildID : String := ""
  MapName : String := ""
  Platform : String := ""
  RVRVersion : String := ""

/-- Go `models.ValidationError` (manifest validation failure). -/
structure ValidationError where
  Field : String
  Message : String
deriving DecidableEq, Repr

/-- Go `models.APIError` (without the free-form details map). -/
structure APIError where
  Code : String
  Message : String
deriving DecidableEq, Repr

def ErrCodeInvalidManifest : String := "INVALID_MANIFEST"
def ErrCodeUnsupportedSchema : String := "UNSUPPORTED_SCHEMA"
def ErrCodeInvalidZip : String := "INVALID_ZIP"
def ErrCodeBundleNotFound : String := "BUNDLE_NOT_FOUND"
def ErrCodeArtifactNotFound : String := "ARTIFACT_NOT_FOUND"
def ErrCodeStorageError : String := "STORAGE_ERROR"
def ErrCodeDatabaseError : String := "DATABASE_ERROR"

/-- Go `guessArtifactType`: artifact type inferred from the filename. -/
def guessArtifactType (filename : String) : String :=
  if strings.HasSuffix filename ".mp4" || strings.HasSuffix filename ".webm" then "video"
  else if strings.HasSuffix filename ".txt" || strings.HasSuffix filename ".log" then "log"
  else if strings.HasSuffix filename ".jpg" || strings.HasSuffix filename ".png" then
    if strings.Contains filename "thumbnail" then "thumbnail" else "screenshot"
  else if strings.HasSuffix filename ".json" then "other"
  else if strings.HasSuffix filename ".dmp" then "crash_dump"
  else "other"

/-- Go `guessMimeType`: MIME type inferred from the filename. -/
def guessMimeType (filename : String) : String :=
  if strings.HasSuffix filename ".mp4" then "video/mp4"
  else if strings.HasSuffix filename ".webm" then "video/webm"
  else if strings.HasSuffix filename ".jpg" || strings.HasSuffix filename ".jpeg" then "image/jpeg"
  else if strings.HasSuffix filename ".png" then "image/png"
  else if strings.HasSuffix filename ".json" then "application/json"
  else if strings.HasSuffix filename ".txt" || strings.HasSuffix filename ".log" then "text/plain"
  else "application/octet-stream"

/-! ### `encoding/json` into `[]ManifestArtifact` and `[]string`

Model of `json.Unmarshal` for the two target types the manifest decoder uses.
A JSON `null` leaves its target untouched and is no error; a value of the wrong
kind is skipped, decoding goes on, and the call returns an error at the end.
Object keys match a field tag exactly or up to ASCII letter case; unknown keys
are ignored; a repeated key overwrites. -/

/-- Key comparison of `encoding/json`: equal up to letter case (the three tags
are ASCII). -/
def keyMatches (key tag : String) : Bool :=
  key.data.map Char.toLower == tag.data.map Char.toLower

/-- Store one object member into a `ManifestArtifact`; the flag reports a value
of the wrong kind. -/
def setArtifactField (acc : ManifestArtifact × Bool) (member : String × JSON) :
    ManifestArtifact × Bool :=
  let a := acc.1
  let store (set : String → ManifestArtifact) : ManifestArtifact × Bool :=
    match member.2 with
    | JSON.str s => (set s, acc.2)
    | JSON.null => acc
    | _ => (a, true)
  if keyMatches member.1 "filename" then store (fun s => { a with Filename := s })
  else if keyMatches member.1 "type" then store (fun s => { a with Type_ := s })
  else if keyMatches member.1 "mime_type" then store (fun s => { a with MimeType := s })
  else acc

/-- Decode one array element into a `ManifestArtifact`. -/
def unmarshalArtifact : JSON → ManifestArtifact × Bool
  | JSON.obj members => members.foldl setArtifactField ({}, false)
  | JSON.null => ({}, false)
  | _ => ({}, true)

/-- Model of `json.Unmarshal(raw, &artifacts)` with `artifacts []ManifestArtifact`:
`none` when the call returns an error. -/
def unmarshalArtifacts : JSON → Option (List ManifestArtifact)
  | JSON.arr elems =>
    let decoded := elems.map unmarshalArtifact
    if decoded.any (fun d => d.2) then none else some (decoded.map (fun d => d.1))
  | JSON.null => some []
  | _ => none

/-- Decode one array element into a `string`. -/
def unmarshalString : JSON → String × Bool
  | JSON.str s => (s, false)
  | JSON.null => ("", false)
  | _ => ("", true)

/-- Model of `json.Unmarshal(raw, &filenames)` with `filenames []string`:
`none` when the call returns an error. -/
def unmarshalStrings : JSON → Option (List String)
  | JSON.arr elems =>
    let decoded := elems.map unmarshalString
    if decoded.any (fun d => d.2) then none else some (decoded.map (fun d => d.1))
  | JSON.null => some []
  | _ => none

/-- The artifact part of `Manifest.UnmarshalJSON`: object array first, then the
string array of the Unreal format with inferred type and MIME type; the artifact
list stays empty when neither decodes. -/
def parseArtifacts (raw : Option JSON) : List ManifestArtifact :=
  match raw with
  | none => []
  | some j =>
    match unmarshalArtifacts j with
    | some artifacts => artifacts
    | none =>
      match unmarshalStrings j with
      | some filenames =>
        filenames.map (fun filename =>
          { Filename := filename
            Type_ := guessArtifactType filename
            MimeType := guessMimeType filename })
      | none => []

/-- Go `(*Manifest).UnmarshalJSON`, after `json.Unmarshal(data, aux)` has
succeeded and stored the tagged fields `aux`. The receiver is the zero manifest,
as in `parseManifest` (`var manifest models.Manifest`). -/
def Manifest.UnmarshalJSON (aux : ManifestAlias) : Manifest :=
  let m : Manifest := { toManifestAlias := aux }
  -- Convert Unix milliseconds to time.Time
  let m := if m.ReportTimestampUtc > 0 then { m with Timestamp := some m.ReportTimestampUtc } else m
  -- Populate derived fields from nested structures
  let m :=
    match m.BuildInfo with
    | some bi =>
      let m := if bi.BuildID ≠ "" then { m with BuildID := bi.BuildID } else m
      { m with RVRVersion := bi.RVRVersion }
    | none => m
  let m := match m.SessionInfo with
    | some si => { m with MapName := si.MapName }
    | none => m
  let m := match m.HardwareInfo with
    | some hi => { m with Platform := hi.Platform }
    | none => m
  -- Fallback: use bundleId as buildId if buildInfo.buildId is empty
  let m := if m.BuildID = "" ∧ m.BundleID ≠ "" then { m with BuildID := m.BundleID } else m
  -- Now parse artifacts
  { m with Artifacts := parseArtifacts m.RawArtifacts }

/-- Go `(*Manifest).Validate`. The receiver is updated in place in Go; here the
updated manifest is returned. `now` is the value of `time.Now()`. -/
def Manifest.Validate (now : Int) (m : Manifest) : Except ValidationError Manifest :=
  let rest (m : Manifest) : Except ValidationError Manifest :=
    -- Platform defaults to "Other" if missing
    let m := if m.Platform = "" then { m with Platform := "Other" } else m
    -- Timestamp is optional - use current time if not provided
    let m := if m.Timestamp.isNone then { m with Timestamp := some now } else m
    .ok m
  if m.SchemaVersion = "" then
    .error { Field := "schemaVersion", Message := "required" }
  else if !strings.HasPrefix m.SchemaVersion "1." && m.SchemaVersion != "1" then
    .error { Field := "schemaVersion", Message := "unsupported version: " ++ m.SchemaVersion }
  else if m.BuildID = "" then
    if m.BundleID ≠ "" then
      rest { m with BuildID := m.BundleID }
    else
      .error { Field := "buildId", Message := "required (in buildInfo or as bundleId)" }
  else
    rest m

end models

/-! ## Go `path/filepath` on a system whose separator is `/`

Lexical models of the library functions the repository calls. A path is
processed as its list of `/`-separated elements. -/

namespace filepath

/-- Split a character list at every `/`. `"a//b"` gives `a`, the empty element, `b`. -/
def splitSep : List Char → List (List Char)
  | [] => [[]]
  | c :: cs =>
    match splitSep cs with
    | [] => [[]]
    | e :: es => if c = '/' then [] :: e :: es else (c :: e) :: es

/-- Concatenate elements with `/` between them. -/
def joinSep : List (List Char) → List Char
  | [] => []
  | [e] => e
  | e :: es => e ++ '/' :: joinSep es

/-- One element of `Clean`, working on the reversed list of elements kept so far:
empty elements and `.` are dropped; `..` removes the element before it, is
dropped at the root, and is kept at the start of a relative path. -/
def cleanElem (rooted : Bool) (kept : List (List Char)) (e : List Char) : List (List Char) :=
  if e = [] ∨ e = ['.'] then kept
  else if e = ['.', '.'] then
    match kept with
    | [] => if rooted then [] else [e]
    | k :: ks => if k = ['.', '.'] then e :: k :: ks else ks
  else e :: kept

/-- The elements `Clean` keeps, in order. -/
def keptElems (path : List Char) : List (List Char) :=
  ((splitSep path).foldl (cleanElem (path.head? = some '/')) []).reverse

/-- `Clean` on character lists. -/
def cleanChars (path : List Char) : List Char :=
  let rooted := path.head? = some '/'
  let kept := keptElems path
  if rooted then '/' :: joinSep kept
  else if kept = [] then ['.'] else joinSep kept

/-- An ordinary path element: a name that is not empty, not `.`, not `..`, and
holds no separator. -/
def Ordinary (e : List Char) : Prop :=
  e ≠ [] ∧ e ≠ ['.'] ∧ e ≠ ['.', '.'] ∧ '/' ∉ e

/-- Go `filepath.Clean`: the shortest path name equivalent to `path` by purely
lexical processing; the empty path becomes `"."`. -/
def Clean (path : String) : String := ⟨cleanChars path.data⟩

/-- Go `filepath.Join`: empty elements before the first non-empty one are
ignored, the rest is joined with `/` and cleaned; all elements empty gives `""`. -/
def Join (elem : List String) : String :=
  match elem.dropWhile (fun e => e = "") with
  | [] => ""
  | rest => ⟨cleanChars (joinSep (rest.map String.data))⟩

/-- Remove trailing `/` characters. -/
def stripTrailingSep (path : List Char) : List Char :=
  (path.reverse.dropWhile (fun c => c = '/')).reverse

/-- Go `filepath.Base`: the last element of the path, after removing trailing
separators; `"."` for the empty path and `"/"` for a path of separators only. -/
def Base (path : String) : String :=
  if path = "" then "."
  else
    let stripped := stripTrailingSep path.data
    let last := (stripped.reverse.takeWhile (fun c => c ≠ '/')).reverse
    if last = [] then "/" else ⟨last⟩

/-- Go `filepath.Dir`: all but the last element of the path, cleaned. -/
def Dir (path : String) : String :=
  ⟨cleanChars (path.data.reverse.dropWhile (fun c => c ≠ '/')).reverse⟩

/-- Drop the common leading elements of two element lists. -/
def dropCommon : List (List Char) → List (List Char) → List (List Char) × List (List Char)
  | b :: bs, t :: ts => if b = t then dropCommon bs ts else (b :: bs, t :: ts)
  | bs, ts => (bs, ts)

/-- Go `filepath.Rel`: a relative path that is lexically equivalent to `targpath`
when joined to `basepath`; `none` when there is none (one path rooted and the
other not, or `..` left in the base). -/
def Rel (basepath targpath : String) : Option String :=
  let base := cleanChars basepath.data
  let targ := cleanChars targpath.data
  if targ = base then some "."
  else
    let base := if base = ['.'] then [] else base
    if (base.head? = some '/') ≠ (targ.head? = some '/') then none
    else
      let elems (p : List Char) := (splitSep p).filter (fun e => e ≠ [])
      let (b, t) := dropCommon (elems base) (elems targ)
      if b.head? = some ['.', '.'] then none
      else some ⟨joinSep (b.map (fun _ => ['.', '.']) ++ t)⟩

end filepath

/-! ## Go `float64`

The validator computes with `float64`. Its operations are kept abstract: the
definitions and theorems of package `validate` hold for every interpretation of
them, IEEE-754 binary64 included. `Rat` gives an executable interpretation in
which the arithmetic is exact, `F64` one in which every operation rounds to the
nearest binary64 value as the hardware does (finite values only). -/

/-- The `float64` operations the validator uses. `fmt prec x` is `%.<prec>f`. -/
class GoFloat (F : Type) where
  ofInt : Int → F
  tenth : F
  maxFloat : F
  lt : F → F → Bool
  le : F → F → Bool
  add : F → F → F
  sub : F → F → F
  mul : F → F → F
  div : F → F → F
  abs : F → F
  fmt : Nat → F → String

/-- Decimal digits of `n`, padded with leading zeros to at least `width` digits. -/
def padDigits (width n : Nat) : String :=
  ⟨List.replicate (width - (Nat.toDigits 10 n).length) '0' ++ Nat.toDigits 10 n⟩

/-- `%.<prec>f` for an exact rational: rounded to `prec` decimals, ties to even. -/
def fmtRat (prec : Nat) (q : ℚ) : String :=
  let scaled := |q| * (10 : ℚ) ^ prec
  let fl := scaled.floor.toNat
  let rest := scaled - fl
  let r := if rest < 1 / 2 then fl else if 1 / 2 < rest then fl + 1
           else if fl % 2 = 0 then fl else fl + 1
  let sign := if q < 0 then "-" else ""
  let whole := toString (r / 10 ^ prec)
  if prec = 0 then sign ++ whole
  else sign ++ whole ++ "." ++ padDigits prec (r % 10 ^ prec)

instance : GoFloat ℚ where
  ofInt n := n
  tenth := 1 / 10
  maxFloat := 2 ^ 1024 - 2 ^ 971
  lt x y := decide (x < y)
  le x y := decide (x ≤ y)
  add x y := x + y
  sub x y := x - y
  mul x y := x * y
  div x y := x / y
  abs x := |x|
  fmt := fmtRat

/-- Laws of the comparisons on `float64` values other than NaN: `<=` is the
negation of the converse `<`, and `<` is a strict weak order. A number decoded
from JSON is never NaN. -/
class GoFloatOrder (F : Type) [GoFloat F] : Prop where
  le_eq_not_lt : ∀ a b : F, GoFloat.le a b = !GoFloat.lt b a
  lt_irrefl : ∀ a : F, GoFloat.lt a a = false
  lt_trans : ∀ a b c : F, GoFloat.lt a b = true → GoFloat.lt b c = true → GoFloat.lt a c = true
  not_lt_trans : ∀ a b c : F,
    GoFloat.lt b a = false → GoFloat.lt c b = false → GoFloat.lt c a = false

instance : GoFloatOrder ℚ where
  le_eq_not_lt a b := by
    show decide (a ≤ b) = !decide (b < a)
    by_cases h : a ≤ b
    · simp [h, not_lt.mpr h]
    · simp [h, not_le.mp h]
  lt_irrefl a := by
    show decide (a < a) = false
    simp
  lt_trans a b c h1 h2 := by
    have h1' : a < b := of_decide_eq_true h1
    have h2' : b < c := of_decide_eq_true h2
    exact decide_eq_true (lt_trans h1' h2')
  not_lt_trans a b c h1 h2 := by
    have h1' : ¬ b < a := of_decide_eq_false h1
    have h2' : ¬ c < b := of_decide_eq_false h2
    exact decide_eq_false (not_lt.mpr (le_trans (not_lt.mp h1') (not_lt.mp h2')))

/-! ### IEEE-754 binary64

The finite `float64` values as the rationals they denote, with every operation
rounded to the nearest representable value, ties to even. Overflow to infinity
is not modelled: the model is exact as long as no result exceeds the largest
finite `float64`. -/

namespace f64

/-- The integer nearest to `a / b`, ties to the even one. -/
def roundHalfEven (a b : Nat) : Nat :=
  let q := a / b
  let r := a % b
  if 2 * r < b then q else if b < 2 * r then q + 1 else if q % 2 = 0 then q else q + 1

/-- Halve `n` until it is below 2, at most `fuel` times, and count the steps. -/
def log2Fuel : Nat → Nat → Nat
  | 0, _ => 0
  | fuel + 1, n => if n < 2 then 0 else log2Fuel fuel (n / 2) + 1

/-- The position of the leading bit of `n`: the `k` with `2 ^ k ≤ n < 2 ^ (k + 1)`,
for positive `n`. -/
def log2 (n : Nat) : Nat := log2Fuel n n

/-- The exponent of `n / d`: the integer `k` with `2 ^ k ≤ n / d < 2 ^ (k + 1)`,
for positive `n` and `d`. -/
def exponent (n d : Nat) : Int :=
  let k : Int := (log2 n : Int) - (log2 d : Int)
  let reaches : Bool := if 0 ≤ k then d * 2 ^ k.toNat ≤ n else d ≤ n * 2 ^ (-k).toNat
  if reaches then k else k - 1

/-- Round a rational to the nearest `float64`: a 53-bit significand times a
power of two, the exponent of the last bit not below `-1074`. -/
def round (q : ℚ) : ℚ :=
  if q = 0 then 0
  else
    let n := q.num.natAbs
    let d := q.den
    let e : Int := max (exponent n d - 52) (-1074)
    let v : ℚ :=
      if 0 ≤ e then ((roundHalfEven n (d * 2 ^ e.toNat) * 2 ^ e.toNat : Nat) : ℚ)
      else (roundHalfEven (n * 2 ^ (-e).toNat) d : ℚ) / ((2 ^ (-e).toNat : Nat) : ℚ)
    if q < 0 then -v else v

end f64

/-- A finite `float64` value, as the rational it denotes. -/
structure F64 where
  val : ℚ
deriving DecidableEq

/-- The `float64` nearest to a decimal number, as `encoding/json` decodes it. -/
def F64.ofDecimal (q : ℚ) : F64 := ⟨f64.round q⟩

instance : GoFloat F64 where
  ofInt n := ⟨f64.round n⟩
  tenth := ⟨f64.round (1 / 10)⟩
  maxFloat := ⟨2 ^ 1024 - 2 ^ 971⟩
  lt x y := decide (x.val < y.val)
  le x y := decide (x.val ≤ y.val)
  add x y := ⟨f64.round (x.val + y.val)⟩
  sub x y := ⟨f64.round (x.val - y.val)⟩
  mul x y := ⟨f64.round (x.val * y.val)⟩
  div x y := ⟨f64.round (x.val / y.val)⟩
  abs x := ⟨|x.val|⟩
  fmt prec x := fmtRat prec x.val

instance : GoFloatOrder F64 where
  le_eq_not_lt a b := by
    show decide (a.val ≤ b.val) = !decide (b.val < a.val)
    by_cases h : a.val ≤ b.val
    · simp [h, not_lt.mpr h]
    · simp [h, not_le.mp h]
  lt_irrefl a := by
    show decide (a.val < a.val) = false
    simp
  lt_trans a b c h1 h2 := by
    have h1' : a.val < b.val := of_decide_eq_true h1
    have h2' : b.val < c.val := of_decide_eq_true h2
    exact decide_eq_true (lt_trans h1' h2')
  not_lt_trans a b c h1 h2 := by
    have h1' : ¬ b.val < a.val := of_decide_eq_false h1
    have h2' : ¬ c.val < b.val := of_decide_eq_false h2
    exact decide_eq_false (not_lt.mpr (le_trans (not_lt.mp h1') (not_lt.mp h2')))

/-! ## Package `validate` -/

namespace validate

/-- Go `validate.ValidationError`: one validation issue. -/
structure ValidationError where
  Code : String
  Field : String := ""
  Message : String
  Got : String := ""
  Want : String := ""
deriving DecidableEq, Repr

/-- Go `validate.BundleStats`. -/
structure BundleStats (F : Type) where
  ManifestDurationSec : F
  ManifestTotalFrames : Int
  TimingFrameCount : Int
  TimingFirstTimestamp : F
  TimingLastTimestamp : F
  TimingDurationMs : F
  InputEventCount : Int
  KeyboardEventCount : Int
  MouseEventCount : Int
  InputFirstTimestamp : F
  InputLastTimestamp : F
  VideoFPS : F
  DurationMismatchMs : F

/-- The zero value `&BundleStats{}`. -/
def BundleStats.zero {F : Type} [GoFloat F] : BundleStats F :=
  { ManifestDurationSec := GoFloat.ofInt 0
    ManifestTotalFrames := 0
    TimingFrameCount := 0
    TimingFirstTimestamp := GoFloat.ofInt 0
    TimingLastTimestamp := GoFloat.ofInt 0
    TimingDurationMs := GoFloat.ofInt 0
    InputEventCount := 0
    KeyboardEventCount := 0
    MouseEventCount := 0
    InputFirstTimestamp := GoFloat.ofInt 0
    InputLastTimestamp := GoFloat.ofInt 0
    VideoFPS := GoFloat.ofInt 0
    DurationMismatchMs := GoFloat.ofInt 0 }

/-- Go `validate.ValidationResult`. -/
structure ValidationResult (F : Type) where
  Valid : Bool
  Errors : List ValidationError
  Warnings : List ValidationError
  Stats : BundleStats F

/-- Go `validate.SessionInfo`. -/
structure SessionInfo where
  MapName : String := ""
  TargetFPS : Int := 0

/-- Go `validate.Manifest`: the manifest as the validator reads it. -/
structure Manifest (F : Type) where
  SchemaVersion : String := ""
  BundleID : String := ""
  DurationSeconds : F
  TotalFrames : Int
  SessionInfo : Option SessionInfo := none
  Artifacts : Option JSON := none

/-- Go `validate.FrameEntry`. -/
structure FrameEntry (F : Type) where
  VideoFrameIndex : Int
  TimestampMs : F
  IsPaused : Bool := false

/-- Go `validate.TimingData`. -/
structure TimingData (F : Type) where
  SchemaVersion : String := ""
  Frames : List (FrameEntry F)

/-- Go `validate.InputEvent`. -/
structure InputEvent (F : Type) where
  TimestampMs : F
  InputType : String
  KeyName : String := ""
  KeyCode : Int := 0

/-- Go `validate.InputData`. -/
structure InputData (F : Type) where
  SchemaVersion : String := ""
  TotalEvents : Int := 0
  Events : List (InputEvent F)

/-- What the loaders use from outside the repository: `os.ReadFile`, and
`json.Unmarshal` into each of the three document types. -/
structure Env (F : Type) where
  ReadFile : String → Except String (List Nat)
  unmarshalManifest : List Nat → Except String (Manifest F)
  unmarshalTiming : List Nat → Except String (TimingData F)
  unmarshalInputs : List Nat → Except String (InputData F)

variable {F : Type} [GoFloat F]

/-- Go `(*ValidationResult).addError`. -/
def ValidationResult.addError (r : ValidationResult F) (code field message : String) :
    ValidationResult F :=
  { r with
    Errors := r.Errors ++ [{ Code := code, Field := field, Message := message }]
    Valid := false }

/-- Go `(*ValidationResult).addErrorWithValues`. -/
def ValidationResult.addErrorWithValues (r : ValidationResult F)
    (code field message got want : String) : ValidationResult F :=
  { r with
    Errors := r.Errors ++
      [{ Code := code, Field := field, Message := message, Got := got, Want := want }]
    Valid := false }

/-- Go `(*ValidationResult).addWarning`. -/
def ValidationResult.addWarning (r : ValidationResult F) (code field message : String) :
    ValidationResult F :=
  { r with Warnings := r.Warnings ++ [{ Code := code, Field := field, Message := message }] }

/-- Go `(*ValidationResult).addWarningWithValues`. -/
def ValidationResult.addWarningWithValues (r : ValidationResult F)
    (code field message got want : String) : ValidationResult F :=
  { r with
    Warnings := r.Warnings ++
      [{ Code := code, Field := field, Message := message, Got := got, Want := want }] }

/-- Go `loadManifest`. -/
def loadManifest (env : Env F) (bundlePath : String) : Except String (Manifest F) :=
  match env.ReadFile (filepath.Join [bundlePath, "manifest.json"]) with
  | .error err => .error ("read manifest.json: " ++ err)
  | .ok data =>
    match env.unmarshalManifest data with
    | .error err => .error ("parse manifest.json: " ++ err)
    | .ok m => .ok m

/-- Go `loadTiming`. -/
def loadTiming (env : Env F) (bundlePath : String) : Except String (TimingData F) :=
  match env.ReadFile (filepath.Join [bundlePath, "timing.json"]) with
  | .error err => .error ("read timing.json: " ++ err)
  | .ok data =>
    match env.unmarshalTiming data with
    | .error err => .error ("parse timing.json: " ++ err)
    | .ok t => .ok t

/-- Go `loadInputs`. -/
def loadInputs (env : Env F) (bundlePath : String) : Except String (InputData F) :=
  match env.ReadFile (filepath.Join [bundlePath, "inputs.json"]) with
  | .error err => .error ("read inputs.json: " ++ err)
  | .ok data =>
    match env.unmarshalInputs data with
    | .error err => .error ("parse inputs.json: " ++ err)
    | .ok i => .ok i

/-- Go `validateManifestInternal`. -/
def validateManifestInternal (r : ValidationResult F) (m : Manifest F) : ValidationResult F :=
  -- Duration must be positive
  let r := if GoFloat.le m.DurationSeconds (GoFloat.ofInt 0) then
      r.addError "MANIFEST_DURATION" "durationSeconds"
        ("must be positive, got " ++ GoFloat.fmt 3 m.DurationSeconds)
    else r
  -- TotalFrames must be positive
  let r := if m.TotalFrames ≤ 0 then
      r.addError "MANIFEST_FRAMES" "totalFrames"
        ("must be positive, got " ++ toString m.TotalFrames)
    else r
  -- Check reasonable FPS (1-240)
  if GoFloat.lt (GoFloat.ofInt 0) m.DurationSeconds ∧ m.TotalFrames > 0 then
    let fps := GoFloat.div (GoFloat.ofInt m.TotalFrames) m.DurationSeconds
    if GoFloat.lt fps (GoFloat.ofInt 1) ∨ GoFloat.lt (GoFloat.ofInt 240) fps then
      r.addWarning "MANIFEST_FPS" ""
        ("unusual FPS: " ++ GoFloat.fmt 1 fps ++ " (frames=" ++ toString m.TotalFrames ++
          ", duration=" ++ GoFloat.fmt 2 m.DurationSeconds ++ "s)")
    else r
  else r

/-- The first loop of `validateTiming`: position and declared index of the first
frame whose `videoFrameIndex` differs from its position `i`, scanning from `i`. -/
def firstIndexMismatch : List (FrameEntry F) → Nat → Option (Nat × Int)
  | [], _ => none
  | frame :: rest, i =>
    if frame.VideoFrameIndex ≠ (i : Int) then some (i, frame.VideoFrameIndex)
    else firstIndexMismatch rest (i + 1)

/-- The last loop of `validateTiming`: position `i` and the two timestamps of the
first frame whose timestamp is below that of its predecessor `prev`. -/
def firstDecrease (prev : F) : List (FrameEntry F) → Nat → Option (Nat × F × F)
  | [], _ => none
  | frame :: rest, i =>
    if GoFloat.lt frame.TimestampMs prev then some (i, prev, frame.TimestampMs)
    else firstDecrease frame.TimestampMs rest (i + 1)

/-- Go `validateTiming`. -/
def validateTiming (r : ValidationResult F) (t : TimingData F) : ValidationResult F :=
  match t.Frames with
  | [] => r.addError "TIMING_EMPTY" "frames" "no frames in timing.json"
  | first :: rest =>
    let last := (first :: rest).getLast (List.cons_ne_nil first rest)
    let r := { r with Stats := { r.Stats with
      TimingFrameCount := (first :: rest).length
      TimingFirstTimestamp := first.TimestampMs
      TimingLastTimestamp := last.TimestampMs
      TimingDurationMs := GoFloat.sub last.TimestampMs first.TimestampMs } }
    -- Check videoFrameIndex is sequential starting from 0
    let r := match firstIndexMismatch (first :: rest) 0 with
      | some (i, idx) =>
        r.addErrorWithValues "TIMING_INDEX_MISMATCH" "videoFrameIndex"
          "videoFrameIndex should be sequential"
          ("frame[" ++ toString i ++ "].videoFrameIndex = " ++ toString idx)
          (toString i)
      | none => r
    -- First timestamp should be near 0 (normalized)
    let r := if GoFloat.lt (GoFloat.ofInt 100) first.TimestampMs then
        r.addWarning "TIMING_NOT_NORMALIZED" "timestampMs"
          ("first frame timestamp is " ++ GoFloat.fmt 1 first.TimestampMs ++
            "ms (expected near 0 if normalized)")
      else r
    -- Check timestamps are monotonically increasing
    match firstDecrease first.TimestampMs rest 1 with
    | some (i, before, after) =>
      r.addError "TIMING_NON_MONOTONIC" "timestampMs"
        ("timestamp decreased at frame " ++ toString i ++ ": " ++ GoFloat.fmt 1 before ++
          "ms -> " ++ GoFloat.fmt 1 after ++ "ms")
    | none => r

/-- Go `validateManifestVsTiming`. -/
def validateManifestVsTiming (r : ValidationResult F) (m : Manifest F) (t : TimingData F) :
    ValidationResult F :=
  let r := if m.TotalFrames ≠ (t.Frames.length : Int) then
      r.addErrorWithValues "FRAME_COUNT_MISMATCH" "totalFrames"
        "manifest totalFrames should match timing.json frame count (1:1 with video)"
        (toString m.TotalFrames)
        (toString (t.Frames.length : Int))
    else r
  -- Calculate video FPS
  let r := if GoFloat.lt (GoFloat.ofInt 0) m.DurationSeconds then
      let videoFPS := GoFloat.div (GoFloat.ofInt m.TotalFrames) m.DurationSeconds
      let r := { r with Stats := { r.Stats with VideoFPS := videoFPS } }
      if GoFloat.lt videoFPS (GoFloat.ofInt 10) ∨ GoFloat.lt (GoFloat.ofInt 120) videoFPS then
        r.addWarning "VIDEO_FPS_UNUSUAL" ""
          ("video FPS (" ++ GoFloat.fmt 1 videoFPS ++ ") seems unusual")
      else r
    else r
  -- Duration should approximately match
  let timingDurationSec := GoFloat.div r.Stats.TimingDurationMs (GoFloat.ofInt 1000)
  let durationDiff := GoFloat.abs (GoFloat.sub m.DurationSeconds timingDurationSec)
  let r := { r with Stats := { r.Stats with
    DurationMismatchMs := GoFloat.mul durationDiff (GoFloat.ofInt 1000) } }
  -- Allow 100ms tolerance
  if GoFloat.lt GoFloat.tenth durationDiff then
    r.addWarningWithValues "DURATION_MISMATCH" "durationSeconds"
      ("manifest duration differs from timing.json by " ++
        GoFloat.fmt 1 (GoFloat.mul durationDiff (GoFloat.ofInt 1000)) ++ "ms")
      (GoFloat.fmt 3 m.DurationSeconds ++ "s")
      (GoFloat.fmt 3 timingDurationSec ++ "s")
  else r

/-- Go `map[string]float64` as an association list with distinct keys:
`m[key] = v`. -/
def mapSet (m : List (String × F)) (key : String) (v : F) : List (String × F) :=
  if m.any (fun kv => kv.1 = key) then
    m.map (fun kv => if kv.1 = key then (key, v) else kv)
  else m ++ [(key, v)]

/-- Go `delete(m, key)`. -/
def mapDelete (m : List (String × F)) (key : String) : List (String × F) :=
  m.filter (fun kv => kv.1 ≠ key)

/-- Go `m[key]` with the comma-ok form. -/
def mapGet (m : List (String × F)) (key : String) : Option F :=
  (m.find? (fun kv => kv.1 = key)).map (fun kv => kv.2)

/-- Go string comparison `a < b`: lexicographic. -/
def strLt : List Char → List Char → Bool
  | _, [] => false
  | [], _ :: _ => true
  | a :: as, b :: bs => a.toNat < b.toNat || (a = b && strLt as bs)

/-- Insert into an ascending list of strings. -/
def insertSorted (k : String) : List String → List String
  | [] => [k]
  | x :: xs => if strLt x.data k.data then x :: insertSorted k xs else k :: x :: xs

/-- Go `sort.Strings`: the strings in ascending order. -/
def sortStrings (keys : List String) : List String :=
  keys.foldr insertSorted []

/-- Go `fmt.Sprintf("%v", keys)` for a `[]string`. -/
def fmtStrings (keys : List String) : String :=
  "[" ++ " ".intercalate keys ++ "]"

/-- The variables the first loop of `validateInputs` updates. -/
structure InputScan (F : Type) where
  keyboardCount : Int
  mouseCount : Int
  minTs : F
  maxTs : F
  keyDowns : List (String × F)

/-- One iteration of the first loop of `validateInputs`. -/
def scanEvent (s : InputScan F) (event : InputEvent F) : InputScan F :=
  let s := if GoFloat.lt event.TimestampMs s.minTs then { s with minTs := event.TimestampMs } else s
  let s := if GoFloat.lt s.maxTs event.TimestampMs then { s with maxTs := event.TimestampMs } else s
  if strings.HasPrefix event.InputType "Key" then
    let s := { s with keyboardCount := s.keyboardCount + 1 }
    if event.InputType = "KeyDown" then
      { s with keyDowns := mapSet s.keyDowns event.KeyName event.TimestampMs }
    else if event.InputType = "KeyUp" then
      { s with keyDowns := mapDelete s.keyDowns event.KeyName }
    else s
  else if strings.HasPrefix event.InputType "Mouse" then
    { s with mouseCount := s.mouseCount + 1 }
  else s

/-- Go `validateInputs`. -/
def validateInputs (r : ValidationResult F) (inputs : InputData F) (m : Manifest F) :
    ValidationResult F :=
  let r := { r with Stats := { r.Stats with InputEventCount := inputs.Events.length } }
  if inputs.Events.length = 0 then
    r.addWarning "INPUTS_EMPTY" "" "no input events recorded"
  else
    -- Count by type and find timestamp range
    let scan := inputs.Events.foldl scanEvent
      { keyboardCount := 0, mouseCount := 0, minTs := GoFloat.maxFloat,
        maxTs := GoFloat.ofInt 0, keyDowns := [] }
    let r := { r with Stats := { r.Stats with
      KeyboardEventCount := scan.keyboardCount
      MouseEventCount := scan.mouseCount
      InputFirstTimestamp := scan.minTs
      InputLastTimestamp := scan.maxTs } }
    -- Check all timestamps are within video duration
    let videoDurationMs := GoFloat.mul m.DurationSeconds (GoFloat.ofInt 1000)
    let outOfRange := inputs.Events.countP (fun event =>
      GoFloat.lt event.TimestampMs (GoFloat.ofInt 0) ||
        GoFloat.lt (GoFloat.add videoDurationMs (GoFloat.ofInt 100)) event.TimestampMs)
    let r := if outOfRange > 0 then
        r.addWarning "INPUTS_OUT_OF_RANGE" "timestampMs"
          (toString outOfRange ++ " input events outside video duration [0, " ++
            GoFloat.fmt 1 videoDurationMs ++ "ms]")
      else r
    -- Report unmatched KeyDowns (missing KeyUp)
    if scan.keyDowns.length > 0 then
      let keys := sortStrings (scan.keyDowns.map (fun kv => kv.1))
      r.addWarning "INPUTS_UNMATCHED_KEYDOWN" "" ("KeyDown without KeyUp: " ++ fmtStrings keys)
    else r

/-- Go `ValidateBundle`: validates a bundle directory for internal consistency. -/
def ValidateBundle (env : Env F) (bundlePath : String) : ValidationResult F :=
  let result : ValidationResult F :=
    { Valid := true, Errors := [], Warnings := [], Stats := BundleStats.zero }
  -- Load manifest
  match loadManifest env bundlePath with
  | .error err => { result.addError "MANIFEST_LOAD" "" err with Valid := false }
  | .ok manifest =>
    -- Load timing.json
    let timing := loadTiming env bundlePath
    let result := match timing with
      | .error err => result.addWarning "TIMING_LOAD" "" err
      | .ok _ => result
    -- Load inputs.json
    let inputs := loadInputs env bundlePath
    let result := match inputs with
      | .error err => result.addWarning "INPUTS_LOAD" "" err
      | .ok _ => result
    -- Populate stats from manifest
    let result := { result with Stats := { result.Stats with
      ManifestDurationSec := manifest.DurationSeconds
      ManifestTotalFrames := manifest.TotalFrames } }
    -- Validate manifest internal consistency
    let result := validateManifestInternal result manifest
    -- Validate timing.json if available
    let result := match timing with
      | .ok t => validateManifestVsTiming (validateTiming result t) manifest t
      | .error _ => result
    -- Validate inputs.json if available
    match inputs with
    | .ok i => validateInputs result i manifest
    | .error _ => result

/-- The `FRAME_COUNT_MISMATCH` entry `validateManifestVsTiming` reports for a
manifest with `totalFrames` frames against `frameCount` timing entries. -/
def frameCountMismatch (totalFrames frameCount : Int) : ValidationError :=
  { Code := "FRAME_COUNT_MISMATCH"
    Field := "totalFrames"
    Message := "manifest totalFrames should match timing.json frame count (1:1 with video)"
    Got := toString totalFrames
    Want := toString frameCount }

/-- A timing trace of `n` frames, 100 ms apart, with sequential indices. -/
def exampleFrames (n : Nat) : List (FrameEntry ℚ) :=
  (List.range n).map (fun i => { VideoFrameIndex := i, TimestampMs := 100 * (i : ℚ) })

/-- A bundle directory holding a manifest with `totalFrames = 10` and a duration
of one second, a timing document of 9 frames, and no input document. -/
def exampleEnv : Env ℚ :=
  { ReadFile := fun path =>
      if path = "bundle/inputs.json" then .error "open bundle/inputs.json: no such file"
      else .ok []
    unmarshalManifest := fun _ => .ok { DurationSeconds := 1, TotalFrames := 10 }
    unmarshalTiming := fun _ => .ok { Frames := exampleFrames 9 }
    unmarshalInputs := fun _ => .error "unexpected end of JSON input" }

/-- The flag of a report agrees with its error list: valid exactly when there is
no error. -/
def Consistent (r : ValidationResult F) : Prop := r.Valid = r.Errors.isEmpty

/-- Number of entries of a report list that carry the code `code`. -/
def countCode (code : String) (entries : List ValidationError) : Nat :=
  entries.countP (fun e => e.Code = code)

/-- The key name `k` has a `KeyDown` in `events` that no later `KeyUp` of the
same key name follows. -/
def Unmatched (events : List (InputEvent F)) (k : String) : Prop :=
  ∃ pre e post, events = pre ++ e :: post ∧ e.InputType = "KeyDown" ∧ e.KeyName = k ∧
    ∀ e' ∈ post, ¬ (e'.InputType = "KeyUp" ∧ e'.KeyName = k)


/-- A report without entries, the value `ValidateBundle` starts from. -/
def emptyResult : ValidationResult F :=
  { Valid := true, Errors := [], Warnings := [], Stats := BundleStats.zero }

/-- A capture cut off while `A` is held: `W` goes down at 0 ms and up at 500 ms,
`A` goes down at 100 ms and its `KeyUp` is missing. -/
def truncatedInputs : InputData F :=
  { Events :=
      [{ TimestampMs := GoFloat.ofInt 0, InputType := "KeyDown", KeyName := "W" },
       { TimestampMs := GoFloat.ofInt 500, InputType := "KeyUp", KeyName := "W" },
       { TimestampMs := GoFloat.ofInt 100, InputType := "KeyDown", KeyName := "A" }] }

/-- Go `validate.KeyPressSummary`. A field the code leaves unset holds the zero
value, which the JSON encoding omits. -/
structure KeyPressSummary (F : Type) where
  Key : String
  StartMs : F
  EndMs : F
  DurationMs : F
deriving DecidableEq

/-- Go `validate.MouseClickSummary` (the position is never set by the code). -/
structure MouseClickSummary (F : Type) where
  Button : String
  TimestampMs : F
deriving DecidableEq

/-- Go `validate.BundleSummary`. -/
structure BundleSummary (F : Type) where
  BundleID : String
  MapName : String
  Duration : F
  VideoFrames : Int
  VideoFPS : F
  KeyPresses : List (KeyPressSummary F)
  MouseClicks : List (MouseClickSummary F)
deriving DecidableEq

/-- The variables the event loop of `SummarizeBundle` updates. -/
structure SummaryScan (F : Type) where
  keyDownTimes : List (String × F)
  KeyPresses : List (KeyPressSummary F)
  MouseClicks : List (MouseClickSummary F)

/-- One iteration of the event loop of `SummarizeBundle`. -/
def summarizeEvent (s : SummaryScan F) (event : InputEvent F) : SummaryScan F :=
  if event.InputType = "KeyDown" then
    { s with keyDownTimes := mapSet s.keyDownTimes event.KeyName event.TimestampMs }
  else if event.InputType = "KeyUp" then
    match mapGet s.keyDownTimes event.KeyName with
    | some startMs =>
      -- Normal case: KeyDown was seen
      { s with
        KeyPresses := s.KeyPresses ++
          [{ Key := event.KeyName
             StartMs := startMs
             EndMs := event.TimestampMs
             DurationMs := GoFloat.sub event.TimestampMs startMs }]
        keyDownTimes := mapDelete s.keyDownTimes event.KeyName }
    | none =>
      -- Orphaned KeyUp: key was held before capture started
      { s with
        KeyPresses := s.KeyPresses ++
          [{ Key := event.KeyName
             StartMs := GoFloat.ofInt (-1)
             EndMs := event.TimestampMs
             DurationMs := event.TimestampMs }] }
  else if event.InputType = "MouseButtonDown" then
    { s with
      MouseClicks := s.MouseClicks ++
        [{ Button := event.KeyName, TimestampMs := event.TimestampMs }] }
  else s

/-- The sort key of a key press in `SummarizeBundle`: the start time, with a
negative start (held from start) treated as 0. -/
def sortKey (startMs : F) : F :=
  if GoFloat.lt startMs (GoFloat.ofInt 0) then GoFloat.ofInt 0 else startMs

/-- The `less` function `SummarizeBundle` passes to `sort.Slice`. -/
def pressLess (a b : KeyPressSummary F) : Bool :=
  GoFloat.lt (sortKey a.StartMs) (sortKey b.StartMs)

/-- The inner loop of Go's insertion sort: the element `x` moves left past every
element it is less than. The sorted part is held last element first. -/
def bubble {α : Type} (less : α → α → Bool) (x : α) : List α → List α
  | [] => [x]
  | y :: ys => if less x y then y :: bubble less x ys else x :: y :: ys

/-- Go `sort.Slice`: the standard library sorts a slice of at most 12 elements
by this insertion sort. On longer slices it uses another algorithm, which
orders the elements by `less` as well and may place elements that compare equal
differently. -/
def sortSlice {α : Type} (less : α → α → Bool) (xs : List α) : List α :=
  (xs.foldl (fun sorted x => bubble less x sorted) []).reverse

/-- Go `SummarizeBundle`: a human-readable summary of the bundle contents. The
loop over the map `keyDownTimes` visits the keys in the order of their first
insertion, one of the orders the Go runtime may choose. -/
def SummarizeBundle (env : Env F) (bundlePath : String) : Except String (BundleSummary F) :=
  -- Load manifest
  match loadManifest env bundlePath with
  | .error err => .error ("loading manifest: " ++ err)
  | .ok manifest =>
    let summary : BundleSummary F :=
      { BundleID := manifest.BundleID
        MapName := ""
        Duration := manifest.DurationSeconds
        VideoFrames := manifest.TotalFrames
        VideoFPS := GoFloat.ofInt 0
        KeyPresses := []
        MouseClicks := [] }
    let summary :=
      if GoFloat.lt (GoFloat.ofInt 0) manifest.DurationSeconds then
        { summary with
          VideoFPS := GoFloat.div (GoFloat.ofInt manifest.TotalFrames) manifest.DurationSeconds }
      else summary
    let summary := match manifest.SessionInfo with
      | some info => { summary with MapName := info.MapName }
      | none => summary
    -- Load inputs
    match loadInputs env bundlePath with
    | .ok inputs =>
      -- Track key down events to pair with key up
      let scan := inputs.Events.foldl summarizeEvent
        { keyDownTimes := [], KeyPresses := summary.KeyPresses,
          MouseClicks := summary.MouseClicks }
      -- Add any unpaired key downs (held at end of recording)
      let keyPresses := scan.KeyPresses ++ scan.keyDownTimes.map (fun kv =>
        { Key := kv.1, StartMs := kv.2, EndMs := GoFloat.ofInt 0,
          DurationMs := GoFloat.ofInt 0 })
      -- Sort key presses by start time
      .ok { summary with
            KeyPresses := sortSlice pressLess keyPresses
            MouseClicks := scan.MouseClicks }
    | .error _ => .ok summary

/-- The key `k` is open after `events` with start `s`: the last `KeyDown` of `k`
has timestamp `s` and no `KeyUp` of `k` follows it. -/
def OpenAt (events : List (InputEvent F)) (k : String) (s : F) : Prop :=
  ∃ pre d post, events = pre ++ d :: post ∧
    d.InputType = "KeyDown" ∧ d.KeyName = k ∧ d.TimestampMs = s ∧
    ∀ e ∈ post, e.KeyName = k → e.InputType ≠ "KeyDown" ∧ e.InputType ≠ "KeyUp"

/-- A bundle directory with a manifest of ten seconds and 300 frames and the
input document `inputs`; it has no timing document. -/
def inputsEnv (inputs : InputData F) : Env F :=
  { ReadFile := fun path =>
      if path = "bundle/timing.json" then .error "open bundle/timing.json: no such file"
      else .ok []
    unmarshalManifest := fun _ =>
      .ok { BundleID := "session-1", DurationSeconds := GoFloat.ofInt 10, TotalFrames := 300 }
    unmarshalTiming := fun _ => .error "unexpected end of JSON input"
    unmarshalInputs := fun _ => .ok inputs }

/-- A capture that starts while `A` is held: `W` goes down at 0 ms and up at
10 ms, then `A` goes up at 20 ms without a `KeyDown` before. -/
def heldInputs : InputData F :=
  { Events :=
      [{ TimestampMs := GoFloat.ofInt 0, InputType := "KeyDown", KeyName := "W" },
       { TimestampMs := GoFloat.ofInt 10, InputType := "KeyUp", KeyName := "W" },
       { TimestampMs := GoFloat.ofInt 20, InputType := "KeyUp", KeyName := "A" }] }

/-- A bundle directory without any file. -/
def emptyEnv : Env F :=
  { ReadFile := fun path => .error ("open " ++ path ++ ": no such file or directory")
    unmarshalManifest := fun _ => .error "unexpected end of JSON input"
    unmarshalTiming := fun _ => .error "unexpected end of JSON input"
    unmarshalInputs := fun _ => .error "unexpected end of JSON input" }

/-- A bundle directory with the manifest `m` and the timing document `t`; it
has no input document. -/
def timingEnv (m : Manifest F) (t : TimingData F) : Env F :=
  { ReadFile := fun path =>
      if path = "bundle/inputs.json" then
        .error "open bundle/inputs.json: no such file or directory"
      else .ok []
    unmarshalManifest := fun _ => .ok m
    unmarshalTiming := fun _ => .ok t
    unmarshalInputs := fun _ => .error "unexpected end of JSON input" }

/-- Three timing entries whose timestamp drops from 50 ms to 40 ms at the last
entry. -/
def decreasingFrames : List (FrameEntry F) :=
  [{ VideoFrameIndex := 0, TimestampMs := GoFloat.ofInt 0 },
   { VideoFrameIndex := 1, TimestampMs := GoFloat.ofInt 50 },
   { VideoFrameIndex := 2, TimestampMs := GoFloat.ofInt 40 }]

/-- Three timing entries whose last entry declares the index 3 at position 2. -/
def skippedFrames : List (FrameEntry F) :=
  [{ VideoFrameIndex := 0, TimestampMs := GoFloat.ofInt 0 },
   { VideoFrameIndex := 1, TimestampMs := GoFloat.ofInt 100 },
   { VideoFrameIndex := 3, TimestampMs := GoFloat.ofInt 200 }]

/-- Two timing entries, the first at 0 ms and the second at `lastMs`. -/
def spanFrames (lastMs : Int) : List (FrameEntry F) :=
  [{ VideoFrameIndex := 0, TimestampMs := GoFloat.ofInt 0 },
   { VideoFrameIndex := 1, TimestampMs := GoFloat.ofInt lastMs }]

/-- Three mouse events, at -5 ms, 50 ms and 20000 ms. -/
def strayInputs : InputData F :=
  { Events :=
      [{ TimestampMs := GoFloat.ofInt (-5), InputType := "MouseMove" },
       { TimestampMs := GoFloat.ofInt 50, InputType := "MouseButtonDown", KeyName := "Left" },
       { TimestampMs := GoFloat.ofInt 20000, InputType := "MouseMove" }] }

end validate

/-! ## Go `encoding/hex` and `crypto/sha256` -/

namespace hex

/-- The lowercase hexadecimal digit of a value below 16. -/
def digit (n : Nat) : Char := "0123456789abcdef".data.getD n '0'

/-- Go `hex.EncodeToString`: two lowercase hexadecimal digits per byte. -/
def EncodeToString (src : List Nat) : String :=
  ⟨src.flatMap (fun b => [digit (b % 256 / 16), digit (b % 16)])⟩

end hex

namespace sha256

/-- The 64 round constants of SHA-256 (FIPS 180-4, section 4.2.2), in decimal. -/
def K : List Nat := [
  1116352408, 1899447441, 3049323471, 3921009573, 961987163, 1508970993,
  2453635748, 2870763221, 3624381080, 310598401, 607225278, 1426881987,
  1925078388, 2162078206, 2614888103, 3248222580, 3835390401, 4022224774,
  264347078, 604807628, 770255983, 1249150122, 1555081692, 1996064986,
  2554220882, 2821834349, 2952996808, 3210313671, 3336571891, 3584528711,
  113926993, 338241895, 666307205, 773529912, 1294757372, 1396182291,
  1695183700, 1986661051, 2177026350, 2456956037, 2730485921, 2820302411,
  3259730800, 3345764771, 3516065817, 3600352804, 4094571909, 275423344,
  430227734, 506948616, 659060556, 883997877, 958139571, 1322822218,
  1537002063, 1747873779, 1955562222, 2024104815, 2227730452, 2361852424,
  2428436474, 2756734187, 3204031479, 3329325298]

/-- Reduce to a 32-bit word. -/
def w32 (x : Nat) : Nat := x % 2 ^ 32

/-- Rotate a 32-bit word right by `n` bits. -/
def rotr (x n : Nat) : Nat := w32 ((x >>> n) ||| (x <<< (32 - n)))

/-- Message padding: the byte `0x80`, zero bytes up to 56 modulo 64, and the bit
length as a 64-bit big-endian number. -/
def pad (msg : List Nat) : List Nat :=
  let len := msg.length
  let zeros := (64 - (len + 9) % 64) % 64
  let bits := len * 8
  msg.map (fun b => b % 256) ++ 0x80 :: List.replicate zeros 0 ++
    (List.range 8).map (fun i => (bits >>> (8 * (7 - i))) % 256)

/-- Big-endian 32-bit words of a byte list. -/
def toWords : List Nat → List Nat
  | a :: b :: c :: d :: rest => (a * 2 ^ 24 + b * 2 ^ 16 + c * 2 ^ 8 + d) :: toWords rest
  | _ => []

/-- Message schedule: `n` further words; `ws` holds the words so far, newest first. -/
def extend : Nat → List Nat → List Nat
  | 0, ws => ws
  | n + 1, ws =>
    let w2 := ws.getD 1 0
    let w7 := ws.getD 6 0
    let w15 := ws.getD 14 0
    let w16 := ws.getD 15 0
    let s0 := rotr w15 7 ^^^ rotr w15 18 ^^^ (w15 >>> 3)
    let s1 := rotr w2 17 ^^^ rotr w2 19 ^^^ (w2 >>> 10)
    extend n (w32 (w16 + s0 + w7 + s1) :: ws)

/-- The eight working variables of SHA-256. -/
structure State where
  a : Nat
  b : Nat
  c : Nat
  d : Nat
  e : Nat
  f : Nat
  g : Nat
  h : Nat

/-- One round with constant `kw.1` and schedule word `kw.2`. -/
def round (s : State) (kw : Nat × Nat) : State :=
  let S1 := rotr s.e 6 ^^^ rotr s.e 11 ^^^ rotr s.e 25
  let ch := (s.e &&& s.f) ^^^ ((s.e ^^^ 0xffffffff) &&& s.g)
  let t1 := w32 (s.h + S1 + ch + kw.1 + kw.2)
  let S0 := rotr s.a 2 ^^^ rotr s.a 13 ^^^ rotr s.a 22
  let maj := (s.a &&& s.b) ^^^ (s.a &&& s.c) ^^^ (s.b &&& s.c)
  let t2 := w32 (S0 + maj)
  ⟨w32 (t1 + t2), s.a, s.b, s.c, w32 (s.d + t1), s.e, s.f, s.g⟩

/-- The compression function on one 64-byte block. -/
def compress (s : State) (block : List Nat) : State :=
  let ws := (extend 48 (toWords block).reverse).reverse
  let r := (K.zip ws).foldl round s
  ⟨w32 (s.a + r.a), w32 (s.b + r.b), w32 (s.c + r.c), w32 (s.d + r.d),
   w32 (s.e + r.e), w32 (s.f + r.f), w32 (s.g + r.g), w32 (s.h + r.h)⟩

/-- The first `n` 64-byte blocks of a byte list. -/
def blocks : Nat → List Nat → List (List Nat)
  | 0, _ => []
  | n + 1, bs => bs.take 64 :: blocks n (bs.drop 64)

/-- The four bytes of a 32-bit word, big-endian. -/
def wordBytes (w : Nat) : List Nat :=
  [(w >>> 24) % 256, (w >>> 16) % 256, (w >>> 8) % 256, w % 256]

/-- The SHA-256 digest (FIPS 180-4) of a byte list: what `h.Sum(nil)` returns
after the bytes have been written to `h := sha256.New()`. -/
def Sum256 (msg : List Nat) : List Nat :=
  let p := pad msg
  let s := (blocks (p.length / 64) p).foldl compress
    ⟨1779033703, 3144134277, 1013904242, 2773480762,
     1359893119, 2600822924, 528734635, 1541459225⟩
  wordBytes s.a ++ wordBytes s.b ++ wordBytes s.c ++ wordBytes s.d ++
    wordBytes s.e ++ wordBytes s.f ++ wordBytes s.g ++ wordBytes s.h

end sha256

/-! ## A filesystem

The calls of package `os` the repository makes, on a filesystem that is a set
of directories and a map from paths to file contents, together with the
permission bits of the paths that withhold a permission from their owner. Paths
are the strings the repository passes (results of `filepath.Join`, hence
cleaned). The root `/` and the working directory `.` always exist. The process
owns every path and is not the superuser; a path keeps the permission bits it
was created with (the umask is taken to leave the owner's bits alone). Calls fail
only for reasons visible in this state: a missing file or parent directory, a
directory where a file is expected and conversely, a permission the owner
lacks. -/

namespace os

/-- The filesystem state. A path without an entry in `modes` gives its owner
every permission. -/
structure FS where
  dirs : List String := []
  files : List (String × List Nat) := []
  modes : List (String × Nat) := []
deriving DecidableEq, Repr

/-- `path` is `dir` itself or lies below it. -/
def under (dir path : String) : Bool :=
  path = dir || strings.HasPrefix path (dir ++ "/")

/-- `path` names an existing directory. -/
def FS.isDir (fs : FS) (path : String) : Bool :=
  path = "/" || path = "." || fs.dirs.contains path

/-- `path` names an existing regular file. -/
def FS.isFile (fs : FS) (path : String) : Bool :=
  fs.files.any (fun f => f.1 = path)

/-- Something exists at `path`. -/
def FS.exists (fs : FS) (path : String) : Bool := fs.isDir path || fs.isFile path

/-- The path and its ancestors, nearest first, up to the root or `.`. -/
def chain : Nat → String → List String
  | 0, _ => []
  | n + 1, path =>
    if path = "/" ∨ path = "." then [] else path :: chain n (filepath.Dir path)

/-- The owner's read bit `0400` of permission bits. -/
def readBit (perm : Nat) : Bool := perm / 256 % 2 = 1

/-- The owner's write bit `0200` of permission bits. -/
def writeBit (perm : Nat) : Bool := perm / 128 % 2 = 1

/-- The owner's search (execute) bit `0100` of permission bits. -/
def searchBit (perm : Nat) : Bool := perm / 64 % 2 = 1

/-- The permission bits of a path: those in `modes`, or all of them. -/
def FS.perm (fs : FS) (path : String) : Nat :=
  match fs.modes.find? (fun m => m.1 = path) with
  | some m => m.2
  | none => 0o777

/-- The process may read the file, or list the directory. -/
def FS.canRead (fs : FS) (path : String) : Bool := readBit (fs.perm path)

/-- The process may write the file, or add and remove entries of the directory. -/
def FS.canWrite (fs : FS) (path : String) : Bool := writeBit (fs.perm path)

/-- The process may pass through the directory to its entries. -/
def FS.canSearch (fs : FS) (path : String) : Bool := searchBit (fs.perm path)

/-- The process may pass through every directory on the way to `path`. -/
def FS.searchable (fs : FS) (path : String) : Bool :=
  (chain (path.length + 1) (filepath.Dir path)).all fs.canSearch

/-- Go `os.Stat` succeeds: something exists at `path` and can be reached. -/
def FS.Stat (fs : FS) (path : String) : Bool := fs.exists path && fs.searchable path

/-- The modes after `path` has been created with the permission bits `perm`:
an entry is kept unless `perm` gives the owner all the permissions the calls
ask of such a path (`full`). -/
def FS.setMode (fs : FS) (path : String) (perm : Nat) (full : Bool) : List (String × Nat) :=
  fs.modes.filter (fun m => m.1 ≠ path) ++ (if full then [] else [(path, perm)])

/-- Go `os.Mkdir` where nothing exists at `path` yet: the process must be able
to reach the parent directory and to write to it. -/
def FS.Mkdir (fs : FS) (path : String) (perm : Nat) : Except String FS :=
  if fs.searchable path && fs.canWrite (filepath.Dir path) then
    .ok { fs with
          dirs := fs.dirs ++ [path]
          modes := fs.setMode path perm (readBit perm && writeBit perm && searchBit perm) }
  else .error ("mkdir " ++ path ++ ": permission denied")

/-- The calls of `os.Mkdir` that `os.MkdirAll` makes for the missing
directories, outermost first; the first failure ends them. -/
def FS.mkdirEach (perm : Nat) : FS → List String → Option String × FS
  | fs, [] => (none, fs)
  | fs, d :: rest =>
    match fs.Mkdir d perm with
    | .error err => (some err, fs)
    | .ok fs => FS.mkdirEach perm fs rest

/-- Go `os.MkdirAll`: create the directory and all missing parents with the
permission bits `perm`; no error if it exists already as a directory. Returns
the error, if any, and the filesystem with the directories created up to then. -/
def FS.MkdirAll (fs : FS) (path : String) (perm : Nat) : Option String × FS :=
  let c := chain (path.length + 1) path
  if c.any fs.isFile then (some ("mkdir " ++ path ++ ": not a directory"), fs)
  else if fs.isDir path then
    if fs.searchable path then (none, fs)
    else (some ("mkdir " ++ path ++ ": permission denied"), fs)
  else FS.mkdirEach perm fs (c.filter (fun d => !fs.isDir d)).reverse

/-- Go `os.WriteFile`, and `os.Create` / `os.OpenFile` with `O_CREATE|O_TRUNC`
followed by writing `data`: the parent directory must exist and the path must
not be a directory; the process must be able to reach the path and to write to
the file or, when the file is new, to its directory. A new file gets the
permission bits `perm`. -/
def FS.WriteFile (fs : FS) (path : String) (data : List Nat) (perm : Nat) : Except String FS :=
  if fs.isDir path then .error ("open " ++ path ++ ": is a directory")
  else if !fs.isDir (filepath.Dir path) then
    .error ("open " ++ path ++ ": no such file or directory")
  else if !(fs.searchable path &&
      (if fs.isFile path then fs.canWrite path else fs.canWrite (filepath.Dir path))) then
    .error ("open " ++ path ++ ": permission denied")
  else .ok { fs with
             files := fs.files.filter (fun f => f.1 ≠ path) ++ [(path, data)]
             modes := if fs.isFile path then fs.modes
                      else fs.setMode path perm (readBit perm && writeBit perm) }

/-- Go `os.ReadFile`. -/
def FS.ReadFile (fs : FS) (path : String) : Except String (List Nat) :=
  match fs.files.find? (fun f => f.1 = path) with
  | some f =>
    if fs.searchable path && fs.canRead path then .ok f.2
    else .error ("open " ++ path ++ ": permission denied")
  | none => .error ("open " ++ path ++ ": no such file or directory")

/-- Something other than the directory itself lies in it. -/
def FS.nonEmpty (fs : FS) (dir : String) : Bool :=
  fs.dirs.any (fun d => d ≠ dir && under dir d) || fs.files.any (fun f => f.1 ≠ dir && under dir f.1)

/-- Whether `os.RemoveAll root` removes the path `p` under `root`. The call
unlinks an entry from its directory, which takes write and search permission on
that directory. It gets to the entry by opening the directories from the parent
of `root` down for reading and passing through them, and it removes a directory
that is not empty only after it has listed and removed all its entries. An empty
directory or a file at `root` itself is removed at once. -/
def FS.removable (fs : FS) (root p : String) : Bool :=
  fs.searchable root && fs.canWrite (filepath.Dir p) && fs.canSearch (filepath.Dir p) &&
  ((p = root && !fs.nonEmpty root) ||
    (fs.canRead (filepath.Dir root) &&
      fs.dirs.all (fun a =>
        !(under root a && under a p && a ≠ p) || (fs.canRead a && fs.canSearch a)) &&
      fs.dirs.all (fun q =>
        !(under p q && fs.nonEmpty q) || (fs.canRead q && fs.canWrite q && fs.canSearch q))))

/-- Go `os.RemoveAll`: remove the path and everything below it, as far as the
permissions allow; no error if the path does not exist, an error if something
is left. Returns the error, if any, and the filesystem. The text of the error
stands for that of the `*PathError` of Go, which names the first entry that
could not be removed; no caller in the repository reads it. -/
def FS.RemoveAll (fs : FS) (path : String) : Option String × FS :=
  let gone := fun p => under path p && fs.removable path p
  let left : FS :=
    { dirs := fs.dirs.filter (fun d => !gone d)
      files := fs.files.filter (fun f => !gone f.1)
      modes := fs.modes.filter (fun m => !gone m.1) }
  if left.dirs.any (under path) || left.files.any (fun f => under path f.1) then
    (some ("unlinkat " ++ path ++ ": permission denied"), left)
  else (none, left)

/-- Go `os.Remove` of a file, its error dropped: the file stays when the
process cannot reach it or cannot write to its directory. -/
def FS.Remove (fs : FS) (path : String) : FS :=
  if fs.searchable path && fs.canWrite (filepath.Dir path) then
    { fs with
      files := fs.files.filter (fun f => f.1 ≠ path)
      modes := if fs.isFile path then fs.modes.filter (fun m => m.1 ≠ path) else fs.modes }
  else fs

/-- Replace the leading `old` of a path below `old` by `new`. -/
def rebase (old new path : String) : String :=
  if under old path then new ++ ⟨path.data.drop old.length⟩ else path

/-- Go `os.Rename` of a directory: the source must exist, the parent of the
target must exist, and nothing may exist at the target; the process must be
able to reach both paths and to write to both parent directories and to the
directory it moves. -/
def FS.Rename (fs : FS) (old new : String) : Except String FS :=
  if !fs.exists old then .error ("rename " ++ old ++ " " ++ new ++ ": no such file or directory")
  else if !fs.isDir (filepath.Dir new) then
    .error ("rename " ++ old ++ " " ++ new ++ ": no such file or directory")
  else if fs.exists new then .error ("rename " ++ old ++ " " ++ new ++ ": file exists")
  else if !(fs.searchable old && fs.searchable new && fs.canWrite (filepath.Dir old) &&
      fs.canWrite (filepath.Dir new) && (fs.isFile old || fs.canWrite old)) then
    .error ("rename " ++ old ++ " " ++ new ++ ": permission denied")
  else .ok { dirs := fs.dirs.map (rebase old new)
             files := fs.files.map (fun f => (rebase old new f.1, f.2))
             modes := fs.modes.map (fun m => (rebase old new m.1, m.2)) }

end os

/-! ## Package `storage` -/

namespace storage

/-- Go `storage.Storage`: the filesystem layout. -/
structure Storage where
  dataDir : String
  bundlesDir : String
  tmpDir : String
deriving DecidableEq, Repr

/-- Go `storage.New`: the layout below `dataDir`, with the three directories
created. -/
def New (fs : os.FS) (dataDir : String) : Except String (Storage × os.FS) :=
  let s : Storage :=
    { dataDir := dataDir
      bundlesDir := filepath.Join [dataDir, "bundles"]
      tmpDir := filepath.Join [dataDir, "tmp"] }
  [s.dataDir, s.bundlesDir, s.tmpDir].foldlM
    (fun (acc : Storage × os.FS) dir =>
      match acc.2.MkdirAll dir 0o755 with
      | (some err, _) => .error ("create directory " ++ dir ++ ": " ++ err)
      | (none, fs) => .ok (acc.1, fs))
    (s, fs)

/-- Go `(*Storage).CreateTempDir`. -/
def Storage.CreateTempDir (s : Storage) (fs : os.FS) (uploadID : String) :
    Except String (String × os.FS) :=
  let dir := filepath.Join [s.tmpDir, "upload_" ++ uploadID]
  match fs.MkdirAll dir 0o755 with
  | (some err, _) => .error ("create temp dir: " ++ err)
  | (none, fs) => .ok (dir, fs)

/-- Go `(*Storage).RemoveTempDir`: the error of `os.RemoveAll`, if any, and the
filesystem. -/
def Storage.RemoveTempDir (_s : Storage) (fs : os.FS) (dir : String) : Option String × os.FS :=
  fs.RemoveAll dir

/-- Go `(*Storage).MoveToBundles`: move a directory from tmp to bundles and
return its path relative to the data directory. -/
def Storage.MoveToBundles (s : Storage) (fs : os.FS) (srcDir bundleID : String) :
    Except String (String × os.FS) :=
  -- Use first 8 chars of bundle_id for directory name (after "rb_" prefix)
  let dirName : String := if bundleID.length > 11 then ⟨bundleID.data.take 11⟩ else bundleID
  let destDir := filepath.Join [s.bundlesDir, dirName]
  -- Ensure bundles directory exists (may have been deleted)
  match fs.MkdirAll s.bundlesDir 0o755 with
  | (some err, _) => .error ("ensure bundles dir: " ++ err)
  | (none, fs) =>
    -- Check if destination already exists
    if fs.Stat destDir then .error ("destination already exists: " ++ destDir)
    else
      -- Atomic rename (works on same filesystem)
      match fs.Rename srcDir destDir with
      | .error err => .error ("rename to bundles: " ++ err)
      | .ok fs =>
        -- Return relative path from data dir
        .ok ((filepath.Rel s.dataDir destDir).getD "", fs)

/-- Go `(*Storage).BundlePath`. -/
def Storage.BundlePath (s : Storage) (storagePath : String) : String :=
  filepath.Join [s.dataDir, storagePath]

/-- Go `storage.HashFile`: SHA-256 of a file, as `sha256:` and 64 hex digits. -/
def HashFile (fs : os.FS) (path : String) : Except String String :=
  match fs.ReadFile path with
  | .error err => .error err
  | .ok data => .ok ("sha256:" ++ hex.EncodeToString (sha256.Sum256 data))

/-- Go `storage.HashReader`, on the bytes the reader delivers. -/
def HashReader (data : List Nat) : String :=
  "sha256:" ++ hex.EncodeToString (sha256.Sum256 data)

/-- Go `storage.FileSize`, for the path of a regular file. -/
def FileSize (fs : os.FS) (path : String) : Except String Int :=
  match fs.files.find? (fun f => f.1 = path) with
  | some f =>
    if fs.searchable path then .ok f.2.length
    else .error ("stat " ++ path ++ ": permission denied")
  | none => .error ("stat " ++ path ++ ": no such file or directory")

/-- Go `storage.DirSize`: total size of all files below a directory. The walk
fails at a directory the process cannot list, and at one that is not empty and
that it cannot pass through. -/
def DirSize (fs : os.FS) (path : String) : Except String Int :=
  if !fs.exists path then .error ("lstat " ++ path ++ ": no such file or directory")
  else if !fs.searchable path then .error ("lstat " ++ path ++ ": permission denied")
  else if fs.dirs.any (fun d => os.under path d &&
      !(fs.canRead d && (fs.canSearch d || !fs.nonEmpty d))) then
    .error ("open " ++ path ++ ": permission denied")
  else .ok (((fs.files.filter (fun f => os.under path f.1)).map (fun f => (f.2.length : Int))).sum)

end storage

/-! ## Package `db` -/

namespace models

/-- Go `models.ReproBundle`, the columns `InsertBundle` stores. -/
structure ReproBundle where
  BundleID : String := ""
  ContentHash : String := ""
  SchemaVersion : String := ""
  BuildID : String := ""
  MapName : String := ""
  Platform : String := ""
  RVRVersion : String := ""
  BundleTimestamp : Option Int := none
  Metadata : Option JSON := none
  SizeBytes : Int := 0
  ArtifactCount : Int := 0
  StoragePath : String := ""

/-- Go `models.Artifact`, the columns `InsertArtifact` stores. -/
structure Artifact where
  ArtifactID : String := ""
  BundleID : String := ""
  Filename : String := ""
  ArtifactType : String := ""
  MimeType : String := ""
  SizeBytes : Int := 0
  StoragePath : String := ""
  Checksum : String := ""
deriving DecidableEq, Repr

end models

namespace db

/-- The tables `repro_bundles` and `artifacts`, rows in insertion order. -/
structure DB where
  repro_bundles : List models.ReproBundle := []
  artifacts : List models.Artifact := []

/-- Go `(*DB).InsertBundle`: returns the identifier of the row that has the
bundle's content hash and `true` if there is one; otherwise inserts the bundle
and returns its identifier and `false`. -/
def DB.InsertBundle (d : DB) (bundle : models.ReproBundle) : (String × Bool) × DB :=
  -- Check if bundle already exists by content hash
  match d.repro_bundles.find? (fun b => b.ContentHash = bundle.ContentHash) with
  | some existing => ((existing.BundleID, true), d)
  | none => ((bundle.BundleID, false), { d with repro_bundles := d.repro_bundles ++ [bundle] })

/-- Go `(*DB).InsertArtifact`. -/
def DB.InsertArtifact (d : DB) (artifact : models.Artifact) : DB :=
  { d with artifacts := d.artifacts ++ [artifact] }

end db

/-! ## Package `ingest` -/

namespace strings

/-- Go `strings.ToLower`, as far as it can produce ASCII letters: `A`-`Z`, the
Kelvin sign U+212A and the dotted capital I U+0130 map to ASCII lower-case
letters; every other character is left as it is (Go maps other upper-case
letters to non-ASCII lower-case letters). -/
def ToLower (s : String) : String :=
  ⟨s.data.map (fun c =>
    if c.toNat = 0x212A then 'k' else if c.toNat = 0x130 then 'i' else c.toLower)⟩

end strings

namespace ingest

/-- Go `ingest.IngestResult`. -/
structure IngestResult where
  BundleID : String
  Status : String
  ArtifactCount : Int
  CreatedAt : String := ""
deriving DecidableEq, Repr

/-- A Go `error` returned by the ingestion functions: a `*models.APIError`, or
an error built with `fmt.Errorf`. -/
inductive IngestError where
  | api (e : models.APIError) : IngestError
  | other (message : String) : IngestError
deriving DecidableEq, Repr

/-- What reading one archive member gives: its bytes, a failure of `f.Open()`, or
a failure of `io.Copy` after `written` bytes. -/
inductive ZipContent where
  | ok (data : List Nat) : ZipContent
  | openError (err : String) : ZipContent
  | copyError (written : List Nat) (err : String) : ZipContent

/-- Go `zip.File`, as `extractZip` uses it: the name, `f.FileInfo().IsDir()`,
the permission bits of `f.Mode()`, which the archive declares, and what reading
the member gives. -/
structure ZipFile where
  Name : String
  IsDir : Bool := false
  Mode : Nat := 0o644
  Content : ZipContent := ZipContent.ok []

/-- What the package uses from outside the repository: `zip.OpenReader` on the
bytes of the archive file, the `encoding/json` decoding of a manifest document
into the tagged fields, and the clock. -/
structure Env where
  zipOpenReader : List Nat → Except String (List ZipFile)
  jsonUnmarshal : List Nat → Except String models.ManifestAlias
  now : Int

/-- The state the ingester works on: the filesystem and the database. -/
structure World where
  fs : os.FS := {}
  db : db.DB := {}

/-- Go `generateID`: the first `length` characters of the hex encoding of
`length` random bytes; `random` is what `rand.Read` delivers (missing bytes stay
zero). -/
def generateID (random : List Nat) (length : Nat) : String :=
  let bytes := (List.range length).map (fun i => random.getD i 0)
  ⟨(hex.EncodeToString bytes).data.take length⟩

/-- Go `normalizeArtifactType`: maps manifest types to DB enum values. -/
def normalizeArtifactType (t : String) : String :=
  let l := strings.ToLower t
  if l = "video" then "video"
  else if l = "log" then "log"
  else if l = "screenshot" then "screenshot"
  else if l = "crash_dump" ∨ l = "crashdump" ∨ l = "dump" then "crash_dump"
  else if l = "thumbnail" ∨ l = "thumb" then "thumbnail"
  else "other"

/-- Go `parseManifest`: reads and parses manifest.json. -/
def parseManifest (env : Env) (fs : os.FS) (path : String) :
    Except IngestError models.Manifest :=
  match fs.ReadFile path with
  | .error _ =>
    .error (.api { Code := models.ErrCodeInvalidManifest
                   Message := "manifest.json not found or unreadable" })
  | .ok data =>
    match env.jsonUnmarshal data with
    | .error err =>
      .error (.api { Code := models.ErrCodeInvalidManifest
                     Message := "invalid JSON in manifest.json: " ++ err })
    | .ok aux => .ok (models.Manifest.UnmarshalJSON aux)

/-- The loop of `extractZip` over the members of the archive. Returns the error,
if any, and the filesystem as the loop leaves it. -/
def extractFiles (destDir : String) : os.FS → List ZipFile → Option String × os.FS
  | fs, [] => (none, fs)
  | fs, f :: rest =>
    -- Security: prevent path traversal
    let destPath := filepath.Join [destDir, f.Name]
    if !strings.HasPrefix destPath (filepath.Clean destDir ++ "/") then
      (some ("invalid file path in zip: " ++ f.Name), fs)
    else if f.IsDir then
      extractFiles destDir (fs.MkdirAll destPath f.Mode).2 rest
    else
      -- Create parent directory
      match fs.MkdirAll (filepath.Dir destPath) 0o755 with
      | (some err, fs) => (some ("create dir for " ++ f.Name ++ ": " ++ err), fs)
      | (none, fs) =>
        -- Extract file
        match f.Content with
        | .openError err => (some ("open " ++ f.Name ++ " in zip: " ++ err), fs)
        | .ok data =>
          match fs.WriteFile destPath data f.Mode with
          | .error err => (some ("create " ++ destPath ++ ": " ++ err), fs)
          | .ok fs => extractFiles destDir fs rest
        | .copyError written err =>
          match fs.WriteFile destPath written f.Mode with
          | .error err => (some ("create " ++ destPath ++ ": " ++ err), fs)
          | .ok fs => (some ("extract " ++ f.Name ++ ": " ++ err), fs)

/-- Go `extractZip`: extracts a ZIP file to destination directory. -/
def extractZip (env : Env) (fs : os.FS) (zipPath destDir : String) : Option String × os.FS :=
  match fs.ReadFile zipPath with
  | .error err => (some ("open zip: " ++ err), fs)
  | .ok archive =>
    match env.zipOpenReader archive with
    | .error err => (some ("open zip: " ++ err), fs)
    | .ok files => extractFiles destDir fs files

/-- The bundle record the three ingestion functions build from the manifest. -/
def bundleRecord (bundleID contentHash : String) (manifest : models.Manifest)
    (sizeBytes : Int) (storagePath : String) : models.ReproBundle :=
  { BundleID := bundleID
    ContentHash := contentHash
    SchemaVersion := manifest.SchemaVersion
    BuildID := manifest.BuildID
    MapName := manifest.MapName
    Platform := manifest.Platform
    RVRVersion := manifest.RVRVersion
    BundleTimestamp := manifest.Timestamp
    Metadata := manifest.Metadata
    SizeBytes := sizeBytes
    ArtifactCount := manifest.Artifacts.length
    StoragePath := storagePath }

/-- The loop `// Insert artifacts` shared by the three ingestion functions; the
artifact with position `k` takes its identifier from `random (first + k)`. -/
def insertArtifacts (s : storage.Storage) (random : Nat → List Nat) (bundleID storagePath : String)
    (fs : os.FS) : List models.ManifestArtifact → Nat → db.DB → db.DB
  | [], _, d => d
  | ma :: rest, k, d =>
    let artifactPath := filepath.Join [s.BundlePath storagePath, ma.Filename]
    let size := match storage.FileSize fs artifactPath with
      | .ok n => n
      | .error _ => 0
    let artifact : models.Artifact :=
      { ArtifactID := "art_" ++ generateID (random k) 8
        BundleID := bundleID
        Filename := ma.Filename
        ArtifactType := normalizeArtifactType ma.Type_
        MimeType := ma.MimeType
        SizeBytes := size
        StoragePath := ma.Filename }
    insertArtifacts s random bundleID storagePath fs rest (k + 1) (d.InsertArtifact artifact)

/-- The deferred cleanup `if !success { i.storage.RemoveTempDir(tmpDir) }`; the
error `RemoveTempDir` returns is dropped. -/
def cleanup (s : storage.Storage) (tmpDir : String)
    (r : (Except IngestError IngestResult × World) × Bool) :
    Except IngestError IngestResult × World :=
  if r.2 then r.1 else (r.1.1, { r.1.2 with fs := (s.RemoveTempDir r.1.2.fs tmpDir).2 })

/-- Go `(*Ingester).IngestZipFile`. `random k` is what the `k`-th call of
`rand.Read` delivers. -/
def IngestZipFile (env : Env) (s : storage.Storage) (random : Nat → List Nat) (w : World)
    (zipPath : String) : Except IngestError IngestResult × World :=
  -- Generate unique upload ID
  let uploadID := generateID (random 0) 8
  -- Create temp directory for extraction
  match s.CreateTempDir w.fs uploadID with
  | .error err => (.error (.other ("create temp dir: " ++ err)), w)
  | .ok (tmpDir, fs) =>
    let w := { w with fs := fs }
    cleanup s tmpDir <|
    -- Compute content hash of ZIP
    match storage.HashFile w.fs zipPath with
    | .error err =>
      ((.error (.api { Code := models.ErrCodeInvalidZip
                       Message := "failed to hash zip: " ++ err }), w), false)
    | .ok contentHash =>
      -- Extract ZIP
      match extractZip env w.fs zipPath tmpDir with
      | (some err, fs) =>
        ((.error (.api { Code := models.ErrCodeInvalidZip
                         Message := "failed to extract zip: " ++ err }),
          { w with fs := fs }), false)
      | (none, fs) =>
        let w := { w with fs := fs }
        -- Parse and validate manifest
        match parseManifest env w.fs (filepath.Join [tmpDir, "manifest.json"]) with
        | .error err => ((.error err, w), false)
        | .ok manifest =>
          match manifest.Validate env.now with
          | .error err =>
            ((.error (.api { Code := models.ErrCodeInvalidManifest
                             Message := "validation error: " ++ err.Field ++ ": " ++
                               err.Message }), w), false)
          | .ok manifest =>
            -- Calculate total size
            match storage.DirSize w.fs tmpDir with
            | .error err => ((.error (.other ("calculate size: " ++ err)), w), false)
            | .ok totalSize =>
              -- Generate bundle ID
              let bundleID := "rb_" ++ generateID (random 1) 8
              -- Create bundle record
              let bundle := bundleRecord bundleID contentHash manifest totalSize ""
              -- Insert bundle (handles idempotency via content hash)
              let ((existingID, alreadyExists), d) := w.db.InsertBundle bundle
              let w := { w with db := d }
              if alreadyExists then
                -- Bundle already exists, clean up and return existing
                ((.ok { BundleID := existingID, Status := "already_exists",
                        ArtifactCount := manifest.Artifacts.length },
                  { w with fs := (s.RemoveTempDir w.fs tmpDir).2 }), false)
              else
                -- Move to permanent storage
                match s.MoveToBundles w.fs tmpDir bundleID with
                | .error err =>
                  ((.error (.api { Code := models.ErrCodeStorageError
                                   Message := "move to storage: " ++ err }), w), false)
                | .ok (storagePath, fs) =>
                  let w := { w with fs := fs }
                  -- Insert artifacts
                  let d := insertArtifacts s random bundleID storagePath w.fs
                    manifest.Artifacts 2 w.db
                  ((.ok { BundleID := bundleID, Status := "ingested",
                          ArtifactCount := manifest.Artifacts.length },
                    { w with db := d }), true)

/-- An `io.Reader`: the bytes it delivers and the error, if any, that ends the
stream. -/
structure Reader where
  data : List Nat
  err : Option String := none

/-- Go `(*Ingester).IngestFromReader` (for HTTP uploads). -/
def IngestFromReader (env : Env) (s : storage.Storage) (random : Nat → List Nat) (w : World)
    (r : Reader) (_contentLength : Int) : Except IngestError IngestResult × World :=
  -- Generate unique upload ID
  let uploadID := generateID (random 0) 8
  -- Create temp directory
  match s.CreateTempDir w.fs uploadID with
  | .error err => (.error (.other ("create temp dir: " ++ err)), w)
  | .ok (tmpDir, fs) =>
    let w := { w with fs := fs }
    cleanup s tmpDir <|
    -- Write uploaded file to temp location
    let zipPath := filepath.Join [tmpDir, "upload.zip"]
    match w.fs.WriteFile zipPath r.data 0o666 with
    | .error err => ((.error (.other ("create temp file: " ++ err)), w), false)
    | .ok fs =>
      let w := { w with fs := fs }
      -- Hash while writing
      match r.err with
      | some err =>
        ((.error (.api { Code := models.ErrCodeInvalidZip
                         Message := "failed to read upload: " ++ err }), w), false)
      | none =>
        let written : Int := r.data.length
        let contentHash := "sha256:" ++ hex.EncodeToString (sha256.Sum256 r.data)
        -- Extract to a subdirectory
        let extractDir := filepath.Join [tmpDir, "extracted"]
        match w.fs.MkdirAll extractDir 0o755 with
        | (some err, fs) =>
          ((.error (.other ("create extract dir: " ++ err)), { w with fs := fs }), false)
        | (none, fs) =>
          let w := { w with fs := fs }
          match extractZip env w.fs zipPath extractDir with
          | (some err, fs) =>
            ((.error (.api { Code := models.ErrCodeInvalidZip
                             Message := "failed to extract zip: " ++ err }),
              { w with fs := fs }), false)
          | (none, fs) =>
            -- Remove the zip file to save space
            let w := { w with fs := fs.Remove zipPath }
            -- Parse and validate manifest
            match parseManifest env w.fs (filepath.Join [extractDir, "manifest.json"]) with
            | .error err => ((.error err, w), false)
            | .ok manifest =>
              match manifest.Validate env.now with
              | .error err =>
                ((.error (.api { Code := models.ErrCodeInvalidManifest
                                 Message := "validation error: " ++ err.Field ++ ": " ++
                                   err.Message }), w), false)
              | .ok manifest =>
                -- Generate bundle ID
                let bundleID := "rb_" ++ generateID (random 1) 8
                -- Create bundle record
                let bundle := bundleRecord bundleID contentHash manifest written ""
                -- Insert bundle (handles idempotency)
                let ((existingID, alreadyExists), d) := w.db.InsertBundle bundle
                let w := { w with db := d }
                if alreadyExists then
                  ((.ok { BundleID := existingID, Status := "already_exists",
                          ArtifactCount := manifest.Artifacts.length },
                    { w with fs := (s.RemoveTempDir w.fs tmpDir).2 }), false)
                else
                  -- Move extracted files to permanent storage
                  match s.MoveToBundles w.fs extractDir bundleID with
                  | .error err =>
                    ((.error (.api { Code := models.ErrCodeStorageError
                                     Message := "move to storage: " ++ err }), w), false)
                  | .ok (storagePath, fs) =>
                    -- Clean up remaining temp dir
                    let w := { w with fs := (s.RemoveTempDir fs tmpDir).2 }
                    -- Insert artifacts
                    let d := insertArtifacts s random bundleID storagePath w.fs
                      manifest.Artifacts 2 w.db
                    ((.ok { BundleID := bundleID, Status := "ingested",
                            ArtifactCount := manifest.Artifacts.length },
                      { w with db := d }), true)

/-- The name `IngestFromFiles` writes an uploaded file under: a name that
contains `..`, `/` or a backslash is replaced by its base name. -/
def stagedName (filename : String) : String :=
  -- Security: prevent path traversal
  if strings.Contains filename ".." || strings.ContainsAny filename "/\\" then
    -- Flatten any path - just use base filename
    filepath.Base filename
  else filename

/-- The first loop of `IngestFromFiles`, over the map entries in the order the
iteration visits them: writes each file to the staging directory and feeds its
bytes to the hash. Returns the error of a failed write, or the bytes written to
the hash and the total size; and the filesystem as the loop leaves it. -/
def writeFiles (tmpDir : String) :
    os.FS → List (String × List Nat) → List Nat → Int →
      Except IngestError (List Nat × Int) × os.FS
  | fs, [], hashed, totalSize => (.ok (hashed, totalSize), fs)
  | fs, (filename, data) :: rest, hashed, totalSize =>
    let filename := stagedName filename
    let destPath := filepath.Join [tmpDir, filename]
    match fs.WriteFile destPath data 0o644 with
    | .error err => (.error (.other ("write file " ++ filename ++ ": " ++ err)), fs)
    | .ok fs => writeFiles tmpDir fs rest (hashed ++ data) (totalSize + data.length)

/-- Go `(*Ingester).IngestFromFiles` (for direct multipart uploads). `files` is
the Go map as the list of its entries (distinct names) in the order in which
`for filename, data := range files` visits them, an order Go leaves unspecified
and varies from run to run. -/
def IngestFromFiles (env : Env) (s : storage.Storage) (random : Nat → List Nat) (w : World)
    (files : List (String × List Nat)) : Except IngestError IngestResult × World :=
  -- Generate unique upload ID
  let uploadID := generateID (random 0) 8
  -- Create temp directory
  match s.CreateTempDir w.fs uploadID with
  | .error err => (.error (.other ("create temp dir: " ++ err)), w)
  | .ok (tmpDir, fs) =>
    let w := { w with fs := fs }
    cleanup s tmpDir <|
    -- Write all files to temp directory and compute hash
    match writeFiles tmpDir w.fs files [] 0 with
    | (.error err, fs) => ((.error err, { w with fs := fs }), false)
    | (.ok (hashed, totalSize), fs) =>
      let w := { w with fs := fs }
      let contentHash := "sha256:" ++ hex.EncodeToString (sha256.Sum256 hashed)
      -- Parse and validate manifest
      match parseManifest env w.fs (filepath.Join [tmpDir, "manifest.json"]) with
      | .error err => ((.error err, w), false)
      | .ok manifest =>
        match manifest.Validate env.now with
        | .error err =>
          ((.error (.api { Code := models.ErrCodeInvalidManifest
                           Message := "validation error: " ++ err.Field ++ ": " ++
                             err.Message }), w), false)
        | .ok manifest =>
          -- Generate bundle ID
          let bundleID := "rb_" ++ generateID (random 1) 8
          -- Move to permanent storage FIRST (so we have the storage path for the bundle record)
          match s.MoveToBundles w.fs tmpDir bundleID with
          | .error err =>
            ((.error (.api { Code := models.ErrCodeStorageError
                             Message := "move to storage: " ++ err }), w), false)
          | .ok (storagePath, fs) =>
            let w := { w with fs := fs }
            -- Create bundle record with storage path
            let bundle := bundleRecord bundleID contentHash manifest totalSize storagePath
            -- Insert bundle (handles idempotency)
            let ((existingID, alreadyExists), d) := w.db.InsertBundle bundle
            let w := { w with db := d }
            if alreadyExists then
              -- Files already moved, but bundle exists
              ((.ok { BundleID := existingID, Status := "already_exists",
                      ArtifactCount := manifest.Artifacts.length }, w), false)
            else
              -- Insert artifacts
              let d := insertArtifacts s random bundleID storagePath w.fs
                manifest.Artifacts 2 w.db
              ((.ok { BundleID := bundleID, Status := "ingested",
                      ArtifactCount := manifest.Artifacts.length },
                { w with db := d }), true)

/-- The content hash `IngestFromFiles` computes when the map iteration visits
the entries in the order `files`. -/
def filesContentHash (files : List (String × List Nat)) : String :=
  "sha256:" ++ hex.EncodeToString (sha256.Sum256 (files.flatMap (fun f => f.2)))

/-- The directories directly inside the permanent store `bundlesDir`. -/
def bundleDirs (s : storage.Storage) (fs : os.FS) : List String :=
  fs.dirs.filter (fun d => filepath.Dir d = s.bundlesDir ∧ d ≠ s.bundlesDir)

/-! ### Example inputs -/

/-- The layout below the data directory `/data`. -/
def exampleStorage : storage.Storage :=
  { dataDir := "/data", bundlesDir := "/data/bundles", tmpDir := "/data/tmp" }

/-- The filesystem after `storage.New`, with an archive file `/in/a.zip`. -/
def exampleFS : os.FS :=
  { dirs := ["/data", "/data/bundles", "/data/tmp", "/in"]
    files := [("/in/a.zip", [80, 75])] }

/-- An environment in which every archive holds the single member
`manifest.json` with content `{}`, and every non-empty manifest document
decodes to schema version `1` and bundle id `session-1`. -/
def exampleEnv : Env :=
  { zipOpenReader := fun _ => .ok [{ Name := "manifest.json", Content := .ok [123, 125] }]
    jsonUnmarshal := fun data =>
      if data = [] then .error "unexpected end of JSON input"
      else .ok { SchemaVersion := "1", BundleID := "session-1" }
    now := 0 }

/-- The archive member of the traversal example. -/
def traversalFile : ZipFile := { Name := "../../etc/passwd", Content := .ok [114, 111, 111, 116] }

/-- An environment in which every archive holds the single member
`../../etc/passwd`. -/
def traversalEnv : Env :=
  { exampleEnv with zipOpenReader := fun _ => .ok [traversalFile] }

/-- The members of an archive without a manifest: the directory `d/`, whose
permission bits `0300` give its owner no read permission, and the file `d/x`. -/
def lockedFiles : List ZipFile :=
  [{ Name := "d/", IsDir := true, Mode := 0o300 }, { Name := "d/x", Content := .ok [1] }]

/-- An environment in which every archive holds the members `lockedFiles`. -/
def lockedEnv : Env :=
  { exampleEnv with zipOpenReader := fun _ => .ok lockedFiles }

/-- The same members with the usual permission bits `0755` for the directory. -/
def unlockedFiles : List ZipFile :=
  [{ Name := "d/", IsDir := true, Mode := 0o755 }, { Name := "d/x", Content := .ok [1] }]

/-- An environment in which every archive holds the members `unlockedFiles`. -/
def unlockedEnv : Env :=
  { exampleEnv with zipOpenReader := fun _ => .ok unlockedFiles }

/-- The random bytes of a first call. -/
def random1 : Nat → List Nat := fun k => [k, 1, 2, 3, 4, 5, 6, 7]

/-- The random bytes of a second call. -/
def random2 : Nat → List Nat := fun k => [k, 255, 2, 3, 4, 5, 6, 7]

end ingest

namespace ingest

/-- The six values of the artifact type column. -/
def artifactTypes : List String :=
  ["video", "log", "screenshot", "crash_dump", "thumbnail", "other"]

end ingest

namespace hex

/-- The string consists of exactly `n` lowercase hexadecimal digits. -/
def IsLowerHex (n : Nat) (s : String) : Prop :=
  s.data.length = n ∧ ∀ c ∈ s.data, c ∈ "0123456789abcdef".data

instance (n : Nat) (s : String) : Decidable (IsLowerHex n s) := by
  unfold IsLowerHex
  infer_instance

/-- The hexadecimal digits of `n`, most significant first, at most `fuel` of them. -/
def digitsFuel : Nat → Nat → List Char
  | 0, _ => []
  | fuel + 1, n => if n < 16 then [digit n] else digitsFuel fuel (n / 16) ++ [digit (n % 16)]

/-- Go `fmt.Sprintf("%x", n)` for an integer: lowercase hexadecimal without
leading zeros, with a minus sign for a negative number. -/
def formatInt (n : Int) : String :=
  ⟨(if n < 0 then ['-'] else []) ++ digitsFuel (n.natAbs + 1) n.natAbs⟩

end hex

/-! ## Package `api`: identifiers -/

namespace api

/-- Go `generateID` of package `api`. `random` is what `io.ReadFull(rand.Reader, b)`
delivers, the bytes or the error; `now` is `time.Now().UnixNano()`, used when the
random source fails. Slicing a string shorter than `length` panics: `none`. -/
def generateID (random : Except String (List Nat)) (now : Int) (length : Nat) : Option String :=
  let full : String :=
    match random with
    | .error _ =>
      -- Fallback to timestamp-based ID
      hex.formatInt now
    | .ok b => hex.EncodeToString ((List.range length).map (fun i => b.getD i 0))
  if full.data.length < length then none else some ⟨full.data.take length⟩

/-- The identifier `handleAddNote` gives a new note. -/
def noteID (random : Except String (List Nat)) (now : Int) : Option String :=
  (generateID random now 8).map (fun id => "note_" ++ id)

end api

namespace os

/-- The path and all its ancestors are directories of the filesystem. -/
def FS.HasPath (fs : FS) (path : String) : Prop :=
  ∀ n, ∀ d ∈ chain n path, fs.isDir d = true

/-- The filesystem without the path and everything below it. -/
def FS.without (fs : FS) (path : String) : FS :=
  { dirs := fs.dirs.filter (fun d => !under path d)
    files := fs.files.filter (fun f => !under path f.1)
    modes := fs.modes.filter (fun m => !under path m.1) }

/-- Outside the directory `t` the filesystem `fs'` is `fs`: without `t` the two
are equal, and every directory of `fs` is one of `fs'`. -/
def FS.SameOutside (t : String) (fs fs' : FS) : Prop :=
  fs'.without t = fs.without t ∧ ∀ d, fs.isDir d = true → fs'.isDir d = true

/-- The permission bits give the owner of a directory every permission. -/
def fullDir (perm : Nat) : Bool := readBit perm && writeBit perm && searchBit perm

/-- The permission bits let the owner of a file read and write it. -/
def fullFile (perm : Nat) : Bool := readBit perm && writeBit perm

end os

namespace ingest

/-- The members of the archive declare permission bits that give the owner of a
directory every permission and let the owner of a file read and write it. -/
def OwnerModes (files : List ZipFile) : Prop :=
  ∀ z ∈ files, if z.IsDir then os.fullDir z.Mode = true else os.fullFile z.Mode = true

end ingest

/-! ## Theorems -/

namespace models

/-! ### Manifest validation and derived fields -/

/-- C5: `Manifest.Validate` returns an error exactly when the schema version is
empty, or is neither `"1"` nor begins with `"1."`, or the derived build
identifier and the top-level `bundleId` are both empty; in every other case it
returns a manifest and no error. -/
theorem Validate_error_iff (now : Int) (m : Manifest) :
    ((∃ e, m.Validate now = .error e) ↔
      (m.SchemaVersion = "" ∨
        (m.SchemaVersion ≠ "1" ∧ strings.HasPrefix m.SchemaVersion "1." = false) ∨
        (m.BuildID = "" ∧ m.BundleID = ""))) ∧
    ((∃ m', m.Validate now = .ok m') ↔
      ¬ (m.SchemaVersion = "" ∨
        (m.SchemaVersion ≠ "1" ∧ strings.HasPrefix m.SchemaVersion "1." = false) ∨
        (m.BuildID = "" ∧ m.BundleID = ""))) := by
  unfold Manifest.Validate
  by_cases h1 : m.SchemaVersion = ""
  · simp [h1]
  · by_cases h2 : strings.HasPrefix m.SchemaVersion "1." = true
    · by_cases h3 : m.BuildID = ""
      · by_cases h4 : m.BundleID = ""
        · simp [h1, h2, h3, h4]
        · simp [h1, h2, h3, h4]
      · simp [h1, h2, h3]
    · by_cases h5 : m.SchemaVersion = "1"
      · by_cases h3 : m.BuildID = ""
        · by_cases h4 : m.BundleID = ""
          · simp [h2, h5, h3, h4]
          · simp [h2, h5, h3, h4]
        · simp [h2, h5, h3]
      · simp [h1, h2, h5]

/-- C6: after parsing, the derived build identifier is `buildInfo.buildId` when
a build-info record with a non-empty `buildId` is present, and the top-level
`bundleId` otherwise (empty when that is absent too). -/
theorem UnmarshalJSON_BuildID (aux : ManifestAlias) :
    (Manifest.UnmarshalJSON aux).BuildID =
      match aux.BuildInfo with
      | some bi => if bi.BuildID ≠ "" then bi.BuildID else aux.BundleID
      | none => aux.BundleID := by
  obtain ⟨sv, bid, ch, ts, notes, bi, si, hi, ra, md⟩ := aux
  by_cases ht : ts > 0 <;> by_cases hb : bid = "" <;> cases si <;> cases hi <;>
    rcases bi with _ | bi
  all_goals first
    | (simp [Manifest.UnmarshalJSON, ht, hb]; done)
    | (by_cases hid : bi.BuildID = "" <;> simp [Manifest.UnmarshalJSON, ht, hb, hid])

/-! ### The two encodings of the artifact list -/

/-- C8, at the failing input: a name ending in `.jpeg` is classified `other` by
`guessArtifactType`, not `screenshot`, although `guessMimeType` recognises the
same extension as a JPEG image. -/
theorem guessArtifactType_jpeg :
    guessArtifactType "shot.jpeg" = "other" ∧
    guessArtifactType "shot.jpg" = "screenshot" ∧
    guessMimeType "shot.jpeg" = "image/jpeg" := by
  decide

end models

namespace db

/-! ### Deduplication by content hash -/

/-- Inserting a bundle whose content hash was inserted before returns the
identifier the first insertion returned, reports that the bundle exists, and
leaves the table as it was. -/
theorem InsertBundle_twice (d : DB) (b b' : models.ReproBundle)
    (h : b'.ContentHash = b.ContentHash) :
    ((d.InsertBundle b).2.InsertBundle b').1 = ((d.InsertBundle b).1.1, true) ∧
    ((d.InsertBundle b).2.InsertBundle b').2 = (d.InsertBundle b).2 := by
  unfold DB.InsertBundle
  cases hf : d.repro_bundles.find? (fun x => x.ContentHash = b.ContentHash) with
  | some e => simp [hf, h]
  | none =>
    have hnone : ∀ x ∈ d.repro_bundles, ¬ x.ContentHash = b.ContentHash := by
      simpa [List.find?_eq_none] using hf
    have : (d.repro_bundles ++ [b]).find? (fun x => x.ContentHash = b.ContentHash) = some b := by
      rw [List.find?_append, hf]
      simp
    simp [h, this]

end db

namespace filepath

/-- The models of `Clean`, `Join`, `Base`, `Dir` and `Rel` agree with the examples
in the documentation of Go's `path/filepath`, and with the cases the repository
relies on. -/
theorem filepath_examples :
    Clean "a/c" = "a/c" ∧
    Clean "a//c" = "a/c" ∧
    Clean "a/c/." = "a/c" ∧
    Clean "a/c/b/.." = "a/c" ∧
    Clean "/../a/c" = "/a/c" ∧
    Clean "/../a/b/../././/c" = "/a/c" ∧
    Clean "" = "." ∧
    Clean "/" = "/" ∧
    Clean "../../x/" = "../../x" ∧
    Clean "a/../.." = ".." ∧
    Clean "a/b/../../../c" = "../c" ∧
    Clean "abc/" = "abc" ∧
    Clean "//abc" = "/abc" ∧
    Join ["a", "b", "c"] = "a/b/c" ∧
    Join ["a", "b/c"] = "a/b/c" ∧
    Join ["a/b", "../../../xyz"] = "../xyz" ∧
    Join ["", ""] = "" ∧
    Join ["a", ""] = "a" ∧
    Join ["", "a"] = "a" ∧
    Join ["/data/tmp/upload_ab", "../../etc/passwd"] = "/data/etc/passwd" ∧
    Base "/foo/bar/baz.js" = "baz.js" ∧
    Base "/foo/bar/baz/" = "baz" ∧
    Base "dev.txt" = "dev.txt" ∧
    Base "../todo.txt" = "todo.txt" ∧
    Base ".." = ".." ∧
    Base "." = "." ∧
    Base "/" = "/" ∧
    Base "" = "." ∧
    Base "a/b\\c" = "b\\c" ∧
    Dir "/foo/bar/baz.js" = "/foo/bar" ∧
    Dir "/foo/bar/baz/" = "/foo/bar/baz" ∧
    Dir "dev.txt" = "." ∧
    Dir "/dirty//path///" = "/dirty/path" ∧
    Dir "../todo.txt" = ".." ∧
    Dir "/" = "/" ∧
    Dir "" = "." ∧
    Rel "/a" "/a/b/c" = some "b/c" ∧
    Rel "/a" "/b/c" = some "../b/c" ∧
    Rel "/a" "./b/c" = none ∧
    Rel "a/b" "a/b/c/d" = some "c/d" ∧
    Rel "a/b/c" "a/b" = some ".." ∧
    Rel "." "bundles/rb_1" = some "bundles/rb_1" ∧
    Rel ".." "../bundles/rb_1" = some "bundles/rb_1" ∧
    Rel "../.." "a" = none ∧
    Rel "/" "/bundles/x" = some "bundles/x" ∧
    Rel "a" "a" = some "." ∧
    Rel "a/b/c/d" "a/x" = some "../../../x" := by
  decide

/-! ### The shape of a cleaned path -/

theorem splitSep_ne_nil (l : List Char) : splitSep l ≠ [] := by
  induction l with
  | nil => simp [splitSep]
  | cons c cs ih =>
    unfold splitSep
    split
    · simp
    · split <;> simp

theorem splitSep_cons (c : Char) (cs e : List Char) (es : List (List Char))
    (h : splitSep cs = e :: es) :
    splitSep (c :: cs) = if c = '/' then [] :: e :: es else (c :: e) :: es := by
  rw [splitSep, h]

theorem splitSep_no_sep (l : List Char) : ∀ e ∈ splitSep l, '/' ∉ e := by
  induction l with
  | nil => simp [splitSep]
  | cons c cs ih =>
    have ha := splitSep_ne_nil cs
    cases hs : splitSep cs with
    | nil => exact absurd hs ha
    | cons e es =>
      rw [hs] at ih
      rw [splitSep_cons c cs e es hs]
      by_cases hc : c = '/'
      · simp only [hc, if_true]
        intro x hx
        rcases List.mem_cons.mp hx with h | h
        · subst h; simp
        · exact ih x h
      · simp only [hc, if_false]
        intro x hx
        rcases List.mem_cons.mp hx with h | h
        · subst h
          intro hm
          rcases List.mem_cons.mp hm with h1 | h1
          · exact hc h1.symm
          · exact ih e (List.mem_cons_self _ _) h1
        · exact ih x (List.mem_cons_of_mem _ h)

theorem splitSep_append_sep (a b : List Char) :
    splitSep (a ++ '/' :: b) = splitSep a ++ splitSep b := by
  induction a with
  | nil =>
    have hb := splitSep_ne_nil b
    cases hs : splitSep b with
    | nil => exact absurd hs hb
    | cons e es =>
      rw [List.nil_append, splitSep_cons '/' b e es hs]
      simp [splitSep]
  | cons c cs ih =>
    have ha := splitSep_ne_nil cs
    cases hs : splitSep cs with
    | nil => exact absurd hs ha
    | cons e es =>
      rw [List.cons_append, splitSep_cons c (cs ++ '/' :: b) e (es ++ splitSep b)
        (by rw [ih, hs]; rfl), splitSep_cons c cs e es hs]
      split <;> rfl

theorem joinSep_cons_cons (e e2 : List Char) (es : List (List Char)) :
    joinSep (e :: e2 :: es) = e ++ '/' :: joinSep (e2 :: es) := by
  rw [joinSep]
  simp

theorem joinSep_splitSep (l : List Char) : joinSep (splitSep l) = l := by
  induction l with
  | nil => simp [splitSep, joinSep]
  | cons c cs ih =>
    have ha := splitSep_ne_nil cs
    cases hs : splitSep cs with
    | nil => exact absurd hs ha
    | cons e es =>
      rw [hs] at ih
      rw [splitSep_cons c cs e es hs]
      by_cases hc : c = '/'
      · subst hc
        simp only [if_true]
        rw [joinSep_cons_cons, ih]
        rfl
      · simp only [hc, if_false]
        cases es with
        | nil =>
          simp only [joinSep] at ih ⊢
          rw [ih]
        | cons e2 es2 =>
          rw [joinSep_cons_cons] at ih ⊢
          rw [← ih]
          rfl

theorem splitSep_of_no_sep (e : List Char) (h : '/' ∉ e) : splitSep e = [e] := by
  induction e with
  | nil => simp [splitSep]
  | cons c cs ih =>
    have hc : c ≠ '/' := fun hc => h (by simp [hc])
    have hcs : '/' ∉ cs := fun hm => h (List.mem_cons_of_mem _ hm)
    rw [splitSep_cons c cs cs [] (ih hcs)]
    simp [hc]

theorem splitSep_joinSep (es : List (List Char)) (hne : es ≠ [])
    (h : ∀ e ∈ es, '/' ∉ e) : splitSep (joinSep es) = es := by
  induction es with
  | nil => exact absurd rfl hne
  | cons e rest ih =>
    cases rest with
    | nil => simpa [joinSep] using splitSep_of_no_sep e (h e (List.mem_cons_self _ _))
    | cons e2 rest2 =>
      rw [joinSep_cons_cons, splitSep_append_sep,
        splitSep_of_no_sep e (h e (List.mem_cons_self _ _)),
        ih (by simp) (fun x hx => h x (List.mem_cons_of_mem _ hx))]
      rfl

theorem cleanElem_shape (rooted : Bool) (st : List (List Char)) (e : List Char)
    (he : '/' ∉ e)
    (h : ∃ ns dd, st = ns ++ dd ∧ (∀ x ∈ ns, Ordinary x) ∧ (∀ x ∈ dd, x = ['.', '.'])) :
    ∃ ns dd, cleanElem rooted st e = ns ++ dd ∧ (∀ x ∈ ns, Ordinary x) ∧
      (∀ x ∈ dd, x = ['.', '.']) := by
  obtain ⟨ns, dd, rfl, hns, hdd⟩ := h
  unfold cleanElem
  by_cases h1 : e = [] ∨ e = ['.']
  · rw [if_pos h1]
    exact ⟨ns, dd, rfl, hns, hdd⟩
  · rw [if_neg h1]
    by_cases h2 : e = ['.', '.']
    · rw [if_pos h2]
      cases ns with
      | nil =>
        cases dd with
        | nil =>
          cases rooted
          · exact ⟨[], [e], by simp, by simp, by simp [h2]⟩
          · exact ⟨[], [], by simp, by simp, by simp⟩
        | cons k ks =>
          have hk : k = ['.', '.'] := hdd k (List.mem_cons_self _ _)
          refine ⟨[], e :: k :: ks, by simp [hk], by simp, ?_⟩
          intro x hx
          rcases List.mem_cons.mp hx with h | h
          · rw [h, h2]
          · exact hdd x h
      | cons n ns' =>
        have hn : n ≠ ['.', '.'] := (hns n (List.mem_cons_self _ _)).2.2.1
        refine ⟨ns', dd, by simp [hn], fun x hx => hns x (List.mem_cons_of_mem _ hx), hdd⟩
    · rw [if_neg h2]
      refine ⟨e :: ns, dd, by simp, ?_, hdd⟩
      intro x hx
      rcases List.mem_cons.mp hx with h | h
      · subst h
        exact ⟨fun h => h1 (Or.inl h), fun h => h1 (Or.inr h), h2, he⟩
      · exact hns x h

theorem foldl_cleanElem_shape (rooted : Bool) (es : List (List Char))
    (hes : ∀ e ∈ es, '/' ∉ e) :
    ∀ st : List (List Char),
      (∃ ns dd, st = ns ++ dd ∧ (∀ x ∈ ns, Ordinary x) ∧ (∀ x ∈ dd, x = ['.', '.'])) →
      ∃ ns dd, es.foldl (cleanElem rooted) st = ns ++ dd ∧ (∀ x ∈ ns, Ordinary x) ∧
        (∀ x ∈ dd, x = ['.', '.']) := by
  induction es with
  | nil => intro st h; exact h
  | cons e rest ih =>
    intro st h
    rw [List.foldl_cons]
    exact ih (fun x hx => hes x (List.mem_cons_of_mem _ hx)) _
      (cleanElem_shape rooted st e (hes e (List.mem_cons_self _ _)) h)

/-- The elements `Clean` keeps are `..` elements followed by ordinary elements. -/
theorem keptElems_shape (path : List Char) :
    ∃ dd ns, keptElems path = dd ++ ns ∧ (∀ x ∈ dd, x = ['.', '.']) ∧
      (∀ x ∈ ns, Ordinary x) := by
  obtain ⟨ns, dd, h, hns, hdd⟩ := foldl_cleanElem_shape (path.head? = some '/')
    (splitSep path) (splitSep_no_sep path) [] ⟨[], [], rfl, by simp, by simp⟩
  refine ⟨dd.reverse, ns.reverse, ?_, ?_, ?_⟩
  · unfold keptElems
    rw [h, List.reverse_append]
  · intro x hx
    exact hdd x (List.mem_reverse.mp hx)
  · intro x hx
    exact hns x (List.mem_reverse.mp hx)

theorem keptElems_no_sep (path : List Char) : ∀ e ∈ keptElems path, '/' ∉ e := by
  obtain ⟨dd, ns, h, hdd, hns⟩ := keptElems_shape path
  intro e he
  rw [h] at he
  rcases List.mem_append.mp he with h1 | h1
  · rw [hdd e h1]; decide
  · exact (hns e h1).2.2.2

theorem keptElems_ne_nil_elem (path : List Char) : ∀ e ∈ keptElems path, e ≠ [] := by
  obtain ⟨dd, ns, h, hdd, hns⟩ := keptElems_shape path
  intro e he
  rw [h] at he
  rcases List.mem_append.mp he with h1 | h1
  · rw [hdd e h1]; decide
  · exact (hns e h1).1

/-- A joined list of non-empty, separator-free elements does not begin with a
separator. -/
theorem joinSep_head (es : List (List Char)) (h : ∀ e ∈ es, '/' ∉ e ∧ e ≠ [])
    (t : List Char) : joinSep es ≠ '/' :: t := by
  cases es with
  | nil => simp [joinSep]
  | cons e rest =>
    have he := h e (List.mem_cons_self _ _)
    cases e with
    | nil => exact absurd rfl he.2
    | cons c cs =>
      have hc : c ≠ '/' := fun hc => he.1 (by simp [hc])
      cases rest with
      | nil =>
        simp only [joinSep]
        intro heq
        injection heq with h1 _
        exact hc h1
      | cons e2 rest2 =>
        rw [joinSep_cons_cons]
        intro heq
        injection heq with h1 _
        exact hc h1

/-- For a destination whose cleaned path ends in an ordinary element, a joined
path that passes the prefix test of `extractZip` is the cleaned destination
followed by ordinary elements only: it names a place below the destination. -/
theorem Join_below (dest name : String) (init : List (List Char)) (last : List Char)
    (hd : keptElems dest.data = init ++ [last]) (hl : Ordinary last)
    (hp : strings.HasPrefix (Join [dest, name]) (Clean dest ++ "/") = true) :
    ∃ rest : List (List Char), rest ≠ [] ∧ (∀ e ∈ rest, Ordinary e) ∧
      (Join [dest, name]).data = (Clean dest).data ++ '/' :: joinSep rest := by
  -- the destination is not empty
  have hne : dest.data ≠ [] := by
    intro h
    rw [h] at hd
    have : keptElems [] = [] := by decide
    rw [this] at hd
    simp at hd
  have hdne : dest ≠ "" := by
    intro h
    rw [h] at hne
    exact hne rfl
  obtain ⟨c, cs, hcs⟩ := List.exists_cons_of_ne_nil hne
  -- the joined path
  have hJ : Join [dest, name] = ⟨cleanChars (dest.data ++ '/' :: name.data)⟩ := by
    simp [Join, List.dropWhile, hdne, joinSep]
  have hroot : (dest.data ++ '/' :: name.data).head? = dest.data.head? := by
    rw [hcs]; rfl
  -- shape of both element lists
  obtain ⟨dd, ns, hP, hdd, hns⟩ := keptElems_shape (dest.data ++ '/' :: name.data)
  have hDne : keptElems dest.data ≠ [] := by rw [hd]; simp
  -- the prefix test as an equation on character lists
  unfold strings.HasPrefix at hp
  rw [List.isPrefixOf_iff_prefix] at hp
  obtain ⟨t, ht⟩ := hp
  rw [hJ] at ht ⊢
  have hjoin : joinSep (keptElems (dest.data ++ '/' :: name.data)) =
      joinSep (keptElems dest.data) ++ '/' :: t := by
    simp only [Clean, String.data_append, cleanChars, hroot] at ht
    by_cases hr : dest.data.head? = some '/'
    · simp only [hr, if_true] at ht
      have ht' : '/' :: (joinSep (keptElems dest.data) ++ '/' :: t) =
          '/' :: joinSep (keptElems (dest.data ++ '/' :: name.data)) := by
        simpa using ht
      injection ht' with _ h2
      exact h2.symm
    · simp only [hr, if_false, hDne] at ht
      by_cases hk : keptElems (dest.data ++ '/' :: name.data) = []
      · simp only [hk, if_true] at ht
        exfalso
        have hlen := congrArg List.length ht
        simp at hlen
        have hz : joinSep (keptElems dest.data) = [] := by
          apply List.eq_nil_of_length_eq_zero
          omega
        have ht0 : t = [] := by
          apply List.eq_nil_of_length_eq_zero
          omega
        rw [hz, ht0] at ht
        simp at ht
      · simp only [hk, if_false] at ht
        simpa using ht.symm
  have hPne : keptElems (dest.data ++ '/' :: name.data) ≠ [] := by
    intro h
    rw [h] at hjoin
    simp [joinSep] at hjoin
  -- from characters to elements
  have hsplit := congrArg splitSep hjoin
  rw [splitSep_joinSep _ hPne (keptElems_no_sep _), splitSep_append_sep,
    splitSep_joinSep _ hDne (keptElems_no_sep _)] at hsplit
  have hrest : ∀ e ∈ splitSep t, Ordinary e := by
    intro e he
    rw [hP, hd] at hsplit
    rcases List.append_eq_append_iff.mp hsplit with ⟨a, h1, h2⟩ | ⟨a, h1, h2⟩
    · -- the ordinary elements start inside the destination
      rw [h2] at hns
      exact hns e (List.mem_append_right _ he)
    · -- the `..` elements would reach past the destination
      exfalso
      have : last ∈ dd := by
        rw [h1]
        simp
      exact hl.2.2.1 (hdd last this)
  refine ⟨splitSep t, splitSep_ne_nil t, hrest, ?_⟩
  rw [joinSep_splitSep]
  simp only [Clean, cleanChars, hroot]
  by_cases hr : dest.data.head? = some '/'
  · simp only [hr, if_true, hjoin]
    simp
  · simp only [hr, if_false, hDne, hPne, hjoin]

theorem joinSep_append_singleton (es : List (List Char)) (n : List Char) (hne : es ≠ []) :
    joinSep (es ++ [n]) = joinSep es ++ '/' :: n := by
  induction es with
  | nil => exact absurd rfl hne
  | cons e rest ih =>
    cases rest with
    | nil => simp [joinSep]
    | cons e2 rest2 =>
      rw [List.cons_append, List.cons_append, joinSep_cons_cons, ← List.cons_append,
        ih (by simp), joinSep_cons_cons]
      simp

theorem cleanElem_ordinary (rooted : Bool) (st : List (List Char)) (n : List Char)
    (hn : Ordinary n) : cleanElem rooted st n = n :: st := by
  unfold cleanElem
  rw [if_neg (by rintro (h | h); exact hn.1 h; exact hn.2.1 h), if_neg hn.2.2.1]

theorem keptElems_append_ordinary (dest n : List Char) (hne : dest ≠ []) (hn : Ordinary n) :
    keptElems (dest ++ '/' :: n) = keptElems dest ++ [n] := by
  obtain ⟨c, cs, hcs⟩ := List.exists_cons_of_ne_nil hne
  have hroot : (dest ++ '/' :: n).head? = dest.head? := by rw [hcs]; rfl
  unfold keptElems
  rw [hroot, splitSep_append_sep, splitSep_of_no_sep n hn.2.2.2, List.foldl_append]
  simp [cleanElem_ordinary _ _ n hn]

/-- Joining an ordinary name to a directory whose cleaned path has at least one
element gives the cleaned directory, a separator and the name: a direct child. -/
theorem Join_ordinary (dest name : String) (hk : keptElems dest.data ≠ [])
    (hn : Ordinary name.data) :
    Join [dest, name] = Clean dest ++ "/" ++ name := by
  have hne : dest.data ≠ [] := by
    intro h
    rw [h] at hk
    exact hk (by decide)
  have hdne : dest ≠ "" := by
    intro h
    rw [h] at hne
    exact hne rfl
  obtain ⟨c, cs, hcs⟩ := List.exists_cons_of_ne_nil hne
  have hroot : (dest.data ++ '/' :: name.data).head? = dest.data.head? := by rw [hcs]; rfl
  have hJ : Join [dest, name] = ⟨cleanChars (dest.data ++ '/' :: name.data)⟩ := by
    simp [Join, List.dropWhile, hdne, joinSep]
  rw [hJ]
  apply String.ext
  simp only [String.data_append, Clean, cleanChars, hroot,
    keptElems_append_ordinary dest.data name.data hne hn,
    joinSep_append_singleton _ name.data hk]
  by_cases hr : dest.data.head? = some '/'
  · simp [hr]
  · simp [hr, hk]

end filepath

namespace validate

variable {F : Type}

/-! ### The valid flag and the error list -/

theorem addError_consistent (r : ValidationResult F) (code field message : String) :
    Consistent (r.addError code field message) := by
  simp [Consistent, ValidationResult.addError]

theorem addErrorWithValues_consistent (r : ValidationResult F)
    (code field message got want : String) :
    Consistent (r.addErrorWithValues code field message got want) := by
  simp [Consistent, ValidationResult.addErrorWithValues]

theorem addWarning_consistent (r : ValidationResult F) (code field message : String)
    (h : Consistent r) : Consistent (r.addWarning code field message) := by
  simpa [Consistent, ValidationResult.addWarning] using h

theorem addWarningWithValues_consistent (r : ValidationResult F)
    (code field message got want : String) (h : Consistent r) :
    Consistent (r.addWarningWithValues code field message got want) := by
  simpa [Consistent, ValidationResult.addWarningWithValues] using h

theorem setStats_consistent (r : ValidationResult F) (st : BundleStats F)
    (h : Consistent r) : Consistent { r with Stats := st } := by
  simpa [Consistent] using h

variable [GoFloat F]

theorem validateManifestInternal_consistent (r : ValidationResult F) (m : Manifest F)
    (h : Consistent r) : Consistent (validateManifestInternal r m) := by
  unfold validateManifestInternal
  dsimp only
  split_ifs
  all_goals first
    | exact h
    | apply addError_consistent

theorem validateTiming_consistent (r : ValidationResult F) (t : TimingData F)
    (h : Consistent r) : Consistent (validateTiming r t) := by
  unfold validateTiming
  cases t.Frames with
  | nil => exact addError_consistent _ _ _ _
  | cons first rest =>
    dsimp only
    cases firstIndexMismatch (first :: rest) 0 <;>
      cases firstDecrease first.TimestampMs rest 1 <;> dsimp only <;> split_ifs
    all_goals first
      | exact h
      | apply addError_consistent
      | apply addErrorWithValues_consistent

theorem validateManifestVsTiming_consistent (r : ValidationResult F) (m : Manifest F)
    (t : TimingData F) (h : Consistent r) : Consistent (validateManifestVsTiming r m t) := by
  unfold validateManifestVsTiming
  dsimp only
  split_ifs
  all_goals first
    | exact h
    | apply addErrorWithValues_consistent

theorem validateInputs_consistent (r : ValidationResult F) (i : InputData F) (m : Manifest F)
    (h : Consistent r) : Consistent (validateInputs r i m) := by
  unfold validateInputs
  dsimp only
  split_ifs
  all_goals exact h

theorem ValidateBundle_consistent (env : Env F) (bundlePath : String) :
    Consistent (ValidateBundle env bundlePath) := by
  unfold ValidateBundle
  dsimp only
  cases loadManifest env bundlePath with
  | error err => simp [Consistent, ValidationResult.addError]
  | ok manifest =>
    dsimp only
    cases loadTiming env bundlePath <;> cases loadInputs env bundlePath <;> dsimp only
    all_goals repeat' first
      | exact rfl
      | apply validateInputs_consistent
      | apply validateManifestVsTiming_consistent
      | apply validateTiming_consistent
      | apply validateManifestInternal_consistent

/-- C9: in every report returned by `ValidateBundle` the valid flag is false
exactly when the error list is non-empty; the flag is determined by the error
list alone, whatever the warnings are. -/
theorem ValidateBundle_valid_iff (env : Env F) (bundlePath : String) :
    ((ValidateBundle env bundlePath).Valid = false ↔
      (ValidateBundle env bundlePath).Errors ≠ []) ∧
    ((ValidateBundle env bundlePath).Valid = true ↔
      (ValidateBundle env bundlePath).Errors = []) := by
  have h := ValidateBundle_consistent env bundlePath
  unfold Consistent at h
  rw [h]
  cases (ValidateBundle env bundlePath).Errors <;> simp

/-! ### The frame-count cross check -/

theorem validateManifestInternal_frameCount (r : ValidationResult F) (m : Manifest F) :
    (validateManifestInternal r m).Errors.filter (fun e => e.Code = "FRAME_COUNT_MISMATCH") =
      r.Errors.filter (fun e => e.Code = "FRAME_COUNT_MISMATCH") := by
  unfold validateManifestInternal
  dsimp only
  split_ifs <;> simp [ValidationResult.addError, ValidationResult.addWarning]

theorem validateTiming_frameCount (r : ValidationResult F) (t : TimingData F) :
    (validateTiming r t).Errors.filter (fun e => e.Code = "FRAME_COUNT_MISMATCH") =
      r.Errors.filter (fun e => e.Code = "FRAME_COUNT_MISMATCH") := by
  unfold validateTiming
  cases t.Frames with
  | nil => simp [ValidationResult.addError]
  | cons first rest =>
    dsimp only
    cases firstIndexMismatch (first :: rest) 0 <;>
      cases firstDecrease first.TimestampMs rest 1 <;> dsimp only <;> split_ifs <;>
      simp [ValidationResult.addError, ValidationResult.addWarning,
        ValidationResult.addErrorWithValues]

theorem validateManifestVsTiming_Errors (r : ValidationResult F) (m : Manifest F)
    (t : TimingData F) :
    (validateManifestVsTiming r m t).Errors =
      r.Errors ++ (if m.TotalFrames ≠ (t.Frames.length : Int)
        then [frameCountMismatch m.TotalFrames t.Frames.length] else []) := by
  unfold validateManifestVsTiming
  dsimp only
  split_ifs <;>
    simp [ValidationResult.addWarning, ValidationResult.addWarningWithValues,
      ValidationResult.addErrorWithValues, frameCountMismatch]

theorem validateInputs_Errors (r : ValidationResult F) (i : InputData F) (m : Manifest F) :
    (validateInputs r i m).Errors = r.Errors := by
  unfold validateInputs
  dsimp only
  split_ifs <;> simp [ValidationResult.addWarning]

/-- C10: when manifest and timing document are both present, the report of
`ValidateBundle` holds exactly one `FRAME_COUNT_MISMATCH` error if the
manifest's `totalFrames` differs from the number of timing entries, with `got`
the decimal `totalFrames` and `want` the decimal entry count, and holds no
`FRAME_COUNT_MISMATCH` error if the two are equal. -/
theorem ValidateBundle_frameCount (env : Env F) (bundlePath : String) (m : Manifest F)
    (t : TimingData F) (hm : loadManifest env bundlePath = .ok m)
    (ht : loadTiming env bundlePath = .ok t) :
    (ValidateBundle env bundlePath).Errors.filter (fun e => e.Code = "FRAME_COUNT_MISMATCH") =
      if m.TotalFrames ≠ (t.Frames.length : Int)
      then [{ Code := "FRAME_COUNT_MISMATCH"
              Field := "totalFrames"
              Message :=
                "manifest totalFrames should match timing.json frame count (1:1 with video)"
              Got := toString m.TotalFrames
              Want := toString (t.Frames.length : Int) }]
      else [] := by
  unfold ValidateBundle
  dsimp only
  rw [hm, ht]
  dsimp only
  cases loadInputs env bundlePath <;> dsimp only <;>
    simp only [validateInputs_Errors, validateManifestVsTiming_Errors, List.filter_append,
      validateTiming_frameCount, validateManifestInternal_frameCount] <;>
    split_ifs <;> simp [ValidationResult.addWarning, frameCountMismatch]

/-- C10 at the example of the claim: `totalFrames = 10` against a timing document
of 9 entries gives exactly one `FRAME_COUNT_MISMATCH` error, with `got = "10"`
and `want = "9"`. -/
theorem ValidateBundle_frameCount_witness :
    loadManifest exampleEnv "bundle" = .ok { DurationSeconds := 1, TotalFrames := 10 } ∧
    loadTiming exampleEnv "bundle" = .ok { Frames := exampleFrames 9 } ∧
    (ValidateBundle exampleEnv "bundle").Errors.filter
        (fun e => e.Code = "FRAME_COUNT_MISMATCH") =
      [{ Code := "FRAME_COUNT_MISMATCH"
         Field := "totalFrames"
         Message :=
           "manifest totalFrames should match timing.json frame count (1:1 with video)"
         Got := "10"
         Want := "9" }] :=
  ⟨rfl, rfl, ValidateBundle_frameCount exampleEnv "bundle"
    { DurationSeconds := 1, TotalFrames := 10 } { Frames := exampleFrames 9 } rfl rfl⟩

end validate

namespace validate

/-- The sorting and formatting helpers on examples. -/
theorem format_examples :
    sortStrings ["W", "A", "Shift", "B"] = ["A", "B", "Shift", "W"] ∧
    fmtStrings ["A", "B"] = "[A B]" ∧
    fmtRat 3 (10 : ℚ) = "10.000" ∧
    fmtRat 1 (1 / 3 : ℚ) = "0.3" ∧
    fmtRat 1 (-5 / 2 : ℚ) = "-2.5" ∧
    fmtRat 0 (5 / 2 : ℚ) = "2" ∧
    fmtRat 2 (1005 / 1000 : ℚ) = "1.00" ∧
    fmtRat 2 (-1 / 1000 : ℚ) = "-0.00" := by
  decide!

end validate

namespace validate

variable {F : Type} [GoFloat F]

/-! ### A manifest that cannot be loaded -/

/-- C15: `ValidateBundle` returns a report for every bundle directory; when the
manifest cannot be read or parsed the report is invalid, holds the single
error `MANIFEST_LOAD` carrying the load error, no warning, and untouched
statistics: no timing or input check has run. -/
theorem ValidateBundle_manifest_load (env : Env F) (bundlePath err : String)
    (h : loadManifest env bundlePath = .error err) :
    (ValidateBundle env bundlePath).Valid = false ∧
    (ValidateBundle env bundlePath).Errors =
      [{ Code := "MANIFEST_LOAD", Field := "", Message := err }] ∧
    (ValidateBundle env bundlePath).Warnings = [] ∧
    (ValidateBundle env bundlePath).Stats = BundleStats.zero := by
  unfold ValidateBundle
  dsimp only
  rw [h]
  simp [ValidationResult.addError]

/-! ### Manifest internal checks -/

/-- C16: `validateManifestInternal` appends a `MANIFEST_DURATION` error exactly
when `durationSeconds` is not greater than 0, then a `MANIFEST_FRAMES` error
exactly when `totalFrames` is not greater than 0, and no other error. -/
theorem validateManifestInternal_Errors [GoFloatOrder F] (r : ValidationResult F)
    (m : Manifest F) :
    (validateManifestInternal r m).Errors =
      r.Errors ++
      (if GoFloat.lt (GoFloat.ofInt 0) m.DurationSeconds = true then []
       else [{ Code := "MANIFEST_DURATION", Field := "durationSeconds",
               Message := "must be positive, got " ++ GoFloat.fmt 3 m.DurationSeconds }]) ++
      (if m.TotalFrames > 0 then []
       else [{ Code := "MANIFEST_FRAMES", Field := "totalFrames",
               Message := "must be positive, got " ++ toString m.TotalFrames }]) := by
  unfold validateManifestInternal
  dsimp only
  rw [GoFloatOrder.le_eq_not_lt]
  by_cases hd : GoFloat.lt (GoFloat.ofInt 0) m.DurationSeconds = true <;>
    by_cases hf : m.TotalFrames > 0 <;>
    simp [hd, hf, ValidationResult.addError, ValidationResult.addWarning, not_lt.mp] <;>
    split_ifs <;> first | omega | simp

/-! ### Timing checks -/

omit [GoFloat F] in
theorem firstIndexMismatch_none (frames : List (FrameEntry F)) :
    ∀ k : Nat, (∀ j f, frames[j]? = some f → f.VideoFrameIndex = ((k + j : Nat) : Int)) →
      firstIndexMismatch frames k = none := by
  induction frames with
  | nil => intro k _; rfl
  | cons x rest ih =>
    intro k h
    have hx := h 0 x (by simp)
    rw [firstIndexMismatch, if_neg (by simpa using hx)]
    apply ih (k + 1)
    intro j f hf
    have := h (j + 1) f (by simpa using hf)
    rw [this]
    congr 1
    omega

omit [GoFloat F] in
theorem firstIndexMismatch_some (frames : List (FrameEntry F)) :
    ∀ (k i : Nat) (f : FrameEntry F), frames[i]? = some f →
      f.VideoFrameIndex ≠ ((k + i : Nat) : Int) →
      (∀ j, j < i → ∀ g, frames[j]? = some g → g.VideoFrameIndex = ((k + j : Nat) : Int)) →
      firstIndexMismatch frames k = some (k + i, f.VideoFrameIndex) := by
  induction frames with
  | nil => intro k i f hf; simp at hf
  | cons x rest ih =>
    intro k i f hf hne hmin
    cases i with
    | zero =>
      simp only [List.getElem?_cons_zero, Option.some.injEq] at hf
      subst hf
      rw [firstIndexMismatch, if_pos (by simpa using hne)]
      rfl
    | succ i =>
      have hx := hmin 0 (Nat.succ_pos i) x (by simp)
      rw [firstIndexMismatch, if_neg (by simpa using hx)]
      have := ih (k + 1) i f (by simpa using hf)
        (by rw [show k + 1 + i = k + (i + 1) by omega]; exact hne)
        (by
          intro j hj g hg
          have := hmin (j + 1) (by omega) g (by simpa using hg)
          rw [this]
          congr 1
          omega)
      rw [this]
      congr 2
      omega

/-- The `TIMING_INDEX_MISMATCH` entry for position `i` with declared index `idx`. -/
theorem validateTiming_indexMismatch_filter (r : ValidationResult F) (t : TimingData F) :
    (validateTiming r t).Errors.filter (fun e => e.Code = "TIMING_INDEX_MISMATCH") =
      r.Errors.filter (fun e => e.Code = "TIMING_INDEX_MISMATCH") ++
        match firstIndexMismatch t.Frames 0 with
        | some (i, idx) =>
          [{ Code := "TIMING_INDEX_MISMATCH", Field := "videoFrameIndex",
             Message := "videoFrameIndex should be sequential",
             Got := "frame[" ++ toString i ++ "].videoFrameIndex = " ++ toString idx,
             Want := toString i }]
        | none => [] := by
  unfold validateTiming
  cases hfr : t.Frames with
  | nil => simp [ValidationResult.addError, firstIndexMismatch]
  | cons first rest =>
    dsimp only
    cases firstIndexMismatch (first :: rest) 0 <;>
      cases firstDecrease first.TimestampMs rest 1 <;> dsimp only <;> split_ifs <;>
      simp [ValidationResult.addError, ValidationResult.addWarning,
        ValidationResult.addErrorWithValues]

/-- C17: `validateTiming` adds no `TIMING_INDEX_MISMATCH` error when every
entry's `videoFrameIndex` equals its position; when some entry's index differs
from its position it adds exactly one, for the smallest such position `i`, with
that position as the wanted value. -/
theorem validateTiming_indexMismatch (r : ValidationResult F) (t : TimingData F) :
    ((∀ (j : Nat) (f : FrameEntry F), t.Frames[j]? = some f → f.VideoFrameIndex = (j : Int)) →
      (validateTiming r t).Errors.filter (fun e => e.Code = "TIMING_INDEX_MISMATCH") =
        r.Errors.filter (fun e => e.Code = "TIMING_INDEX_MISMATCH")) ∧
    (∀ (i : Nat) (f : FrameEntry F), t.Frames[i]? = some f → f.VideoFrameIndex ≠ (i : Int) →
      (∀ j : Nat, j < i → ∀ g : FrameEntry F, t.Frames[j]? = some g →
        g.VideoFrameIndex = (j : Int)) →
      (validateTiming r t).Errors.filter (fun e => e.Code = "TIMING_INDEX_MISMATCH") =
        r.Errors.filter (fun e => e.Code = "TIMING_INDEX_MISMATCH") ++
          [{ Code := "TIMING_INDEX_MISMATCH", Field := "videoFrameIndex",
             Message := "videoFrameIndex should be sequential",
             Got := "frame[" ++ toString i ++ "].videoFrameIndex = " ++
               toString f.VideoFrameIndex,
             Want := toString i }]) := by
  constructor
  · intro h
    rw [validateTiming_indexMismatch_filter,
      firstIndexMismatch_none t.Frames 0 (by simpa using h)]
    simp
  · intro i f hf hne hmin
    rw [validateTiming_indexMismatch_filter,
      firstIndexMismatch_some t.Frames 0 i f hf (by simpa using hne) (by simpa using hmin)]
    simp

theorem firstDecrease_none_iff (rest : List (FrameEntry F)) :
    ∀ (x : FrameEntry F) (k : Nat),
      firstDecrease x.TimestampMs rest k = none ↔
      ∀ (i : Nat) (a b : FrameEntry F), (x :: rest)[i]? = some a →
        (x :: rest)[i + 1]? = some b → GoFloat.lt b.TimestampMs a.TimestampMs = false := by
  induction rest with
  | nil =>
    intro x k
    simp [firstDecrease]
  | cons y ys ih =>
    intro x k
    rw [firstDecrease]
    by_cases hlt : GoFloat.lt y.TimestampMs x.TimestampMs = true
    · rw [if_pos hlt]
      constructor
      · intro h; cases h
      · intro h
        have := h 0 x y (by simp) (by simp)
        rw [hlt] at this
        cases this
    · rw [if_neg hlt, ih y (k + 1)]
      constructor
      · intro h i a b ha hb
        cases i with
        | zero =>
          simp only [List.getElem?_cons_zero, Option.some.injEq] at ha
          simp only [zero_add, List.getElem?_cons_succ, List.getElem?_cons_zero,
            Option.some.injEq] at hb
          subst ha hb
          simpa using hlt
        | succ i => exact h i a b (by simpa using ha) (by simpa using hb)
      · intro h i a b ha hb
        exact h (i + 1) a b (by simpa using ha) (by simpa using hb)

theorem firstDecrease_some (rest : List (FrameEntry F)) :
    ∀ (x : FrameEntry F) (k i : Nat) (a b : FrameEntry F),
      (x :: rest)[i]? = some a → (x :: rest)[i + 1]? = some b →
      GoFloat.lt b.TimestampMs a.TimestampMs = true →
      (∀ j : Nat, j < i → ∀ c d : FrameEntry F, (x :: rest)[j]? = some c →
        (x :: rest)[j + 1]? = some d → GoFloat.lt d.TimestampMs c.TimestampMs = false) →
      firstDecrease x.TimestampMs rest k = some (k + i, a.TimestampMs, b.TimestampMs) := by
  induction rest with
  | nil =>
    intro x k i a b _ hb
    simp at hb
  | cons y ys ih =>
    intro x k i a b ha hb hlt hmin
    rw [firstDecrease]
    cases i with
    | zero =>
      simp only [List.getElem?_cons_zero, Option.some.injEq] at ha
      simp only [zero_add, List.getElem?_cons_succ, List.getElem?_cons_zero,
        Option.some.injEq] at hb
      subst ha hb
      rw [if_pos hlt]
      rfl
    | succ i =>
      have h0 := hmin 0 (Nat.succ_pos i) x y (by simp) (by simp)
      rw [if_neg (by simp [h0])]
      rw [ih y (k + 1) i a b (by simpa using ha) (by simpa using hb) hlt
        (fun j hj c d hc hd => hmin (j + 1) (by omega) c d (by simpa using hc)
          (by simpa using hd))]
      congr 2
      omega

/-- The `TIMING_NON_MONOTONIC` errors after `validateTiming`: those before, and
one more for the first decrease the scan finds. -/
theorem validateTiming_nonMonotonic_filter (r : ValidationResult F) (t : TimingData F) :
    (validateTiming r t).Errors.filter (fun e => e.Code = "TIMING_NON_MONOTONIC") =
      r.Errors.filter (fun e => e.Code = "TIMING_NON_MONOTONIC") ++
        match t.Frames with
        | [] => []
        | first :: rest =>
          match firstDecrease first.TimestampMs rest 1 with
          | some (i, before, after) =>
            [{ Code := "TIMING_NON_MONOTONIC", Field := "timestampMs",
               Message := "timestamp decreased at frame " ++ toString i ++ ": " ++
                 GoFloat.fmt 1 before ++ "ms -> " ++ GoFloat.fmt 1 after ++ "ms" }]
          | none => [] := by
  unfold validateTiming
  cases hfr : t.Frames with
  | nil => simp [ValidationResult.addError]
  | cons first rest =>
    dsimp only
    cases firstIndexMismatch (first :: rest) 0 <;>
      cases firstDecrease first.TimestampMs rest 1 <;> dsimp only <;> split_ifs <;>
      simp [ValidationResult.addError, ValidationResult.addWarning,
        ValidationResult.addErrorWithValues]

theorem validateTiming_invalid_of_decrease (r : ValidationResult F) (t : TimingData F)
    (first : FrameEntry F) (rest : List (FrameEntry F)) (hfr : t.Frames = first :: rest)
    (d : Nat × F × F) (hd : firstDecrease first.TimestampMs rest 1 = some d) :
    (validateTiming r t).Valid = false := by
  unfold validateTiming
  rw [hfr]
  dsimp only
  rw [hd]
  rfl

/-- C11: `validateTiming` adds no `TIMING_NON_MONOTONIC` error when no entry's
timestamp is smaller than its predecessor's; when some entry's timestamp is
smaller than its predecessor's it adds exactly one and the report is invalid;
the error reports the first such entry. -/
theorem validateTiming_nonMonotonic (r : ValidationResult F) (t : TimingData F) :
    ((∀ (i : Nat) (a b : FrameEntry F), t.Frames[i]? = some a → t.Frames[i + 1]? = some b →
        GoFloat.lt b.TimestampMs a.TimestampMs = false) →
      (validateTiming r t).Errors.filter (fun e => e.Code = "TIMING_NON_MONOTONIC") =
        r.Errors.filter (fun e => e.Code = "TIMING_NON_MONOTONIC")) ∧
    ((∃ (i : Nat) (a b : FrameEntry F), t.Frames[i]? = some a ∧ t.Frames[i + 1]? = some b ∧
        GoFloat.lt b.TimestampMs a.TimestampMs = true) →
      countCode "TIMING_NON_MONOTONIC" (validateTiming r t).Errors =
        countCode "TIMING_NON_MONOTONIC" r.Errors + 1 ∧
      (validateTiming r t).Valid = false) ∧
    (∀ (i : Nat) (a b : FrameEntry F), t.Frames[i]? = some a → t.Frames[i + 1]? = some b →
      GoFloat.lt b.TimestampMs a.TimestampMs = true →
      (∀ j : Nat, j < i → ∀ c d : FrameEntry F, t.Frames[j]? = some c →
        t.Frames[j + 1]? = some d → GoFloat.lt d.TimestampMs c.TimestampMs = false) →
      (validateTiming r t).Errors.filter (fun e => e.Code = "TIMING_NON_MONOTONIC") =
        r.Errors.filter (fun e => e.Code = "TIMING_NON_MONOTONIC") ++
          [{ Code := "TIMING_NON_MONOTONIC", Field := "timestampMs",
             Message := "timestamp decreased at frame " ++ toString (i + 1) ++ ": " ++
               GoFloat.fmt 1 a.TimestampMs ++ "ms -> " ++
               GoFloat.fmt 1 b.TimestampMs ++ "ms" }]) := by
  refine ⟨?_, ?_, ?_⟩
  · intro h
    rw [validateTiming_nonMonotonic_filter]
    cases hfr : t.Frames with
    | nil => simp
    | cons first rest =>
      rw [hfr] at h
      dsimp only
      rw [(firstDecrease_none_iff rest first 1).mpr h]
      simp
  · rintro ⟨i, a, b, ha, hb, hlt⟩
    cases hfr : t.Frames with
    | nil => rw [hfr] at ha; simp at ha
    | cons first rest =>
      rw [hfr] at ha hb
      cases hd : firstDecrease first.TimestampMs rest 1 with
      | none =>
        have := (firstDecrease_none_iff rest first 1).mp hd i a b ha hb
        rw [hlt] at this
        cases this
      | some d =>
        refine ⟨?_, validateTiming_invalid_of_decrease r t first rest hfr d hd⟩
        unfold countCode
        rw [List.countP_eq_length_filter, List.countP_eq_length_filter,
          validateTiming_nonMonotonic_filter, hfr]
        simp [hd]
  · intro i a b ha hb hlt hmin
    rw [validateTiming_nonMonotonic_filter]
    cases hfr : t.Frames with
    | nil => rw [hfr] at ha; simp at ha
    | cons first rest =>
      rw [hfr] at ha hb hmin
      dsimp only
      rw [firstDecrease_some rest first 1 i a b ha hb hlt hmin]
      simp [Nat.add_comm]

/-! ### The duration cross check -/

/-- The `DURATION_MISMATCH` entry for a manifest duration against a
timing-derived duration, given their absolute difference. -/
theorem validateManifestVsTiming_durationMismatch (r : ValidationResult F) (m : Manifest F)
    (t : TimingData F) :
    (validateManifestVsTiming r m t).Warnings.filter
        (fun e => e.Code = "DURATION_MISMATCH") =
      r.Warnings.filter (fun e => e.Code = "DURATION_MISMATCH") ++
        (if GoFloat.lt GoFloat.tenth
            (GoFloat.abs (GoFloat.sub m.DurationSeconds
              (GoFloat.div r.Stats.TimingDurationMs (GoFloat.ofInt 1000)))) = true
         then
          [{ Code := "DURATION_MISMATCH", Field := "durationSeconds",
             Message := "manifest duration differs from timing.json by " ++
               GoFloat.fmt 1 (GoFloat.mul
                 (GoFloat.abs (GoFloat.sub m.DurationSeconds
                   (GoFloat.div r.Stats.TimingDurationMs (GoFloat.ofInt 1000))))
                 (GoFloat.ofInt 1000)) ++ "ms",
             Got := GoFloat.fmt 3 m.DurationSeconds ++ "s",
             Want := GoFloat.fmt 3
               (GoFloat.div r.Stats.TimingDurationMs (GoFloat.ofInt 1000)) ++ "s" }]
         else []) := by
  unfold validateManifestVsTiming
  dsimp only
  split_ifs <;>
    simp_all [ValidationResult.addWarning, ValidationResult.addWarningWithValues,
      ValidationResult.addErrorWithValues]

theorem validateTiming_durationMismatch (r : ValidationResult F) (t : TimingData F) :
    (validateTiming r t).Warnings.filter (fun e => e.Code = "DURATION_MISMATCH") =
      r.Warnings.filter (fun e => e.Code = "DURATION_MISMATCH") := by
  unfold validateTiming
  cases hfr : t.Frames with
  | nil => simp [ValidationResult.addError]
  | cons first rest =>
    dsimp only
    cases firstIndexMismatch (first :: rest) 0 <;>
      cases firstDecrease first.TimestampMs rest 1 <;> dsimp only <;> split_ifs <;>
      simp [ValidationResult.addError, ValidationResult.addWarning,
        ValidationResult.addErrorWithValues]

/-- After `validateTiming` on a non-empty trace the statistics hold the
timing-derived duration: last timestamp minus first. -/
theorem validateTiming_TimingDurationMs (r : ValidationResult F) (t : TimingData F)
    (first : FrameEntry F) (rest : List (FrameEntry F)) (hfr : t.Frames = first :: rest) :
    (validateTiming r t).Stats.TimingDurationMs =
      GoFloat.sub ((first :: rest).getLast (List.cons_ne_nil first rest)).TimestampMs
        first.TimestampMs := by
  unfold validateTiming
  rw [hfr]
  dsimp only
  cases firstIndexMismatch (first :: rest) 0 <;>
    cases firstDecrease first.TimestampMs rest 1 <;> dsimp only <;> split_ifs <;> rfl

theorem validateManifestInternal_durationMismatch (r : ValidationResult F) (m : Manifest F) :
    (validateManifestInternal r m).Warnings.filter (fun e => e.Code = "DURATION_MISMATCH") =
      r.Warnings.filter (fun e => e.Code = "DURATION_MISMATCH") := by
  unfold validateManifestInternal
  dsimp only
  split_ifs <;> simp [ValidationResult.addError, ValidationResult.addWarning]

theorem validateInputs_durationMismatch (r : ValidationResult F) (i : InputData F)
    (m : Manifest F) :
    (validateInputs r i m).Warnings.filter (fun e => e.Code = "DURATION_MISMATCH") =
      r.Warnings.filter (fun e => e.Code = "DURATION_MISMATCH") := by
  unfold validateInputs
  dsimp only
  split_ifs <;> simp [ValidationResult.addWarning]

/-- C12: for a manifest and a non-empty timing trace, the report holds exactly
one `DURATION_MISMATCH` warning when the absolute difference between the
manifest duration and the timing-derived duration (last minus first timestamp,
divided by 1000) exceeds 0.1, and none otherwise. -/
theorem ValidateBundle_durationMismatch (env : Env F) (bundlePath : String) (m : Manifest F)
    (t : TimingData F) (first : FrameEntry F) (rest : List (FrameEntry F))
    (hm : loadManifest env bundlePath = .ok m) (ht : loadTiming env bundlePath = .ok t)
    (hfr : t.Frames = first :: rest) :
    (ValidateBundle env bundlePath).Warnings.filter (fun e => e.Code = "DURATION_MISMATCH") =
      if GoFloat.lt GoFloat.tenth
          (GoFloat.abs (GoFloat.sub m.DurationSeconds
            (GoFloat.div
              (GoFloat.sub ((first :: rest).getLast (List.cons_ne_nil first rest)).TimestampMs
                first.TimestampMs)
              (GoFloat.ofInt 1000)))) = true
      then
        [{ Code := "DURATION_MISMATCH", Field := "durationSeconds",
           Message := "manifest duration differs from timing.json by " ++
             GoFloat.fmt 1 (GoFloat.mul
               (GoFloat.abs (GoFloat.sub m.DurationSeconds
                 (GoFloat.div
                   (GoFloat.sub
                     ((first :: rest).getLast (List.cons_ne_nil first rest)).TimestampMs
                     first.TimestampMs)
                   (GoFloat.ofInt 1000))))
               (GoFloat.ofInt 1000)) ++ "ms",
           Got := GoFloat.fmt 3 m.DurationSeconds ++ "s",
           Want := GoFloat.fmt 3
             (GoFloat.div
               (GoFloat.sub ((first :: rest).getLast (List.cons_ne_nil first rest)).TimestampMs
                 first.TimestampMs)
               (GoFloat.ofInt 1000)) ++ "s" }]
      else [] := by
  unfold ValidateBundle
  dsimp only
  rw [hm, ht]
  dsimp only
  cases loadInputs env bundlePath <;> dsimp only <;>
    simp only [validateInputs_durationMismatch, validateManifestVsTiming_durationMismatch,
      validateTiming_durationMismatch, validateManifestInternal_durationMismatch,
      validateTiming_TimingDurationMs _ t first rest hfr] <;>
    simp [ValidationResult.addWarning]

/-! ### Input checks: timestamps outside the video -/

/-- The `INPUTS_OUT_OF_RANGE` warnings after `validateInputs`: those before, and
one more carrying the count when the count is positive. -/
theorem validateInputs_outOfRange_filter (r : ValidationResult F) (inputs : InputData F)
    (m : Manifest F) :
    (validateInputs r inputs m).Warnings.filter (fun e => e.Code = "INPUTS_OUT_OF_RANGE") =
      r.Warnings.filter (fun e => e.Code = "INPUTS_OUT_OF_RANGE") ++
        (if inputs.Events.countP (fun event =>
            GoFloat.lt event.TimestampMs (GoFloat.ofInt 0) ||
              GoFloat.lt (GoFloat.add (GoFloat.mul m.DurationSeconds (GoFloat.ofInt 1000))
                (GoFloat.ofInt 100)) event.TimestampMs) > 0
         then
          [{ Code := "INPUTS_OUT_OF_RANGE", Field := "timestampMs",
             Message := toString (inputs.Events.countP (fun event =>
                 GoFloat.lt event.TimestampMs (GoFloat.ofInt 0) ||
                   GoFloat.lt (GoFloat.add (GoFloat.mul m.DurationSeconds (GoFloat.ofInt 1000))
                     (GoFloat.ofInt 100)) event.TimestampMs)) ++
               " input events outside video duration [0, " ++
               GoFloat.fmt 1 (GoFloat.mul m.DurationSeconds (GoFloat.ofInt 1000)) ++ "ms]" }]
         else []) := by
  unfold validateInputs
  dsimp only
  by_cases he : inputs.Events.length = 0
  · have : inputs.Events = [] := List.eq_nil_of_length_eq_zero he
    simp [this, ValidationResult.addWarning]
  · rw [if_neg he]
    split_ifs <;> simp [ValidationResult.addWarning]

/-- C18: `validateInputs` emits no `INPUTS_OUT_OF_RANGE` warning when every
event's timestamp lies in `[0, durationSeconds*1000 + 100]`, and exactly one,
carrying the number of events outside that interval, when at least one event's
timestamp is below 0 or above `durationSeconds*1000 + 100`. -/
theorem validateInputs_outOfRange [GoFloatOrder F] (r : ValidationResult F)
    (inputs : InputData F) (m : Manifest F) :
    ((∀ e ∈ inputs.Events,
        GoFloat.le (GoFloat.ofInt 0) e.TimestampMs = true ∧
        GoFloat.le e.TimestampMs
          (GoFloat.add (GoFloat.mul m.DurationSeconds (GoFloat.ofInt 1000))
            (GoFloat.ofInt 100)) = true) →
      (validateInputs r inputs m).Warnings.filter (fun e => e.Code = "INPUTS_OUT_OF_RANGE") =
        r.Warnings.filter (fun e => e.Code = "INPUTS_OUT_OF_RANGE")) ∧
    ((∃ e ∈ inputs.Events,
        GoFloat.lt e.TimestampMs (GoFloat.ofInt 0) = true ∨
        GoFloat.lt (GoFloat.add (GoFloat.mul m.DurationSeconds (GoFloat.ofInt 1000))
          (GoFloat.ofInt 100)) e.TimestampMs = true) →
      (validateInputs r inputs m).Warnings.filter (fun e => e.Code = "INPUTS_OUT_OF_RANGE") =
        r.Warnings.filter (fun e => e.Code = "INPUTS_OUT_OF_RANGE") ++
          [{ Code := "INPUTS_OUT_OF_RANGE", Field := "timestampMs",
             Message := toString ((inputs.Events.filter (fun event =>
                 GoFloat.lt event.TimestampMs (GoFloat.ofInt 0) ||
                   GoFloat.lt (GoFloat.add (GoFloat.mul m.DurationSeconds (GoFloat.ofInt 1000))
                     (GoFloat.ofInt 100)) event.TimestampMs)).length) ++
               " input events outside video duration [0, " ++
               GoFloat.fmt 1 (GoFloat.mul m.DurationSeconds (GoFloat.ofInt 1000)) ++
               "ms]" }]) := by
  constructor
  · intro h
    rw [validateInputs_outOfRange_filter]
    have h0 : inputs.Events.countP (fun event =>
        GoFloat.lt event.TimestampMs (GoFloat.ofInt 0) ||
          GoFloat.lt (GoFloat.add (GoFloat.mul m.DurationSeconds (GoFloat.ofInt 1000))
            (GoFloat.ofInt 100)) event.TimestampMs) = 0 := by
      rw [List.countP_eq_zero]
      intro e he
      have := h e he
      rw [GoFloatOrder.le_eq_not_lt, GoFloatOrder.le_eq_not_lt] at this
      simpa using this
    rw [h0]
    simp
  · rintro ⟨e, he, hout⟩
    rw [validateInputs_outOfRange_filter]
    have hpos : inputs.Events.countP (fun event =>
        GoFloat.lt event.TimestampMs (GoFloat.ofInt 0) ||
          GoFloat.lt (GoFloat.add (GoFloat.mul m.DurationSeconds (GoFloat.ofInt 1000))
            (GoFloat.ofInt 100)) event.TimestampMs) > 0 := by
      rw [gt_iff_lt, List.countP_pos_iff]
      exact ⟨e, he, by simpa using hout⟩
    rw [if_pos hpos, List.countP_eq_length_filter]

/-! ### Sorting key names -/

theorem strLt_asymm : ∀ a b : List Char, strLt a b = true → strLt b a = false := by
  intro a
  induction a with
  | nil =>
    intro b _
    cases b <;> rfl
  | cons x xs ih =>
    intro b h
    cases b with
    | nil => simp [strLt] at h
    | cons y ys =>
      simp only [strLt, Bool.or_eq_true, decide_eq_true_eq, Bool.and_eq_true] at h
      simp only [strLt, Bool.or_eq_false_iff, decide_eq_false_iff_not, Bool.and_eq_false_iff]
      rcases h with h | ⟨h1, h2⟩
      · refine ⟨by omega, Or.inl ?_⟩
        intro hxy
        rw [hxy] at h
        omega
      · subst h1
        exact ⟨by omega, Or.inr (ih ys h2)⟩

theorem strLt_connected : ∀ a b : List Char, strLt a b = false → strLt b a = false → a = b := by
  intro a
  induction a with
  | nil =>
    intro b h _
    cases b with
    | nil => rfl
    | cons y ys => simp [strLt] at h
  | cons x xs ih =>
    intro b h1 h2
    cases b with
    | nil => simp [strLt] at h2
    | cons y ys =>
      simp only [strLt, Bool.or_eq_false_iff, decide_eq_false_iff_not, Bool.and_eq_false_iff,
        decide_eq_false_iff_not] at h1 h2
      have hxy : x = y := by
        apply Char.ext
        apply UInt32.ext
        have : x.toNat = y.toNat := by omega
        simpa [Char.toNat] using this
      subst hxy
      rw [ih ys (by simpa using h1.2) (by simpa using h2.2)]

theorem strLt_negtrans : ∀ a b c : List Char,
    strLt a c = true → strLt a b = true ∨ strLt b c = true := by
  intro a
  induction a with
  | nil =>
    intro b c h
    cases c with
    | nil => simp [strLt] at h
    | cons z zs =>
      cases b with
      | nil => right; rfl
      | cons y ys => left; rfl
  | cons x xs ih =>
    intro b c h
    cases c with
    | nil => simp [strLt] at h
    | cons z zs =>
      cases b with
      | nil => right; rfl
      | cons y ys =>
        simp only [strLt, Bool.or_eq_true, decide_eq_true_eq, Bool.and_eq_true] at h ⊢
        rcases h with h | ⟨h1, h2⟩
        · by_cases hxy : x.toNat < y.toNat
          · exact Or.inl (Or.inl hxy)
          · by_cases hyz : y.toNat < z.toNat
            · exact Or.inr (Or.inl hyz)
            · omega
        · subst h1
          by_cases hxy : x.toNat < y.toNat
          · exact Or.inl (Or.inl hxy)
          · by_cases hyx : y.toNat < x.toNat
            · exact Or.inr (Or.inl hyx)
            · have hxy' : x = y := by
                apply Char.ext
                apply UInt32.ext
                have : x.toNat = y.toNat := by omega
                simpa [Char.toNat] using this
              subst hxy'
              rcases ih ys zs h2 with h | h
              · exact Or.inl (Or.inr ⟨rfl, h⟩)
              · exact Or.inr (Or.inr ⟨rfl, h⟩)

theorem insertSorted_perm (k : String) (xs : List String) :
    (insertSorted k xs).Perm (k :: xs) := by
  induction xs with
  | nil => exact List.Perm.refl _
  | cons x rest ih =>
    rw [insertSorted]
    split_ifs
    · exact (List.Perm.cons x ih).trans (List.Perm.swap k x rest)
    · exact List.Perm.refl _

theorem sortStrings_perm (keys : List String) : (sortStrings keys).Perm keys := by
  induction keys with
  | nil => exact List.Perm.refl _
  | cons k rest ih =>
    show (insertSorted k (sortStrings rest)).Perm (k :: rest)
    exact (insertSorted_perm k _).trans (List.Perm.cons k ih)

theorem insertSorted_sorted (k : String) (xs : List String)
    (h : xs.Pairwise (fun a b => strLt b.data a.data = false)) :
    (insertSorted k xs).Pairwise (fun a b => strLt b.data a.data = false) := by
  induction xs with
  | nil => simp [insertSorted]
  | cons x rest ih =>
    rw [insertSorted]
    have hx := List.pairwise_cons.mp h
    split_ifs with hlt
    · refine List.pairwise_cons.mpr ⟨?_, ih hx.2⟩
      intro y hy
      rcases List.mem_cons.mp ((insertSorted_perm k rest).mem_iff.mp hy) with h1 | h1
      · rw [h1]
        exact strLt_asymm _ _ hlt
      · exact hx.1 y h1
    · refine List.pairwise_cons.mpr ⟨?_, h⟩
      intro y hy
      rcases List.mem_cons.mp hy with h1 | h1
      · rw [h1]
        simpa using hlt
      · have hxy := hx.1 y h1
        cases hyk : strLt y.data k.data with
        | false => rfl
        | true =>
          rcases strLt_negtrans y.data x.data k.data hyk with h2 | h2
          · rw [hxy] at h2; cases h2
          · exact absurd h2 hlt

theorem sortStrings_sorted (keys : List String) :
    (sortStrings keys).Pairwise (fun a b => strLt b.data a.data = false) := by
  induction keys with
  | nil => simp [sortStrings]
  | cons k rest ih => exact insertSorted_sorted k _ ih

/-- Sorting distinct names gives a strictly ascending list. -/
theorem sortStrings_strict (keys : List String) (hnd : keys.Nodup) :
    (sortStrings keys).Pairwise (fun a b => strLt a.data b.data = true) := by
  have hs := sortStrings_sorted keys
  have hn : (sortStrings keys).Nodup := (sortStrings_perm keys).nodup_iff.mpr hnd
  have := hs.and hn
  refine this.imp ?_
  intro a b hab
  cases h : strLt a.data b.data with
  | true => rfl
  | false =>
    exfalso
    apply hab.2
    have := strLt_connected a.data b.data h hab.1
    exact String.ext this

/-- A strictly ascending list is determined by its elements. -/
theorem ascending_unique (L L' : List String)
    (h : L.Pairwise (fun a b => strLt a.data b.data = true))
    (h' : L'.Pairwise (fun a b => strLt a.data b.data = true)) (hp : L'.Perm L) :
    L' = L := by
  haveI : IsAntisymm String (fun a b => strLt a.data b.data = true) :=
    ⟨fun a b hab hba => by rw [strLt_asymm _ _ hab] at hba; cases hba⟩
  exact List.eq_of_perm_of_sorted hp h' h

/-- Sorting visits of the same distinct names in any order gives the same
list. -/
theorem sortStrings_order_independent (keys keys' : List String) (hnd : keys.Nodup)
    (hp : keys'.Perm keys) : sortStrings keys' = sortStrings keys :=
  ascending_unique _ _ (sortStrings_strict keys hnd)
    (sortStrings_strict keys' (hp.nodup_iff.mpr hnd))
    (((sortStrings_perm keys').trans hp).trans (sortStrings_perm keys).symm)

/-! ### Input checks: KeyDown without KeyUp -/

omit [GoFloat F] in
theorem unmatched_nil (k : String) : ¬ Unmatched ([] : List (InputEvent F)) k := by
  rintro ⟨pre, e, post, h, _⟩
  simp at h

omit [GoFloat F] in
/-- Extending a trace by one event: the new event opens its key if it is a
`KeyDown`; a key open before stays open unless the event is its `KeyUp`. -/
theorem unmatched_append_singleton (events : List (InputEvent F)) (e : InputEvent F)
    (k : String) :
    Unmatched (events ++ [e]) k ↔
      (e.InputType = "KeyDown" ∧ e.KeyName = k) ∨
      (Unmatched events k ∧ ¬ (e.InputType = "KeyUp" ∧ e.KeyName = k)) := by
  constructor
  · rintro ⟨pre, d, post, hsplit, hd, hk, hpost⟩
    rcases List.eq_nil_or_concat post with hnil | ⟨post', l, hpost'⟩
    · subst hnil
      have h := List.append_inj' hsplit rfl
      have hed : e = d := by simpa using h.2
      subst hed
      exact Or.inl ⟨hd, hk⟩
    · subst hpost'
      have hsplit' : events ++ [e] = (pre ++ d :: post') ++ [l] := by
        rw [hsplit]
        simp
      have h := List.append_inj' hsplit' rfl
      have hel : e = l := by simpa using h.2
      subst hel
      right
      refine ⟨⟨pre, d, post', h.1, hd, hk, ?_⟩, ?_⟩
      · intro e' he'
        exact hpost e' (by simp [he'])
      · exact hpost e (by simp)
  · rintro (⟨hd, hk⟩ | ⟨⟨pre, d, post, hsplit, hd, hk, hpost⟩, hne⟩)
    · exact ⟨events, e, [], rfl, hd, hk, by simp⟩
    · refine ⟨pre, d, post ++ [e], by rw [hsplit]; simp, hd, hk, ?_⟩
      intro e' he'
      rcases List.mem_append.mp he' with h | h
      · exact hpost e' h
      · have : e' = e := by simpa using h
        rw [this]
        exact hne

omit [GoFloat F] in
theorem mapSet_keys (m : List (String × F)) (key : String) (v : F) :
    (mapSet m key v).map (fun kv => kv.1) =
      if key ∈ m.map (fun kv => kv.1) then m.map (fun kv => kv.1)
      else m.map (fun kv => kv.1) ++ [key] := by
  unfold mapSet
  by_cases h : key ∈ m.map (fun kv => kv.1)
  · have hany : m.any (fun kv => decide (kv.1 = key)) = true := by
      obtain ⟨kv, hkv, hk⟩ := List.mem_map.mp h
      exact List.any_eq_true.mpr ⟨kv, hkv, by simpa using hk⟩
    rw [if_pos hany, if_pos h, List.map_map]
    apply List.map_congr_left
    intro kv _
    by_cases hk : kv.1 = key
    · simp [hk]
    · simp [hk]
  · have hany : ¬ m.any (fun kv => decide (kv.1 = key)) = true := by
      intro hany
      obtain ⟨kv, hkv, hk⟩ := List.any_eq_true.mp hany
      exact h (List.mem_map.mpr ⟨kv, hkv, by simpa using hk⟩)
    rw [if_neg hany, if_neg h]
    simp

omit [GoFloat F] in
theorem mapDelete_keys (m : List (String × F)) (key : String) :
    (mapDelete m key).map (fun kv => kv.1) =
      (m.map (fun kv => kv.1)).filter (fun k => k ≠ key) := by
  unfold mapDelete
  rw [List.filter_map]
  rfl

/-- The keys of the map `keyDowns` after one iteration of the scan. -/
theorem scanEvent_keys (s : InputScan F) (e : InputEvent F) :
    (scanEvent s e).keyDowns.map (fun kv => kv.1) =
      if e.InputType = "KeyDown" then
        (if e.KeyName ∈ s.keyDowns.map (fun kv => kv.1) then s.keyDowns.map (fun kv => kv.1)
         else s.keyDowns.map (fun kv => kv.1) ++ [e.KeyName])
      else if e.InputType = "KeyUp" then
        (s.keyDowns.map (fun kv => kv.1)).filter (fun k => k ≠ e.KeyName)
      else s.keyDowns.map (fun kv => kv.1) := by
  unfold scanEvent
  dsimp only
  by_cases hd : e.InputType = "KeyDown"
  · have hp : strings.HasPrefix "KeyDown" "Key" = true := by decide
    simp only [hd, hp, if_true]
    split_ifs <;> simp_all [mapSet_keys]
  · by_cases hu : e.InputType = "KeyUp"
    · have hp : strings.HasPrefix "KeyUp" "Key" = true := by decide
      have hne : ¬ ("KeyUp" = "KeyDown") := by decide
      simp only [hu, hp, hne, if_true, if_false]
      split_ifs <;> simp [mapDelete_keys]
    · simp only [hd, hu, if_false]
      split_ifs <;> rfl

/-- After the scan of a trace, the keys of `keyDowns` are distinct and are
exactly the key names with a `KeyDown` that no later `KeyUp` follows. -/
theorem scan_keys (events : List (InputEvent F)) (s0 : InputScan F)
    (h0 : s0.keyDowns = []) :
    ((events.foldl scanEvent s0).keyDowns.map (fun kv => kv.1)).Nodup ∧
    ∀ k, k ∈ (events.foldl scanEvent s0).keyDowns.map (fun kv => kv.1) ↔
      Unmatched events k := by
  induction events using List.reverseRecOn with
  | nil =>
    simp only [List.foldl_nil, h0, List.map_nil, List.nodup_nil, List.not_mem_nil, true_and,
      false_iff]
    exact fun k => unmatched_nil k
  | append_singleton pre e ih =>
    rw [List.foldl_append, List.foldl_cons, List.foldl_nil, scanEvent_keys]
    obtain ⟨hnd, hmem⟩ := ih
    by_cases hd : e.InputType = "KeyDown"
    · rw [if_pos hd]
      by_cases hin : e.KeyName ∈ (pre.foldl scanEvent s0).keyDowns.map (fun kv => kv.1)
      · rw [if_pos hin]
        refine ⟨hnd, fun k => ?_⟩
        rw [unmatched_append_singleton, hmem k]
        constructor
        · intro hk
          by_cases hke : e.KeyName = k
          · exact Or.inl ⟨hd, hke⟩
          · exact Or.inr ⟨hk, fun h => hke h.2⟩
        · rintro (⟨_, hke⟩ | ⟨hk, _⟩)
          · rw [← hke]
            exact (hmem _).mp hin
          · exact hk
      · rw [if_neg hin]
        refine ⟨List.Nodup.append hnd (List.nodup_singleton _) (by simpa using hin),
          fun k => ?_⟩
        rw [unmatched_append_singleton, List.mem_append, hmem k, List.mem_singleton]
        constructor
        · rintro (hk | hk)
          · refine Or.inr ⟨hk, ?_⟩
            rintro ⟨hu, _⟩
            rw [hd] at hu
            exact absurd hu (by decide)
          · exact Or.inl ⟨hd, hk.symm⟩
        · rintro (⟨_, hke⟩ | ⟨hk, _⟩)
          · exact Or.inr hke.symm
          · exact Or.inl hk
    · rw [if_neg hd]
      by_cases hu : e.InputType = "KeyUp"
      · rw [if_pos hu]
        refine ⟨hnd.filter _, fun k => ?_⟩
        rw [unmatched_append_singleton, List.mem_filter, hmem k]
        constructor
        · rintro ⟨hk, hne⟩
          exact Or.inr ⟨hk, fun h => by simp [h.2] at hne⟩
        · rintro (⟨hd', _⟩ | ⟨hk, hne⟩)
          · exact absurd hd' hd
          · refine ⟨hk, ?_⟩
            have : k ≠ e.KeyName := fun h => hne ⟨hu, h.symm⟩
            simpa using this
      · rw [if_neg hu]
        refine ⟨hnd, fun k => ?_⟩
        rw [unmatched_append_singleton, hmem k]
        constructor
        · intro hk
          exact Or.inr ⟨hk, fun h => hu h.1⟩
        · rintro (⟨hd', _⟩ | ⟨hk, _⟩)
          · exact absurd hd' hd
          · exact hk

/-- The `INPUTS_UNMATCHED_KEYDOWN` warnings after `validateInputs`: those before,
and one more listing the sorted keys of `keyDowns` when that map is not empty. -/
theorem validateInputs_unmatched_filter (r : ValidationResult F) (inputs : InputData F)
    (m : Manifest F) :
    (validateInputs r inputs m).Warnings.filter
        (fun e => e.Code = "INPUTS_UNMATCHED_KEYDOWN") =
      r.Warnings.filter (fun e => e.Code = "INPUTS_UNMATCHED_KEYDOWN") ++
        (if (inputs.Events.foldl scanEvent
              { keyboardCount := 0, mouseCount := 0, minTs := GoFloat.maxFloat,
                maxTs := GoFloat.ofInt 0, keyDowns := [] }).keyDowns.map (fun kv => kv.1) = []
         then []
         else
          [{ Code := "INPUTS_UNMATCHED_KEYDOWN", Field := "",
             Message := "KeyDown without KeyUp: " ++
               fmtStrings (sortStrings ((inputs.Events.foldl scanEvent
                 { keyboardCount := 0, mouseCount := 0, minTs := GoFloat.maxFloat,
                   maxTs := GoFloat.ofInt 0, keyDowns := [] }).keyDowns.map
                     (fun kv => kv.1))) }]) := by
  unfold validateInputs
  dsimp only
  by_cases he : inputs.Events.length = 0
  · have : inputs.Events = [] := List.eq_nil_of_length_eq_zero he
    simp [this, ValidationResult.addWarning]
  · rw [if_neg he]
    split_ifs <;> simp_all [ValidationResult.addWarning]

/-- C14: after `validateInputs` on a trace, empty or not, the report holds,
beyond the entries it had, one `INPUTS_UNMATCHED_KEYDOWN` warning exactly when
some key name has a `KeyDown` that no later `KeyUp` of that key name follows.
The warning lists the list `L` of exactly those key names in strictly ascending
order (so each once); `L` is the only list with these two properties, so the
listing does not depend on the order in which the map of open keys is visited. -/
theorem validateInputs_unmatchedKeyDown (r : ValidationResult F) (inputs : InputData F)
    (m : Manifest F) :
    ∃ L : List String,
      L.Pairwise (fun a b => strLt a.data b.data = true) ∧
      (∀ k, k ∈ L ↔ Unmatched inputs.Events k) ∧
      (∀ L' : List String, L'.Pairwise (fun a b => strLt a.data b.data = true) →
        (∀ k, k ∈ L' ↔ Unmatched inputs.Events k) → L' = L) ∧
      ((∃ k, Unmatched inputs.Events k) ↔ L ≠ []) ∧
      (validateInputs r inputs m).Warnings.filter
          (fun e => e.Code = "INPUTS_UNMATCHED_KEYDOWN") =
        r.Warnings.filter (fun e => e.Code = "INPUTS_UNMATCHED_KEYDOWN") ++
          (if L = [] then []
           else [{ Code := "INPUTS_UNMATCHED_KEYDOWN", Field := "",
                   Message := "KeyDown without KeyUp: " ++ fmtStrings L }]) := by
  obtain ⟨hnd, hmem⟩ := scan_keys inputs.Events
    { keyboardCount := 0, mouseCount := 0, minTs := GoFloat.maxFloat,
      maxTs := GoFloat.ofInt 0, keyDowns := [] } rfl
  have hperm := sortStrings_perm ((inputs.Events.foldl scanEvent
    { keyboardCount := 0, mouseCount := 0, minTs := GoFloat.maxFloat,
      maxTs := GoFloat.ofInt 0, keyDowns := [] }).keyDowns.map (fun kv => kv.1))
  have hL : ∀ k, k ∈ sortStrings ((inputs.Events.foldl scanEvent
      { keyboardCount := 0, mouseCount := 0, minTs := GoFloat.maxFloat,
        maxTs := GoFloat.ofInt 0, keyDowns := [] }).keyDowns.map (fun kv => kv.1)) ↔
      Unmatched inputs.Events k := fun k => (hperm.mem_iff).trans (hmem k)
  refine ⟨_, sortStrings_strict _ hnd, hL, ?_, ?_, ?_⟩
  · intro L' hs' hm'
    have hnd' : L'.Nodup := hs'.imp (fun {a b} hab heq => by
      subst heq
      have h2 := strLt_asymm a.data a.data hab
      rw [hab] at h2
      cases h2)
    have hp : L'.Perm ((inputs.Events.foldl scanEvent
        { keyboardCount := 0, mouseCount := 0, minTs := GoFloat.maxFloat,
          maxTs := GoFloat.ofInt 0, keyDowns := [] }).keyDowns.map (fun kv => kv.1)) :=
      (List.perm_ext_iff_of_nodup hnd' hnd).mpr (fun k => (hm' k).trans (hmem k).symm)
    exact ascending_unique _ _ (sortStrings_strict _ hnd) hs' (hp.trans hperm.symm)
  · constructor
    · rintro ⟨k, hk⟩ hnil
      have := (hL k).mpr hk
      rw [hnil] at this
      exact List.not_mem_nil _ this
    · intro hnil
      obtain ⟨k, hk⟩ := List.exists_mem_of_ne_nil _ hnil
      exact ⟨k, (hL k).mp hk⟩
  · rw [validateInputs_unmatched_filter]
    have hiff : (inputs.Events.foldl scanEvent
        { keyboardCount := 0, mouseCount := 0, minTs := GoFloat.maxFloat,
          maxTs := GoFloat.ofInt 0, keyDowns := [] }).keyDowns.map (fun kv => kv.1) = [] ↔
        sortStrings ((inputs.Events.foldl scanEvent
          { keyboardCount := 0, mouseCount := 0, minTs := GoFloat.maxFloat,
            maxTs := GoFloat.ofInt 0, keyDowns := [] }).keyDowns.map (fun kv => kv.1)) = [] := by
      constructor
      · intro h
        rw [h]
        rfl
      · intro h
        rw [h] at hperm
        exact hperm.symm.eq_nil
    by_cases hk : (inputs.Events.foldl scanEvent
        { keyboardCount := 0, mouseCount := 0, minTs := GoFloat.maxFloat,
          maxTs := GoFloat.ofInt 0, keyDowns := [] }).keyDowns.map (fun kv => kv.1) = []
    · rw [if_pos hk, if_pos (hiff.mp hk)]
    · rw [if_neg hk, if_neg (fun h => hk (hiff.mpr h))]

/-! ### The summary of a bundle: key presses -/

omit [GoFloat F] in
theorem mapSet_mem (m : List (String × F)) (key : String) (v : F) (k : String) (s : F) :
    (k, s) ∈ mapSet m key v ↔ (k = key ∧ s = v) ∨ (k ≠ key ∧ (k, s) ∈ m) := by
  unfold mapSet
  split_ifs with h
  · rw [List.mem_map]
    constructor
    · rintro ⟨kv, hkv, heq⟩
      by_cases hk : kv.1 = key
      · rw [if_pos hk] at heq
        left
        simpa [eq_comm] using heq
      · rw [if_neg hk] at heq
        right
        subst heq
        exact ⟨hk, hkv⟩
    · rintro (⟨hk, hs⟩ | ⟨hk, hmem⟩)
      · obtain ⟨kv, hkv, hkey⟩ := List.any_eq_true.mp h
        refine ⟨kv, hkv, ?_⟩
        rw [if_pos (by simpa using hkey), hk, hs]
      · exact ⟨(k, s), hmem, by rw [if_neg hk]⟩
  · rw [List.mem_append, List.mem_singleton, Prod.mk.injEq]
    constructor
    · rintro (hmem | heq)
      · right
        refine ⟨?_, hmem⟩
        intro hk
        apply h
        exact List.any_eq_true.mpr ⟨(k, s), hmem, by simpa using hk⟩
      · exact Or.inl heq
    · rintro (heq | ⟨_, hmem⟩)
      · exact Or.inr heq
      · exact Or.inl hmem

omit [GoFloat F] in
theorem mapDelete_mem (m : List (String × F)) (key : String) (k : String) (s : F) :
    (k, s) ∈ mapDelete m key ↔ k ≠ key ∧ (k, s) ∈ m := by
  unfold mapDelete
  rw [List.mem_filter]
  simp [and_comm]

omit [GoFloat F] in
theorem mapGet_none (m : List (String × F)) (key : String) (h : mapGet m key = none)
    (s : F) : (key, s) ∉ m := by
  unfold mapGet at h
  rw [Option.map_eq_none', List.find?_eq_none] at h
  intro hmem
  exact h _ hmem (by simp)

omit [GoFloat F] in
theorem mapGet_some (m : List (String × F)) (key : String) (s : F)
    (hnd : (m.map (fun kv => kv.1)).Nodup) (hmem : (key, s) ∈ m) :
    mapGet m key = some s := by
  induction m with
  | nil => simp at hmem
  | cons kv rest ih =>
    rw [List.map_cons, List.nodup_cons] at hnd
    unfold mapGet
    rw [List.find?_cons]
    by_cases hk : kv.1 = key
    · have hd : decide (kv.1 = key) = true := by simpa using hk
      rw [hd]
      rcases List.mem_cons.mp hmem with h1 | h1
      · rw [← h1]
        rfl
      · exfalso
        apply hnd.1
        rw [hk]
        exact List.mem_map.mpr ⟨(key, s), h1, rfl⟩
    · have hd : decide (kv.1 = key) = false := by simpa using hk
      rw [hd]
      rcases List.mem_cons.mp hmem with h1 | h1
      · exfalso
        apply hk
        rw [← h1]
      · exact ih hnd.2 h1

omit [GoFloat F] in
theorem openAt_nil (k : String) (s : F) : ¬ OpenAt ([] : List (InputEvent F)) k s := by
  rintro ⟨pre, e, post, h, _⟩
  simp at h

omit [GoFloat F] in
/-- Extending a trace by one event: a `KeyDown` opens its key with its own
timestamp; any other key stays as it was; a `KeyUp` closes its key. -/
theorem openAt_append_singleton (events : List (InputEvent F)) (e : InputEvent F)
    (k : String) (s : F) :
    OpenAt (events ++ [e]) k s ↔
      (e.InputType = "KeyDown" ∧ e.KeyName = k ∧ e.TimestampMs = s) ∨
      (OpenAt events k s ∧
        (e.KeyName = k → e.InputType ≠ "KeyDown" ∧ e.InputType ≠ "KeyUp")) := by
  constructor
  · rintro ⟨pre, d, post, hsplit, hd, hk, hs, hpost⟩
    rcases List.eq_nil_or_concat post with hnil | ⟨post', l, hpost'⟩
    · subst hnil
      have h := List.append_inj' hsplit rfl
      have hed : e = d := by simpa using h.2
      subst hed
      exact Or.inl ⟨hd, hk, hs⟩
    · subst hpost'
      have hsplit' : events ++ [e] = (pre ++ d :: post') ++ [l] := by
        rw [hsplit]
        simp
      have h := List.append_inj' hsplit' rfl
      have hel : e = l := by simpa using h.2
      subst hel
      right
      refine ⟨⟨pre, d, post', h.1, hd, hk, hs, ?_⟩, ?_⟩
      · intro e' he'
        exact hpost e' (by simp [he'])
      · exact hpost e (by simp)
  · rintro (⟨hd, hk, hs⟩ | ⟨⟨pre, d, post, hsplit, hd, hk, hs, hpost⟩, hne⟩)
    · exact ⟨events, e, [], rfl, hd, hk, hs, by simp⟩
    · refine ⟨pre, d, post ++ [e], by rw [hsplit]; simp, hd, hk, hs, ?_⟩
      intro e' he'
      rcases List.mem_append.mp he' with h | h
      · exact hpost e' h
      · have : e' = e := by simpa using h
        rw [this]
        exact hne

/-- The entries of `keyDownTimes` after one iteration of the event loop. -/
theorem summarizeEvent_keyDownTimes_mem (st : SummaryScan F) (e : InputEvent F)
    (k : String) (s : F) :
    (k, s) ∈ (summarizeEvent st e).keyDownTimes ↔
      (e.InputType = "KeyDown" ∧ k = e.KeyName ∧ s = e.TimestampMs) ∨
      ((k, s) ∈ st.keyDownTimes ∧
        (e.KeyName = k → e.InputType ≠ "KeyDown" ∧ e.InputType ≠ "KeyUp")) := by
  unfold summarizeEvent
  by_cases hd : e.InputType = "KeyDown"
  · rw [if_pos hd]
    dsimp only
    rw [mapSet_mem]
    constructor
    · rintro (⟨hk, hs⟩ | ⟨hk, hmem⟩)
      · exact Or.inl ⟨hd, hk, hs⟩
      · exact Or.inr ⟨hmem, fun h => absurd h.symm hk⟩
    · rintro (⟨_, hk, hs⟩ | ⟨hmem, hne⟩)
      · exact Or.inl ⟨hk, hs⟩
      · by_cases hk : k = e.KeyName
        · exact absurd hd (hne hk.symm).1
        · exact Or.inr ⟨hk, hmem⟩
  · rw [if_neg hd]
    by_cases hu : e.InputType = "KeyUp"
    · rw [if_pos hu]
      cases hg : mapGet st.keyDownTimes e.KeyName with
      | some startMs =>
        dsimp only
        rw [mapDelete_mem]
        constructor
        · rintro ⟨hk, hmem⟩
          exact Or.inr ⟨hmem, fun h => absurd h.symm hk⟩
        · rintro (⟨hd', _⟩ | ⟨hmem, hne⟩)
          · exact absurd hd' hd
          · refine ⟨fun hk => ?_, hmem⟩
            exact (hne hk.symm).2 hu
      | none =>
        dsimp only
        constructor
        · intro hmem
          refine Or.inr ⟨hmem, fun hk => ?_⟩
          rw [← hk] at hmem
          exact absurd hmem (mapGet_none _ _ hg s)
        · rintro (⟨hd', _⟩ | ⟨hmem, _⟩)
          · exact absurd hd' hd
          · exact hmem
    · rw [if_neg hu]
      have hiff : (k, s) ∈ st.keyDownTimes ↔
          (e.InputType = "KeyDown" ∧ k = e.KeyName ∧ s = e.TimestampMs) ∨
          ((k, s) ∈ st.keyDownTimes ∧
            (e.KeyName = k → e.InputType ≠ "KeyDown" ∧ e.InputType ≠ "KeyUp")) := by
        constructor
        · intro hmem
          exact Or.inr ⟨hmem, fun _ => ⟨hd, hu⟩⟩
        · rintro (⟨hd', _⟩ | ⟨hmem, _⟩)
          · exact absurd hd' hd
          · exact hmem
      split_ifs <;> exact hiff

/-- The keys of `keyDownTimes` stay distinct. -/
theorem summarizeEvent_nodup (st : SummaryScan F) (e : InputEvent F)
    (h : (st.keyDownTimes.map (fun kv => kv.1)).Nodup) :
    ((summarizeEvent st e).keyDownTimes.map (fun kv => kv.1)).Nodup := by
  unfold summarizeEvent
  split_ifs
  · dsimp only
    rw [mapSet_keys]
    split_ifs with hin
    · exact h
    · exact List.Nodup.append h (List.nodup_singleton _) (by simpa using hin)
  · cases mapGet st.keyDownTimes e.KeyName with
    | some startMs =>
      dsimp only
      rw [mapDelete_keys]
      exact h.filter _
    | none => exact h
  · exact h
  · exact h

/-- The iteration for a `KeyUp` whose key is in `keyDownTimes`. -/
theorem summarizeEvent_keyUp_some (st : SummaryScan F) (e : InputEvent F) (startMs : F)
    (hu : e.InputType = "KeyUp") (hget : mapGet st.keyDownTimes e.KeyName = some startMs) :
    summarizeEvent st e =
      { st with
        KeyPresses := st.KeyPresses ++
          [{ Key := e.KeyName, StartMs := startMs, EndMs := e.TimestampMs,
             DurationMs := GoFloat.sub e.TimestampMs startMs }]
        keyDownTimes := mapDelete st.keyDownTimes e.KeyName } := by
  have hd : ¬ e.InputType = "KeyDown" := by rw [hu]; decide
  unfold summarizeEvent
  rw [if_neg hd, if_pos hu, hget]

/-- The iteration for a `KeyUp` whose key is not in `keyDownTimes`. -/
theorem summarizeEvent_keyUp_none (st : SummaryScan F) (e : InputEvent F)
    (hu : e.InputType = "KeyUp") (hget : mapGet st.keyDownTimes e.KeyName = none) :
    summarizeEvent st e =
      { st with
        KeyPresses := st.KeyPresses ++
          [{ Key := e.KeyName, StartMs := GoFloat.ofInt (-1), EndMs := e.TimestampMs,
             DurationMs := e.TimestampMs }] } := by
  have hd : ¬ e.InputType = "KeyDown" := by rw [hu]; decide
  unfold summarizeEvent
  rw [if_neg hd, if_pos hu, hget]

/-- After the event loop over a trace, the keys of `keyDownTimes` are distinct
and the map holds exactly the open keys with their start times. -/
theorem summarize_keyDownTimes (events : List (InputEvent F)) (s0 : SummaryScan F)
    (h0 : s0.keyDownTimes = []) :
    ((events.foldl summarizeEvent s0).keyDownTimes.map (fun kv => kv.1)).Nodup ∧
    ∀ k s, (k, s) ∈ (events.foldl summarizeEvent s0).keyDownTimes ↔ OpenAt events k s := by
  induction events using List.reverseRecOn with
  | nil =>
    simp only [List.foldl_nil, h0, List.map_nil, List.nodup_nil, List.not_mem_nil, true_and,
      false_iff]
    exact fun k s => openAt_nil k s
  | append_singleton pre e ih =>
    rw [List.foldl_append, List.foldl_cons, List.foldl_nil]
    refine ⟨summarizeEvent_nodup _ _ ih.1, fun k s => ?_⟩
    rw [summarizeEvent_keyDownTimes_mem, openAt_append_singleton, ih.2 k s]
    constructor
    · rintro (⟨hd, hk, hs⟩ | h)
      · exact Or.inl ⟨hd, hk.symm, hs.symm⟩
      · exact Or.inr h
    · rintro (⟨hd, hk, hs⟩ | h)
      · exact Or.inl ⟨hd, hk.symm, hs.symm⟩
      · exact Or.inr h

/-- The event loop only appends to `KeyPresses`. -/
theorem summarize_KeyPresses_mono (events : List (InputEvent F)) (st : SummaryScan F)
    (p : KeyPressSummary F) (h : p ∈ st.KeyPresses) :
    p ∈ (events.foldl summarizeEvent st).KeyPresses := by
  induction events generalizing st with
  | nil => exact h
  | cons e rest ih =>
    rw [List.foldl_cons]
    apply ih
    unfold summarizeEvent
    split_ifs
    · exact h
    · cases mapGet st.keyDownTimes e.KeyName <;> simp [h]
    · exact h
    · exact h

/-- One press is appended for each `KeyUp` event. -/
theorem summarize_KeyPresses_length (events : List (InputEvent F)) (st : SummaryScan F) :
    (events.foldl summarizeEvent st).KeyPresses.length =
      st.KeyPresses.length + events.countP (fun e => e.InputType = "KeyUp") := by
  induction events generalizing st with
  | nil => simp
  | cons e rest ih =>
    rw [List.foldl_cons, ih, List.countP_cons]
    unfold summarizeEvent
    by_cases hd : e.InputType = "KeyDown"
    · have hu : ¬ e.InputType = "KeyUp" := by rw [hd]; decide
      simp [hd, hu]
    · by_cases hu : e.InputType = "KeyUp"
      · rw [if_neg hd, if_pos hu]
        cases mapGet st.keyDownTimes e.KeyName <;> simp [hu] <;> omega
      · rw [if_neg hd, if_neg hu]
        have hdec : decide (e.InputType = "KeyUp") = false := by simpa using hu
        rw [hdec]
        split_ifs <;> first | contradiction | simp

/-! ### The summary of a bundle: order of the key presses -/

theorem bubble_perm {α : Type} (less : α → α → Bool) (x : α) (ys : List α) :
    (bubble less x ys).Perm (x :: ys) := by
  induction ys with
  | nil => exact List.Perm.refl _
  | cons y rest ih =>
    rw [bubble]
    split_ifs
    · exact (List.Perm.cons y ih).trans (List.Perm.swap x y rest)
    · exact List.Perm.refl _

theorem bubble_foldl_perm {α : Type} (less : α → α → Bool) (xs sorted : List α) :
    (xs.foldl (fun sorted x => bubble less x sorted) sorted).Perm (xs ++ sorted) := by
  induction xs generalizing sorted with
  | nil => exact List.Perm.refl _
  | cons x rest ih =>
    rw [List.foldl_cons]
    refine (ih _).trans ?_
    refine (List.Perm.append_left rest (bubble_perm less x sorted)).trans ?_
    exact List.perm_middle

/-- Sorting rearranges the slice: no element is lost or added. -/
theorem sortSlice_perm {α : Type} (less : α → α → Bool) (xs : List α) :
    (sortSlice less xs).Perm xs := by
  unfold sortSlice
  refine (List.reverse_perm _).trans ?_
  simpa using bubble_foldl_perm less xs []

theorem bubble_sorted {α : Type} (less : α → α → Bool)
    (hasymm : ∀ a b, less a b = true → less b a = false)
    (hneg : ∀ a b c, less a b = false → less b c = false → less a c = false)
    (x : α) (ys : List α) (h : ys.Pairwise (fun a b => less a b = false)) :
    (bubble less x ys).Pairwise (fun a b => less a b = false) := by
  induction ys with
  | nil => simp [bubble]
  | cons y rest ih =>
    rw [bubble]
    have hy := List.pairwise_cons.mp h
    split_ifs with hlt
    · refine List.pairwise_cons.mpr ⟨?_, ih hy.2⟩
      intro z hz
      rcases List.mem_cons.mp ((bubble_perm less x rest).mem_iff.mp hz) with h1 | h1
      · rw [h1]
        exact hasymm _ _ hlt
      · exact hy.1 z h1
    · refine List.pairwise_cons.mpr ⟨?_, h⟩
      have hxy : less x y = false := by simpa using hlt
      intro z hz
      rcases List.mem_cons.mp hz with h1 | h1
      · rw [h1]
        exact hxy
      · exact hneg x y z hxy (hy.1 z h1)

theorem bubble_foldl_sorted {α : Type} (less : α → α → Bool)
    (hasymm : ∀ a b, less a b = true → less b a = false)
    (hneg : ∀ a b c, less a b = false → less b c = false → less a c = false)
    (xs sorted : List α) (h : sorted.Pairwise (fun a b => less a b = false)) :
    (xs.foldl (fun sorted x => bubble less x sorted) sorted).Pairwise
      (fun a b => less a b = false) := by
  induction xs generalizing sorted with
  | nil => exact h
  | cons x rest ih =>
    rw [List.foldl_cons]
    exact ih _ (bubble_sorted less hasymm hneg x sorted h)

/-- After sorting, no element is less than an element before it. -/
theorem sortSlice_sorted {α : Type} (less : α → α → Bool)
    (hasymm : ∀ a b, less a b = true → less b a = false)
    (hneg : ∀ a b c, less a b = false → less b c = false → less a c = false)
    (xs : List α) : (sortSlice less xs).Pairwise (fun a b => less b a = false) := by
  unfold sortSlice
  rw [List.pairwise_reverse]
  exact bubble_foldl_sorted less hasymm hneg xs [] List.Pairwise.nil

/-- When manifest and input document load, `SummarizeBundle` returns a summary
whose key presses are the sorted presses of the event loop followed by one
press for each entry left in `keyDownTimes`. -/
theorem SummarizeBundle_KeyPresses (env : Env F) (bundlePath : String) (m : Manifest F)
    (inputs : InputData F) (hm : loadManifest env bundlePath = .ok m)
    (hi : loadInputs env bundlePath = .ok inputs) :
    ∃ summary, SummarizeBundle env bundlePath = .ok summary ∧
      summary.KeyPresses = sortSlice pressLess
        ((inputs.Events.foldl summarizeEvent
            { keyDownTimes := [], KeyPresses := [], MouseClicks := [] }).KeyPresses ++
          (inputs.Events.foldl summarizeEvent
            { keyDownTimes := [], KeyPresses := [], MouseClicks := [] }).keyDownTimes.map
              (fun kv => { Key := kv.1, StartMs := kv.2, EndMs := GoFloat.ofInt 0,
                           DurationMs := GoFloat.ofInt 0 })) := by
  unfold SummarizeBundle
  rw [hm]
  dsimp only
  rw [hi]
  dsimp only
  split_ifs <;> cases m.SessionInfo <;> exact ⟨_, rfl, rfl⟩

/-- C13: when manifest and input document load, `SummarizeBundle` returns a
summary in which (1) every `KeyUp` whose key is open at that point, with the
timestamp `s` of its last `KeyDown`, has the closed press with start `s`, end
the `KeyUp` timestamp and duration end minus start; (2) every key open at the
end of the trace with start `s` has the press with start `s` and end and
duration unset; (3) the number of presses is the number of `KeyUp` events plus
the number of keys open at the end. -/
theorem SummarizeBundle_pairs (env : Env F) (bundlePath : String) (m : Manifest F)
    (inputs : InputData F) (hm : loadManifest env bundlePath = .ok m)
    (hi : loadInputs env bundlePath = .ok inputs) :
    ∃ summary, SummarizeBundle env bundlePath = .ok summary ∧
      (∀ pre e post s, inputs.Events = pre ++ e :: post → e.InputType = "KeyUp" →
        OpenAt pre e.KeyName s →
        ({ Key := e.KeyName, StartMs := s, EndMs := e.TimestampMs,
           DurationMs := GoFloat.sub e.TimestampMs s } : KeyPressSummary F) ∈
          summary.KeyPresses) ∧
      (∀ k s, OpenAt inputs.Events k s →
        ({ Key := k, StartMs := s, EndMs := GoFloat.ofInt 0,
           DurationMs := GoFloat.ofInt 0 } : KeyPressSummary F) ∈ summary.KeyPresses) ∧
      (∃ openKeys : List String, openKeys.Nodup ∧
        (∀ k, k ∈ openKeys ↔ ∃ s, OpenAt inputs.Events k s) ∧
        summary.KeyPresses.length =
          inputs.Events.countP (fun e => e.InputType = "KeyUp") + openKeys.length) := by
  obtain ⟨summary, hs, hk⟩ := SummarizeBundle_KeyPresses env bundlePath m inputs hm hi
  refine ⟨summary, hs, ?_, ?_, ?_⟩
  · intro pre e post s hsplit hu hopen
    rw [hk, (sortSlice_perm _ _).mem_iff, List.mem_append]
    left
    rw [hsplit, List.foldl_append, List.foldl_cons]
    apply summarize_KeyPresses_mono
    obtain ⟨hnd, hmem⟩ := summarize_keyDownTimes pre
      { keyDownTimes := [], KeyPresses := [], MouseClicks := [] } rfl
    have hget := mapGet_some _ _ _ hnd ((hmem e.KeyName s).mpr hopen)
    rw [summarizeEvent_keyUp_some _ _ _ hu hget]
    simp
  · intro k s hopen
    rw [hk, (sortSlice_perm _ _).mem_iff, List.mem_append]
    right
    obtain ⟨_, hmem⟩ := summarize_keyDownTimes inputs.Events
      { keyDownTimes := [], KeyPresses := [], MouseClicks := [] } rfl
    exact List.mem_map.mpr ⟨(k, s), (hmem k s).mpr hopen, rfl⟩
  · obtain ⟨hnd, hmem⟩ := summarize_keyDownTimes inputs.Events
      { keyDownTimes := [], KeyPresses := [], MouseClicks := [] } rfl
    refine ⟨_, hnd, fun k => ?_, ?_⟩
    · rw [List.mem_map]
      constructor
      · rintro ⟨kv, hkv, rfl⟩
        exact ⟨kv.2, (hmem kv.1 kv.2).mp hkv⟩
      · rintro ⟨s, hs⟩
        exact ⟨(k, s), (hmem k s).mpr hs, rfl⟩
    · rw [hk, (sortSlice_perm _ _).length_eq, List.length_append,
        summarize_KeyPresses_length, List.length_map, List.length_map]
      simp

/-- C19: when manifest and input document load, `SummarizeBundle` returns a
summary in which every `KeyUp` whose key is not open at that point has the
press with start `-1`, end the `KeyUp` timestamp and duration that timestamp;
the iteration for such a `KeyUp` leaves the map `keyDownTimes` as it was. -/
theorem SummarizeBundle_orphan (env : Env F) (bundlePath : String) (m : Manifest F)
    (inputs : InputData F) (hm : loadManifest env bundlePath = .ok m)
    (hi : loadInputs env bundlePath = .ok inputs) :
    ∃ summary, SummarizeBundle env bundlePath = .ok summary ∧
      ∀ pre e post, inputs.Events = pre ++ e :: post → e.InputType = "KeyUp" →
        (∀ s, ¬ OpenAt pre e.KeyName s) →
        ({ Key := e.KeyName, StartMs := GoFloat.ofInt (-1), EndMs := e.TimestampMs,
           DurationMs := e.TimestampMs } : KeyPressSummary F) ∈ summary.KeyPresses ∧
        ((pre ++ [e]).foldl summarizeEvent
            { keyDownTimes := [], KeyPresses := [], MouseClicks := [] }).keyDownTimes =
          (pre.foldl summarizeEvent
            { keyDownTimes := [], KeyPresses := [], MouseClicks := [] }).keyDownTimes := by
  obtain ⟨summary, hs, hk⟩ := SummarizeBundle_KeyPresses env bundlePath m inputs hm hi
  refine ⟨summary, hs, ?_⟩
  intro pre e post hsplit hu hclosed
  obtain ⟨_, hmem⟩ := summarize_keyDownTimes pre
    { keyDownTimes := [], KeyPresses := [], MouseClicks := [] } rfl
  have hget : mapGet (pre.foldl summarizeEvent
      { keyDownTimes := [], KeyPresses := [], MouseClicks := [] }).keyDownTimes e.KeyName =
      none := by
    cases hg : mapGet (pre.foldl summarizeEvent
      { keyDownTimes := [], KeyPresses := [], MouseClicks := [] }).keyDownTimes e.KeyName with
    | none => rfl
    | some s =>
      exfalso
      apply hclosed s
      apply (hmem e.KeyName s).mp
      unfold mapGet at hg
      obtain ⟨kv, hfind, hkv⟩ := Option.map_eq_some'.mp hg
      have h1 := List.mem_of_find?_eq_some hfind
      have h2 := List.find?_some hfind
      have h3 : kv.1 = e.KeyName := by simpa using h2
      rw [← h3, ← hkv]
      exact h1
  constructor
  · rw [hk, (sortSlice_perm _ _).mem_iff, List.mem_append]
    left
    rw [hsplit, List.foldl_append, List.foldl_cons]
    apply summarize_KeyPresses_mono
    rw [summarizeEvent_keyUp_none _ _ hu hget]
    simp
  · rw [List.foldl_append, List.foldl_cons, List.foldl_nil,
      summarizeEvent_keyUp_none _ _ hu hget]

theorem pressLess_asymm [GoFloatOrder F] (a b : KeyPressSummary F)
    (h : pressLess a b = true) : pressLess b a = false := by
  unfold pressLess at *
  cases hba : GoFloat.lt (sortKey b.StartMs) (sortKey a.StartMs) with
  | false => rfl
  | true =>
    have := GoFloatOrder.lt_trans _ _ _ h hba
    rw [GoFloatOrder.lt_irrefl] at this
    cases this

/-- The key presses of a summary are in non-decreasing order of their sort key,
the start time with the sentinel `-1` (any negative start) counted as 0. -/
theorem SummarizeBundle_sorted [GoFloatOrder F] (env : Env F) (bundlePath : String)
    (m : Manifest F) (inputs : InputData F) (hm : loadManifest env bundlePath = .ok m)
    (hi : loadInputs env bundlePath = .ok inputs) :
    ∃ summary, SummarizeBundle env bundlePath = .ok summary ∧
      summary.KeyPresses.Pairwise
        (fun a b => GoFloat.le (sortKey a.StartMs) (sortKey b.StartMs) = true) := by
  obtain ⟨summary, hs, hk⟩ := SummarizeBundle_KeyPresses env bundlePath m inputs hm hi
  refine ⟨summary, hs, ?_⟩
  rw [hk]
  refine (sortSlice_sorted pressLess pressLess_asymm ?_ _).imp ?_
  · intro a b c hab hbc
    exact GoFloatOrder.not_lt_trans _ _ _ hbc hab
  · intro a b hab
    rw [GoFloatOrder.le_eq_not_lt]
    unfold pressLess at hab
    rw [hab]
    rfl

/-! ### The claims at their examples -/

/-- C15 at a bundle directory without files: the report is invalid and holds the
single error `MANIFEST_LOAD` with the error of the failed read. -/
theorem ValidateBundle_manifest_load_witness :
    loadManifest (emptyEnv : Env F64) "bundle" =
      .error "read manifest.json: open bundle/manifest.json: no such file or directory" ∧
    ((ValidateBundle (emptyEnv : Env F64) "bundle").Valid = false ∧
     (ValidateBundle (emptyEnv : Env F64) "bundle").Errors =
       [{ Code := "MANIFEST_LOAD", Field := "",
          Message :=
            "read manifest.json: open bundle/manifest.json: no such file or directory" }] ∧
     (ValidateBundle (emptyEnv : Env F64) "bundle").Warnings = [] ∧
     (ValidateBundle (emptyEnv : Env F64) "bundle").Stats = BundleStats.zero) :=
  ⟨rfl, ValidateBundle_manifest_load emptyEnv "bundle" _ rfl⟩

/-- C16 at a manifest with duration 0 and no frame, in binary64 arithmetic: both
errors are added, in this order. -/
theorem validateManifestInternal_Errors_witness :
    (validateManifestInternal emptyResult
        ({ DurationSeconds := GoFloat.ofInt 0, TotalFrames := 0 } : Manifest F64)).Errors =
      [{ Code := "MANIFEST_DURATION", Field := "durationSeconds",
         Message := "must be positive, got 0.000" },
       { Code := "MANIFEST_FRAMES", Field := "totalFrames",
         Message := "must be positive, got 0" }] :=
  (validateManifestInternal_Errors emptyResult
    ({ DurationSeconds := GoFloat.ofInt 0, TotalFrames := 0 } : Manifest F64)).trans
    (by decide!)

/-- C17 at a trace with the indices 0, 1, 3: one `TIMING_INDEX_MISMATCH` error
for position 2. -/
theorem validateTiming_indexMismatch_witness :
    (validateTiming emptyResult ({ Frames := skippedFrames } : TimingData F64)).Errors.filter
        (fun e => e.Code = "TIMING_INDEX_MISMATCH") =
      [{ Code := "TIMING_INDEX_MISMATCH", Field := "videoFrameIndex",
         Message := "videoFrameIndex should be sequential",
         Got := "frame[2].videoFrameIndex = 3", Want := "2" }] :=
  (validateTiming_indexMismatch emptyResult
      ({ Frames := skippedFrames } : TimingData F64)).2 2
    { VideoFrameIndex := 3, TimestampMs := GoFloat.ofInt 200 } rfl (by decide)
    (by
      intro j hj g hg
      interval_cases j
      · have : g = { VideoFrameIndex := 0, TimestampMs := GoFloat.ofInt 0 } := by
          simpa [skippedFrames, eq_comm] using hg
        rw [this]
        rfl
      · have : g = { VideoFrameIndex := 1, TimestampMs := GoFloat.ofInt 100 } := by
          simpa [skippedFrames, eq_comm] using hg
        rw [this]
        rfl)

/-- C11 at the trace `[{0,0},{1,50},{2,40}]`: `validateTiming` reports the drop
at entry 2, and for a manifest with `totalFrames = 3` the report of
`ValidateBundle` is invalid, holds that error alone and so no
`FRAME_COUNT_MISMATCH`. -/
theorem validateTiming_nonMonotonic_witness :
    (validateTiming emptyResult ({ Frames := decreasingFrames } : TimingData F64)).Errors.filter
        (fun e => e.Code = "TIMING_NON_MONOTONIC") =
      [{ Code := "TIMING_NON_MONOTONIC", Field := "timestampMs",
         Message := "timestamp decreased at frame 2: 50.0ms -> 40.0ms" }] ∧
    (ValidateBundle (timingEnv { DurationSeconds := GoFloat.ofInt 1, TotalFrames := 3 }
        { Frames := decreasingFrames } : Env F64) "bundle").Errors =
      [{ Code := "TIMING_NON_MONOTONIC", Field := "timestampMs",
         Message := "timestamp decreased at frame 2: 50.0ms -> 40.0ms" }] ∧
    (ValidateBundle (timingEnv { DurationSeconds := GoFloat.ofInt 1, TotalFrames := 3 }
        { Frames := decreasingFrames } : Env F64) "bundle").Valid = false :=
  ⟨((validateTiming_nonMonotonic emptyResult
      ({ Frames := decreasingFrames } : TimingData F64)).2.2 1
      { VideoFrameIndex := 1, TimestampMs := GoFloat.ofInt 50 }
      { VideoFrameIndex := 2, TimestampMs := GoFloat.ofInt 40 } rfl rfl (by decide!)
      (by
        intro j hj c d hc hd
        interval_cases j
        have h1 : c = { VideoFrameIndex := 0, TimestampMs := GoFloat.ofInt 0 } := by
          simpa [decreasingFrames, eq_comm] using hc
        have h2 : d = { VideoFrameIndex := 1, TimestampMs := GoFloat.ofInt 50 } := by
          simpa [decreasingFrames, eq_comm] using hd
        rw [h1, h2]
        decide!)).trans (by decide!),
   by decide!, by decide!⟩

/-- C12 at the examples, in binary64 arithmetic: a manifest of 10 s against a
trace from 0 ms to 10090 ms gives no `DURATION_MISMATCH` warning, against a
trace from 0 ms to 10110 ms it gives one. -/
theorem ValidateBundle_durationMismatch_witness :
    (ValidateBundle (timingEnv { DurationSeconds := GoFloat.ofInt 10, TotalFrames := 2 }
        { Frames := spanFrames 10090 } : Env F64) "bundle").Warnings.filter
        (fun e => e.Code = "DURATION_MISMATCH") = [] ∧
    (ValidateBundle (timingEnv { DurationSeconds := GoFloat.ofInt 10, TotalFrames := 2 }
        { Frames := spanFrames 10110 } : Env F64) "bundle").Warnings.filter
        (fun e => e.Code = "DURATION_MISMATCH") =
      [{ Code := "DURATION_MISMATCH", Field := "durationSeconds",
         Message := "manifest duration differs from timing.json by 110.0ms",
         Got := "10.000s", Want := "10.110s" }] :=
  ⟨(ValidateBundle_durationMismatch
      (timingEnv { DurationSeconds := GoFloat.ofInt 10, TotalFrames := 2 }
        { Frames := spanFrames 10090 } : Env F64) "bundle"
      { DurationSeconds := GoFloat.ofInt 10, TotalFrames := 2 } { Frames := spanFrames 10090 }
      { VideoFrameIndex := 0, TimestampMs := GoFloat.ofInt 0 }
      [{ VideoFrameIndex := 1, TimestampMs := GoFloat.ofInt 10090 }] rfl rfl rfl).trans
      (by decide!),
   (ValidateBundle_durationMismatch
      (timingEnv { DurationSeconds := GoFloat.ofInt 10, TotalFrames := 2 }
        { Frames := spanFrames 10110 } : Env F64) "bundle"
      { DurationSeconds := GoFloat.ofInt 10, TotalFrames := 2 } { Frames := spanFrames 10110 }
      { VideoFrameIndex := 0, TimestampMs := GoFloat.ofInt 0 }
      [{ VideoFrameIndex := 1, TimestampMs := GoFloat.ofInt 10110 }] rfl rfl rfl).trans
      (by decide!)⟩

/-- C18 at three events at -5 ms, 50 ms and 20000 ms against a video of ten
seconds: one `INPUTS_OUT_OF_RANGE` warning, carrying the count 2. -/
theorem validateInputs_outOfRange_witness :
    (validateInputs emptyResult (strayInputs : InputData F64)
        { DurationSeconds := GoFloat.ofInt 10, TotalFrames := 300 }).Warnings.filter
        (fun e => e.Code = "INPUTS_OUT_OF_RANGE") =
      [{ Code := "INPUTS_OUT_OF_RANGE", Field := "timestampMs",
         Message := "2 input events outside video duration [0, 10000.0ms]" }] :=
  ((validateInputs_outOfRange emptyResult (strayInputs : InputData F64)
      { DurationSeconds := GoFloat.ofInt 10, TotalFrames := 300 }).2
    ⟨{ TimestampMs := GoFloat.ofInt (-5), InputType := "MouseMove" },
      List.mem_cons_self _ _, Or.inl (by decide!)⟩).trans (by decide!)

/-- C14 at the trace `[{0,KeyDown,W},{500,KeyUp,W},{100,KeyDown,A}]`: `A` is
the one key name with a `KeyDown` that no later `KeyUp` follows, and the warning
lists `[A]`. -/
theorem validateInputs_unmatchedKeyDown_witness :
    (∀ k, k ∈ ["A"] ↔ Unmatched (truncatedInputs : InputData F64).Events k) ∧
    (validateInputs emptyResult (truncatedInputs : InputData F64)
        { DurationSeconds := GoFloat.ofInt 10, TotalFrames := 300 }).Warnings.filter
        (fun e => e.Code = "INPUTS_UNMATCHED_KEYDOWN") =
      [{ Code := "INPUTS_UNMATCHED_KEYDOWN", Field := "",
         Message := "KeyDown without KeyUp: [A]" }] := by
  have hA : ∀ k, k ∈ ["A"] ↔ Unmatched (truncatedInputs : InputData F64).Events k := by
    intro k
    have hsplit : (truncatedInputs : InputData F64).Events =
        (([] ++ [{ TimestampMs := GoFloat.ofInt 0, InputType := "KeyDown", KeyName := "W" }]) ++
          [{ TimestampMs := GoFloat.ofInt 500, InputType := "KeyUp", KeyName := "W" }]) ++
          [{ TimestampMs := GoFloat.ofInt 100, InputType := "KeyDown", KeyName := "A" }] := rfl
    rw [hsplit, unmatched_append_singleton, unmatched_append_singleton,
      unmatched_append_singleton]
    have hnil := @unmatched_nil F64 k
    simp only [List.mem_singleton]
    constructor
    · intro hk
      exact Or.inl ⟨trivial, hk.symm⟩
    · rintro (⟨_, hk⟩ | ⟨(⟨hd, _⟩ | ⟨(⟨_, hk⟩ | ⟨h0, _⟩), hne⟩), _⟩)
      · exact hk.symm
      · exact absurd hd (by decide)
      · exact absurd ⟨trivial, hk⟩ hne
      · exact absurd h0 hnil
  obtain ⟨L, _, _, huniq, _, hfilter⟩ :=
    validateInputs_unmatchedKeyDown emptyResult (truncatedInputs : InputData F64)
      { DurationSeconds := GoFloat.ofInt 10, TotalFrames := 300 }
  have hL : ["A"] = L := huniq ["A"] (List.pairwise_singleton _ _) hA
  subst hL
  exact ⟨hA, hfilter⟩

/-- C13 at the trace `[{0,KeyDown,W},{500,KeyUp,W},{100,KeyDown,A}]`, in
binary64 arithmetic: the summary holds the closed press of `W` from 0 to 500
and the open press of `A` from 100, and no other press. -/
theorem SummarizeBundle_pairs_witness :
    ∃ summary, SummarizeBundle (inputsEnv (truncatedInputs : InputData F64)) "bundle" =
        .ok summary ∧
      ({ Key := "W", StartMs := GoFloat.ofInt 0, EndMs := GoFloat.ofInt 500,
         DurationMs := GoFloat.sub (GoFloat.ofInt 500) (GoFloat.ofInt 0) } :
          KeyPressSummary F64) ∈ summary.KeyPresses ∧
      ({ Key := "A", StartMs := GoFloat.ofInt 100, EndMs := GoFloat.ofInt 0,
         DurationMs := GoFloat.ofInt 0 } : KeyPressSummary F64) ∈ summary.KeyPresses ∧
      summary.KeyPresses.length = 2 ∧
      (GoFloat.sub (GoFloat.ofInt 500) (GoFloat.ofInt 0) : F64) = GoFloat.ofInt 500 := by
  obtain ⟨summary, hs, hclosed, hopen, _⟩ :=
    SummarizeBundle_pairs (inputsEnv (truncatedInputs : InputData F64)) "bundle"
      { BundleID := "session-1", DurationSeconds := GoFloat.ofInt 10, TotalFrames := 300 }
      truncatedInputs rfl rfl
  refine ⟨summary, hs, ?_, ?_, ?_, by decide!⟩
  · exact hclosed
      [{ TimestampMs := GoFloat.ofInt 0, InputType := "KeyDown", KeyName := "W" }]
      { TimestampMs := GoFloat.ofInt 500, InputType := "KeyUp", KeyName := "W" }
      [{ TimestampMs := GoFloat.ofInt 100, InputType := "KeyDown", KeyName := "A" }]
      (GoFloat.ofInt 0) rfl rfl
      ⟨[], _, [], rfl, rfl, rfl, rfl, by simp⟩
  · exact hopen "A" (GoFloat.ofInt 100)
      ⟨[{ TimestampMs := GoFloat.ofInt 0, InputType := "KeyDown", KeyName := "W" },
        { TimestampMs := GoFloat.ofInt 500, InputType := "KeyUp", KeyName := "W" }],
        _, [], rfl, rfl, rfl, rfl, by simp⟩
  · have heval : SummarizeBundle (inputsEnv (truncatedInputs : InputData F64)) "bundle" =
        .ok { BundleID := "session-1", MapName := "", Duration := GoFloat.ofInt 10,
              VideoFrames := 300, VideoFPS := GoFloat.ofInt 30,
              KeyPresses :=
                [{ Key := "W", StartMs := GoFloat.ofInt 0, EndMs := GoFloat.ofInt 500,
                   DurationMs := GoFloat.ofInt 500 },
                 { Key := "A", StartMs := GoFloat.ofInt 100, EndMs := GoFloat.ofInt 0,
                   DurationMs := GoFloat.ofInt 0 }],
              MouseClicks := [] } := by decide!
    rw [heval] at hs
    cases hs
    rfl

/-- C19 at the trace `[{0,KeyDown,W},{10,KeyUp,W},{20,KeyUp,A}]`: the `KeyUp`
of `A` has no open `KeyDown` and the summary holds its press with start `-1`,
end 20 and duration 20. -/
theorem SummarizeBundle_orphan_witness :
    ∃ summary, SummarizeBundle (inputsEnv (heldInputs : InputData F64)) "bundle" =
        .ok summary ∧
      ({ Key := "A", StartMs := GoFloat.ofInt (-1), EndMs := GoFloat.ofInt 20,
         DurationMs := GoFloat.ofInt 20 } : KeyPressSummary F64) ∈ summary.KeyPresses := by
  obtain ⟨summary, hs, horphan⟩ :=
    SummarizeBundle_orphan (inputsEnv (heldInputs : InputData F64)) "bundle"
      { BundleID := "session-1", DurationSeconds := GoFloat.ofInt 10, TotalFrames := 300 }
      heldInputs rfl rfl
  refine ⟨summary, hs, ?_⟩
  refine (horphan
    [{ TimestampMs := GoFloat.ofInt 0, InputType := "KeyDown", KeyName := "W" },
     { TimestampMs := GoFloat.ofInt 10, InputType := "KeyUp", KeyName := "W" }]
    { TimestampMs := GoFloat.ofInt 20, InputType := "KeyUp", KeyName := "A" } [] rfl rfl ?_).1
  rintro s ⟨pre, d, post, hsplit, _, hk, _⟩
  have hmem : d ∈ pre ++ d :: post := by simp
  rw [← hsplit] at hmem
  have hW : d.KeyName = "W" := by
    rcases List.mem_cons.mp hmem with h | h
    · rw [h]
    · rw [List.mem_singleton.mp h]
  rw [hW] at hk
  exact absurd hk (by decide)

/-- C20, second half, fails: for the trace
`[{0,KeyDown,W},{10,KeyUp,W},{20,KeyUp,A}]` the summary lists the press of `W`
with the real start 0 before the press of `A` with the sentinel start `-1`,
though both have the sort key 0. -/
theorem SummarizeBundle_sentinel_after_zero :
    (SummarizeBundle (inputsEnv (heldInputs : InputData F64)) "bundle").map
        (fun summary => summary.KeyPresses) =
      .ok [{ Key := "W", StartMs := GoFloat.ofInt 0, EndMs := GoFloat.ofInt 10,
             DurationMs := GoFloat.ofInt 10 },
           { Key := "A", StartMs := GoFloat.ofInt (-1), EndMs := GoFloat.ofInt 20,
             DurationMs := GoFloat.ofInt 20 }] ∧
    sortKey (GoFloat.ofInt 0 : F64) = GoFloat.ofInt 0 ∧
    sortKey (GoFloat.ofInt (-1) : F64) = GoFloat.ofInt 0 := by
  decide!

/-- The summary of the sorted presses at an example in binary64 arithmetic. -/
theorem SummarizeBundle_sorted_example :
    ∃ summary, SummarizeBundle (inputsEnv (truncatedInputs : InputData F64)) "bundle" =
        .ok summary ∧
      summary.KeyPresses.Pairwise
        (fun a b => GoFloat.le (sortKey a.StartMs) (sortKey b.StartMs) = true) :=
  SummarizeBundle_sorted (inputsEnv (truncatedInputs : InputData F64)) "bundle"
    { BundleID := "session-1", DurationSeconds := GoFloat.ofInt 10, TotalFrames := 300 }
    truncatedInputs rfl rfl

end validate

namespace validate

variable {F : Type} [GoFloat F]

/-! ### The frame-rate checks -/

/-- The warnings after `validateManifestInternal`: those before, and the
`MANIFEST_FPS` warning when duration and frame count are positive and the
implied fps is below 1 or above 240. -/
theorem validateManifestInternal_Warnings (r : ValidationResult F) (m : Manifest F) :
    (validateManifestInternal r m).Warnings =
      r.Warnings ++
        (if (GoFloat.lt (GoFloat.ofInt 0) m.DurationSeconds = true ∧ m.TotalFrames > 0) ∧
            (GoFloat.lt (GoFloat.div (GoFloat.ofInt m.TotalFrames) m.DurationSeconds)
                (GoFloat.ofInt 1) = true ∨
              GoFloat.lt (GoFloat.ofInt 240)
                (GoFloat.div (GoFloat.ofInt m.TotalFrames) m.DurationSeconds) = true)
         then
          [{ Code := "MANIFEST_FPS", Field := "",
             Message := "unusual FPS: " ++
               GoFloat.fmt 1 (GoFloat.div (GoFloat.ofInt m.TotalFrames) m.DurationSeconds) ++
               " (frames=" ++ toString m.TotalFrames ++ ", duration=" ++
               GoFloat.fmt 2 m.DurationSeconds ++ "s)" }]
         else []) := by
  unfold validateManifestInternal
  dsimp only
  split_ifs <;> simp_all [ValidationResult.addError, ValidationResult.addWarning]

/-- C25, for the manifests the check applies to: `validateManifestInternal`
adds one `MANIFEST_FPS` warning exactly when `durationSeconds` and `totalFrames`
are positive and the implied fps, `totalFrames / durationSeconds`, lies outside
`[1, 240]`; it adds none when the fps lies inside, and none when the duration
or the frame count is not positive. -/
theorem validateManifestInternal_fps [GoFloatOrder F] (r : ValidationResult F)
    (m : Manifest F) :
    (validateManifestInternal r m).Warnings.filter (fun e => e.Code = "MANIFEST_FPS") =
      r.Warnings.filter (fun e => e.Code = "MANIFEST_FPS") ++
        (if GoFloat.lt (GoFloat.ofInt 0) m.DurationSeconds = true ∧ m.TotalFrames > 0 then
          (if GoFloat.le (GoFloat.ofInt 1)
                (GoFloat.div (GoFloat.ofInt m.TotalFrames) m.DurationSeconds) = true ∧
              GoFloat.le (GoFloat.div (GoFloat.ofInt m.TotalFrames) m.DurationSeconds)
                (GoFloat.ofInt 240) = true
           then []
           else
            [{ Code := "MANIFEST_FPS", Field := "",
               Message := "unusual FPS: " ++
                 GoFloat.fmt 1 (GoFloat.div (GoFloat.ofInt m.TotalFrames) m.DurationSeconds) ++
                 " (frames=" ++ toString m.TotalFrames ++ ", duration=" ++
                 GoFloat.fmt 2 m.DurationSeconds ++ "s)" }])
         else []) := by
  rw [validateManifestInternal_Warnings, List.filter_append]
  congr 1
  rw [GoFloatOrder.le_eq_not_lt, GoFloatOrder.le_eq_not_lt]
  by_cases hg : GoFloat.lt (GoFloat.ofInt 0) m.DurationSeconds = true ∧ m.TotalFrames > 0
  · rw [if_pos hg]
    cases h1 : GoFloat.lt (GoFloat.div (GoFloat.ofInt m.TotalFrames) m.DurationSeconds)
        (GoFloat.ofInt 1) <;>
      cases h2 : GoFloat.lt (GoFloat.ofInt 240)
        (GoFloat.div (GoFloat.ofInt m.TotalFrames) m.DurationSeconds) <;>
      simp [hg]
  · rw [if_neg hg]
    simp [hg]

/-- C25 at a manifest of 5 frames in 10 seconds, in binary64 arithmetic: the
implied fps 0.5 lies below 1 and the warning is added. -/
theorem validateManifestInternal_fps_witness :
    (validateManifestInternal emptyResult
        ({ DurationSeconds := GoFloat.ofInt 10, TotalFrames := 5 } : Manifest F64)).Warnings.filter
        (fun e => e.Code = "MANIFEST_FPS") =
      [{ Code := "MANIFEST_FPS", Field := "",
         Message := "unusual FPS: 0.5 (frames=5, duration=10.00s)" }] :=
  (validateManifestInternal_fps emptyResult
    ({ DurationSeconds := GoFloat.ofInt 10, TotalFrames := 5 } : Manifest F64)).trans
    (by decide!)

/-- C25 as stated fails: for a manifest of 0 frames in 10 seconds the implied
fps is 0, outside `[1, 240]`, and for 30 frames in 0 seconds the check does not
run either; `validateManifestInternal` adds no `MANIFEST_FPS` warning, it
reports the errors `MANIFEST_FRAMES` and `MANIFEST_DURATION`. -/
theorem validateManifestInternal_fps_unguarded :
    GoFloat.lt (GoFloat.div (GoFloat.ofInt 0) (GoFloat.ofInt 10) : F64) (GoFloat.ofInt 1) = true ∧
    (validateManifestInternal emptyResult
        ({ DurationSeconds := GoFloat.ofInt 10, TotalFrames := 0 } : Manifest F64)).Warnings =
      [] ∧
    (validateManifestInternal emptyResult
        ({ DurationSeconds := GoFloat.ofInt 10, TotalFrames := 0 } : Manifest F64)).Errors.map
        (fun e => e.Code) = ["MANIFEST_FRAMES"] ∧
    (validateManifestInternal emptyResult
        ({ DurationSeconds := GoFloat.ofInt 0, TotalFrames := 30 } : Manifest F64)).Warnings =
      [] ∧
    (validateManifestInternal emptyResult
        ({ DurationSeconds := GoFloat.ofInt 0, TotalFrames := 30 } : Manifest F64)).Errors.map
        (fun e => e.Code) = ["MANIFEST_DURATION"] := by
  decide!

theorem validateTiming_Warnings_fps (r : ValidationResult F) (t : TimingData F)
    (code : String) (hc : code ≠ "TIMING_NOT_NORMALIZED") :
    (validateTiming r t).Warnings.filter (fun e => e.Code = code) =
      r.Warnings.filter (fun e => e.Code = code) := by
  unfold validateTiming
  cases hfr : t.Frames with
  | nil => simp [ValidationResult.addError]
  | cons first rest =>
    dsimp only
    cases firstIndexMismatch (first :: rest) 0 <;>
      cases firstDecrease first.TimestampMs rest 1 <;> dsimp only <;> split_ifs <;>
      simp [ValidationResult.addError, ValidationResult.addWarning,
        ValidationResult.addErrorWithValues, Ne.symm hc]

theorem validateInputs_Warnings_mono (r : ValidationResult F) (i : InputData F)
    (m : Manifest F) : ∀ e ∈ r.Warnings, e ∈ (validateInputs r i m).Warnings := by
  intro e he
  unfold validateInputs
  dsimp only
  split_ifs <;> simp [ValidationResult.addWarning, he]

theorem validateInputs_Warnings_fps (r : ValidationResult F) (i : InputData F)
    (m : Manifest F) :
    (validateInputs r i m).Warnings.filter (fun e => e.Code = "MANIFEST_FPS") =
      r.Warnings.filter (fun e => e.Code = "MANIFEST_FPS") := by
  unfold validateInputs
  dsimp only
  split_ifs <;> simp [ValidationResult.addWarning]

/-- The `VIDEO_FPS_UNUSUAL` warnings after `validateManifestVsTiming`: those
before, and one more when the duration is positive and the fps is below 10 or
above 120. -/
theorem validateManifestVsTiming_videoFps (r : ValidationResult F) (m : Manifest F)
    (t : TimingData F) :
    (validateManifestVsTiming r m t).Warnings.filter
        (fun e => e.Code = "VIDEO_FPS_UNUSUAL") =
      r.Warnings.filter (fun e => e.Code = "VIDEO_FPS_UNUSUAL") ++
        (if GoFloat.lt (GoFloat.ofInt 0) m.DurationSeconds = true ∧
            (GoFloat.lt (GoFloat.div (GoFloat.ofInt m.TotalFrames) m.DurationSeconds)
                (GoFloat.ofInt 10) = true ∨
              GoFloat.lt (GoFloat.ofInt 120)
                (GoFloat.div (GoFloat.ofInt m.TotalFrames) m.DurationSeconds) = true)
         then
          [{ Code := "VIDEO_FPS_UNUSUAL", Field := "",
             Message := "video FPS (" ++
               GoFloat.fmt 1 (GoFloat.div (GoFloat.ofInt m.TotalFrames) m.DurationSeconds) ++
               ") seems unusual" }]
         else []) := by
  unfold validateManifestVsTiming
  dsimp only
  split_ifs <;>
    simp_all [ValidationResult.addWarning, ValidationResult.addWarningWithValues,
      ValidationResult.addErrorWithValues]

/-- The `MANIFEST_FPS` warnings survive `validateManifestVsTiming` unchanged, and
the function adds a `VIDEO_FPS_UNUSUAL` warning when the duration is positive
and the fps is below 10 or above 120. -/
theorem validateManifestVsTiming_fps (r : ValidationResult F) (m : Manifest F)
    (t : TimingData F) :
    (validateManifestVsTiming r m t).Warnings.filter (fun e => e.Code = "MANIFEST_FPS") =
      r.Warnings.filter (fun e => e.Code = "MANIFEST_FPS") ∧
    (GoFloat.lt (GoFloat.ofInt 0) m.DurationSeconds = true →
      (GoFloat.lt (GoFloat.div (GoFloat.ofInt m.TotalFrames) m.DurationSeconds)
          (GoFloat.ofInt 10) = true ∨
        GoFloat.lt (GoFloat.ofInt 120)
          (GoFloat.div (GoFloat.ofInt m.TotalFrames) m.DurationSeconds) = true) →
      ∃ e ∈ (validateManifestVsTiming r m t).Warnings, e.Code = "VIDEO_FPS_UNUSUAL") := by
  constructor
  · unfold validateManifestVsTiming
    dsimp only
    split_ifs <;>
      simp [ValidationResult.addWarning, ValidationResult.addWarningWithValues,
        ValidationResult.addErrorWithValues]
  · intro hd hout
    have hf := validateManifestVsTiming_videoFps r m t
    rw [if_pos ⟨hd, hout⟩] at hf
    have hne : (validateManifestVsTiming r m t).Warnings.filter
        (fun e => e.Code = "VIDEO_FPS_UNUSUAL") ≠ [] := by
      rw [hf]
      simp
    obtain ⟨e, he⟩ := List.exists_mem_of_ne_nil _ hne
    have h := List.mem_filter.mp he
    exact ⟨e, h.1, by simpa using h.2⟩

/-- C28: when manifest and timing document load, a report of `ValidateBundle`
that holds a `MANIFEST_FPS` warning also holds a `VIDEO_FPS_UNUSUAL` warning,
for every interpretation of `float64` in which comparison is an order and
`1 < 10` and `120 < 240`: both checks test the same quotient. -/
theorem ValidateBundle_fps_warnings [GoFloatOrder F] (env : Env F) (bundlePath : String)
    (m : Manifest F) (t : TimingData F)
    (hm : loadManifest env bundlePath = .ok m) (ht : loadTiming env bundlePath = .ok t)
    (h1 : GoFloat.lt (GoFloat.ofInt 1 : F) (GoFloat.ofInt 10) = true)
    (h2 : GoFloat.lt (GoFloat.ofInt 120 : F) (GoFloat.ofInt 240) = true)
    (hw : ∃ e ∈ (ValidateBundle env bundlePath).Warnings, e.Code = "MANIFEST_FPS") :
    ∃ e ∈ (ValidateBundle env bundlePath).Warnings, e.Code = "VIDEO_FPS_UNUSUAL" := by
  -- the MANIFEST_FPS warning comes from validateManifestInternal
  have hfilter : (ValidateBundle env bundlePath).Warnings.filter
      (fun e => e.Code = "MANIFEST_FPS") ≠ [] := by
    obtain ⟨e, he, hc⟩ := hw
    intro hnil
    have : e ∈ (ValidateBundle env bundlePath).Warnings.filter
        (fun e => e.Code = "MANIFEST_FPS") := List.mem_filter.mpr ⟨he, by simpa using hc⟩
    rw [hnil] at this
    exact List.not_mem_nil _ this
  have hcond : (GoFloat.lt (GoFloat.ofInt 0) m.DurationSeconds = true ∧ m.TotalFrames > 0) ∧
      (GoFloat.lt (GoFloat.div (GoFloat.ofInt m.TotalFrames) m.DurationSeconds)
          (GoFloat.ofInt 1) = true ∨
        GoFloat.lt (GoFloat.ofInt 240)
          (GoFloat.div (GoFloat.ofInt m.TotalFrames) m.DurationSeconds) = true) := by
    by_contra hcon
    apply hfilter
    unfold ValidateBundle
    dsimp only
    rw [hm, ht]
    dsimp only
    cases loadInputs env bundlePath <;> dsimp only <;>
      simp only [validateInputs_Warnings_fps, (validateManifestVsTiming_fps _ _ _).1,
        validateTiming_Warnings_fps _ _ "MANIFEST_FPS" (by decide),
        validateManifestInternal_Warnings, if_neg hcon] <;>
      simp [ValidationResult.addWarning]
  have hout : GoFloat.lt (GoFloat.div (GoFloat.ofInt m.TotalFrames) m.DurationSeconds)
        (GoFloat.ofInt 10) = true ∨
      GoFloat.lt (GoFloat.ofInt 120)
        (GoFloat.div (GoFloat.ofInt m.TotalFrames) m.DurationSeconds) = true := by
    rcases hcond.2 with h | h
    · exact Or.inl (GoFloatOrder.lt_trans _ _ _ h h1)
    · exact Or.inr (GoFloatOrder.lt_trans _ _ _ h2 h)
  unfold ValidateBundle
  dsimp only
  rw [hm, ht]
  dsimp only
  cases loadInputs env bundlePath with
  | error err =>
    dsimp only
    exact (validateManifestVsTiming_fps _ m t).2 hcond.1.1 hout
  | ok inputs =>
    dsimp only
    obtain ⟨e, he, hc⟩ := (validateManifestVsTiming_fps
      (validateTiming (validateManifestInternal _ m) t) m t).2 hcond.1.1 hout
    exact ⟨e, validateInputs_Warnings_mono _ _ _ e he, hc⟩

/-- C28 at a manifest of 5 frames in 10 seconds with a timing document of two
entries, in binary64 arithmetic: the report holds both warnings. -/
theorem ValidateBundle_fps_warnings_witness :
    (∃ e ∈ (ValidateBundle (timingEnv { DurationSeconds := GoFloat.ofInt 10, TotalFrames := 5 }
        { Frames := spanFrames 10000 } : Env F64) "bundle").Warnings, e.Code = "MANIFEST_FPS") ∧
    (∃ e ∈ (ValidateBundle (timingEnv { DurationSeconds := GoFloat.ofInt 10, TotalFrames := 5 }
        { Frames := spanFrames 10000 } : Env F64) "bundle").Warnings,
      e.Code = "VIDEO_FPS_UNUSUAL") ∧
    (ValidateBundle (timingEnv { DurationSeconds := GoFloat.ofInt 10, TotalFrames := 5 }
        { Frames := spanFrames 10000 } : Env F64) "bundle").Warnings.map (fun e => e.Code) =
      ["INPUTS_LOAD", "MANIFEST_FPS", "VIDEO_FPS_UNUSUAL"] :=
  have hw : ∃ e ∈ (ValidateBundle (timingEnv
      { DurationSeconds := GoFloat.ofInt 10, TotalFrames := 5 }
      { Frames := spanFrames 10000 } : Env F64) "bundle").Warnings, e.Code = "MANIFEST_FPS" :=
    ⟨{ Code := "MANIFEST_FPS", Field := "",
       Message := "unusual FPS: 0.5 (frames=5, duration=10.00s)" }, by decide!, rfl⟩
  ⟨hw,
   ValidateBundle_fps_warnings _ "bundle"
     { DurationSeconds := GoFloat.ofInt 10, TotalFrames := 5 } { Frames := spanFrames 10000 }
     rfl rfl (by decide!) (by decide!) hw,
   by decide!⟩

end validate

namespace validate

variable {F : Type} [GoFloat F]

/-! ### The summary of a bundle: the number of key presses -/

omit [GoFloat F] in
/-- An event of another key does not change whether a key is open. -/
theorem openAt_insert_other (pre mid : List (InputEvent F)) (d : InputEvent F)
    (k : String) (s : F) (hk : d.KeyName ≠ k) :
    OpenAt (pre ++ d :: mid) k s ↔ OpenAt (pre ++ mid) k s := by
  induction mid using List.reverseRecOn with
  | nil =>
    rw [List.append_nil, openAt_append_singleton]
    constructor
    · rintro (⟨_, h, _⟩ | ⟨h, _⟩)
      · exact absurd h hk
      · exact h
    · intro h
      exact Or.inr ⟨h, fun h' => absurd h' hk⟩
  | append_singleton mid e ih =>
    have e1 : pre ++ d :: (mid ++ [e]) = (pre ++ d :: mid) ++ [e] := by simp
    have e2 : pre ++ (mid ++ [e]) = (pre ++ mid) ++ [e] := by simp
    rw [e1, e2, openAt_append_singleton, openAt_append_singleton, ih]

omit [GoFloat F] in
/-- A `KeyDown` that a later `KeyDown` of the same key follows does not change
which keys are open at the end, nor their start times. -/
theorem openAt_overwritten (pre mid post : List (InputEvent F)) (d d' : InputEvent F)
    (hd' : d'.InputType = "KeyDown") (hkey : d'.KeyName = d.KeyName) (k : String) (s : F) :
    OpenAt (pre ++ d :: mid ++ d' :: post) k s ↔ OpenAt (pre ++ mid ++ d' :: post) k s := by
  induction post using List.reverseRecOn with
  | nil =>
    have e1 : pre ++ d :: mid ++ [d'] = (pre ++ d :: mid) ++ [d'] := by simp
    have e2 : pre ++ mid ++ [d'] = (pre ++ mid) ++ [d'] := by simp
    rw [e1, e2, openAt_append_singleton, openAt_append_singleton]
    by_cases hk : d.KeyName = k
    · constructor
      · rintro (h | ⟨_, h⟩)
        · exact Or.inl h
        · exact absurd hd' (h (hkey.trans hk)).1
      · rintro (h | ⟨_, h⟩)
        · exact Or.inl h
        · exact absurd hd' (h (hkey.trans hk)).1
    · rw [openAt_insert_other pre mid d k s hk]
  | append_singleton post e ih =>
    have e1 : pre ++ d :: mid ++ d' :: (post ++ [e]) = (pre ++ d :: mid ++ d' :: post) ++ [e] := by
      simp
    have e2 : pre ++ mid ++ d' :: (post ++ [e]) = (pre ++ mid ++ d' :: post) ++ [e] := by simp
    rw [e1, e2, openAt_append_singleton, openAt_append_singleton, ih]

/-- The number of key presses of a summary: one for each `KeyUp` event and one
for each entry left in `keyDownTimes`, whose keys are the open keys. -/
theorem SummarizeBundle_length (env : Env F) (bundlePath : String) (m : Manifest F)
    (inputs : InputData F) (hm : loadManifest env bundlePath = .ok m)
    (hi : loadInputs env bundlePath = .ok inputs) :
    ∃ summary, SummarizeBundle env bundlePath = .ok summary ∧
      ∃ openKeys : List String, openKeys.Nodup ∧
        (∀ k, k ∈ openKeys ↔ ∃ s, OpenAt inputs.Events k s) ∧
        summary.KeyPresses.length =
          inputs.Events.countP (fun e => e.InputType = "KeyUp") + openKeys.length := by
  obtain ⟨summary, hs, hk⟩ := SummarizeBundle_KeyPresses env bundlePath m inputs hm hi
  obtain ⟨hnd, hmem⟩ := summarize_keyDownTimes inputs.Events
    { keyDownTimes := [], KeyPresses := [], MouseClicks := [] } rfl
  refine ⟨summary, hs, _, hnd, fun k => ?_, ?_⟩
  · rw [List.mem_map]
    constructor
    · rintro ⟨kv, hkv, rfl⟩
      exact ⟨kv.2, (hmem kv.1 kv.2).mp hkv⟩
    · rintro ⟨s, hs⟩
      exact ⟨(k, s), (hmem k s).mpr hs, rfl⟩
  · rw [hk, (sortSlice_perm _ _).length_eq, List.length_append,
      summarize_KeyPresses_length, List.length_map, List.length_map]
    simp

/-- C29: the number of key presses in the summary is the number of `KeyUp`
events of the trace plus the number of distinct key names that are open at
the end (their last `KeyDown` is not followed by a `KeyUp` of that key). A
`KeyDown` that a later `KeyDown` of the same key follows adds nothing to this number: the
trace without it has a summary with as many presses. -/
theorem SummarizeBundle_press_count (env : Env F) (bundlePath : String) (m : Manifest F)
    (inputs : InputData F) (hm : loadManifest env bundlePath = .ok m)
    (hi : loadInputs env bundlePath = .ok inputs) :
    ∃ summary, SummarizeBundle env bundlePath = .ok summary ∧
      (∃ openKeys : List String, openKeys.Nodup ∧
        (∀ k, k ∈ openKeys ↔ ∃ s, OpenAt inputs.Events k s) ∧
        summary.KeyPresses.length =
          inputs.Events.countP (fun e => e.InputType = "KeyUp") + openKeys.length) ∧
      (∀ (pre mid post : List (InputEvent F)) (d d' : InputEvent F),
        inputs.Events = pre ++ d :: mid ++ d' :: post →
        d.InputType = "KeyDown" → d'.InputType = "KeyDown" → d'.KeyName = d.KeyName →
        ∀ (env' : Env F) (bundlePath' : String) (m' : Manifest F) (inputs' : InputData F),
          loadManifest env' bundlePath' = .ok m' → loadInputs env' bundlePath' = .ok inputs' →
          inputs'.Events = pre ++ mid ++ d' :: post →
          ∃ summary', SummarizeBundle env' bundlePath' = .ok summary' ∧
            summary'.KeyPresses.length = summary.KeyPresses.length) := by
  obtain ⟨summary, hs, openKeys, hnd, hmem, hlen⟩ :=
    SummarizeBundle_length env bundlePath m inputs hm hi
  refine ⟨summary, hs, ⟨openKeys, hnd, hmem, hlen⟩, ?_⟩
  intro pre mid post d d' hsplit hd hd' hkey env' bundlePath' m' inputs' hm' hi' hsplit'
  obtain ⟨summary', hs', openKeys', hnd', hmem', hlen'⟩ :=
    SummarizeBundle_length env' bundlePath' m' inputs' hm' hi'
  refine ⟨summary', hs', ?_⟩
  have hperm : openKeys'.Perm openKeys := by
    rw [List.perm_ext_iff_of_nodup hnd' hnd]
    intro k
    rw [hmem, hmem', hsplit, hsplit']
    constructor
    · rintro ⟨s, h⟩
      exact ⟨s, (openAt_overwritten pre mid post d d' hd' hkey k s).mpr h⟩
    · rintro ⟨s, h⟩
      exact ⟨s, (openAt_overwritten pre mid post d d' hd' hkey k s).mp h⟩
  have hup : ¬ d.InputType = "KeyUp" := by rw [hd]; decide
  rw [hlen, hlen', hperm.length_eq, hsplit, hsplit']
  simp [List.countP_append, List.countP_cons, hup]

/-- C29 at the trace `[{0,KeyDown,W},{500,KeyUp,W},{100,KeyDown,A}]`: one
`KeyUp` event and one open key, `A`, give two presses. -/
theorem SummarizeBundle_press_count_witness :
    ∃ summary, SummarizeBundle (inputsEnv (truncatedInputs : InputData F64)) "bundle" =
        .ok summary ∧
      summary.KeyPresses.length = 2 ∧
      (truncatedInputs : InputData F64).Events.countP (fun e => e.InputType = "KeyUp") = 1 := by
  obtain ⟨summary, hs, ⟨openKeys, hnd, hmem, hlen⟩, _⟩ :=
    SummarizeBundle_press_count (inputsEnv (truncatedInputs : InputData F64)) "bundle"
      { BundleID := "session-1", DurationSeconds := GoFloat.ofInt 10, TotalFrames := 300 }
      truncatedInputs rfl rfl
  have hcount : (truncatedInputs : InputData F64).Events.countP
      (fun e => e.InputType = "KeyUp") = 1 := by
    decide
  refine ⟨summary, hs, ?_, hcount⟩
  have hA : ∀ k, k ∈ openKeys ↔ k = "A" := by
    intro k
    rw [hmem]
    have hsplit : (truncatedInputs : InputData F64).Events =
        (([] ++ [{ TimestampMs := GoFloat.ofInt 0, InputType := "KeyDown", KeyName := "W" }]) ++
          [{ TimestampMs := GoFloat.ofInt 500, InputType := "KeyUp", KeyName := "W" }]) ++
          [{ TimestampMs := GoFloat.ofInt 100, InputType := "KeyDown", KeyName := "A" }] := rfl
    rw [hsplit]
    constructor
    · rintro ⟨s, h⟩
      rw [openAt_append_singleton, openAt_append_singleton] at h
      rcases h with ⟨_, h, _⟩ | ⟨(⟨h, _⟩ | ⟨h, hne⟩), _⟩
      · exact h.symm
      · exact absurd h (by decide)
      · rw [openAt_append_singleton] at h
        rcases h with ⟨_, h, _⟩ | ⟨h, _⟩
        · exact absurd rfl (hne h).2
        · exact absurd h (openAt_nil k s)
    · intro hk
      exact ⟨GoFloat.ofInt 100, (openAt_append_singleton _ _ _ _).mpr (Or.inl ⟨rfl, hk.symm, rfl⟩)⟩
  have hlen1 : openKeys.length = 1 := by
    have hp : openKeys.Perm ["A"] :=
      (List.perm_ext_iff_of_nodup hnd (List.nodup_singleton _)).mpr
        (fun k => by rw [hA, List.mem_singleton])
    exact hp.length_eq
  rw [hlen, hcount, hlen1]

end validate

/-! ### The binary64 model -/

/-- The binary64 model on known values: the double nearest to 0.1, the sum
`0.1 + 0.2`, which is not the double nearest to 0.3, and the difference the
duration check computes for 10 s against 10.09 s. -/
theorem binary64_examples :
    f64.round (1 / 10) = 3602879701896397 / 2 ^ 55 ∧
    (GoFloat.add (F64.ofDecimal (1 / 10)) (F64.ofDecimal (2 / 10))).val =
      5404319552844596 / 2 ^ 54 ∧
    GoFloat.fmt 17 (GoFloat.add (F64.ofDecimal (1 / 10)) (F64.ofDecimal (2 / 10))) =
      "0.30000000000000004" ∧
    F64.ofDecimal (3 / 10) ≠ GoFloat.add (F64.ofDecimal (1 / 10)) (F64.ofDecimal (2 / 10)) ∧
    GoFloat.fmt 17 (GoFloat.abs (GoFloat.sub (GoFloat.ofInt 10 : F64)
      (GoFloat.div (GoFloat.ofInt 10090) (GoFloat.ofInt 1000)))) = "0.08999999999999986" ∧
    f64.round (2 ^ 53 + 1) = 2 ^ 53 ∧
    f64.round (1 / 2 ^ 1075) = 0 ∧
    f64.round (3 / 2 ^ 1075) = 1 / 2 ^ 1073 := by
  decide!

namespace sha256

/-- The digest function agrees with the FIPS 180-4 test vectors for the empty
message and for `abc`. -/
theorem Sum256_test_vectors :
    hex.EncodeToString (Sum256 []) =
      "e3b0c44298fc1c149afbf4c8996fb92427ae41e4649b934ca495991b7852b855" ∧
    hex.EncodeToString (Sum256 [0x61, 0x62, 0x63]) =
      "ba7816bf8f01cfea414140de5dae2223b00361a396177a9cb410ff61f20015ad" := by
  decide!

end sha256

namespace os

/-! ### Files a filesystem call can add -/

theorem Mkdir_files (fs fs' : FS) (path : String) (perm : Nat)
    (h : fs.Mkdir path perm = .ok fs') : fs'.files = fs.files := by
  unfold FS.Mkdir at h
  split_ifs at h
  injection h with h
  rw [← h]

theorem mkdirEach_files (perm : Nat) (ds : List String) :
    ∀ fs : FS, (FS.mkdirEach perm fs ds).2.files = fs.files := by
  induction ds with
  | nil => intro fs; rfl
  | cons d rest ih =>
    intro fs
    unfold FS.mkdirEach
    cases h : fs.Mkdir d perm with
    | error e => rfl
    | ok fs1 =>
      dsimp only
      rw [ih fs1, Mkdir_files fs fs1 d perm h]

/-- Whether it succeeds or fails, `MkdirAll` leaves the files as they are. -/
theorem MkdirAll_files (fs : FS) (path : String) (perm : Nat) :
    (fs.MkdirAll path perm).2.files = fs.files := by
  unfold FS.MkdirAll
  dsimp only
  split_ifs
  · rfl
  · rfl
  · rfl
  · exact mkdirEach_files perm _ fs

theorem WriteFile_files (fs fs' : FS) (path : String) (data : List Nat) (perm : Nat)
    (h : fs.WriteFile path data perm = .ok fs') :
    ∀ f ∈ fs'.files, f ∈ fs.files ∨ f.1 = path := by
  unfold FS.WriteFile at h
  split_ifs at h
  all_goals
    injection h with h
    rw [← h]
    intro f hf
    simp only [List.mem_append, List.mem_filter, List.mem_singleton] at hf
    rcases hf with hf | hf
    · exact Or.inl hf.1
    · exact Or.inr (by rw [hf])

/-! ### What `RemoveAll` leaves -/

/-- When `os.RemoveAll` returns no error, nothing is left at the path or below
it. -/
theorem RemoveAll_none (fs : FS) (t : String) (h : (fs.RemoveAll t).1 = none) :
    (∀ d ∈ (fs.RemoveAll t).2.dirs, under t d = false) ∧
    (∀ f ∈ (fs.RemoveAll t).2.files, under t f.1 = false) := by
  unfold FS.RemoveAll at h ⊢
  dsimp only at h ⊢
  split_ifs at h ⊢ with hleft
  · simp only [Bool.or_eq_true, not_or, Bool.not_eq_true, List.any_eq_false] at hleft
    refine ⟨fun d hd => ?_, fun f hf => ?_⟩
    · exact hleft.1 d hd
    · exact hleft.2 f hf

end os

namespace ingest

/-! ### Archive extraction stays below the destination -/

/-- Every file present after the extraction loop was there before, or is the
joined path of a member of the archive and starts with the cleaned destination
directory followed by `/`. -/
theorem extractFiles_confined (destDir : String) (files : List ZipFile) :
    ∀ fs : os.FS, ∀ f ∈ (extractFiles destDir fs files).2.files,
      f ∈ fs.files ∨
      ((∃ z ∈ files, f.1 = filepath.Join [destDir, z.Name]) ∧
        strings.HasPrefix f.1 (filepath.Clean destDir ++ "/") = true) := by
  induction files with
  | nil => intro fs f hf; exact Or.inl hf
  | cons z rest ih =>
    intro fs f hf
    have lift : ∀ fs' : os.FS, fs'.files = fs.files →
        (f ∈ fs'.files ∨
          ((∃ y ∈ rest, f.1 = filepath.Join [destDir, y.Name]) ∧
            strings.HasPrefix f.1 (filepath.Clean destDir ++ "/") = true)) →
        (f ∈ fs.files ∨
          ((∃ y ∈ z :: rest, f.1 = filepath.Join [destDir, y.Name]) ∧
            strings.HasPrefix f.1 (filepath.Clean destDir ++ "/") = true)) := by
      intro fs' hfs h
      rcases h with h | ⟨⟨y, hy, hyf⟩, hpre⟩
      · exact Or.inl (hfs ▸ h)
      · exact Or.inr ⟨⟨y, List.mem_cons_of_mem _ hy, hyf⟩, hpre⟩
    unfold extractFiles at hf
    dsimp only at hf
    by_cases hp : strings.HasPrefix (filepath.Join [destDir, z.Name])
        (filepath.Clean destDir ++ "/") = true
    · have here : f.1 = filepath.Join [destDir, z.Name] →
          (f ∈ fs.files ∨
            ((∃ y ∈ z :: rest, f.1 = filepath.Join [destDir, y.Name]) ∧
              strings.HasPrefix f.1 (filepath.Clean destDir ++ "/") = true)) :=
        fun h => Or.inr ⟨⟨z, List.mem_cons_self _ _, h⟩, h ▸ hp⟩
      simp only [hp, Bool.not_true, Bool.false_eq_true, if_false] at hf
      by_cases hd : z.IsDir = true
      · simp only [hd, if_true] at hf
        exact lift _ (os.MkdirAll_files fs _ _) (ih _ f hf)
      · simp only [hd, Bool.false_eq_true, if_false] at hf
        have hfiles0 := os.MkdirAll_files fs (filepath.Dir (filepath.Join [destDir, z.Name])) 0o755
        cases hmk : fs.MkdirAll (filepath.Dir (filepath.Join [destDir, z.Name])) 0o755 with
        | mk oerr fs1 =>
        rw [hmk] at hf hfiles0
        have hfiles : fs1.files = fs.files := hfiles0
        cases oerr with
        | some e =>
          exact Or.inl (hfiles ▸ hf)
        | none =>
          dsimp only at hf
          cases hc : z.Content with
          | openError e =>
            rw [hc] at hf
            exact Or.inl (hfiles ▸ hf)
          | ok data =>
            rw [hc] at hf
            dsimp only at hf
            cases hw : fs1.WriteFile (filepath.Join [destDir, z.Name]) data z.Mode with
            | error e =>
              rw [hw] at hf
              exact Or.inl (hfiles ▸ hf)
            | ok fs2 =>
              rw [hw] at hf
              rcases ih fs2 f hf with h | h
              · rcases os.WriteFile_files fs1 fs2 _ _ _ hw f h with h' | h'
                · exact Or.inl (hfiles ▸ h')
                · exact here h'
              · exact lift fs rfl (Or.inr h)
          | copyError written e =>
            rw [hc] at hf
            dsimp only at hf
            cases hw : fs1.WriteFile (filepath.Join [destDir, z.Name]) written z.Mode with
            | error e =>
              rw [hw] at hf
              exact Or.inl (hfiles ▸ hf)
            | ok fs2 =>
              rw [hw] at hf
              rcases os.WriteFile_files fs1 fs2 _ _ _ hw f hf with h' | h'
              · exact Or.inl (hfiles ▸ h')
              · exact here h'
    · simp only [hp, Bool.not_false, if_true] at hf
      exact Or.inl hf

/-- A member whose destination path fails the prefix test makes the extraction
loop return an error. -/
theorem extractFiles_rejects (destDir : String) (files : List ZipFile) :
    ∀ fs : os.FS, ∀ z ∈ files,
      strings.HasPrefix (filepath.Join [destDir, z.Name]) (filepath.Clean destDir ++ "/") = false →
      (extractFiles destDir fs files).1.isSome = true := by
  induction files with
  | nil => intro fs z hz; cases hz
  | cons y rest ih =>
    intro fs z hz hbad
    unfold extractFiles
    dsimp only
    by_cases hp : strings.HasPrefix (filepath.Join [destDir, y.Name])
        (filepath.Clean destDir ++ "/") = true
    · have hz' : z ∈ rest := by
        rcases List.mem_cons.mp hz with h | h
        · subst h
          rw [hp] at hbad
          cases hbad
        · exact h
      simp only [hp, Bool.not_true, Bool.false_eq_true, if_false]
      split
      · exact ih _ z hz' hbad
      · split
        · rfl
        · split
          · rfl
          · split
            · rfl
            · exact ih _ z hz' hbad
          · split <;> rfl
    · simp [hp]

/-- C2: every file present after `extractZip` either was there before or has a
path that starts with the cleaned destination directory followed by the path
separator; and an archive member whose joined and cleaned path does not start
so makes `extractZip` return an error, without a file being written at that
member's path. -/
theorem extractZip_confined (env : Env) (fs : os.FS) (zipPath destDir : String) :
    (∀ f ∈ (extractZip env fs zipPath destDir).2.files,
      f ∈ fs.files ∨ strings.HasPrefix f.1 (filepath.Clean destDir ++ "/") = true) ∧
    (∀ archive files, fs.ReadFile zipPath = .ok archive →
      env.zipOpenReader archive = .ok files →
      ∀ z ∈ files,
        strings.HasPrefix (filepath.Join [destDir, z.Name])
          (filepath.Clean destDir ++ "/") = false →
        (extractZip env fs zipPath destDir).1.isSome = true ∧
        ∀ data, (filepath.Join [destDir, z.Name], data) ∈
            (extractZip env fs zipPath destDir).2.files →
          (filepath.Join [destDir, z.Name], data) ∈ fs.files) := by
  have key : ∀ f ∈ (extractZip env fs zipPath destDir).2.files,
      f ∈ fs.files ∨ strings.HasPrefix f.1 (filepath.Clean destDir ++ "/") = true := by
    intro f hf
    unfold extractZip at hf
    cases hr : fs.ReadFile zipPath with
    | error e => rw [hr] at hf; exact Or.inl hf
    | ok archive =>
      rw [hr] at hf
      dsimp only at hf
      cases ho : env.zipOpenReader archive with
      | error e => rw [ho] at hf; exact Or.inl hf
      | ok files =>
        rw [ho] at hf
        rcases extractFiles_confined destDir files fs f hf with h | h
        · exact Or.inl h
        · exact Or.inr h.2
  refine ⟨key, ?_⟩
  intro archive files hr ho z hz hbad
  constructor
  · unfold extractZip
    rw [hr]
    dsimp only
    rw [ho]
    exact extractFiles_rejects destDir files fs z hz hbad
  · intro data hmem
    rcases key _ hmem with h | h
    · exact h
    · rw [hbad] at h
      cases h

/-- C2 at the example of the claim: an archive whose member is named
`../../etc/passwd`, extracted to a staging directory, is rejected with an error
and leaves the filesystem as it was. -/
theorem extractZip_confined_witness :
    exampleFS.ReadFile "/in/a.zip" = .ok [80, 75] ∧
    traversalEnv.zipOpenReader [80, 75] = .ok [traversalFile] ∧
    strings.HasPrefix (filepath.Join ["/data/tmp/upload_00010203", traversalFile.Name])
      (filepath.Clean "/data/tmp/upload_00010203" ++ "/") = false ∧
    (extractZip traversalEnv exampleFS "/in/a.zip" "/data/tmp/upload_00010203").1.isSome = true ∧
    (extractZip traversalEnv exampleFS "/in/a.zip" "/data/tmp/upload_00010203").2 = exampleFS :=
  ⟨rfl, rfl, by decide,
    ((extractZip_confined traversalEnv exampleFS "/in/a.zip" "/data/tmp/upload_00010203").2
      [80, 75] [traversalFile] rfl rfl traversalFile (List.mem_singleton.mpr rfl)
      (by decide)).1,
    by decide⟩

/-- For a destination whose cleaned path ends in an ordinary name, as every
staging directory does (`upload_<id>`, `extracted`), each file the extraction
loop adds lies below the destination: its path is the cleaned destination
followed by ordinary path elements only. -/
theorem extractFiles_below (destDir : String) (files : List ZipFile) (fs : os.FS)
    (init : List (List Char)) (last : List Char)
    (hd : filepath.keptElems destDir.data = init ++ [last]) (hl : filepath.Ordinary last) :
    ∀ f ∈ (extractFiles destDir fs files).2.files,
      f ∈ fs.files ∨
      ∃ rest : List (List Char), rest ≠ [] ∧ (∀ e ∈ rest, filepath.Ordinary e) ∧
        f.1.data = (filepath.Clean destDir).data ++ '/' :: filepath.joinSep rest := by
  intro f hf
  rcases extractFiles_confined destDir files fs f hf with h | ⟨⟨z, _, hz⟩, hpre⟩
  · exact Or.inl h
  · right
    rw [hz] at hpre ⊢
    exact filepath.Join_below destDir z.Name init last hd hl hpre

/-- The staging directory of the example ends in the ordinary name
`upload_00010203`, so `extractFiles_below` applies to it. -/
theorem extractFiles_below_witness :
    filepath.keptElems "/data/tmp/upload_00010203".data =
      ["data".data, "tmp".data] ++ ["upload_00010203".data] ∧
    filepath.Ordinary "upload_00010203".data ∧
    ∀ f ∈ (extractFiles "/data/tmp/upload_00010203" exampleFS
        [{ Name := "logs/../manifest.json", Content := .ok [123, 125] }]).2.files,
      f ∈ exampleFS.files ∨
      ∃ rest : List (List Char), rest ≠ [] ∧ (∀ e ∈ rest, filepath.Ordinary e) ∧
        f.1.data = (filepath.Clean "/data/tmp/upload_00010203").data ++
          '/' :: filepath.joinSep rest :=
  ⟨by decide, by unfold filepath.Ordinary; decide,
    extractFiles_below "/data/tmp/upload_00010203" _ exampleFS
      ["data".data, "tmp".data] "upload_00010203".data (by decide)
      (by unfold filepath.Ordinary; decide)⟩

/-- The prefix test is lexical: for a destination that cleans to `..`, the
member `../x` passes it and is written to `../../x`. The repository never
extracts to such a destination. -/
theorem extractFiles_dotdot_destination :
    (extractFiles ".." {} [{ Name := "../x", Content := .ok [1] }]).2.files =
      [("../../x", [1])] := by
  decide

/-! ### Multi-file uploads: where the files are written -/

theorem not_mem_of_any_false (l : List Char) (c : Char)
    (h : l.any (fun x => ['/', '\\'].contains x) = false) (hc : c = '/') : c ∉ l := by
  intro hm
  have := List.any_eq_false.mp h c hm
  subst hc
  simp at this

/-- The name a multi-file upload is written under is an ordinary name, or one of
the four names `""`, `"."`, `".."`, `"/"`. -/
theorem stagedName_cases (filename : String) :
    filepath.Ordinary (stagedName filename).data ∨ stagedName filename = "" ∨
      stagedName filename = "." ∨ stagedName filename = ".." ∨ stagedName filename = "/" := by
  unfold stagedName
  by_cases hc : (strings.Contains filename ".." || strings.ContainsAny filename "/\\") = true
  · rw [if_pos hc]
    unfold filepath.Base
    by_cases he : filename = ""
    · simp [he]
    · rw [if_neg he]
      dsimp only
      split
      · simp
      · rename_i hlast
        generalize hL : ((filepath.stripTrailingSep filename.data).reverse.takeWhile
          (fun c => c ≠ '/')).reverse = L at hlast ⊢
        have hsep : '/' ∉ L := by
          rw [← hL]
          intro hm
          have hm' := List.mem_reverse.mp hm
          have := List.mem_takeWhile_imp hm'
          simp at this
        by_cases h1 : L = ['.']
        · right; right; left
          apply String.ext
          rw [h1]
        · by_cases h2 : L = ['.', '.']
          · right; right; right; left
            apply String.ext
            rw [h2]
          · left
            exact ⟨hlast, h1, h2, hsep⟩
  · rw [if_neg hc]
    simp only [Bool.or_eq_true, not_or, Bool.not_eq_true] at hc
    have hsep : '/' ∉ filename.data := by
      unfold strings.ContainsAny at hc
      exact not_mem_of_any_false _ _ hc.2 rfl
    by_cases h0 : filename.data = []
    · right; left
      apply String.ext
      rw [h0]
    · by_cases h1 : filename.data = ['.']
      · right; right; left
        apply String.ext
        rw [h1]
      · left
        refine ⟨h0, h1, ?_, hsep⟩
        intro h2
        have : strings.Contains filename ".." = true := by
          unfold strings.Contains
          rw [h2]
          decide
        rw [this] at hc
        exact absurd hc.1 (by simp)

/-- A multi-file upload whose flattened name is an ordinary name is written to
a direct child of the staging directory. -/
theorem stagedPath_child (tmpDir filename : String)
    (hk : filepath.keptElems tmpDir.data ≠ [])
    (hn : filepath.Ordinary (stagedName filename).data) :
    filepath.Join [tmpDir, stagedName filename] =
      filepath.Clean tmpDir ++ "/" ++ stagedName filename :=
  filepath.Join_ordinary tmpDir (stagedName filename) hk hn

/-- C3, at the failing input: the upload name `..` contains `..`, so it is
replaced by its base name, which is `..` again; the path `IngestFromFiles` then
writes to is the parent of the staging directory (the staging root
`/data/tmp`), not a child of the staging directory. The write fails because
that path is a directory, and the call returns the error. The same holds for
`a/..`; the names `.` and `/` resolve to the staging directory itself. The name
`../../etc/passwd` is flattened to `passwd`, as the claim says. -/
theorem IngestFromFiles_dotdot :
    stagedName "../../etc/passwd" = "passwd" ∧
    filepath.Join ["/data/tmp/upload_00010203", stagedName "../../etc/passwd"] =
      "/data/tmp/upload_00010203/passwd" ∧
    stagedName ".." = ".." ∧
    filepath.Join ["/data/tmp/upload_00010203", stagedName ".."] = "/data/tmp" ∧
    filepath.Join ["/data/tmp/upload_00010203", stagedName "a/.."] = "/data/tmp" ∧
    filepath.Join ["/data/tmp/upload_00010203", stagedName "."] = "/data/tmp/upload_00010203" ∧
    filepath.Join ["/data/tmp/upload_00010203", stagedName "/"] = "/data/tmp/upload_00010203" ∧
    (IngestFromFiles exampleEnv exampleStorage random1 { fs := exampleFS }
        [("..", [114, 111, 111, 116])]).1 =
      .error (.other "write file ..: open /data/tmp: is a directory") := by
  refine ⟨by decide, by decide, by decide, by decide, by decide, by decide, by decide, ?_⟩
  decide!

/-! ### Multi-file uploads: the content hash -/

/-- The bytes `writeFiles` feeds to the hash are the file contents in the order
in which the entries are visited. -/
theorem writeFiles_hashed (tmpDir : String) (files : List (String × List Nat)) :
    ∀ (fs fs' : os.FS) (acc hashed : List Nat) (n total : Int),
      writeFiles tmpDir fs files acc n = (.ok (hashed, total), fs') →
      hashed = acc ++ files.flatMap (fun f => f.2) := by
  induction files with
  | nil =>
    intro fs fs' acc hashed n total h
    simp only [writeFiles, Prod.mk.injEq, Except.ok.injEq] at h
    simp [h.1.1]
  | cons f rest ih =>
    intro fs fs' acc hashed n total h
    obtain ⟨name, data⟩ := f
    unfold writeFiles at h
    dsimp only at h
    cases hw : fs.WriteFile (filepath.Join [tmpDir, stagedName name]) data 0o644 with
    | error e =>
      rw [hw] at h
      simp at h
    | ok fs1 =>
      rw [hw] at h
      have := ih fs1 fs' (acc ++ data) hashed _ total h
      simp [this]

/-- C4, at the failing input: the two files `a.mp4` (one byte `1`) and
`manifest.json` (`{}`), visited in the two possible orders, give two different
content hashes, and `IngestFromFiles` records the hash of the order visited. -/
theorem filesContentHash_order :
    List.Perm [("a.mp4", [1]), ("manifest.json", [123, 125])]
      [("manifest.json", [123, 125]), ("a.mp4", [1])] ∧
    filesContentHash [("a.mp4", [1]), ("manifest.json", [123, 125])] =
      "sha256:e6a9d8dbd2b2941a6b6c47bf7910f0a6ee0b08d47c3462ab727ae2d73bc005da" ∧
    filesContentHash [("manifest.json", [123, 125]), ("a.mp4", [1])] =
      "sha256:5fae6ced057326d9486aba4c707f4a64de37d485f81205f569bb9ce4723658a0" ∧
    (IngestFromFiles exampleEnv exampleStorage random1 { fs := exampleFS }
        [("a.mp4", [1]), ("manifest.json", [123, 125])]).2.db.repro_bundles.map
          (fun b => b.ContentHash) =
      ["sha256:e6a9d8dbd2b2941a6b6c47bf7910f0a6ee0b08d47c3462ab727ae2d73bc005da"] ∧
    (IngestFromFiles exampleEnv exampleStorage random1 { fs := exampleFS }
        [("manifest.json", [123, 125]), ("a.mp4", [1])]).2.db.repro_bundles.map
          (fun b => b.ContentHash) =
      ["sha256:5fae6ced057326d9486aba4c707f4a64de37d485f81205f569bb9ce4723658a0"] := by
  refine ⟨List.Perm.swap _ _ _, ?_, ?_, ?_, ?_⟩ <;> decide!

/-! ### Ingesting the same payload twice -/

/-- C1, at the failing input: the multi-file payload `manifest.json` = `{}`,
ingested twice through `IngestFromFiles`. The first call returns `ingested`; the
second returns the same identifier with `already_exists` and leaves one bundle
record, but the permanent store then holds two bundle directories, because the
staging directory is moved there before the content hash is looked up. -/
theorem IngestFromFiles_twice :
    (IngestFromFiles exampleEnv exampleStorage random1 { fs := exampleFS }
        [("manifest.json", [123, 125])]).1 =
      .ok { BundleID := "rb_01010203", Status := "ingested", ArtifactCount := 0 } ∧
    (IngestFromFiles exampleEnv exampleStorage random2
        (IngestFromFiles exampleEnv exampleStorage random1 { fs := exampleFS }
          [("manifest.json", [123, 125])]).2
        [("manifest.json", [123, 125])]).1 =
      .ok { BundleID := "rb_01010203", Status := "already_exists", ArtifactCount := 0 } ∧
    (IngestFromFiles exampleEnv exampleStorage random2
        (IngestFromFiles exampleEnv exampleStorage random1 { fs := exampleFS }
          [("manifest.json", [123, 125])]).2
        [("manifest.json", [123, 125])]).2.db.repro_bundles.map (fun b => b.BundleID) =
      ["rb_01010203"] ∧
    bundleDirs exampleStorage
      (IngestFromFiles exampleEnv exampleStorage random2
        (IngestFromFiles exampleEnv exampleStorage random1 { fs := exampleFS }
          [("manifest.json", [123, 125])]).2
        [("manifest.json", [123, 125])]).2.fs =
      ["/data/bundles/rb_01010203", "/data/bundles/rb_01ff0203"] := by
  refine ⟨?_, ?_, ?_, ?_⟩ <;> decide!

/-- The same payload of two files, visited in a different order by the second
call of `IngestFromFiles`, is ingested a second time: two bundle records and
two bundle directories. -/
theorem IngestFromFiles_twice_reordered :
    (IngestFromFiles exampleEnv exampleStorage random2
        (IngestFromFiles exampleEnv exampleStorage random1 { fs := exampleFS }
          [("a.mp4", [1]), ("manifest.json", [123, 125])]).2
        [("manifest.json", [123, 125]), ("a.mp4", [1])]).1 =
      .ok { BundleID := "rb_01ff0203", Status := "ingested", ArtifactCount := 0 } ∧
    (IngestFromFiles exampleEnv exampleStorage random2
        (IngestFromFiles exampleEnv exampleStorage random1 { fs := exampleFS }
          [("a.mp4", [1]), ("manifest.json", [123, 125])]).2
        [("manifest.json", [123, 125]), ("a.mp4", [1])]).2.db.repro_bundles.map
          (fun b => b.BundleID) =
      ["rb_01010203", "rb_01ff0203"] := by
  refine ⟨?_, ?_⟩ <;> decide!

/-- The archive paths on the same example: ingesting the archive `/in/a.zip`
twice through `IngestZipFile`, and its bytes twice through `IngestFromReader`,
returns the first identifier with `already_exists` and leaves one bundle record
and one bundle directory. -/
theorem IngestZip_twice :
    (IngestZipFile exampleEnv exampleStorage random2
        (IngestZipFile exampleEnv exampleStorage random1 { fs := exampleFS } "/in/a.zip").2
        "/in/a.zip").1 =
      .ok { BundleID := "rb_01010203", Status := "already_exists", ArtifactCount := 0 } ∧
    bundleDirs exampleStorage
      (IngestZipFile exampleEnv exampleStorage random2
        (IngestZipFile exampleEnv exampleStorage random1 { fs := exampleFS } "/in/a.zip").2
        "/in/a.zip").2.fs = ["/data/bundles/rb_01010203"] ∧
    (IngestFromReader exampleEnv exampleStorage random2
        (IngestFromReader exampleEnv exampleStorage random1 { fs := exampleFS }
          { data := [80, 75] } 2).2
        { data := [80, 75] } 2).1 =
      .ok { BundleID := "rb_01010203", Status := "already_exists", ArtifactCount := 0 } ∧
    bundleDirs exampleStorage
      (IngestFromReader exampleEnv exampleStorage random2
        (IngestFromReader exampleEnv exampleStorage random1 { fs := exampleFS }
          { data := [80, 75] } 2).2
        { data := [80, 75] } 2).2.fs = ["/data/bundles/rb_01010203"] := by
  refine ⟨?_, ?_, ?_, ?_⟩ <;> decide!

end ingest

namespace ingest

/-! ### The artifact type column -/

/-- The result of `normalizeArtifactType` is one of the six values. -/
theorem normalizeArtifactType_mem (t : String) :
    normalizeArtifactType t ∈ artifactTypes := by
  unfold normalizeArtifactType
  dsimp only
  split_ifs <;> decide

/-- Each of the six values is mapped to itself. -/
theorem normalizeArtifactType_fixed (v : String) (hv : v ∈ artifactTypes) :
    normalizeArtifactType v = v := by
  simp only [artifactTypes, List.mem_cons, List.mem_singleton, List.not_mem_nil, or_false] at hv
  rcases hv with h | h | h | h | h | h <;> rw [h] <;> decide

/-- The type inferred from a filename is one of the six values. -/
theorem guessArtifactType_mem (filename : String) :
    models.guessArtifactType filename ∈ artifactTypes := by
  unfold models.guessArtifactType
  split_ifs <;> decide

/-- C30: the type inferred from the filename of a legacy string-array artifact
is registered unchanged, and `normalizeArtifactType` is idempotent. -/
theorem normalizeArtifactType_guess :
    (∀ filename : String,
      normalizeArtifactType (models.guessArtifactType filename) =
        models.guessArtifactType filename) ∧
    (∀ t : String,
      normalizeArtifactType (normalizeArtifactType t) = normalizeArtifactType t) :=
  ⟨fun filename => normalizeArtifactType_fixed _ (guessArtifactType_mem filename),
   fun t => normalizeArtifactType_fixed _ (normalizeArtifactType_mem t)⟩

end ingest

namespace hex

/-! ### Hexadecimal strings -/

theorem digit_mem (n : Nat) (h : n < 16) : digit n ∈ "0123456789abcdef".data := by
  interval_cases n <;> decide

theorem EncodeToString_length (src : List Nat) :
    (EncodeToString src).data.length = 2 * src.length := by
  unfold EncodeToString
  induction src with
  | nil => rfl
  | cons b rest ih =>
    simp only [List.flatMap_cons, List.length_append, List.length_cons, List.length_nil]
    simp only [List.flatMap] at ih ⊢
    omega

theorem EncodeToString_digits (src : List Nat) :
    ∀ c ∈ (EncodeToString src).data, c ∈ "0123456789abcdef".data := by
  unfold EncodeToString
  intro c hc
  simp only [List.mem_flatMap, List.mem_cons, List.mem_singleton, List.not_mem_nil,
    or_false] at hc
  obtain ⟨b, _, h | h⟩ := hc
  · rw [h]
    exact digit_mem _ (Nat.div_lt_of_lt_mul (Nat.mod_lt _ (by norm_num)))
  · rw [h]
    exact digit_mem _ (Nat.mod_lt _ (by norm_num))

theorem digitsFuel_digits : ∀ (fuel n : Nat),
    ∀ c ∈ digitsFuel fuel n, c ∈ "0123456789abcdef".data := by
  intro fuel
  induction fuel with
  | zero => intro n c hc; simp [digitsFuel] at hc
  | succ f ih =>
    intro n c hc
    rw [digitsFuel] at hc
    split_ifs at hc with hlt
    · rw [List.mem_singleton.mp hc]
      exact digit_mem n hlt
    · rcases List.mem_append.mp hc with h | h
      · exact ih _ c h
      · rw [List.mem_singleton.mp h]
        exact digit_mem _ (Nat.mod_lt _ (by norm_num))

/-- A number of at least `16 ^ k` has more than `k` hexadecimal digits. -/
theorem digitsFuel_length : ∀ (fuel n k : Nat), 16 ^ k ≤ n → n < fuel →
    k + 1 ≤ (digitsFuel fuel n).length := by
  intro fuel
  induction fuel with
  | zero => intro n k _ h; omega
  | succ f ih =>
    intro n k hk hn
    rw [digitsFuel]
    split_ifs with hlt
    · cases k with
      | zero => simp
      | succ k' =>
        have : 16 ≤ 16 ^ (k' + 1) := by
          calc 16 = 16 ^ 1 := by norm_num
            _ ≤ 16 ^ (k' + 1) := Nat.pow_le_pow_right (by norm_num) (by omega)
        omega
    · rw [List.length_append, List.length_singleton]
      cases k with
      | zero => omega
      | succ k' =>
        have h1 : 16 ^ k' ≤ n / 16 := by
          rw [Nat.le_div_iff_mul_le (by norm_num)]
          calc 16 ^ k' * 16 = 16 ^ (k' + 1) := by ring
            _ ≤ n := hk
        have h2 : n / 16 < f := by
          have : n / 16 < n := Nat.div_lt_self (by omega) (by norm_num)
          omega
        have := ih (n / 16) k' h1 h2
        omega

end hex

namespace ingest

/-! ### Identifiers -/

/-- The generated identifier of length 8 is 8 lowercase hexadecimal digits,
whatever the random source delivers. -/
theorem generateID_hex (random : List Nat) : hex.IsLowerHex 8 (generateID random 8) := by
  unfold generateID hex.IsLowerHex
  dsimp only
  constructor
  · rw [List.length_take, hex.EncodeToString_length]
    simp
  · intro c hc
    exact hex.EncodeToString_digits _ c (List.mem_of_mem_take hc)

/-- Every artifact record the loop adds has an identifier `art_` followed by a
generated identifier. -/
theorem insertArtifacts_ids (s : storage.Storage) (random : Nat → List Nat)
    (bundleID storagePath : String) (fs : os.FS) (arts : List models.ManifestArtifact) :
    ∀ (k : Nat) (d : db.DB),
      ∀ a ∈ (insertArtifacts s random bundleID storagePath fs arts k d).artifacts,
        a ∈ d.artifacts ∨ ∃ j, a.ArtifactID = "art_" ++ generateID (random j) 8 := by
  induction arts with
  | nil => intro k d a ha; exact Or.inl ha
  | cons ma rest ih =>
    intro k d a ha
    rw [insertArtifacts] at ha
    rcases ih _ _ a ha with h | h
    · unfold db.DB.InsertArtifact at h
      rcases List.mem_append.mp h with h1 | h1
      · exact Or.inl h1
      · rw [List.mem_singleton.mp h1]
        exact Or.inr ⟨k, rfl⟩
    · exact Or.inr h

end ingest

namespace api

/-- The identifier of package `api` is 8 lowercase hexadecimal digits: always
when the random source delivers, and from the clock when it fails, for every
time from 0.27 s after the start of 1970 on. -/
theorem generateID_lowerHex (random : Except String (List Nat)) (now : Int)
    (hnow : 16 ^ 7 ≤ now) :
    ∃ id, generateID random now 8 = some id ∧ hex.IsLowerHex 8 id := by
  unfold generateID
  dsimp only
  cases random with
  | ok b =>
    dsimp only
    have hlen := hex.EncodeToString_length ((List.range 8).map (fun i => b.getD i 0))
    rw [List.length_map, List.length_range] at hlen
    rw [if_neg (by rw [hlen]; norm_num)]
    refine ⟨_, rfl, ?_, ?_⟩
    · rw [List.length_take, hlen]
      rfl
    · intro c hc
      exact hex.EncodeToString_digits _ c (List.mem_of_mem_take hc)
  | error err =>
    dsimp only
    have hpos : ¬ now < 0 := by
      have : (0 : Int) ≤ 16 ^ 7 := by norm_num
      omega
    have hnat : 16 ^ 7 ≤ now.natAbs := by
      have h1 : ((16 ^ 7 : Nat) : Int) ≤ now := by exact_mod_cast hnow
      omega
    have hlen := hex.digitsFuel_length (now.natAbs + 1) now.natAbs 7 hnat (by omega)
    have hdata : (hex.formatInt now).data =
        hex.digitsFuel (now.natAbs + 1) now.natAbs := by
      unfold hex.formatInt
      simp [hpos]
    rw [hdata, if_neg (by omega)]
    refine ⟨_, rfl, ?_, ?_⟩
    · rw [List.length_take]
      omega
    · intro c hc
      exact hex.digitsFuel_digits _ _ c (List.mem_of_mem_take hc)

end api

namespace ingest

/-! ### What a successful ingestion stores -/

theorem insertArtifacts_repro_bundles (s : storage.Storage) (random : Nat → List Nat)
    (bundleID storagePath : String) (fs : os.FS) (arts : List models.ManifestArtifact) :
    ∀ (k : Nat) (d : db.DB),
      (insertArtifacts s random bundleID storagePath fs arts k d).repro_bundles =
        d.repro_bundles := by
  induction arts with
  | nil => intro k d; rfl
  | cons ma rest ih =>
    intro k d
    rw [insertArtifacts]
    exact (ih _ _).trans rfl

/-- The loop appends one record for each artifact of the manifest, in the order
of the manifest, with the filename the manifest declares and with the artifact
type `normalizeArtifactType` gives the declared type. -/
theorem insertArtifacts_added (s : storage.Storage) (random : Nat → List Nat)
    (bundleID storagePath : String) (fs : os.FS) (arts : List models.ManifestArtifact) :
    ∀ (k : Nat) (d : db.DB), ∃ added : List models.Artifact,
      (insertArtifacts s random bundleID storagePath fs arts k d).artifacts =
        d.artifacts ++ added ∧
      added.map (fun a => (a.Filename, a.ArtifactType)) =
        arts.map (fun ma => (ma.Filename, normalizeArtifactType ma.Type_)) := by
  induction arts with
  | nil => intro k d; exact ⟨[], by simp [insertArtifacts], rfl⟩
  | cons ma rest ih =>
    intro k d
    have key : ∀ art : models.Artifact, art.Filename = ma.Filename →
        art.ArtifactType = normalizeArtifactType ma.Type_ →
        ∃ added : List models.Artifact,
          (insertArtifacts s random bundleID storagePath fs rest (k + 1)
            (d.InsertArtifact art)).artifacts = d.artifacts ++ added ∧
          added.map (fun a => (a.Filename, a.ArtifactType)) =
            (ma :: rest).map (fun ma => (ma.Filename, normalizeArtifactType ma.Type_)) := by
      intro art hf ht
      obtain ⟨added, h1, h2⟩ := ih (k + 1) (d.InsertArtifact art)
      refine ⟨art :: added, ?_, ?_⟩
      · rw [h1]
        simp [db.DB.InsertArtifact]
      · rw [List.map_cons, List.map_cons, h2, hf, ht]
    rw [insertArtifacts]
    exact key _ rfl rfl

theorem InsertBundle_false (d d' : db.DB) (b : models.ReproBundle) (existingID : String)
    (h : d.InsertBundle b = ((existingID, false), d')) :
    d'.repro_bundles = d.repro_bundles ++ [b] ∧ d'.artifacts = d.artifacts := by
  unfold db.DB.InsertBundle at h
  split at h
  · simp at h
  · simp only [Prod.mk.injEq] at h
    rw [← h.2]
    exact ⟨rfl, rfl⟩

theorem CreateTempDir_dir (s : storage.Storage) (fs fs' : os.FS) (uploadID dir : String)
    (h : s.CreateTempDir fs uploadID = .ok (dir, fs')) :
    dir = filepath.Join [s.tmpDir, "upload_" ++ uploadID] ∧
    fs.MkdirAll (filepath.Join [s.tmpDir, "upload_" ++ uploadID]) 0o755 = (none, fs') := by
  unfold storage.Storage.CreateTempDir at h
  dsimp only at h
  cases hm : fs.MkdirAll (filepath.Join [s.tmpDir, "upload_" ++ uploadID]) 0o755 with
  | mk oerr fs1 =>
    cases oerr with
    | some err => simp [hm] at h
    | none =>
      simp only [hm, Except.ok.injEq, Prod.mk.injEq] at h
      exact ⟨h.1.symm, by rw [h.2]⟩

/-- A call of `IngestZipFile` that returns `ingested` has added one bundle
record, with the identifier returned and an empty storage path, whatever path
`MoveToBundles` returned for the bundle. -/
theorem IngestZipFile_ingested (env : Env) (s : storage.Storage) (random : Nat → List Nat)
    (w : World) (zipPath : String) (res : IngestResult)
    (h : (IngestZipFile env s random w zipPath).1 = .ok res) (hs : res.Status = "ingested") :
    res.BundleID = "rb_" ++ generateID (random 1) 8 ∧
    ∃ (b : models.ReproBundle) (fs fs' : os.FS) (storagePath : String),
      (IngestZipFile env s random w zipPath).2.db.repro_bundles =
        w.db.repro_bundles ++ [b] ∧
      b.BundleID = res.BundleID ∧
      s.MoveToBundles fs
        (filepath.Join [s.tmpDir, "upload_" ++ generateID (random 0) 8]) res.BundleID =
          .ok (storagePath, fs') ∧
      b.StoragePath = "" ∧
      ∃ (m0 manifest : models.Manifest),
        parseManifest env fs (filepath.Join
          [filepath.Join [s.tmpDir, "upload_" ++ generateID (random 0) 8], "manifest.json"]) =
            .ok m0 ∧
        m0.Validate env.now = .ok manifest ∧
        res.ArtifactCount = manifest.Artifacts.length ∧
        ∃ added : List models.Artifact,
          (IngestZipFile env s random w zipPath).2.db.artifacts = w.db.artifacts ++ added ∧
          added.map (fun a => (a.Filename, a.ArtifactType)) =
            manifest.Artifacts.map (fun ma => (ma.Filename, normalizeArtifactType ma.Type_)) := by
  cases hct : s.CreateTempDir w.fs (generateID (random 0) 8) with
  | error err => simp [IngestZipFile, hct] at h
  | ok p =>
    obtain ⟨tmpDir, fs1⟩ := p
    cases hh : storage.HashFile fs1 zipPath with
    | error err => simp [IngestZipFile, hct, hh, cleanup] at h
    | ok contentHash =>
      cases he : extractZip env fs1 zipPath tmpDir with
      | mk oerr fs2 =>
        cases oerr with
        | some err => simp [IngestZipFile, hct, hh, he, cleanup] at h
        | none =>
          cases hp : parseManifest env fs2 (filepath.Join [tmpDir, "manifest.json"]) with
          | error err => simp [IngestZipFile, hct, hh, he, hp, cleanup] at h
          | ok manifest =>
            cases hv : manifest.Validate env.now with
            | error err => simp [IngestZipFile, hct, hh, he, hp, hv, cleanup] at h
            | ok manifest2 =>
              cases hsz : storage.DirSize fs2 tmpDir with
              | error err => simp [IngestZipFile, hct, hh, he, hp, hv, hsz, cleanup] at h
              | ok totalSize =>
                cases hi : w.db.InsertBundle (bundleRecord ("rb_" ++ generateID (random 1) 8)
                    contentHash manifest2 totalSize "") with
                | mk res1 d1 =>
                  obtain ⟨existingID, alreadyExists⟩ := res1
                  cases alreadyExists with
                  | true =>
                    simp [IngestZipFile, hct, hh, he, hp, hv, hsz, hi, cleanup] at h
                    rw [← h] at hs
                    simp at hs
                  | false =>
                    cases hmv : s.MoveToBundles fs2 tmpDir ("rb_" ++ generateID (random 1) 8) with
                    | error err =>
                      simp [IngestZipFile, hct, hh, he, hp, hv, hsz, hi, hmv, cleanup] at h
                    | ok q =>
                      obtain ⟨storagePath, fs3⟩ := q
                      have h1 : (IngestZipFile env s random w zipPath).1 =
                          .ok { BundleID := "rb_" ++ generateID (random 1) 8, Status := "ingested",
                                ArtifactCount := manifest2.Artifacts.length } := by
                        simp [IngestZipFile, hct, hh, he, hp, hv, hsz, hi, hmv, cleanup]
                      have h2 : (IngestZipFile env s random w zipPath).2.db =
                          insertArtifacts s random ("rb_" ++ generateID (random 1) 8) storagePath
                            fs3 manifest2.Artifacts 2 d1 := by
                        simp [IngestZipFile, hct, hh, he, hp, hv, hsz, hi, hmv, cleanup]
                      rw [h1] at h
                      injection h with h
                      rw [← h, h2]
                      have htmp : tmpDir =
                          filepath.Join [s.tmpDir, "upload_" ++ generateID (random 0) 8] :=
                        (CreateTempDir_dir _ _ _ _ _ hct).1
                      obtain ⟨added, ha1, ha2⟩ := insertArtifacts_added s random
                        ("rb_" ++ generateID (random 1) 8) storagePath fs3 manifest2.Artifacts 2 d1
                      refine ⟨rfl, bundleRecord ("rb_" ++ generateID (random 1) 8) contentHash
                        manifest2 totalSize "", fs2, fs3, storagePath, ?_, rfl, ?_, rfl,
                        manifest, manifest2, ?_, hv, rfl, added, ?_, ha2⟩
                      · rw [insertArtifacts_repro_bundles, (InsertBundle_false _ _ _ _ hi).1]
                      · rw [← htmp]
                        exact hmv
                      · rw [← htmp]
                        exact hp
                      · rw [ha1, (InsertBundle_false _ _ _ _ hi).2]

/-- A call of `IngestFromReader` that returns `ingested` has added one bundle
record, with the identifier returned, the hash of the uploaded bytes and an
empty storage path, whatever path `MoveToBundles` returned for the bundle. -/
theorem IngestFromReader_ingested (env : Env) (s : storage.Storage) (random : Nat → List Nat)
    (w : World) (r : Reader) (contentLength : Int) (res : IngestResult)
    (h : (IngestFromReader env s random w r contentLength).1 = .ok res)
    (hs : res.Status = "ingested") :
    res.BundleID = "rb_" ++ generateID (random 1) 8 ∧
    ∃ (b : models.ReproBundle) (fs fs' : os.FS) (storagePath : String),
      (IngestFromReader env s random w r contentLength).2.db.repro_bundles =
        w.db.repro_bundles ++ [b] ∧
      b.BundleID = res.BundleID ∧
      b.ContentHash = "sha256:" ++ hex.EncodeToString (sha256.Sum256 r.data) ∧
      s.MoveToBundles fs
        (filepath.Join [filepath.Join [s.tmpDir, "upload_" ++ generateID (random 0) 8],
          "extracted"]) res.BundleID = .ok (storagePath, fs') ∧
      b.StoragePath = "" ∧
      ∃ (m0 manifest : models.Manifest),
        parseManifest env fs (filepath.Join
          [filepath.Join [filepath.Join [s.tmpDir, "upload_" ++ generateID (random 0) 8],
            "extracted"], "manifest.json"]) = .ok m0 ∧
        m0.Validate env.now = .ok manifest ∧
        res.ArtifactCount = manifest.Artifacts.length ∧
        ∃ added : List models.Artifact,
          (IngestFromReader env s random w r contentLength).2.db.artifacts = w.db.artifacts ++ added ∧
          added.map (fun a => (a.Filename, a.ArtifactType)) =
            manifest.Artifacts.map (fun ma => (ma.Filename, normalizeArtifactType ma.Type_)) := by
  cases hct : s.CreateTempDir w.fs (generateID (random 0) 8) with
  | error err => simp [IngestFromReader, hct] at h
  | ok p =>
    obtain ⟨tmpDir, fs1⟩ := p
    cases hw : fs1.WriteFile (filepath.Join [tmpDir, "upload.zip"]) r.data 0o666 with
    | error err => simp [IngestFromReader, hct, hw, cleanup] at h
    | ok fs2 =>
      cases hr : r.err with
      | some err => simp [IngestFromReader, hct, hw, hr, cleanup] at h
      | none =>
        cases hmk : fs2.MkdirAll (filepath.Join [tmpDir, "extracted"]) 0o755 with
        | mk omk fs3 =>
        cases omk with
        | some err => simp [IngestFromReader, hct, hw, hr, hmk, cleanup] at h
        | none =>
          cases he : extractZip env fs3 (filepath.Join [tmpDir, "upload.zip"])
              (filepath.Join [tmpDir, "extracted"]) with
          | mk oerr fs4 =>
            cases oerr with
            | some err => simp [IngestFromReader, hct, hw, hr, hmk, he, cleanup] at h
            | none =>
              cases hp : parseManifest env (fs4.Remove (filepath.Join [tmpDir, "upload.zip"]))
                  (filepath.Join [filepath.Join [tmpDir, "extracted"], "manifest.json"]) with
              | error err => simp [IngestFromReader, hct, hw, hr, hmk, he, hp, cleanup] at h
              | ok manifest =>
                cases hv : manifest.Validate env.now with
                | error err =>
                  simp [IngestFromReader, hct, hw, hr, hmk, he, hp, hv, cleanup] at h
                | ok manifest2 =>
                  cases hi : w.db.InsertBundle
                      (bundleRecord ("rb_" ++ generateID (random 1) 8)
                        ("sha256:" ++ hex.EncodeToString (sha256.Sum256 r.data))
                        manifest2 r.data.length "") with
                  | mk res1 d1 =>
                    obtain ⟨existingID, alreadyExists⟩ := res1
                    cases alreadyExists with
                    | true =>
                      simp [IngestFromReader, hct, hw, hr, hmk, he, hp, hv, hi, cleanup] at h
                      rw [← h] at hs
                      simp at hs
                    | false =>
                      cases hmv : s.MoveToBundles (fs4.Remove (filepath.Join [tmpDir, "upload.zip"]))
                          (filepath.Join [tmpDir, "extracted"])
                          ("rb_" ++ generateID (random 1) 8) with
                      | error err =>
                        simp [IngestFromReader, hct, hw, hr, hmk, he, hp, hv, hi, hmv,
                          cleanup] at h
                      | ok q =>
                        obtain ⟨storagePath, fs5⟩ := q
                        have h1 : (IngestFromReader env s random w r contentLength).1 =
                            .ok { BundleID := "rb_" ++ generateID (random 1) 8,
                                  Status := "ingested",
                                  ArtifactCount := manifest2.Artifacts.length } := by
                          simp [IngestFromReader, hct, hw, hr, hmk, he, hp, hv, hi, hmv, cleanup]
                        have h2 : (IngestFromReader env s random w r contentLength).2.db =
                            insertArtifacts s random ("rb_" ++ generateID (random 1) 8)
                              storagePath (s.RemoveTempDir fs5 tmpDir).2 manifest2.Artifacts 2
                              d1 := by
                          simp [IngestFromReader, hct, hw, hr, hmk, he, hp, hv, hi, hmv, cleanup]
                        rw [h1] at h
                        injection h with h
                        rw [← h, h2]
                        have htmp : tmpDir =
                            filepath.Join [s.tmpDir, "upload_" ++ generateID (random 0) 8] :=
                          (CreateTempDir_dir _ _ _ _ _ hct).1
                        obtain ⟨added, ha1, ha2⟩ := insertArtifacts_added s random
                          ("rb_" ++ generateID (random 1) 8) storagePath (s.RemoveTempDir fs5 tmpDir).2 manifest2.Artifacts 2 d1
                        refine ⟨rfl, bundleRecord ("rb_" ++ generateID (random 1) 8)
                          ("sha256:" ++ hex.EncodeToString (sha256.Sum256 r.data))
                          manifest2 r.data.length "",
                          fs4.Remove (filepath.Join [tmpDir, "upload.zip"]), fs5,
                          storagePath, ?_, rfl, rfl, ?_, rfl, manifest, manifest2, ?_, hv, rfl, added, ?_, ha2⟩
                        · rw [insertArtifacts_repro_bundles, (InsertBundle_false _ _ _ _ hi).1]
                        · rw [← htmp]
                          exact hmv
                        · rw [← htmp]
                          exact hp
                        · rw [ha1, (InsertBundle_false _ _ _ _ hi).2]

/-- A call of `IngestFromFiles` that returns `ingested` has added one bundle
record, with the identifier returned and the storage path `MoveToBundles`
returned for the bundle. -/
theorem IngestFromFiles_ingested (env : Env) (s : storage.Storage) (random : Nat → List Nat)
    (w : World) (files : List (String × List Nat)) (res : IngestResult)
    (h : (IngestFromFiles env s random w files).1 = .ok res)
    (hs : res.Status = "ingested") :
    res.BundleID = "rb_" ++ generateID (random 1) 8 ∧
    ∃ (b : models.ReproBundle) (fs fs' : os.FS) (storagePath : String),
      (IngestFromFiles env s random w files).2.db.repro_bundles =
        w.db.repro_bundles ++ [b] ∧
      b.BundleID = res.BundleID ∧
      s.MoveToBundles fs
        (filepath.Join [s.tmpDir, "upload_" ++ generateID (random 0) 8]) res.BundleID =
          .ok (storagePath, fs') ∧
      b.StoragePath = storagePath ∧
      ∃ (m0 manifest : models.Manifest),
        parseManifest env fs (filepath.Join
          [filepath.Join [s.tmpDir, "upload_" ++ generateID (random 0) 8], "manifest.json"]) =
            .ok m0 ∧
        m0.Validate env.now = .ok manifest ∧
        res.ArtifactCount = manifest.Artifacts.length ∧
        ∃ added : List models.Artifact,
          (IngestFromFiles env s random w files).2.db.artifacts = w.db.artifacts ++ added ∧
          added.map (fun a => (a.Filename, a.ArtifactType)) =
            manifest.Artifacts.map (fun ma => (ma.Filename, normalizeArtifactType ma.Type_)) := by
  cases hct : s.CreateTempDir w.fs (generateID (random 0) 8) with
  | error err => simp [IngestFromFiles, hct] at h
  | ok p =>
    obtain ⟨tmpDir, fs1⟩ := p
    cases hw : writeFiles tmpDir fs1 files [] 0 with
    | mk wres fs2 =>
      cases wres with
      | error err => simp [IngestFromFiles, hct, hw, cleanup] at h
      | ok ht =>
        obtain ⟨hashed, totalSize⟩ := ht
        cases hp : parseManifest env fs2 (filepath.Join [tmpDir, "manifest.json"]) with
        | error err => simp [IngestFromFiles, hct, hw, hp, cleanup] at h
        | ok manifest =>
          cases hv : manifest.Validate env.now with
          | error err => simp [IngestFromFiles, hct, hw, hp, hv, cleanup] at h
          | ok manifest2 =>
            cases hmv : s.MoveToBundles fs2 tmpDir ("rb_" ++ generateID (random 1) 8) with
            | error err => simp [IngestFromFiles, hct, hw, hp, hv, hmv, cleanup] at h
            | ok q =>
              obtain ⟨storagePath, fs3⟩ := q
              cases hi : w.db.InsertBundle
                  (bundleRecord ("rb_" ++ generateID (random 1) 8)
                    ("sha256:" ++ hex.EncodeToString (sha256.Sum256 hashed))
                    manifest2 totalSize storagePath) with
              | mk res1 d1 =>
                obtain ⟨existingID, alreadyExists⟩ := res1
                cases alreadyExists with
                | true =>
                  simp [IngestFromFiles, hct, hw, hp, hv, hmv, hi, cleanup] at h
                  rw [← h] at hs
                  simp at hs
                | false =>
                  have h1 : (IngestFromFiles env s random w files).1 =
                      .ok { BundleID := "rb_" ++ generateID (random 1) 8, Status := "ingested",
                            ArtifactCount := manifest2.Artifacts.length } := by
                    simp [IngestFromFiles, hct, hw, hp, hv, hmv, hi, cleanup]
                  have h2 : (IngestFromFiles env s random w files).2.db =
                      insertArtifacts s random ("rb_" ++ generateID (random 1) 8) storagePath
                        fs3 manifest2.Artifacts 2 d1 := by
                    simp [IngestFromFiles, hct, hw, hp, hv, hmv, hi, cleanup]
                  rw [h1] at h
                  injection h with h
                  rw [← h, h2]
                  have htmp : tmpDir =
                      filepath.Join [s.tmpDir, "upload_" ++ generateID (random 0) 8] :=
                    (CreateTempDir_dir _ _ _ _ _ hct).1
                  obtain ⟨added, ha1, ha2⟩ := insertArtifacts_added s random
                    ("rb_" ++ generateID (random 1) 8) storagePath fs3 manifest2.Artifacts 2 d1
                  refine ⟨rfl, bundleRecord ("rb_" ++ generateID (random 1) 8)
                    ("sha256:" ++ hex.EncodeToString (sha256.Sum256 hashed))
                    manifest2 totalSize storagePath, fs2, fs3, storagePath, ?_, rfl, ?_, rfl,
                    manifest, manifest2, ?_, hv, rfl, added, ?_, ha2⟩
                  · rw [insertArtifacts_repro_bundles, (InsertBundle_false _ _ _ _ hi).1]
                  · rw [← htmp]
                    exact hmv
                  · rw [← htmp]
                    exact hp
                  · rw [ha1, (InsertBundle_false _ _ _ _ hi).2]

end ingest

namespace ingest

/-! ### Identifiers and content hashes: the claims -/

/-- C23: `generateID(8)` returns 8 lowercase hexadecimal digits for every
outcome of the random source, in package `ingest` and in package `api` (there,
when the random source fails, for every clock value from `16 ^ 7` ns on); the
identifier of an ingested bundle is `rb_` and such a string, the identifier of
every artifact record added is `art_` and such a string, and the identifier of
a note is `note_` and such a string. -/
theorem generateID_form :
    (∀ random : List Nat, hex.IsLowerHex 8 (generateID random 8)) ∧
    (∀ (random : Except String (List Nat)) (now : Int), 16 ^ 7 ≤ now →
      ∃ id, api.generateID random now 8 = some id ∧ hex.IsLowerHex 8 id) ∧
    (∀ (env : Env) (s : storage.Storage) (random : Nat → List Nat) (w : World) (res : IngestResult),
      res.Status = "ingested" →
      ((∃ zipPath, (IngestZipFile env s random w zipPath).1 = .ok res) ∨
       (∃ r n, (IngestFromReader env s random w r n).1 = .ok res) ∨
       (∃ files, (IngestFromFiles env s random w files).1 = .ok res)) →
      ∃ id, res.BundleID = "rb_" ++ id ∧ hex.IsLowerHex 8 id) ∧
    (∀ (s : storage.Storage) (random : Nat → List Nat) (bundleID storagePath : String)
        (fs : os.FS) (arts : List models.ManifestArtifact) (k : Nat) (d : db.DB),
      ∀ a ∈ (insertArtifacts s random bundleID storagePath fs arts k d).artifacts,
        a ∈ d.artifacts ∨ ∃ id, a.ArtifactID = "art_" ++ id ∧ hex.IsLowerHex 8 id) ∧
    (∀ (random : Except String (List Nat)) (now : Int), 16 ^ 7 ≤ now →
      ∃ id, api.noteID random now = some ("note_" ++ id) ∧ hex.IsLowerHex 8 id) := by
  refine ⟨generateID_hex, api.generateID_lowerHex, ?_, ?_, ?_⟩
  · intro env s random w res hs h
    refine ⟨generateID (random 1) 8, ?_, generateID_hex _⟩
    rcases h with ⟨zipPath, h⟩ | ⟨r, n, h⟩ | ⟨files, h⟩
    · exact (IngestZipFile_ingested env s random w zipPath res h hs).1
    · exact (IngestFromReader_ingested env s random w r n res h hs).1
    · exact (IngestFromFiles_ingested env s random w files res h hs).1
  · intro s random bundleID storagePath fs arts k d a ha
    rcases insertArtifacts_ids s random bundleID storagePath fs arts k d a ha with h | ⟨j, h⟩
    · exact Or.inl h
    · exact Or.inr ⟨_, h, generateID_hex _⟩
  · intro random now hnow
    obtain ⟨id, hid, hhex⟩ := api.generateID_lowerHex random now hnow
    exact ⟨id, by rw [api.noteID, hid]; rfl, hhex⟩

/-- C23 at examples: random bytes `ff 00 12 ..` give `ff001200`; in package `api`
a failed random source at the clock value 1700000000000000000 gives `17979cfe`,
and a note then gets the identifier `note_17979cfe`. -/
theorem generateID_form_witness :
    generateID [255, 0, 18] 8 = "ff001200" ∧
    api.generateID (.error "entropy") 1700000000000000000 8 = some "17979cfe" ∧
    (16 : Int) ^ 7 ≤ 1700000000000000000 ∧
    (∃ id, api.noteID (.error "entropy") 1700000000000000000 = some ("note_" ++ id) ∧
      hex.IsLowerHex 8 id) :=
  ⟨by decide, by decide!, by norm_num,
    generateID_form.2.2.2.2 (.error "entropy") 1700000000000000000 (by norm_num)⟩

/-- When the random source fails at a clock value below `16 ^ 7`, the fallback
string of package `api` is shorter than 8 characters and the slice panics. -/
theorem generateID_clock_small : api.generateID (.error "entropy") 1000 8 = none := by
  decide

/-- C22: for every byte sequence, `HashReader` returns `sha256:` followed by the
hex encoding of the SHA-256 digest, 64 lowercase hexadecimal digits; `HashFile`
returns the same string for a file with these bytes, and a call of
`IngestFromReader` that ingests a stream of these bytes records the same string
as the content hash of the bundle. -/
theorem contentHash_form (data : List Nat) :
    (storage.HashReader data = "sha256:" ++ hex.EncodeToString (sha256.Sum256 data) ∧
      (sha256.Sum256 data).length = 32 ∧
      hex.IsLowerHex 64 (hex.EncodeToString (sha256.Sum256 data))) ∧
    (∀ (fs : os.FS) (path : String), fs.ReadFile path = .ok data →
      storage.HashFile fs path = .ok (storage.HashReader data)) ∧
    (∀ (env : Env) (s : storage.Storage) (random : Nat → List Nat) (w : World) (r : Reader)
        (n : Int) (res : IngestResult),
      r.data = data → (IngestFromReader env s random w r n).1 = .ok res →
      res.Status = "ingested" →
      ∃ b : models.ReproBundle,
        (IngestFromReader env s random w r n).2.db.repro_bundles = w.db.repro_bundles ++ [b] ∧
        b.ContentHash = storage.HashReader data) := by
  have hlen : (sha256.Sum256 data).length = 32 := by
    simp [sha256.Sum256, sha256.wordBytes]
  refine ⟨⟨rfl, hlen, ?_, ?_⟩, ?_, ?_⟩
  · rw [hex.EncodeToString_length, hlen]
  · exact hex.EncodeToString_digits _
  · intro fs path h
    unfold storage.HashFile
    rw [h]
    rfl
  · intro env s random w r n res hr h hs
    obtain ⟨_, b, _, _, _, hdb, _, hhash, _⟩ :=
      IngestFromReader_ingested env s random w r n res h hs
    refine ⟨b, hdb, ?_⟩
    rw [hhash, hr]
    rfl

/-- C22 at the archive `/in/a.zip` of the example, whose bytes are `50 4b`:
`HashFile`, `HashReader` and the record `IngestFromReader` stores all carry
`sha256:fcab7fcc...`. -/
theorem contentHash_form_witness :
    exampleFS.ReadFile "/in/a.zip" = .ok [80, 75] ∧
    storage.HashFile exampleFS "/in/a.zip" = .ok (storage.HashReader [80, 75]) ∧
    storage.HashReader [80, 75] =
      "sha256:fcab7fcc2b4cffd9bb45003bfc2e468a04ef6f77ca8200a7341f027631584d25" ∧
    (IngestFromReader exampleEnv exampleStorage random1 { fs := exampleFS }
        { data := [80, 75] } 2).2.db.repro_bundles.map (fun b => b.ContentHash) =
      ["sha256:fcab7fcc2b4cffd9bb45003bfc2e468a04ef6f77ca8200a7341f027631584d25"] :=
  ⟨rfl, (contentHash_form [80, 75]).2.1 exampleFS "/in/a.zip" rfl, by decide!, by decide!⟩

/-! ### The storage path of the bundle record -/

/-- The path `MoveToBundles` returns depends on the layout and the bundle
identifier only. -/
theorem MoveToBundles_path (s : storage.Storage) (fs fs' : os.FS)
    (srcDir bundleID path : String)
    (h : s.MoveToBundles fs srcDir bundleID = .ok (path, fs')) :
    path = (filepath.Rel s.dataDir (filepath.Join [s.bundlesDir,
      if bundleID.length > 11 then ⟨bundleID.data.take 11⟩ else bundleID])).getD "" := by
  unfold storage.Storage.MoveToBundles at h
  dsimp only at h
  generalize (if bundleID.length > 11 then (⟨bundleID.data.take 11⟩ : String) else bundleID) =
    dirName at h ⊢
  cases hm : fs.MkdirAll s.bundlesDir 0o755 with
  | mk oerr fs1 =>
    cases oerr with
    | some err => simp [hm] at h
    | none =>
      simp only [hm] at h
      split_ifs at h
      cases hr : fs1.Rename srcDir (filepath.Join [s.bundlesDir, dirName]) with
      | error err => simp [hr] at h
      | ok fs2 =>
        simp only [hr, Except.ok.injEq, Prod.mk.injEq] at h
        exact h.1.symm

/-- C27 fails on the archive paths: `IngestZipFile` and `IngestFromReader` on
the archive of the example return `ingested` for the bundle `rb_01010203`, whose
files `MoveToBundles` commits to `bundles/rb_01010203`, and store a bundle
record whose storage path is empty. `IngestFromFiles` on the same manifest
stores the path `bundles/rb_01010203`. -/
theorem IngestZipFile_storagePath :
    (IngestZipFile exampleEnv exampleStorage random1 { fs := exampleFS } "/in/a.zip").1 =
      .ok { BundleID := "rb_01010203", Status := "ingested", ArtifactCount := 0 } ∧
    (∀ (fs fs' : os.FS) (srcDir path : String),
      exampleStorage.MoveToBundles fs srcDir "rb_01010203" = .ok (path, fs') →
      path = "bundles/rb_01010203") ∧
    bundleDirs exampleStorage
      (IngestZipFile exampleEnv exampleStorage random1 { fs := exampleFS } "/in/a.zip").2.fs =
        ["/data/bundles/rb_01010203"] ∧
    (IngestZipFile exampleEnv exampleStorage random1 { fs := exampleFS }
        "/in/a.zip").2.db.repro_bundles.map (fun b => (b.BundleID, b.StoragePath)) =
      [("rb_01010203", "")] ∧
    (IngestFromReader exampleEnv exampleStorage random1 { fs := exampleFS }
        { data := [80, 75] } 2).1 =
      .ok { BundleID := "rb_01010203", Status := "ingested", ArtifactCount := 0 } ∧
    (IngestFromReader exampleEnv exampleStorage random1 { fs := exampleFS }
        { data := [80, 75] } 2).2.db.repro_bundles.map (fun b => (b.BundleID, b.StoragePath)) =
      [("rb_01010203", "")] ∧
    (IngestFromFiles exampleEnv exampleStorage random1 { fs := exampleFS }
        [("manifest.json", [123, 125])]).2.db.repro_bundles.map
          (fun b => (b.BundleID, b.StoragePath)) =
      [("rb_01010203", "bundles/rb_01010203")] := by
  refine ⟨by decide!, ?_, by decide!, by decide!, by decide!, by decide!, by decide!⟩
  intro fs fs' srcDir path h
  rw [MoveToBundles_path _ _ _ _ _ _ h]
  decide

/-- On the archive paths every ingested bundle gets a record with an empty
storage path; on the multi-file path the record carries the path
`MoveToBundles` returned. -/
theorem ingested_storagePath (env : Env) (s : storage.Storage) (random : Nat → List Nat)
    (w : World) (res : IngestResult) (hs : res.Status = "ingested") :
    (∀ zipPath, (IngestZipFile env s random w zipPath).1 = .ok res →
      ∃ b : models.ReproBundle,
        (IngestZipFile env s random w zipPath).2.db.repro_bundles =
          w.db.repro_bundles ++ [b] ∧ b.BundleID = res.BundleID ∧ b.StoragePath = "") ∧
    (∀ r n, (IngestFromReader env s random w r n).1 = .ok res →
      ∃ b : models.ReproBundle,
        (IngestFromReader env s random w r n).2.db.repro_bundles =
          w.db.repro_bundles ++ [b] ∧ b.BundleID = res.BundleID ∧ b.StoragePath = "") ∧
    (∀ files, (IngestFromFiles env s random w files).1 = .ok res →
      ∃ (b : models.ReproBundle) (fs fs' : os.FS) (storagePath : String),
        (IngestFromFiles env s random w files).2.db.repro_bundles =
          w.db.repro_bundles ++ [b] ∧ b.BundleID = res.BundleID ∧
        s.MoveToBundles fs
          (filepath.Join [s.tmpDir, "upload_" ++ generateID (random 0) 8]) res.BundleID =
            .ok (storagePath, fs') ∧
        b.StoragePath = storagePath) := by
  refine ⟨?_, ?_, ?_⟩
  · intro zipPath h
    obtain ⟨_, b, _, _, _, hdb, hid, _, hsp, _⟩ :=
      IngestZipFile_ingested env s random w zipPath res h hs
    exact ⟨b, hdb, hid, hsp⟩
  · intro r n h
    obtain ⟨_, b, _, _, _, hdb, hid, _, _, hsp, _⟩ :=
      IngestFromReader_ingested env s random w r n res h hs
    exact ⟨b, hdb, hid, hsp⟩
  · intro files h
    obtain ⟨_, b, fs, fs1, storagePath, hdb, hid, hmv, hsp, _⟩ :=
      IngestFromFiles_ingested env s random w files res h hs
    exact ⟨b, fs, fs1, storagePath, hdb, hid, hmv, hsp⟩

end ingest

namespace ingest

/-! ### The error code of a malformed or unsafe archive -/

/-- A member whose destination fails the prefix test makes `extractZip` return
an error. -/
theorem extractZip_rejects (env : Env) (fs : os.FS) (zipPath destDir : String)
    (archive : List Nat) (files : List ZipFile) (hread : fs.ReadFile zipPath = .ok archive)
    (hopen : env.zipOpenReader archive = .ok files) (z : ZipFile) (hz : z ∈ files)
    (hbad : strings.HasPrefix (filepath.Join [destDir, z.Name])
      (filepath.Clean destDir ++ "/") = false) :
    ∃ err, (extractZip env fs zipPath destDir).1 = some err := by
  unfold extractZip
  rw [hread]
  dsimp only
  rw [hopen]
  dsimp only
  exact Option.isSome_iff_exists.mp (extractFiles_rejects destDir files fs z hz hbad)

/-- C24, with the code the source defines: an ingestion whose archive cannot be
hashed or extracted (a member rejected for path traversal included), or whose
upload stream cannot be read, returns the structured error with code
`INVALID_ZIP`, the value of `models.ErrCodeInvalidZip`. -/
theorem archive_error_code (env : Env) (s : storage.Storage) (random : Nat → List Nat)
    (w : World) (tmpDir : String) (fs1 : os.FS)
    (hct : s.CreateTempDir w.fs (generateID (random 0) 8) = .ok (tmpDir, fs1)) :
    models.ErrCodeInvalidZip = "INVALID_ZIP" ∧
    (∀ zipPath err, storage.HashFile fs1 zipPath = .error err →
      (IngestZipFile env s random w zipPath).1 =
        .error (.api { Code := "INVALID_ZIP", Message := "failed to hash zip: " ++ err })) ∧
    (∀ zipPath hash err fs2, storage.HashFile fs1 zipPath = .ok hash →
      extractZip env fs1 zipPath tmpDir = (some err, fs2) →
      (IngestZipFile env s random w zipPath).1 =
        .error (.api { Code := "INVALID_ZIP", Message := "failed to extract zip: " ++ err })) ∧
    (∀ zipPath archive files z, fs1.ReadFile zipPath = .ok archive →
      env.zipOpenReader archive = .ok files → z ∈ files →
      strings.HasPrefix (filepath.Join [tmpDir, z.Name]) (filepath.Clean tmpDir ++ "/") = false →
      ∃ message, (IngestZipFile env s random w zipPath).1 =
        .error (.api { Code := "INVALID_ZIP", Message := message })) ∧
    (∀ (r : Reader) (n : Int) fs2 err,
      fs1.WriteFile (filepath.Join [tmpDir, "upload.zip"]) r.data 0o666 = .ok fs2 →
      r.err = some err →
      (IngestFromReader env s random w r n).1 =
        .error (.api { Code := "INVALID_ZIP", Message := "failed to read upload: " ++ err })) ∧
    (∀ (r : Reader) (n : Int) fs2 fs3 err fs4,
      fs1.WriteFile (filepath.Join [tmpDir, "upload.zip"]) r.data 0o666 = .ok fs2 →
      r.err = none → fs2.MkdirAll (filepath.Join [tmpDir, "extracted"]) 0o755 = (none, fs3) →
      extractZip env fs3 (filepath.Join [tmpDir, "upload.zip"])
        (filepath.Join [tmpDir, "extracted"]) = (some err, fs4) →
      (IngestFromReader env s random w r n).1 =
        .error (.api { Code := "INVALID_ZIP", Message := "failed to extract zip: " ++ err })) := by
  have hzip : ∀ zipPath hash err fs2, storage.HashFile fs1 zipPath = .ok hash →
      extractZip env fs1 zipPath tmpDir = (some err, fs2) →
      (IngestZipFile env s random w zipPath).1 =
        .error (.api { Code := "INVALID_ZIP", Message := "failed to extract zip: " ++ err }) := by
    intro zipPath hash err fs2 hh he
    simp [IngestZipFile, hct, hh, he, cleanup, models.ErrCodeInvalidZip]
  refine ⟨rfl, ?_, hzip, ?_, ?_, ?_⟩
  · intro zipPath err hh
    simp [IngestZipFile, hct, hh, cleanup, models.ErrCodeInvalidZip]
  · intro zipPath archive files z hread hopen hz hbad
    obtain ⟨err, he⟩ := extractZip_rejects env fs1 zipPath tmpDir archive files hread hopen z hz
      hbad
    have hh : storage.HashFile fs1 zipPath =
        .ok ("sha256:" ++ hex.EncodeToString (sha256.Sum256 archive)) := by
      unfold storage.HashFile
      rw [hread]
    exact ⟨_, hzip zipPath _ err (extractZip env fs1 zipPath tmpDir).2 hh
      (Prod.ext he rfl)⟩
  · intro r n fs2 err hw hr
    simp [IngestFromReader, hct, hw, hr, cleanup, models.ErrCodeInvalidZip]
  · intro r n fs2 fs3 err fs4 hw hr hmk he
    simp [IngestFromReader, hct, hw, hr, hmk, he, cleanup, models.ErrCodeInvalidZip]

/-- C24 at an upload stream that breaks off: the error has the code
`INVALID_ZIP`. -/
theorem archive_error_code_witness :
    exampleStorage.CreateTempDir exampleFS (generateID (random1 0) 8) =
      .ok ("/data/tmp/upload_00010203",
        { exampleFS with dirs := exampleFS.dirs ++ ["/data/tmp/upload_00010203"] }) ∧
    (IngestFromReader exampleEnv exampleStorage random1 { fs := exampleFS }
        { data := [80], err := some "unexpected EOF" } 2).1 =
      .error (.api { Code := "INVALID_ZIP",
                     Message := "failed to read upload: unexpected EOF" }) :=
  ⟨by decide,
   (archive_error_code exampleEnv exampleStorage random1 { fs := exampleFS }
      "/data/tmp/upload_00010203"
      { exampleFS with dirs := exampleFS.dirs ++ ["/data/tmp/upload_00010203"] }
      (by decide)).2.2.2.2.1
      { data := [80], err := some "unexpected EOF" } 2
      { dirs := exampleFS.dirs ++ ["/data/tmp/upload_00010203"]
        files := exampleFS.files ++ [("/data/tmp/upload_00010203/upload.zip", [80])] }
      "unexpected EOF" (by decide) rfl⟩

/-- C24 as stated fails: the archive with the member `../../etc/passwd` is
rejected with the code `INVALID_ZIP`, not `INVALID_ARCHIVE`; so is an archive
file that cannot be read. -/
theorem archive_error_code_not_INVALID_ARCHIVE :
    (IngestZipFile traversalEnv exampleStorage random1 { fs := exampleFS } "/in/a.zip").1 =
      .error (.api { Code := "INVALID_ZIP",
                     Message := "failed to extract zip: invalid file path in zip: " ++
                       "../../etc/passwd" }) ∧
    (IngestZipFile exampleEnv exampleStorage random1 { fs := exampleFS } "/in/missing.zip").1 =
      .error (.api { Code := "INVALID_ZIP",
                     Message := "failed to hash zip: open /in/missing.zip: " ++
                       "no such file or directory" }) ∧
    models.ErrCodeInvalidZip ≠ "INVALID_ARCHIVE" := by
  decide

end ingest

namespace filepath

/-! ### Parents and children of a cleaned path -/

theorem keptElems_append_sep (p : List Char) (hne : p ≠ []) :
    keptElems (p ++ ['/']) = keptElems p := by
  obtain ⟨c, cs, hcs⟩ := List.exists_cons_of_ne_nil hne
  have hroot : (p ++ ['/']).head? = p.head? := by rw [hcs]; rfl
  unfold keptElems
  rw [hroot, splitSep_append_sep, List.foldl_append]
  simp [splitSep, cleanElem]

theorem cleanChars_append_sep (p : List Char) (hne : p ≠ []) :
    cleanChars (p ++ ['/']) = cleanChars p := by
  obtain ⟨c, cs, hcs⟩ := List.exists_cons_of_ne_nil hne
  have hroot : (p ++ ['/']).head? = p.head? := by rw [hcs]; rfl
  unfold cleanChars
  simp only [hroot, keptElems_append_sep p hne]

theorem keptElems_ne_nil (p : List Char) (hk : keptElems p ≠ []) : p ≠ [] := by
  intro h
  rw [h] at hk
  exact hk (by decide)

theorem cleanChars_append_ordinary (p n : List Char) (hk : keptElems p ≠ [])
    (hn : Ordinary n) : cleanChars (p ++ '/' :: n) = cleanChars p ++ '/' :: n := by
  have hne := keptElems_ne_nil p hk
  obtain ⟨c, cs, hcs⟩ := List.exists_cons_of_ne_nil hne
  have hroot : (p ++ '/' :: n).head? = p.head? := by rw [hcs]; rfl
  simp only [cleanChars, hroot, keptElems_append_ordinary p n hne hn,
    joinSep_append_singleton _ n hk]
  by_cases hr : p.head? = some '/'
  · simp [hr]
  · simp [hr, hk]

/-- A cleaned path with at least one element, extended by an ordinary name, is
a cleaned path again. -/
theorem clean_child (q n : List Char) (hq : cleanChars q = q) (hk : keptElems q ≠ [])
    (hn : Ordinary n) :
    cleanChars (q ++ '/' :: n) = q ++ '/' :: n ∧ keptElems (q ++ '/' :: n) ≠ [] := by
  constructor
  · rw [cleanChars_append_ordinary q n hk hn, hq]
  · rw [keptElems_append_ordinary q n (keptElems_ne_nil q hk) hn]
    simp

theorem dropWhile_reverse_name (q n : List Char) (hn : '/' ∉ n) :
    ((q ++ '/' :: n).reverse.dropWhile (fun c => c ≠ '/')).reverse = q ++ ['/'] := by
  have h1 : (q ++ '/' :: n).reverse = n.reverse ++ '/' :: q.reverse := by simp
  rw [h1]
  have h2 : ∀ l : List Char, '/' ∉ l → ∀ r : List Char,
      (l ++ '/' :: r).dropWhile (fun c => c ≠ '/') = '/' :: r := by
    intro l
    induction l with
    | nil => intro _ r; simp [List.dropWhile]
    | cons x xs ih =>
      intro hx r
      have hx1 : x ≠ '/' := fun h => hx (by simp [h])
      have hx2 : '/' ∉ xs := fun h => hx (by simp [h])
      rw [List.cons_append, List.dropWhile_cons]
      simp only [ne_eq, hx1, not_false_eq_true, decide_True, if_true]
      exact ih hx2 r
  rw [h2 n.reverse (by simpa using hn)]
  simp

/-- The parent of a cleaned path extended by an ordinary name is that path. -/
theorem Dir_child (q n : List Char) (hq : cleanChars q = q) (hk : keptElems q ≠ [])
    (hn : Ordinary n) : Dir ⟨q ++ '/' :: n⟩ = ⟨q⟩ := by
  unfold Dir
  apply String.ext
  show cleanChars ((q ++ '/' :: n).reverse.dropWhile (fun c => c ≠ '/')).reverse = q
  rw [dropWhile_reverse_name q n hn.2.2.2, cleanChars_append_sep q (keptElems_ne_nil q hk), hq]

/-- A cleaned path followed by ordinary names is a cleaned path. -/
theorem clean_below (q : List Char) (hq : cleanChars q = q) (hk : keptElems q ≠ [])
    (rest : List (List Char)) (hne : rest ≠ []) (hr : ∀ e ∈ rest, Ordinary e) :
    cleanChars (q ++ '/' :: joinSep rest) = q ++ '/' :: joinSep rest ∧
    keptElems (q ++ '/' :: joinSep rest) ≠ [] := by
  induction rest using List.reverseRecOn with
  | nil => exact absurd rfl hne
  | append_singleton init e ih =>
    have he : Ordinary e := hr e (by simp)
    by_cases hi : init = []
    · rw [hi]
      simp only [List.nil_append, joinSep]
      exact clean_child q e hq hk he
    · have hinit := ih hi (fun x hx => hr x (by simp [hx]))
      rw [joinSep_append_singleton init e hi]
      have e1 : q ++ '/' :: (joinSep init ++ '/' :: e) = (q ++ '/' :: joinSep init) ++ '/' :: e := by
        simp
      rw [e1]
      exact clean_child _ e hinit.1 hinit.2 he

/-- Joining `..` to a cleaned path extended by an ordinary name gives back the
path. -/
theorem cleanChars_child_dotdot (q n : List Char) (hq : cleanChars q = q)
    (hk : keptElems q ≠ []) (hn : Ordinary n) :
    cleanChars ((q ++ '/' :: n) ++ '/' :: ['.', '.']) = q := by
  have hne := keptElems_ne_nil q hk
  obtain ⟨c, cs, hcs⟩ := List.exists_cons_of_ne_nil hne
  have hroot : ((q ++ '/' :: n) ++ '/' :: ['.', '.']).head? = q.head? := by rw [hcs]; rfl
  have hroot2 : (q ++ '/' :: n).head? = q.head? := by rw [hcs]; rfl
  have hkept : keptElems ((q ++ '/' :: n) ++ '/' :: ['.', '.']) = keptElems q := by
    have h1 := keptElems_append_ordinary q n hne hn
    unfold keptElems at h1 ⊢
    rw [hroot, splitSep_append_sep, List.foldl_append]
    rw [hroot2] at h1
    have h2 : (splitSep (q ++ '/' :: n)).foldl (cleanElem (q.head? = some '/')) [] =
        n :: ((splitSep q).foldl (cleanElem (q.head? = some '/')) []) := by
      have := congrArg List.reverse h1
      simpa using this
    rw [h2]
    have h3 : splitSep ['.', '.'] = [['.', '.']] := by decide
    rw [h3]
    simp only [List.foldl_cons, List.foldl_nil]
    unfold cleanElem
    simp [hn.2.2.1]
  have hq' := hq
  unfold cleanChars at hq' ⊢
  simp only [hroot, hkept]
  exact hq'

end filepath

namespace filepath

/-! ### Joining a directory and a name -/

theorem cleanChars_append_dot (p : List Char) (hne : p ≠ []) :
    cleanChars (p ++ '/' :: ['.']) = cleanChars p := by
  obtain ⟨c, cs, hcs⟩ := List.exists_cons_of_ne_nil hne
  have hroot : (p ++ '/' :: ['.']).head? = p.head? := by rw [hcs]; rfl
  have hkept : keptElems (p ++ '/' :: ['.']) = keptElems p := by
    unfold keptElems
    rw [hroot, splitSep_append_sep, List.foldl_append]
    have h3 : splitSep ['.'] = [['.']] := by decide
    rw [h3]
    simp [cleanElem]
  unfold cleanChars
  simp only [hroot, hkept]

/-- Joining an ordinary name to a cleaned directory path: the result is the
directory, a separator and the name; it is cleaned, and its parent is the
directory. -/
theorem Join_child (D name : String) (hq : cleanChars D.data = D.data)
    (hk : keptElems D.data ≠ []) (hn : Ordinary name.data) :
    (Join [D, name]).data = D.data ++ '/' :: name.data ∧
    cleanChars (Join [D, name]).data = (Join [D, name]).data ∧
    keptElems (Join [D, name]).data = keptElems D.data ++ [name.data] ∧
    Dir (Join [D, name]) = D := by
  have hdata : (Join [D, name]).data = D.data ++ '/' :: name.data := by
    rw [Join_ordinary D name hk hn]
    simp only [String.data_append, Clean, hq]
    simp
  have hJ : Join [D, name] = ⟨D.data ++ '/' :: name.data⟩ := String.ext hdata
  refine ⟨hdata, ?_, ?_, ?_⟩
  · rw [hdata]
    exact (clean_child D.data name.data hq hk hn).1
  · rw [hdata]
    exact keptElems_append_ordinary D.data name.data (keptElems_ne_nil _ hk) hn
  · rw [hJ]
    exact Dir_child D.data name.data hq hk hn

/-- Joining one of the names `""`, `"."`, `"/"` to a cleaned directory path gives
the directory itself. -/
theorem Join_self (D : String) (hq : cleanChars D.data = D.data)
    (hk : keptElems D.data ≠ []) :
    Join [D, ""] = D ∧ Join [D, "."] = D ∧ Join [D, "/"] = D := by
  have hne := keptElems_ne_nil D.data hk
  have hD : D ≠ "" := by
    intro h
    rw [h] at hne
    exact hne rfl
  refine ⟨?_, ?_, ?_⟩
  · have hJ : Join [D, ""] = ⟨cleanChars (D.data ++ ['/'])⟩ := by
      simp [Join, List.dropWhile, hD, joinSep]
    rw [hJ, cleanChars_append_sep _ hne, hq]
  · have hJ : Join [D, "."] = ⟨cleanChars (D.data ++ '/' :: ['.'])⟩ := by
      simp [Join, List.dropWhile, hD, joinSep]
    rw [hJ, cleanChars_append_dot _ hne, hq]
  · have hJ : Join [D, "/"] = ⟨cleanChars ((D.data ++ ['/']) ++ ['/'])⟩ := by
      simp [Join, List.dropWhile, hD, joinSep]
    rw [hJ, cleanChars_append_sep _ (by simp), cleanChars_append_sep _ hne, hq]

/-- Joining `..` to a child of a cleaned directory path gives the directory. -/
theorem Join_dotdot (D name : String) (hq : cleanChars D.data = D.data)
    (hk : keptElems D.data ≠ []) (hn : Ordinary name.data) :
    Join [Join [D, name], ".."] = D := by
  have hc := Join_child D name hq hk hn
  have hne : Join [D, name] ≠ "" := by
    intro h
    have := hc.1
    rw [h] at this
    simp at this
  have hdata := hc.1
  generalize Join [D, name] = J at hdata hne ⊢
  have hJ : Join [J, ".."] = ⟨cleanChars (J.data ++ '/' :: ['.', '.'])⟩ := by
    simp [Join, List.dropWhile, hne, joinSep]
  rw [hJ, hdata, cleanChars_child_dotdot D.data name.data hq hk hn]

end filepath

namespace os

/-! ### Changes confined to a directory -/

theorem under_self (t : String) : under t t = true := by
  simp [under]

theorem under_of_data (t p : String) (x : List Char) (h : p.data = t.data ++ '/' :: x) :
    under t p = true := by
  unfold under strings.HasPrefix
  rw [Bool.or_eq_true]
  right
  rw [List.isPrefixOf_iff_prefix, h]
  show (t.data ++ ['/']) <+: t.data ++ '/' :: x
  exact ⟨x, by simp⟩

theorem under_trans (t m p : String) (h1 : under t m = true) (h2 : under m p = true) :
    under t p = true := by
  unfold under strings.HasPrefix at *
  rw [Bool.or_eq_true, decide_eq_true_eq, List.isPrefixOf_iff_prefix] at *
  rcases h2 with h2 | h2
  · rw [h2]
    exact h1
  · rcases h1 with h1 | h1
    · rw [← h1]
      exact Or.inr h2
    · right
      have hm : m.data <+: (m ++ "/").data := ⟨['/'], rfl⟩
      exact h1.trans (hm.trans h2)

theorem SameOutside_refl (t : String) (fs : FS) : fs.SameOutside t fs :=
  ⟨rfl, fun _ h => h⟩

theorem SameOutside_trans (t : String) (a b c : FS) (h1 : a.SameOutside t b)
    (h2 : b.SameOutside t c) : a.SameOutside t c :=
  ⟨h2.1.trans h1.1, fun d h => h2.2 d (h1.2 d h)⟩

theorem HasPath_mono (fs fs' : FS) (path : String) (h : fs.HasPath path)
    (hm : ∀ d, fs.isDir d = true → fs'.isDir d = true) : fs'.HasPath path :=
  fun n d hd => hm d (h n d hd)

/-- Dropping the entries of a path under `t` does not show outside `t`. -/
theorem filter_ne_outside {α : Type} (t path : String) (key : α → String) (l : List α)
    (hu : under t path = true) :
    (l.filter (fun x => key x ≠ path)).filter (fun x => !under t (key x)) =
      l.filter (fun x => !under t (key x)) := by
  rw [List.filter_filter]
  apply List.filter_congr
  intro x _
  by_cases hx : key x = path
  · simp [hx, hu]
  · simp [hx]

/-- The mode recorded for a path under `t` does not show outside `t`. -/
theorem setMode_outside (t : String) (fs : FS) (path : String) (perm : Nat) (full : Bool)
    (hu : under t path = true) :
    (fs.setMode path perm full).filter (fun m => !under t m.1) =
      fs.modes.filter (fun m => !under t m.1) := by
  unfold FS.setMode
  rw [List.filter_append, filter_ne_outside t path (fun m => m.1) fs.modes hu]
  cases full <;> simp [hu]

/-- `Mkdir` of a path under `t` changes nothing outside `t`. -/
theorem Mkdir_sameOutside (t : String) (fs fs' : FS) (path : String) (perm : Nat)
    (h : fs.Mkdir path perm = .ok fs') (hu : under t path = true) :
    fs.SameOutside t fs' := by
  unfold FS.Mkdir at h
  split_ifs at h
  injection h with h
  rw [← h]
  constructor
  · unfold FS.without
    dsimp only
    rw [setMode_outside t fs path perm _ hu, List.filter_append]
    simp [hu]
  · intro d hd
    unfold FS.isDir at hd ⊢
    dsimp only
    simp only [Bool.or_eq_true, decide_eq_true_eq, List.contains_iff_exists_mem_beq,
      beq_iff_eq, exists_eq_right', List.mem_append] at hd ⊢
    rcases hd with (hd | hd) | hd
    · exact Or.inl (Or.inl hd)
    · exact Or.inl (Or.inr hd)
    · exact Or.inr (Or.inl hd)

theorem mkdirEach_sameOutside (t : String) (perm : Nat) (ds : List String) :
    (∀ d ∈ ds, under t d = true) → ∀ fs : FS, fs.SameOutside t (FS.mkdirEach perm fs ds).2 := by
  induction ds with
  | nil => intro _ fs; exact SameOutside_refl t fs
  | cons d rest ih =>
    intro hds fs
    unfold FS.mkdirEach
    cases h : fs.Mkdir d perm with
    | error e => exact SameOutside_refl t fs
    | ok fs1 =>
      dsimp only
      exact SameOutside_trans t fs fs1 _
        (Mkdir_sameOutside t fs fs1 d perm h (hds d (List.mem_cons_self _ _)))
        (ih (fun x hx => hds x (List.mem_cons_of_mem _ hx)) fs1)

/-- `MkdirAll` changes nothing outside `t` when every directory it has to create
lies under `t`, whether it succeeds or fails. -/
theorem MkdirAll_sameOutside (t : String) (fs : FS) (path : String) (perm : Nat)
    (hnew : ∀ d ∈ chain (path.length + 1) path, fs.isDir d = false → under t d = true) :
    fs.SameOutside t (fs.MkdirAll path perm).2 := by
  unfold FS.MkdirAll
  dsimp only
  split_ifs
  · exact SameOutside_refl t fs
  · exact SameOutside_refl t fs
  · exact SameOutside_refl t fs
  · apply mkdirEach_sameOutside
    intro d hd
    rw [List.mem_reverse, List.mem_filter] at hd
    exact hnew d hd.1 (by simpa using hd.2)

theorem Mkdir_isDir (fs fs' : FS) (path : String) (perm : Nat)
    (h : fs.Mkdir path perm = .ok fs') :
    fs'.isDir path = true ∧ ∀ d, fs.isDir d = true → fs'.isDir d = true := by
  unfold FS.Mkdir at h
  split_ifs at h
  injection h with h
  rw [← h]
  constructor
  · unfold FS.isDir
    simp
  · intro d hd
    unfold FS.isDir at hd ⊢
    dsimp only
    simp only [Bool.or_eq_true, decide_eq_true_eq, List.contains_iff_exists_mem_beq,
      beq_iff_eq, exists_eq_right', List.mem_append] at hd ⊢
    rcases hd with (hd | hd) | hd
    · exact Or.inl (Or.inl hd)
    · exact Or.inl (Or.inr hd)
    · exact Or.inr (Or.inl hd)

theorem mkdirEach_isDir (perm : Nat) (ds : List String) :
    ∀ fs fs' : FS, FS.mkdirEach perm fs ds = (none, fs') →
      (∀ d, fs.isDir d = true → fs'.isDir d = true) ∧ ∀ d ∈ ds, fs'.isDir d = true := by
  induction ds with
  | nil =>
    intro fs fs' h
    unfold FS.mkdirEach at h
    simp only [Prod.mk.injEq, true_and] at h
    rw [← h]
    exact ⟨fun _ hd => hd, fun d hd => absurd hd (List.not_mem_nil d)⟩
  | cons x rest ih =>
    intro fs fs' h
    unfold FS.mkdirEach at h
    cases hm : fs.Mkdir x perm with
    | error e => simp [hm] at h
    | ok fs1 =>
      rw [hm] at h
      dsimp only at h
      obtain ⟨hx, hmono1⟩ := Mkdir_isDir fs fs1 x perm hm
      obtain ⟨hmono, hall⟩ := ih fs1 fs' h
      refine ⟨fun d hd => hmono d (hmono1 d hd), ?_⟩
      intro d hd
      rcases List.mem_cons.mp hd with h1 | h1
      · rw [h1]
        exact hmono x hx
      · exact hall d h1

/-- After a successful `MkdirAll` the path is a directory. -/
theorem MkdirAll_isDir (fs fs' : FS) (path : String) (perm : Nat)
    (h : fs.MkdirAll path perm = (none, fs')) : fs'.isDir path = true := by
  unfold FS.MkdirAll at h
  dsimp only at h
  split_ifs at h with h1 h2 h3
  · simp at h
  · simp only [Prod.mk.injEq, true_and] at h
    rw [← h]
    exact h2
  · simp at h
  · have hp : ¬ (path = "/" ∨ path = ".") := by
      rintro (hp | hp) <;> rw [hp] at h2 <;> exact h2 (by simp [FS.isDir])
    apply (mkdirEach_isDir perm _ fs fs' h).2
    rw [List.mem_reverse, List.mem_filter]
    refine ⟨?_, by simpa using h2⟩
    rw [chain, if_neg hp]
    exact List.mem_cons_self _ _

/-- `WriteFile` to a path under `t` changes nothing outside `t`. -/
theorem WriteFile_sameOutside (t : String) (fs fs' : FS) (path : String) (data : List Nat)
    (perm : Nat) (h : fs.WriteFile path data perm = .ok fs') (hu : under t path = true) :
    fs.SameOutside t fs' := by
  have hfiles : (fs.files.filter (fun f => f.1 ≠ path) ++ [(path, data)]).filter
      (fun f => !under t f.1) = fs.files.filter (fun f => !under t f.1) := by
    rw [List.filter_append, filter_ne_outside t path (fun f => f.1) fs.files hu]
    simp [hu]
  unfold FS.WriteFile at h
  split_ifs at h
  · injection h with h
    rw [← h]
    refine ⟨?_, fun d hd => hd⟩
    unfold FS.without
    dsimp only
    rw [hfiles]
  · injection h with h
    rw [← h]
    refine ⟨?_, fun d hd => hd⟩
    unfold FS.without
    dsimp only
    rw [hfiles, setMode_outside t fs path perm _ hu]

/-- `Remove` of a path under `t` changes nothing outside `t`. -/
theorem Remove_sameOutside (t : String) (fs : FS) (path : String)
    (hu : under t path = true) : fs.SameOutside t (fs.Remove path) := by
  unfold FS.Remove
  split_ifs
  · refine ⟨?_, fun d hd => hd⟩
    unfold FS.without
    dsimp only
    rw [filter_ne_outside t path (fun f => f.1) fs.files hu,
      filter_ne_outside t path (fun m => m.1) fs.modes hu]
  · refine ⟨?_, fun d hd => hd⟩
    unfold FS.without
    dsimp only
    rw [filter_ne_outside t path (fun f => f.1) fs.files hu]
  · exact SameOutside_refl t fs

/-- A filesystem in which the parent of every directory exists has, with a
directory, all its ancestors. -/
theorem HasPath_of_tree (fs : FS) (htree : ∀ d, fs.isDir d = true → fs.isDir (filepath.Dir d) = true)
    (path : String) (h : fs.isDir path = true) : fs.HasPath path := by
  intro n
  induction n generalizing path with
  | zero => intro d hd; simp [chain] at hd
  | succ n ih =>
    intro d hd
    rw [chain] at hd
    split_ifs at hd
    · simp at hd
    · rcases List.mem_cons.mp hd with h1 | h1
      · rw [h1]
        exact h
      · exact ih _ (htree path h) d h1

theorem HasPath_child (fs : FS) (t child : String) (ht : fs.HasPath t)
    (hd : fs.isDir child = true) (hdir : filepath.Dir child = t) : fs.HasPath child := by
  intro n d hmem
  cases n with
  | zero => simp [chain] at hmem
  | succ n =>
    rw [chain] at hmem
    split_ifs at hmem
    · simp at hmem
    · rcases List.mem_cons.mp hmem with h1 | h1
      · rw [h1]
        exact hd
      · rw [hdir] at h1
        exact ht n d h1

/-- Nothing exists at a path that was taken out, unless it is `/` or `.`. -/
theorem without_exists (fs : FS) (t : String) (h1 : t ≠ "/") (h2 : t ≠ ".") :
    (fs.without t).exists t = false := by
  unfold FS.exists FS.isDir FS.isFile FS.without
  simp only [h1, h2, decide_False, Bool.false_or, Bool.or_eq_false_iff]
  constructor
  · simp [under_self]
  · rw [List.any_eq_false]
    intro f hf
    have := (List.mem_filter.mp hf).2
    intro heq
    rw [decide_eq_true_eq] at heq
    rw [heq, under_self] at this
    simp at this

/-! ### A filesystem without withheld permissions -/

theorem canRead_nil (fs : FS) (p : String) (h : fs.modes = []) : fs.canRead p = true := by
  simp [FS.canRead, FS.perm, h, readBit]

theorem canWrite_nil (fs : FS) (p : String) (h : fs.modes = []) : fs.canWrite p = true := by
  simp [FS.canWrite, FS.perm, h, writeBit]

theorem canSearch_nil (fs : FS) (p : String) (h : fs.modes = []) : fs.canSearch p = true := by
  simp [FS.canSearch, FS.perm, h, searchBit]

theorem searchable_nil (fs : FS) (p : String) (h : fs.modes = []) : fs.searchable p = true := by
  unfold FS.searchable
  rw [List.all_eq_true]
  intro d _
  exact canSearch_nil fs d h

theorem Mkdir_modes (fs fs' : FS) (path : String) (perm : Nat)
    (h : fs.Mkdir path perm = .ok fs') (hm : fs.modes = []) (hfull : fullDir perm = true) :
    fs'.modes = [] := by
  unfold FS.Mkdir at h
  split_ifs at h
  injection h with h
  rw [← h]
  unfold fullDir at hfull
  simp [FS.setMode, hm, hfull]

theorem mkdirEach_modes (perm : Nat) (hfull : fullDir perm = true) (ds : List String) :
    ∀ fs : FS, fs.modes = [] → (FS.mkdirEach perm fs ds).2.modes = [] := by
  induction ds with
  | nil => intro fs hm; exact hm
  | cons d rest ih =>
    intro fs hm
    unfold FS.mkdirEach
    cases h : fs.Mkdir d perm with
    | error e => exact hm
    | ok fs1 =>
      dsimp only
      exact ih fs1 (Mkdir_modes fs fs1 d perm h hm hfull)

/-- `MkdirAll` with permission bits that give the owner every permission
records no mode. -/
theorem MkdirAll_modes (fs : FS) (path : String) (perm : Nat) (hm : fs.modes = [])
    (hfull : fullDir perm = true) : (fs.MkdirAll path perm).2.modes = [] := by
  unfold FS.MkdirAll
  dsimp only
  split_ifs
  · exact hm
  · exact hm
  · exact hm
  · exact mkdirEach_modes perm hfull _ fs hm

/-- `WriteFile` with permission bits that let the owner read and write records
no mode. -/
theorem WriteFile_modes (fs fs' : FS) (path : String) (data : List Nat) (perm : Nat)
    (h : fs.WriteFile path data perm = .ok fs') (hm : fs.modes = [])
    (hfull : fullFile perm = true) : fs'.modes = [] := by
  unfold FS.WriteFile at h
  split_ifs at h
  · injection h with h
    rw [← h]
    exact hm
  · injection h with h
    rw [← h]
    unfold fullFile at hfull
    simp [FS.setMode, hm, hfull]

theorem Remove_modes (fs : FS) (path : String) (hm : fs.modes = []) :
    (fs.Remove path).modes = [] := by
  unfold FS.Remove
  split_ifs <;> simp [hm]

/-- In a filesystem without withheld permissions `RemoveAll` removes the path
and everything below it and returns no error. -/
theorem RemoveAll_nil (fs : FS) (t : String) (hm : fs.modes = []) :
    fs.RemoveAll t = (none, fs.without t) := by
  have hrem : ∀ p, fs.removable t p = true := by
    intro p
    unfold FS.removable
    simp [searchable_nil fs _ hm, canRead_nil fs _ hm, canWrite_nil fs _ hm,
      canSearch_nil fs _ hm]
  unfold FS.RemoveAll FS.without
  simp only [hrem, Bool.and_true]
  rw [if_neg]
  simp only [Bool.or_eq_true, not_or, Bool.not_eq_true, List.any_eq_false]
  constructor
  · intro d hd
    simpa using (List.mem_filter.mp hd).2
  · intro f hf
    simpa using (List.mem_filter.mp hf).2

/-- Taking out a path under which nothing exists changes nothing. -/
theorem without_absent (fs : FS) (t : String) (hm : fs.modes = [])
    (h : ∀ p, under t p = true → fs.exists p = false) : fs.without t = fs := by
  have hd : fs.dirs.filter (fun d => !under t d) = fs.dirs := by
    rw [List.filter_eq_self]
    intro d hd
    cases hu : under t d with
    | false => rfl
    | true =>
      have := h d hu
      simp [FS.exists, FS.isDir, hd] at this
  have hf : fs.files.filter (fun f => !under t f.1) = fs.files := by
    rw [List.filter_eq_self]
    intro f hf
    cases hu : under t f.1 with
    | false => rfl
    | true =>
      have := h f.1 hu
      simp only [FS.exists, FS.isFile, Bool.or_eq_false_iff, List.any_eq_false] at this
      exact absurd (by simp) (this.2 f hf)
  unfold FS.without
  rw [hd, hf, hm]
  cases fs
  simp only at hm
  simp [hm]

end os

namespace os

/-! ### Directories created below an existing one -/

/-- Below an existing directory `D` with a cleaned path, the directories on the
way to a path `D/e1/.../ek` that do not exist yet all lie under `D`. -/
theorem chain_below (fs : FS) (D : String) (hq : filepath.cleanChars D.data = D.data)
    (hk : filepath.keptElems D.data ≠ []) (hD : fs.HasPath D) :
    ∀ rest : List (List Char), rest ≠ [] → (∀ e ∈ rest, filepath.Ordinary e) →
      ∀ p : String, p.data = D.data ++ '/' :: filepath.joinSep rest →
        ∀ n, ∀ d ∈ chain n p, fs.isDir d = false → under D d = true := by
  intro rest
  induction rest using List.reverseRecOn with
  | nil => intro hne; exact absurd rfl hne
  | append_singleton init e ih =>
    intro _ hr p hp n d hd hnd
    have he : filepath.Ordinary e := hr e (by simp)
    cases n with
    | zero => simp [chain] at hd
    | succ n =>
      rw [chain] at hd
      split_ifs at hd
      · simp at hd
      · rcases List.mem_cons.mp hd with h1 | h1
        · rw [h1]
          exact under_of_data D p _ hp
        · by_cases hi : init = []
          · rw [hi] at hp
            simp only [List.nil_append, filepath.joinSep] at hp
            have hpe : p = ⟨D.data ++ '/' :: e⟩ := String.ext hp
            rw [hpe, filepath.Dir_child D.data e hq hk he] at h1
            have := hD n d h1
            rw [this] at hnd
            cases hnd
          · have hinit := filepath.clean_below D.data hq hk init hi
              (fun x hx => hr x (by simp [hx]))
            rw [filepath.joinSep_append_singleton init e hi] at hp
            have hpe : p = ⟨(D.data ++ '/' :: filepath.joinSep init) ++ '/' :: e⟩ :=
              String.ext (by rw [hp]; simp)
            rw [hpe, filepath.Dir_child _ e hinit.1 hinit.2 he] at h1
            exact ih hi (fun x hx => hr x (by simp [hx])) _ rfl n d h1 hnd

/-- The same for the parent of such a path. -/
theorem chain_parent_below (fs : FS) (D : String) (hq : filepath.cleanChars D.data = D.data)
    (hk : filepath.keptElems D.data ≠ []) (hD : fs.HasPath D)
    (rest : List (List Char)) (hne : rest ≠ []) (hr : ∀ e ∈ rest, filepath.Ordinary e)
    (p : String) (hp : p.data = D.data ++ '/' :: filepath.joinSep rest) :
    ∀ n, ∀ d ∈ chain n (filepath.Dir p), fs.isDir d = false → under D d = true := by
  intro n d hd hnd
  apply chain_below fs D hq hk hD rest hne hr p hp (n + 1) d _ hnd
  rw [chain]
  have hlen : 2 ≤ p.data.length := by
    rw [hp]
    have := filepath.keptElems_ne_nil D.data hk
    have : 1 ≤ D.data.length := List.length_pos.mpr this
    simp only [List.length_append, List.length_cons]
    omega
  have h1 : ¬ (p = "/" ∨ p = ".") := by
    rintro (h | h) <;> rw [h] at hlen <;> simp at hlen
  rw [if_neg h1]
  exact List.mem_cons_of_mem _ hd

end os

namespace ingest

/-! ### Extraction changes nothing outside the staging directory -/

/-- The extraction loop changes nothing outside a directory `t` that holds the
destination: it creates directories and files below the destination only. -/
theorem extractFiles_sameOutside (t destDir : String) (init : List (List Char))
    (last : List Char)
    (hq : filepath.cleanChars destDir.data = destDir.data)
    (hk : filepath.keptElems destDir.data = init ++ [last]) (hl : filepath.Ordinary last)
    (ht : os.under t destDir = true) (files : List ZipFile) :
    ∀ fs : os.FS, fs.HasPath destDir →
      fs.SameOutside t (extractFiles destDir fs files).2 := by
  have hkne : filepath.keptElems destDir.data ≠ [] := by rw [hk]; simp
  have hclean : (filepath.Clean destDir).data = destDir.data := hq
  induction files with
  | nil => intro fs _; exact os.SameOutside_refl t fs
  | cons z rest ih =>
    intro fs hD
    unfold extractFiles
    dsimp only
    by_cases hp : strings.HasPrefix (filepath.Join [destDir, z.Name])
        (filepath.Clean destDir ++ "/") = true
    · obtain ⟨elems, hene, hord, hdata⟩ :=
        filepath.Join_below destDir z.Name init last hk hl hp
      rw [hclean] at hdata
      have hunder : os.under t (filepath.Join [destDir, z.Name]) = true :=
        os.under_trans t destDir _ ht (os.under_of_data destDir _ _ hdata)
      simp only [hp, Bool.not_true, Bool.false_eq_true, if_false]
      by_cases hd : z.IsDir = true
      · simp only [hd, if_true]
        have h1 : fs.SameOutside t (fs.MkdirAll (filepath.Join [destDir, z.Name]) z.Mode).2 :=
          os.MkdirAll_sameOutside t fs _ _ (fun d hd hnd =>
            os.under_trans t destDir d ht
              (os.chain_below fs destDir hq hkne hD elems hene hord _ hdata _ d hd hnd))
        exact os.SameOutside_trans t fs _ _ h1
          (ih _ (os.HasPath_mono fs _ destDir hD h1.2))
      · simp only [hd, Bool.false_eq_true, if_false]
        have h1 : fs.SameOutside t
            (fs.MkdirAll (filepath.Dir (filepath.Join [destDir, z.Name])) 0o755).2 :=
          os.MkdirAll_sameOutside t fs _ _ (fun d hd hnd =>
            os.under_trans t destDir d ht
              (os.chain_parent_below fs destDir hq hkne hD elems hene hord _ hdata _ d hd
                hnd))
        cases hmk : fs.MkdirAll (filepath.Dir (filepath.Join [destDir, z.Name])) 0o755 with
        | mk oerr fs1 =>
        rw [hmk] at h1
        cases oerr with
        | some e => exact h1
        | none =>
          dsimp only
          have hD1 := os.HasPath_mono fs fs1 destDir hD h1.2
          cases hc : z.Content with
          | openError e => exact h1
          | ok data =>
            dsimp only
            cases hw : fs1.WriteFile (filepath.Join [destDir, z.Name]) data z.Mode with
            | error e => exact h1
            | ok fs2 =>
              have h2 := os.WriteFile_sameOutside t fs1 fs2 _ data _ hw hunder
              exact os.SameOutside_trans t fs fs1 _ h1
                (os.SameOutside_trans t fs1 fs2 _ h2
                  (ih fs2 (os.HasPath_mono fs1 fs2 destDir hD1 h2.2)))
          | copyError written e =>
            dsimp only
            cases hw : fs1.WriteFile (filepath.Join [destDir, z.Name]) written z.Mode with
            | error e => exact h1
            | ok fs2 =>
              exact os.SameOutside_trans t fs fs1 _ h1
                (os.WriteFile_sameOutside t fs1 fs2 _ written _ hw hunder)
    · have hp' : strings.HasPrefix (filepath.Join [destDir, z.Name])
          (filepath.Clean destDir ++ "/") = false := by
        simpa using hp
      simp only [hp', Bool.not_false, if_true]
      exact os.SameOutside_refl t fs

/-- `extractZip` changes nothing outside a directory `t` that holds the
destination. -/
theorem extractZip_sameOutside (env : Env) (t destDir zipPath : String)
    (init : List (List Char)) (last : List Char)
    (hq : filepath.cleanChars destDir.data = destDir.data)
    (hk : filepath.keptElems destDir.data = init ++ [last]) (hl : filepath.Ordinary last)
    (ht : os.under t destDir = true) (fs : os.FS) (hD : fs.HasPath destDir) :
    fs.SameOutside t (extractZip env fs zipPath destDir).2 := by
  unfold extractZip
  cases fs.ReadFile zipPath with
  | error err => exact os.SameOutside_refl t fs
  | ok archive =>
    dsimp only
    cases env.zipOpenReader archive with
    | error err => exact os.SameOutside_refl t fs
    | ok files =>
      exact extractFiles_sameOutside t destDir init last hq hk hl ht files fs hD

/-- The extraction of members with such permission bits records no mode. -/
theorem extractFiles_modes (destDir : String) (files : List ZipFile) :
    OwnerModes files → ∀ fs : os.FS, fs.modes = [] →
      (extractFiles destDir fs files).2.modes = [] := by
  induction files with
  | nil => intro _ fs hm; exact hm
  | cons z rest ih =>
    intro hfiles fs hm
    have hz := hfiles z (List.mem_cons_self _ _)
    have hrest : OwnerModes rest := fun x hx => hfiles x (List.mem_cons_of_mem _ hx)
    unfold extractFiles
    dsimp only
    split_ifs with hp hd
    · exact hm
    · rw [if_pos hd] at hz
      exact ih hrest _ (os.MkdirAll_modes fs _ _ hm hz)
    · rw [if_neg hd] at hz
      have h1 := os.MkdirAll_modes fs (filepath.Dir (filepath.Join [destDir, z.Name])) 0o755 hm
        (by decide)
      cases hmk : fs.MkdirAll (filepath.Dir (filepath.Join [destDir, z.Name])) 0o755 with
      | mk oerr fs1 =>
      rw [hmk] at h1
      cases oerr with
      | some e => exact h1
      | none =>
        dsimp only
        cases hc : z.Content with
        | openError e => exact h1
        | ok data =>
          dsimp only
          cases hw : fs1.WriteFile (filepath.Join [destDir, z.Name]) data z.Mode with
          | error e => exact h1
          | ok fs2 => exact ih hrest fs2 (os.WriteFile_modes fs1 fs2 _ _ _ hw h1 hz)
        | copyError written e =>
          dsimp only
          cases hw : fs1.WriteFile (filepath.Join [destDir, z.Name]) written z.Mode with
          | error e => exact h1
          | ok fs2 => exact os.WriteFile_modes fs1 fs2 _ _ _ hw h1 hz

theorem extractZip_modes (env : Env) (fs : os.FS) (zipPath destDir : String)
    (hmodes : ∀ archive files, env.zipOpenReader archive = .ok files → OwnerModes files)
    (hm : fs.modes = []) : (extractZip env fs zipPath destDir).2.modes = [] := by
  unfold extractZip
  cases fs.ReadFile zipPath with
  | error err => exact hm
  | ok archive =>
    dsimp only
    cases ho : env.zipOpenReader archive with
    | error err => exact hm
    | ok files => exact extractFiles_modes destDir files (hmodes archive files ho) fs hm

/-! ### The staging directory of a call -/

/-- The name of a staging directory is an ordinary path element. -/
theorem upload_ordinary (random : List Nat) :
    filepath.Ordinary ("upload_" ++ generateID random 8).data := by
  have hhex := (generateID_hex random).2
  have hdata : ("upload_" ++ generateID random 8).data =
      'u' :: 'p' :: 'l' :: 'o' :: 'a' :: 'd' :: '_' :: (generateID random 8).data := rfl
  rw [hdata]
  refine ⟨by simp, by simp, by simp, ?_⟩
  intro h
  simp only [List.mem_cons] at h
  rcases h with h | h | h | h | h | h | h | h
  · exact absurd h (by decide)
  · exact absurd h (by decide)
  · exact absurd h (by decide)
  · exact absurd h (by decide)
  · exact absurd h (by decide)
  · exact absurd h (by decide)
  · exact absurd h (by decide)
  · exact absurd (hhex _ h) (by decide)

/-- The staging directory of a call: after `CreateTempDir` it exists with its
ancestors, and creating it changed nothing outside it. -/
theorem CreateTempDir_staging (s : storage.Storage) (fs fs1 : os.FS) (random : List Nat)
    (tmpDir : String) (hq : filepath.cleanChars s.tmpDir.data = s.tmpDir.data)
    (hk : filepath.keptElems s.tmpDir.data ≠ []) (hroot : fs.HasPath s.tmpDir)
    (hct : s.CreateTempDir fs (generateID random 8) = .ok (tmpDir, fs1)) :
    tmpDir = filepath.Join [s.tmpDir, "upload_" ++ generateID random 8] ∧
    fs.SameOutside tmpDir fs1 ∧ fs1.HasPath tmpDir ∧ (fs.modes = [] → fs1.modes = []) := by
  obtain ⟨hdir, hmk⟩ := CreateTempDir_dir s fs fs1 _ tmpDir hct
  have hc := filepath.Join_child s.tmpDir _ hq hk (upload_ordinary random)
  rw [← hdir] at hc hmk
  have hnew : ∀ n, ∀ d ∈ os.chain n tmpDir, fs.isDir d = false → os.under tmpDir d = true := by
    intro n d hd hnd
    cases n with
    | zero => simp [os.chain] at hd
    | succ n =>
      rw [os.chain] at hd
      split_ifs at hd
      · simp at hd
      · rcases List.mem_cons.mp hd with h1 | h1
        · rw [h1]
          exact os.under_self _
        · rw [hc.2.2.2] at h1
          have := hroot n d h1
          rw [this] at hnd
          cases hnd
  have hsame := os.MkdirAll_sameOutside tmpDir fs tmpDir 0o755 (hnew _)
  have hmodes := os.MkdirAll_modes fs tmpDir 0o755
  rw [hmk] at hsame hmodes
  refine ⟨hdir, hsame, ?_, fun hm => hmodes hm (by decide)⟩
  intro n d hd
  cases n with
  | zero => simp [os.chain] at hd
  | succ n =>
    rw [os.chain] at hd
    split_ifs at hd
    · simp at hd
    · rcases List.mem_cons.mp hd with h1 | h1
      · rw [h1]
        exact os.MkdirAll_isDir fs fs1 tmpDir _ hmk
      · rw [hc.2.2.2] at h1
        exact hsame.2 d (hroot n d h1)

/-- The loop that writes the files of a multi-file upload, when every write
succeeds, changes nothing outside the staging directory and records no mode. -/
theorem writeFiles_sameOutside (s : storage.Storage) (name : String)
    (hq : filepath.cleanChars s.tmpDir.data = s.tmpDir.data)
    (hk : filepath.keptElems s.tmpDir.data ≠ []) (hn : filepath.Ordinary name.data)
    (files : List (String × List Nat)) :
    ∀ (fs fs' : os.FS) (acc : List Nat) (n : Int) (r : List Nat × Int),
      fs.isDir s.tmpDir = true → fs.isDir (filepath.Join [s.tmpDir, name]) = true →
      writeFiles (filepath.Join [s.tmpDir, name]) fs files acc n = (.ok r, fs') →
      fs.SameOutside (filepath.Join [s.tmpDir, name]) fs' ∧ (fs.modes = [] → fs'.modes = []) := by
  have hc := filepath.Join_child s.tmpDir name hq hk hn
  have hkt : filepath.keptElems (filepath.Join [s.tmpDir, name]).data ≠ [] := by
    rw [hc.2.2.1]
    simp
  induction files with
  | nil =>
    intro fs fs' acc n r _ _ h
    rw [writeFiles] at h
    simp only [Prod.mk.injEq] at h
    rw [← h.2]
    exact ⟨os.SameOutside_refl _ fs, fun hm => hm⟩
  | cons f rest ih =>
    intro fs fs' acc n r hroot ht h
    obtain ⟨filename, data⟩ := f
    rw [writeFiles] at h
    cases hw : fs.WriteFile (filepath.Join [filepath.Join [s.tmpDir, name],
        stagedName filename]) data 0o644 with
    | error err =>
      rw [hw] at h
      simp at h
    | ok fs1 =>
      rw [hw] at h
      have hnotdir : fs.isDir (filepath.Join [filepath.Join [s.tmpDir, name],
          stagedName filename]) = false := by
        unfold os.FS.WriteFile at hw
        split_ifs at hw with h1 <;> simpa using h1
      have hunder : os.under (filepath.Join [s.tmpDir, name])
          (filepath.Join [filepath.Join [s.tmpDir, name], stagedName filename]) = true := by
        rcases stagedName_cases filename with ho | he | he | he | he
        · exact os.under_of_data _ _ _
            (filepath.Join_child _ _ hc.2.1 hkt ho).1
        · rw [he, (filepath.Join_self _ hc.2.1 hkt).1, ht] at hnotdir
          cases hnotdir
        · rw [he, (filepath.Join_self _ hc.2.1 hkt).2.1, ht] at hnotdir
          cases hnotdir
        · rw [he, filepath.Join_dotdot s.tmpDir name hq hk hn, hroot] at hnotdir
          cases hnotdir
        · rw [he, (filepath.Join_self _ hc.2.1 hkt).2.2, ht] at hnotdir
          cases hnotdir
      have h1 := os.WriteFile_sameOutside _ fs fs1 _ data _ hw hunder
      obtain ⟨h2, hm2⟩ := ih fs1 fs' _ _ r (h1.2 _ hroot) (h1.2 _ ht) h
      exact ⟨os.SameOutside_trans _ fs fs1 fs' h1 h2,
        fun hm => hm2 (os.WriteFile_modes fs fs1 _ _ _ hw hm (by decide))⟩

end ingest

namespace ingest

/-! ### The artifact type the pipeline registers -/

theorem writeFiles_error (tmpDir : String) (files : List (String × List Nat)) :
    ∀ (fs fs' : os.FS) (acc : List Nat) (n : Int) (err : IngestError),
      writeFiles tmpDir fs files acc n = (.error err, fs') → ∃ message, err = .other message := by
  induction files with
  | nil =>
    intro fs fs' acc n err h
    rw [writeFiles] at h
    simp at h
  | cons f rest ih =>
    intro fs fs' acc n err h
    obtain ⟨filename, data⟩ := f
    rw [writeFiles] at h
    cases hw : fs.WriteFile (filepath.Join [tmpDir, stagedName filename]) data 0o644 with
    | error e =>
      rw [hw] at h
      simp only [Prod.mk.injEq, Except.error.injEq] at h
      exact ⟨_, h.1.symm⟩
    | ok fs1 =>
      rw [hw] at h
      exact ih _ _ _ _ _ h

/-- Every error of `parseManifest` is the structured error `INVALID_MANIFEST`. -/
theorem parseManifest_error (env : Env) (fs : os.FS) (path : String) (err : IngestError)
    (h : parseManifest env fs path = .error err) :
    ∃ message, err = .api { Code := "INVALID_MANIFEST", Message := message } := by
  unfold parseManifest at h
  cases hr : fs.ReadFile path with
  | error e =>
    rw [hr] at h
    simp only [Except.error.injEq] at h
    exact ⟨_, h.symm⟩
  | ok data =>
    rw [hr] at h
    dsimp only at h
    cases hj : env.jsonUnmarshal data with
    | error e =>
      rw [hj] at h
      simp only [Except.error.injEq] at h
      exact ⟨_, h.symm⟩
    | ok aux =>
      rw [hj] at h
      simp at h

/-- A call of `IngestZipFile` that ends with an archive error or a manifest
error has not changed the repository, and its last step was the deferred
`RemoveTempDir` on the staging directory, in the state `CreateTempDir` or
`extractZip` left. -/
theorem IngestZipFile_cleanup (env : Env) (s : storage.Storage) (random : Nat → List Nat)
    (w : World) (zipPath : String) (e : models.APIError)
    (h : (IngestZipFile env s random w zipPath).1 = .error (.api e))
    (hcode : e.Code = "INVALID_ZIP" ∨ e.Code = "INVALID_MANIFEST") :
    (IngestZipFile env s random w zipPath).2.db = w.db ∧
    ∃ fs1 : os.FS,
      s.CreateTempDir w.fs (generateID (random 0) 8) =
        .ok (filepath.Join [s.tmpDir, "upload_" ++ generateID (random 0) 8], fs1) ∧
      ∃ fsX : os.FS,
        (fsX = fs1 ∨ fsX = (extractZip env fs1 zipPath
          (filepath.Join [s.tmpDir, "upload_" ++ generateID (random 0) 8])).2) ∧
        (IngestZipFile env s random w zipPath).2.fs =
          (s.RemoveTempDir fsX
            (filepath.Join [s.tmpDir, "upload_" ++ generateID (random 0) 8])).2 := by
  cases hct : s.CreateTempDir w.fs (generateID (random 0) 8) with
  | error err => simp [IngestZipFile, hct] at h
  | ok p =>
    obtain ⟨tmpDir, fs1⟩ := p
    have hdir := (CreateTempDir_dir _ _ _ _ _ hct).1
    rw [← hdir]
    have hfinal : ∀ fsX : os.FS,
        (fsX = fs1 ∨ fsX = (extractZip env fs1 zipPath tmpDir).2) →
        (IngestZipFile env s random w zipPath).2 =
          { fs := (s.RemoveTempDir fsX tmpDir).2, db := w.db } →
        (IngestZipFile env s random w zipPath).2.db = w.db ∧
        ∃ fs1' : os.FS, Except.ok (tmpDir, fs1) = Except.ok (ε := String) (tmpDir, fs1') ∧
          ∃ fsX : os.FS, (fsX = fs1' ∨ fsX = (extractZip env fs1' zipPath tmpDir).2) ∧
            (IngestZipFile env s random w zipPath).2.fs = (s.RemoveTempDir fsX tmpDir).2 := by
      intro fsX hX h2
      rw [h2]
      exact ⟨rfl, fs1, rfl, fsX, hX, rfl⟩
    cases hh : storage.HashFile fs1 zipPath with
    | error err => exact hfinal fs1 (Or.inl rfl) (by simp [IngestZipFile, hct, hh, cleanup])
    | ok contentHash =>
      cases he : extractZip env fs1 zipPath tmpDir with
      | mk oerr fs2 =>
        have hX : fs2 = fs1 ∨ fs2 = (extractZip env fs1 zipPath tmpDir).2 :=
          Or.inr (by rw [he])
        cases oerr with
        | some err => exact hfinal fs2 hX (by simp [IngestZipFile, hct, hh, he, cleanup])
        | none =>
          cases hp : parseManifest env fs2 (filepath.Join [tmpDir, "manifest.json"]) with
          | error err =>
            exact hfinal fs2 hX (by simp [IngestZipFile, hct, hh, he, hp, cleanup])
          | ok manifest =>
            cases hv : manifest.Validate env.now with
            | error err =>
              exact hfinal fs2 hX (by simp [IngestZipFile, hct, hh, he, hp, hv, cleanup])
            | ok manifest2 =>
              cases hsz : storage.DirSize fs2 tmpDir with
              | error err => simp [IngestZipFile, hct, hh, he, hp, hv, hsz, cleanup] at h
              | ok totalSize =>
                cases hi : w.db.InsertBundle (bundleRecord ("rb_" ++ generateID (random 1) 8)
                    contentHash manifest2 totalSize "") with
                | mk res1 d1 =>
                  obtain ⟨existingID, alreadyExists⟩ := res1
                  cases alreadyExists with
                  | true => simp [IngestZipFile, hct, hh, he, hp, hv, hsz, hi, cleanup] at h
                  | false =>
                    cases hmv : s.MoveToBundles fs2 tmpDir ("rb_" ++ generateID (random 1) 8) with
                    | error err =>
                      simp [IngestZipFile, hct, hh, he, hp, hv, hsz, hi, hmv, cleanup] at h
                      rw [← h] at hcode
                      simp [models.ErrCodeStorageError] at hcode
                    | ok q =>
                      obtain ⟨storagePath, fs3⟩ := q
                      simp [IngestZipFile, hct, hh, he, hp, hv, hsz, hi, hmv, cleanup] at h

/-- The same for `IngestFromReader`: the last step was `RemoveTempDir` in the
state the written upload left, or the one `extractZip` left, or that one with
the upload removed. -/
theorem IngestFromReader_cleanup (env : Env) (s : storage.Storage) (random : Nat → List Nat)
    (w : World) (r : Reader) (contentLength : Int) (e : models.APIError)
    (h : (IngestFromReader env s random w r contentLength).1 = .error (.api e))
    (hcode : e.Code = "INVALID_ZIP" ∨ e.Code = "INVALID_MANIFEST") :
    (IngestFromReader env s random w r contentLength).2.db = w.db ∧
    ∃ fs1 fs2 : os.FS,
      s.CreateTempDir w.fs (generateID (random 0) 8) =
        .ok (filepath.Join [s.tmpDir, "upload_" ++ generateID (random 0) 8], fs1) ∧
      fs1.WriteFile (filepath.Join
        [filepath.Join [s.tmpDir, "upload_" ++ generateID (random 0) 8], "upload.zip"])
        r.data 0o666 = .ok fs2 ∧
      ∃ fsX : os.FS,
        (fsX = fs2 ∨ ∃ fs3 : os.FS,
          fs2.MkdirAll (filepath.Join
            [filepath.Join [s.tmpDir, "upload_" ++ generateID (random 0) 8], "extracted"])
            0o755 = (none, fs3) ∧
          (fsX = (extractZip env fs3
              (filepath.Join
                [filepath.Join [s.tmpDir, "upload_" ++ generateID (random 0) 8], "upload.zip"])
              (filepath.Join
                [filepath.Join [s.tmpDir, "upload_" ++ generateID (random 0) 8],
                  "extracted"])).2 ∨
            fsX = (extractZip env fs3
              (filepath.Join
                [filepath.Join [s.tmpDir, "upload_" ++ generateID (random 0) 8], "upload.zip"])
              (filepath.Join
                [filepath.Join [s.tmpDir, "upload_" ++ generateID (random 0) 8],
                  "extracted"])).2.Remove
              (filepath.Join
                [filepath.Join [s.tmpDir, "upload_" ++ generateID (random 0) 8],
                  "upload.zip"]))) ∧
        (IngestFromReader env s random w r contentLength).2.fs =
          (s.RemoveTempDir fsX
            (filepath.Join [s.tmpDir, "upload_" ++ generateID (random 0) 8])).2 := by
  cases hct : s.CreateTempDir w.fs (generateID (random 0) 8) with
  | error err => simp [IngestFromReader, hct] at h
  | ok p =>
    obtain ⟨tmpDir, fs1⟩ := p
    have hdir := (CreateTempDir_dir _ _ _ _ _ hct).1
    rw [← hdir]
    cases hw : fs1.WriteFile (filepath.Join [tmpDir, "upload.zip"]) r.data 0o666 with
    | error err => simp [IngestFromReader, hct, hw, cleanup] at h
    | ok fs2 =>
      have hfinal : ∀ fsX : os.FS,
          (fsX = fs2 ∨ ∃ fs3 : os.FS,
            fs2.MkdirAll (filepath.Join [tmpDir, "extracted"]) 0o755 = (none, fs3) ∧
            (fsX = (extractZip env fs3 (filepath.Join [tmpDir, "upload.zip"])
                (filepath.Join [tmpDir, "extracted"])).2 ∨
              fsX = (extractZip env fs3 (filepath.Join [tmpDir, "upload.zip"])
                (filepath.Join [tmpDir, "extracted"])).2.Remove
                (filepath.Join [tmpDir, "upload.zip"]))) →
          (IngestFromReader env s random w r contentLength).2 =
            { fs := (s.RemoveTempDir fsX tmpDir).2, db := w.db } →
          (IngestFromReader env s random w r contentLength).2.db = w.db ∧
          ∃ fs1' fs2' : os.FS,
            Except.ok (tmpDir, fs1) = Except.ok (ε := String) (tmpDir, fs1') ∧
            fs1'.WriteFile (filepath.Join [tmpDir, "upload.zip"]) r.data 0o666 = .ok fs2' ∧
            ∃ fsX : os.FS,
              (fsX = fs2' ∨ ∃ fs3 : os.FS,
                fs2'.MkdirAll (filepath.Join [tmpDir, "extracted"]) 0o755 = (none, fs3) ∧
                (fsX = (extractZip env fs3 (filepath.Join [tmpDir, "upload.zip"])
                    (filepath.Join [tmpDir, "extracted"])).2 ∨
                  fsX = (extractZip env fs3 (filepath.Join [tmpDir, "upload.zip"])
                    (filepath.Join [tmpDir, "extracted"])).2.Remove
                    (filepath.Join [tmpDir, "upload.zip"]))) ∧
              (IngestFromReader env s random w r contentLength).2.fs =
                (s.RemoveTempDir fsX tmpDir).2 := by
        intro fsX hX h2
        rw [h2]
        exact ⟨rfl, fs1, fs2, rfl, hw, fsX, hX, rfl⟩
      cases hr : r.err with
      | some err =>
        exact hfinal fs2 (Or.inl rfl) (by simp [IngestFromReader, hct, hw, hr, cleanup])
      | none =>
        cases hmk : fs2.MkdirAll (filepath.Join [tmpDir, "extracted"]) 0o755 with
        | mk omk fs3 =>
        cases omk with
        | some err => simp [IngestFromReader, hct, hw, hr, hmk, cleanup] at h
        | none =>
          cases he : extractZip env fs3 (filepath.Join [tmpDir, "upload.zip"])
              (filepath.Join [tmpDir, "extracted"]) with
          | mk oerr fs4 =>
            have h4 : fs4 = (extractZip env fs3 (filepath.Join [tmpDir, "upload.zip"])
                (filepath.Join [tmpDir, "extracted"])).2 := by rw [he]
            cases oerr with
            | some err =>
              exact hfinal fs4 (Or.inr ⟨fs3, hmk, Or.inl h4⟩)
                (by simp [IngestFromReader, hct, hw, hr, hmk, he, cleanup])
            | none =>
              have hX : fs4.Remove (filepath.Join [tmpDir, "upload.zip"]) = fs2 ∨
                  ∃ fs3' : os.FS,
                    fs2.MkdirAll (filepath.Join [tmpDir, "extracted"]) 0o755 = (none, fs3') ∧
                    (fs4.Remove (filepath.Join [tmpDir, "upload.zip"]) =
                        (extractZip env fs3' (filepath.Join [tmpDir, "upload.zip"])
                          (filepath.Join [tmpDir, "extracted"])).2 ∨
                      fs4.Remove (filepath.Join [tmpDir, "upload.zip"]) =
                        (extractZip env fs3' (filepath.Join [tmpDir, "upload.zip"])
                          (filepath.Join [tmpDir, "extracted"])).2.Remove
                          (filepath.Join [tmpDir, "upload.zip"])) :=
                Or.inr ⟨fs3, hmk, Or.inr (by rw [h4])⟩
              cases hp : parseManifest env (fs4.Remove (filepath.Join [tmpDir, "upload.zip"]))
                  (filepath.Join [filepath.Join [tmpDir, "extracted"], "manifest.json"]) with
              | error err =>
                exact hfinal (fs4.Remove (filepath.Join [tmpDir, "upload.zip"])) hX
                  (by simp [IngestFromReader, hct, hw, hr, hmk, he, hp, cleanup])
              | ok manifest =>
                cases hv : manifest.Validate env.now with
                | error err =>
                  exact hfinal (fs4.Remove (filepath.Join [tmpDir, "upload.zip"])) hX
                    (by simp [IngestFromReader, hct, hw, hr, hmk, he, hp, hv, cleanup])
                | ok manifest2 =>
                  cases hi : w.db.InsertBundle
                      (bundleRecord ("rb_" ++ generateID (random 1) 8)
                        ("sha256:" ++ hex.EncodeToString (sha256.Sum256 r.data))
                        manifest2 r.data.length "") with
                  | mk res1 d1 =>
                    obtain ⟨existingID, alreadyExists⟩ := res1
                    cases alreadyExists with
                    | true =>
                      simp [IngestFromReader, hct, hw, hr, hmk, he, hp, hv, hi, cleanup] at h
                    | false =>
                      cases hmv : s.MoveToBundles
                          (fs4.Remove (filepath.Join [tmpDir, "upload.zip"]))
                          (filepath.Join [tmpDir, "extracted"])
                          ("rb_" ++ generateID (random 1) 8) with
                      | error err =>
                        simp [IngestFromReader, hct, hw, hr, hmk, he, hp, hv, hi, hmv,
                          cleanup] at h
                        rw [← h] at hcode
                        simp [models.ErrCodeStorageError] at hcode
                      | ok q =>
                        obtain ⟨storagePath, fs5⟩ := q
                        simp [IngestFromReader, hct, hw, hr, hmk, he, hp, hv, hi, hmv,
                          cleanup] at h

/-- The same for `IngestFromFiles`, which has no archive: a call that ends with
a manifest error has written all the files, and its last step was
`RemoveTempDir` in the state the writes left. -/
theorem IngestFromFiles_cleanup (env : Env) (s : storage.Storage) (random : Nat → List Nat)
    (w : World) (files : List (String × List Nat)) (e : models.APIError)
    (h : (IngestFromFiles env s random w files).1 = .error (.api e))
    (hcode : e.Code = "INVALID_ZIP" ∨ e.Code = "INVALID_MANIFEST") :
    (IngestFromFiles env s random w files).2.db = w.db ∧
    ∃ (fs1 fs2 : os.FS) (written : List Nat × Int),
      s.CreateTempDir w.fs (generateID (random 0) 8) =
        .ok (filepath.Join [s.tmpDir, "upload_" ++ generateID (random 0) 8], fs1) ∧
      writeFiles (filepath.Join [s.tmpDir, "upload_" ++ generateID (random 0) 8]) fs1 files
        [] 0 = (.ok written, fs2) ∧
      (IngestFromFiles env s random w files).2.fs =
        (s.RemoveTempDir fs2
          (filepath.Join [s.tmpDir, "upload_" ++ generateID (random 0) 8])).2 := by
  cases hct : s.CreateTempDir w.fs (generateID (random 0) 8) with
  | error err => simp [IngestFromFiles, hct] at h
  | ok p =>
    obtain ⟨tmpDir, fs1⟩ := p
    have hdir := (CreateTempDir_dir _ _ _ _ _ hct).1
    rw [← hdir]
    cases hw : writeFiles tmpDir fs1 files [] 0 with
    | mk wres fs2 =>
      cases wres with
      | error err =>
        obtain ⟨message, hmsg⟩ := writeFiles_error tmpDir files fs1 fs2 [] 0 err hw
        rw [hmsg] at hw
        simp [IngestFromFiles, hct, hw, cleanup] at h
      | ok ht =>
        obtain ⟨hashed, totalSize⟩ := ht
        have hfinal : (IngestFromFiles env s random w files).2 =
              { fs := (s.RemoveTempDir fs2 tmpDir).2, db := w.db } →
            (IngestFromFiles env s random w files).2.db = w.db ∧
            ∃ (fs1' fs2' : os.FS) (written : List Nat × Int),
              Except.ok (tmpDir, fs1) = Except.ok (ε := String) (tmpDir, fs1') ∧
              writeFiles tmpDir fs1' files [] 0 = (.ok written, fs2') ∧
              (IngestFromFiles env s random w files).2.fs =
                (s.RemoveTempDir fs2' tmpDir).2 := by
          intro h2
          rw [h2]
          exact ⟨rfl, fs1, fs2, (hashed, totalSize), rfl, hw, rfl⟩
        cases hp : parseManifest env fs2 (filepath.Join [tmpDir, "manifest.json"]) with
        | error err => exact hfinal (by simp [IngestFromFiles, hct, hw, hp, cleanup])
        | ok manifest =>
          cases hv : manifest.Validate env.now with
          | error err => exact hfinal (by simp [IngestFromFiles, hct, hw, hp, hv, cleanup])
          | ok manifest2 =>
            cases hmv : s.MoveToBundles fs2 tmpDir ("rb_" ++ generateID (random 1) 8) with
            | error err =>
              simp [IngestFromFiles, hct, hw, hp, hv, hmv, cleanup] at h
              rw [← h] at hcode
              simp [models.ErrCodeStorageError] at hcode
            | ok q =>
              obtain ⟨storagePath, fs3⟩ := q
              cases hi : w.db.InsertBundle
                  (bundleRecord ("rb_" ++ generateID (random 1) 8)
                    ("sha256:" ++ hex.EncodeToString (sha256.Sum256 hashed))
                    manifest2 totalSize storagePath) with
              | mk res1 d1 =>
                obtain ⟨existingID, alreadyExists⟩ := res1
                cases alreadyExists with
                | true => simp [IngestFromFiles, hct, hw, hp, hv, hmv, hi, cleanup] at h
                | false => simp [IngestFromFiles, hct, hw, hp, hv, hmv, hi, cleanup] at h

/-- What holds of every call of the three ingestion functions that ends with an
archive error or a manifest error: no bundle or artifact record has been added,
the call has ended with `RemoveTempDir` on its staging directory, and when
`os.RemoveAll` returned no error there, no directory and no file is left at the
staging path or below it. What is left when `RemoveTempDir` returns an error,
which the functions drop, is not covered. -/
theorem ingest_error_cleanup (env : Env) (s : storage.Storage) (random : Nat → List Nat)
    (w : World) (out : Except IngestError IngestResult × World) (e : models.APIError)
    (hcall : (∃ zipPath, out = IngestZipFile env s random w zipPath) ∨
      (∃ r contentLength, out = IngestFromReader env s random w r contentLength) ∨
      (∃ files, out = IngestFromFiles env s random w files))
    (h : out.1 = .error (.api e))
    (hcode : e.Code = models.ErrCodeInvalidZip ∨ e.Code = models.ErrCodeInvalidManifest) :
    out.2.db = w.db ∧
    ∃ fsX : os.FS,
      out.2.fs = (s.RemoveTempDir fsX
        (filepath.Join [s.tmpDir, "upload_" ++ generateID (random 0) 8])).2 ∧
      ((s.RemoveTempDir fsX
          (filepath.Join [s.tmpDir, "upload_" ++ generateID (random 0) 8])).1 = none →
        (∀ d ∈ out.2.fs.dirs,
          os.under (filepath.Join [s.tmpDir, "upload_" ++ generateID (random 0) 8]) d = false) ∧
        (∀ f ∈ out.2.fs.files,
          os.under (filepath.Join [s.tmpDir, "upload_" ++ generateID (random 0) 8]) f.1 =
            false)) := by
  have hmain : out.2.db = w.db ∧ ∃ fsX : os.FS, out.2.fs = (s.RemoveTempDir fsX
      (filepath.Join [s.tmpDir, "upload_" ++ generateID (random 0) 8])).2 := by
    rcases hcall with ⟨zipPath, rfl⟩ | ⟨r, contentLength, rfl⟩ | ⟨files, rfl⟩
    · obtain ⟨hdb, _, _, fsX, _, hfs⟩ :=
        IngestZipFile_cleanup env s random w zipPath e h hcode
      exact ⟨hdb, fsX, hfs⟩
    · obtain ⟨hdb, _, _, _, _, fsX, _, hfs⟩ :=
        IngestFromReader_cleanup env s random w r contentLength e h hcode
      exact ⟨hdb, fsX, hfs⟩
    · obtain ⟨hdb, _, fs2, _, _, _, hfs⟩ :=
        IngestFromFiles_cleanup env s random w files e h hcode
      exact ⟨hdb, fs2, hfs⟩
  obtain ⟨hdb, fsX, hfs⟩ := hmain
  refine ⟨hdb, fsX, hfs, ?_⟩
  intro hnone
  rw [hfs]
  exact os.RemoveAll_none fsX _ hnone

/-! ### A staging directory the cleanup cannot remove -/

/-- C21 fails on the archive paths. The archive of the example holds the
directory `d/` with the permission bits `0300`, the file `d/x` and no manifest.
`IngestZipFile` and `IngestFromReader` return the error `INVALID_MANIFEST`. The
deferred `RemoveTempDir` cannot list `d`, so `os.RemoveAll` removes nothing and
returns an error, which is dropped: the staging directory, which did not exist
before the call, exists after it with `d` and `d/x` in it. With the permission
bits `0755` for `d/` the same calls leave the filesystem as it was. -/
theorem IngestZipFile_staging_left :
    exampleFS.exists "/data/tmp/upload_00010203" = false ∧
    (IngestZipFile lockedEnv exampleStorage random1 { fs := exampleFS } "/in/a.zip").1 =
      .error (.api { Code := "INVALID_MANIFEST"
                     Message := "manifest.json not found or unreadable" }) ∧
    (IngestZipFile lockedEnv exampleStorage random1 { fs := exampleFS } "/in/a.zip").2.fs =
      { dirs := exampleFS.dirs ++ ["/data/tmp/upload_00010203", "/data/tmp/upload_00010203/d"]
        files := exampleFS.files ++ [("/data/tmp/upload_00010203/d/x", [1])]
        modes := [("/data/tmp/upload_00010203/d", 0o300)] } ∧
    (exampleStorage.RemoveTempDir
        (IngestZipFile lockedEnv exampleStorage random1 { fs := exampleFS } "/in/a.zip").2.fs
        "/data/tmp/upload_00010203").1.isSome = true ∧
    (IngestFromReader lockedEnv exampleStorage random1 { fs := exampleFS }
        { data := [80, 75] } 2).1 =
      .error (.api { Code := "INVALID_MANIFEST"
                     Message := "manifest.json not found or unreadable" }) ∧
    (IngestFromReader lockedEnv exampleStorage random1 { fs := exampleFS }
        { data := [80, 75] } 2).2.fs =
      { dirs := exampleFS.dirs ++ ["/data/tmp/upload_00010203",
          "/data/tmp/upload_00010203/extracted", "/data/tmp/upload_00010203/extracted/d"]
        files := exampleFS.files ++ [("/data/tmp/upload_00010203/extracted/d/x", [1])]
        modes := [("/data/tmp/upload_00010203/extracted/d", 0o300)] } ∧
    (IngestZipFile unlockedEnv exampleStorage random1 { fs := exampleFS } "/in/a.zip").1 =
      .error (.api { Code := "INVALID_MANIFEST"
                     Message := "manifest.json not found or unreadable" }) ∧
    (IngestZipFile unlockedEnv exampleStorage random1 { fs := exampleFS } "/in/a.zip").2.fs =
      exampleFS ∧
    (IngestFromReader unlockedEnv exampleStorage random1 { fs := exampleFS }
        { data := [80, 75] } 2).1 =
      .error (.api { Code := "INVALID_MANIFEST"
                     Message := "manifest.json not found or unreadable" }) ∧
    (IngestFromReader unlockedEnv exampleStorage random1 { fs := exampleFS }
        { data := [80, 75] } 2).2.fs = exampleFS := by
  decide!

end ingest

namespace ingest

/-! ### The cleanup when no permission is withheld -/

/-- In the example filesystem the staging root exists with its ancestors. -/
theorem exampleFS_hasPath : exampleFS.HasPath exampleStorage.tmpDir :=
  os.HasPath_of_tree exampleFS
    (by
      intro d hd
      simp only [os.FS.isDir, exampleFS, Bool.or_eq_true, decide_eq_true_eq,
        List.contains_eq_any_beq, List.any_cons, List.any_nil, beq_iff_eq, Bool.or_false] at hd
      rcases hd with (h | h) | (h | h | h | h) <;> subst h <;> decide)
    _ (by decide)

/-- When no permission is withheld in the filesystem and the members of every
archive give their owner the usual permissions, the state in which
`IngestZipFile` runs its cleanup after an archive or manifest error differs from
the state before the call only under the staging directory, and withholds no
permission either. -/
theorem IngestZipFile_staged (env : Env) (s : storage.Storage) (random : Nat → List Nat)
    (w : World) (zipPath : String) (e : models.APIError)
    (hq : filepath.cleanChars s.tmpDir.data = s.tmpDir.data)
    (hk : filepath.keptElems s.tmpDir.data ≠ []) (hroot : w.fs.HasPath s.tmpDir)
    (hm : w.fs.modes = [])
    (hmodes : ∀ archive files, env.zipOpenReader archive = .ok files → OwnerModes files)
    (h : (IngestZipFile env s random w zipPath).1 = .error (.api e))
    (hcode : e.Code = "INVALID_ZIP" ∨ e.Code = "INVALID_MANIFEST") :
    ∃ fsX : os.FS,
      (IngestZipFile env s random w zipPath).2.fs =
        (s.RemoveTempDir fsX
          (filepath.Join [s.tmpDir, "upload_" ++ generateID (random 0) 8])).2 ∧
      w.fs.SameOutside (filepath.Join [s.tmpDir, "upload_" ++ generateID (random 0) 8]) fsX ∧
      fsX.modes = [] := by
  obtain ⟨_, fs1, hct, fsX, hX, hfs⟩ := IngestZipFile_cleanup env s random w zipPath e h hcode
  obtain ⟨_, h01, hpath1, hm1⟩ :=
    CreateTempDir_staging s w.fs fs1 (random 0) _ hq hk hroot hct
  have hc := filepath.Join_child s.tmpDir _ hq hk (upload_ordinary (random 0))
  refine ⟨fsX, hfs, ?_, ?_⟩
  · rcases hX with hX | hX
    · rw [hX]; exact h01
    · rw [hX]
      exact os.SameOutside_trans _ _ _ _ h01
        (extractZip_sameOutside env _ _ zipPath _ _ hc.2.1 hc.2.2.1
          (upload_ordinary (random 0)) (os.under_self _) fs1 hpath1)
  · rcases hX with hX | hX
    · rw [hX]; exact hm1 hm
    · rw [hX]
      exact extractZip_modes env fs1 zipPath _ hmodes (hm1 hm)

/-- The same for `IngestFromReader`. -/
theorem IngestFromReader_staged (env : Env) (s : storage.Storage) (random : Nat → List Nat)
    (w : World) (r : Reader) (contentLength : Int) (e : models.APIError)
    (hq : filepath.cleanChars s.tmpDir.data = s.tmpDir.data)
    (hk : filepath.keptElems s.tmpDir.data ≠ []) (hroot : w.fs.HasPath s.tmpDir)
    (hm : w.fs.modes = [])
    (hmodes : ∀ archive files, env.zipOpenReader archive = .ok files → OwnerModes files)
    (h : (IngestFromReader env s random w r contentLength).1 = .error (.api e))
    (hcode : e.Code = "INVALID_ZIP" ∨ e.Code = "INVALID_MANIFEST") :
    ∃ fsX : os.FS,
      (IngestFromReader env s random w r contentLength).2.fs =
        (s.RemoveTempDir fsX
          (filepath.Join [s.tmpDir, "upload_" ++ generateID (random 0) 8])).2 ∧
      w.fs.SameOutside (filepath.Join [s.tmpDir, "upload_" ++ generateID (random 0) 8]) fsX ∧
      fsX.modes = [] := by
  obtain ⟨_, fs1, fs2, hct, hw, fsX, hX, hfs⟩ :=
    IngestFromReader_cleanup env s random w r contentLength e h hcode
  obtain ⟨_, h01, hpath1, hm1⟩ :=
    CreateTempDir_staging s w.fs fs1 (random 0) _ hq hk hroot hct
  have hc := filepath.Join_child s.tmpDir _ hq hk (upload_ordinary (random 0))
  have hkt : filepath.keptElems
      (filepath.Join [s.tmpDir, "upload_" ++ generateID (random 0) 8]).data ≠ [] := by
    rw [hc.2.2.1]
    simp
  have hzip := filepath.Join_child _ "upload.zip" hc.2.1 hkt
    (by unfold filepath.Ordinary; decide)
  have hext := filepath.Join_child _ "extracted" hc.2.1 hkt
    (by unfold filepath.Ordinary; decide)
  have hzu := os.under_of_data _ _ _ hzip.1
  have heu := os.under_of_data _ _ _ hext.1
  have h12 := os.WriteFile_sameOutside _ fs1 fs2 _ _ _ hw hzu
  have hm2 : fs2.modes = [] := os.WriteFile_modes fs1 fs2 _ _ _ hw (hm1 hm) (by decide)
  have hpath2 := os.HasPath_mono fs1 fs2 _ hpath1 h12.2
  have h02 := os.SameOutside_trans _ _ _ _ h01 h12
  refine ⟨fsX, hfs, ?_⟩
  rcases hX with hX | ⟨fs3, hmk, hX⟩
  · rw [hX]; exact ⟨h02, hm2⟩
  · have h23 : fs2.SameOutside
        (filepath.Join [s.tmpDir, "upload_" ++ generateID (random 0) 8]) fs3 := by
      have h23 := os.MkdirAll_sameOutside
        (filepath.Join [s.tmpDir, "upload_" ++ generateID (random 0) 8]) fs2
        (filepath.Join
          [filepath.Join [s.tmpDir, "upload_" ++ generateID (random 0) 8], "extracted"]) 0o755
        (os.chain_below fs2 _ hc.2.1 hkt hpath2 ["extracted".data] (by simp)
          (by intro x hx; rw [List.mem_singleton.mp hx]; unfold filepath.Ordinary; decide)
          _ hext.1 _)
      rw [hmk] at h23
      exact h23
    have hm3 : fs3.modes = [] := by
      have h3 := os.MkdirAll_modes fs2
        (filepath.Join
          [filepath.Join [s.tmpDir, "upload_" ++ generateID (random 0) 8], "extracted"]) 0o755
        hm2 (by decide)
      rw [hmk] at h3
      exact h3
    have hpath3 : fs3.HasPath (filepath.Join
        [filepath.Join [s.tmpDir, "upload_" ++ generateID (random 0) 8], "extracted"]) :=
      os.HasPath_child fs3 _ _ (os.HasPath_mono fs2 fs3 _ hpath2 h23.2)
        (os.MkdirAll_isDir fs2 fs3 _ _ hmk) hext.2.2.2
    have h34 := extractZip_sameOutside env
      (filepath.Join [s.tmpDir, "upload_" ++ generateID (random 0) 8])
      (filepath.Join
        [filepath.Join [s.tmpDir, "upload_" ++ generateID (random 0) 8], "extracted"])
      (filepath.Join
        [filepath.Join [s.tmpDir, "upload_" ++ generateID (random 0) 8], "upload.zip"])
      _ _ hext.2.1 hext.2.2.1 (by unfold filepath.Ordinary; decide) heu fs3 hpath3
    have hm4 := extractZip_modes env fs3
      (filepath.Join
        [filepath.Join [s.tmpDir, "upload_" ++ generateID (random 0) 8], "upload.zip"])
      (filepath.Join
        [filepath.Join [s.tmpDir, "upload_" ++ generateID (random 0) 8], "extracted"])
      hmodes hm3
    have h04 := os.SameOutside_trans _ _ _ _ (os.SameOutside_trans _ _ _ _ h02 h23) h34
    rcases hX with hX | hX
    · rw [hX]; exact ⟨h04, hm4⟩
    · rw [hX]
      exact ⟨os.SameOutside_trans _ _ _ _ h04 (os.Remove_sameOutside _ _ _ hzu),
        os.Remove_modes _ _ hm4⟩

/-- The same for `IngestFromFiles`, which has no archive. -/
theorem IngestFromFiles_staged (env : Env) (s : storage.Storage) (random : Nat → List Nat)
    (w : World) (files : List (String × List Nat)) (e : models.APIError)
    (hq : filepath.cleanChars s.tmpDir.data = s.tmpDir.data)
    (hk : filepath.keptElems s.tmpDir.data ≠ []) (hroot : w.fs.HasPath s.tmpDir)
    (hm : w.fs.modes = [])
    (h : (IngestFromFiles env s random w files).1 = .error (.api e))
    (hcode : e.Code = "INVALID_ZIP" ∨ e.Code = "INVALID_MANIFEST") :
    ∃ fsX : os.FS,
      (IngestFromFiles env s random w files).2.fs =
        (s.RemoveTempDir fsX
          (filepath.Join [s.tmpDir, "upload_" ++ generateID (random 0) 8])).2 ∧
      w.fs.SameOutside (filepath.Join [s.tmpDir, "upload_" ++ generateID (random 0) 8]) fsX ∧
      fsX.modes = [] := by
  obtain ⟨_, fs1, fs2, written, hct, hw, hfs⟩ :=
    IngestFromFiles_cleanup env s random w files e h hcode
  obtain ⟨_, h01, hpath1, hm1⟩ :=
    CreateTempDir_staging s w.fs fs1 (random 0) _ hq hk hroot hct
  have hc := filepath.Join_child s.tmpDir _ hq hk (upload_ordinary (random 0))
  have hrootdir : w.fs.isDir s.tmpDir = true := by
    have hnot : ¬ (s.tmpDir = "/" ∨ s.tmpDir = ".") := by
      rintro (h1 | h1) <;> rw [h1] at hk <;> exact hk (by decide)
    apply hroot 1
    rw [os.chain, if_neg hnot]
    exact List.mem_cons_self _ _
  have hdir1 : fs1.isDir
      (filepath.Join [s.tmpDir, "upload_" ++ generateID (random 0) 8]) = true := by
    have hnot : ¬ (filepath.Join [s.tmpDir, "upload_" ++ generateID (random 0) 8] = "/" ∨
        filepath.Join [s.tmpDir, "upload_" ++ generateID (random 0) 8] = ".") := by
      rintro (h1 | h1) <;> have h2 := congrArg List.length hc.1 <;> rw [h1] at h2 <;>
        simp at h2 <;> omega
    apply hpath1 1
    rw [os.chain, if_neg hnot]
    exact List.mem_cons_self _ _
  obtain ⟨h12, hm2⟩ := writeFiles_sameOutside s _ hq hk (upload_ordinary (random 0)) files
    fs1 fs2 [] 0 written (h01.2 _ hrootdir) hdir1 hw
  exact ⟨fs2, hfs, os.SameOutside_trans _ _ _ _ h01 h12, hm2 (hm1 hm)⟩

/-- The three ingestion paths (`IngestZipFile`, `IngestFromReader`,
`IngestFromFiles`) where no permission is withheld: over a storage layout whose
staging root is a clean path that exists with its ancestors, in a filesystem
that records no restrictive mode, and with archives whose members give their
owner the usual permissions, a call that ends with an archive error
(`INVALID_ZIP`) or a manifest error (`INVALID_MANIFEST`) leaves the repository as
it was and leaves the filesystem that was there before without the staging
directory of the call: this directory no longer exists, no directory at all has
been added, in particular none in the permanent store, and the state is the one
before the call when nothing existed at the staging path. -/
theorem ingest_error_unwound (env : Env) (s : storage.Storage) (random : Nat → List Nat)
    (w : World) (out : Except IngestError IngestResult × World) (e : models.APIError)
    (hq : filepath.cleanChars s.tmpDir.data = s.tmpDir.data)
    (hk : filepath.keptElems s.tmpDir.data ≠ []) (hroot : w.fs.HasPath s.tmpDir)
    (hm : w.fs.modes = [])
    (hmodes : ∀ archive files, env.zipOpenReader archive = .ok files → OwnerModes files)
    (hcall : (∃ zipPath, out = IngestZipFile env s random w zipPath) ∨
      (∃ r contentLength, out = IngestFromReader env s random w r contentLength) ∨
      (∃ files, out = IngestFromFiles env s random w files))
    (h : out.1 = .error (.api e))
    (hcode : e.Code = models.ErrCodeInvalidZip ∨ e.Code = models.ErrCodeInvalidManifest) :
    out.2.db = w.db ∧
    out.2.fs = w.fs.without (filepath.Join [s.tmpDir, "upload_" ++ generateID (random 0) 8]) ∧
    out.2.fs.exists (filepath.Join [s.tmpDir, "upload_" ++ generateID (random 0) 8]) = false ∧
    (∀ d ∈ out.2.fs.dirs, d ∈ w.fs.dirs) ∧
    (∀ d ∈ bundleDirs s out.2.fs, d ∈ bundleDirs s w.fs) ∧
    ((∀ p, os.under (filepath.Join [s.tmpDir, "upload_" ++ generateID (random 0) 8]) p = true →
        w.fs.exists p = false) → out.2 = w) := by
  have hc := filepath.Join_child s.tmpDir _ hq hk (upload_ordinary (random 0))
  have hlen := congrArg List.length hc.1
  have hne1 : filepath.Join [s.tmpDir, "upload_" ++ generateID (random 0) 8] ≠ "/" := by
    intro h1
    rw [h1] at hlen
    simp at hlen
    omega
  have hne2 : filepath.Join [s.tmpDir, "upload_" ++ generateID (random 0) 8] ≠ "." := by
    intro h1
    rw [h1] at hlen
    simp at hlen
    omega
  have hdb : out.2.db = w.db :=
    (ingest_error_cleanup env s random w out e hcall h hcode).1
  have hstaged : ∃ fsX : os.FS,
      out.2.fs = (s.RemoveTempDir fsX
        (filepath.Join [s.tmpDir, "upload_" ++ generateID (random 0) 8])).2 ∧
      w.fs.SameOutside (filepath.Join [s.tmpDir, "upload_" ++ generateID (random 0) 8]) fsX ∧
      fsX.modes = [] := by
    rcases hcall with ⟨zipPath, rfl⟩ | ⟨r, contentLength, rfl⟩ | ⟨files, rfl⟩
    · exact IngestZipFile_staged env s random w zipPath e hq hk hroot hm hmodes h hcode
    · exact IngestFromReader_staged env s random w r contentLength e hq hk hroot hm hmodes h
        hcode
    · exact IngestFromFiles_staged env s random w files e hq hk hroot hm h hcode
  obtain ⟨fsX, hfsX, hsame, hmX⟩ := hstaged
  have hfs : out.2.fs =
      w.fs.without (filepath.Join [s.tmpDir, "upload_" ++ generateID (random 0) 8]) := by
    rw [hfsX, storage.Storage.RemoveTempDir, os.RemoveAll_nil fsX _ hmX]
    exact hsame.1
  refine ⟨hdb, hfs, ?_, ?_, ?_, ?_⟩
  · rw [hfs]
    exact os.without_exists _ _ hne1 hne2
  · intro d hd
    rw [hfs] at hd
    exact (List.mem_filter.mp hd).1
  · intro d hd
    rw [hfs] at hd
    unfold bundleDirs at hd ⊢
    rw [List.mem_filter] at hd ⊢
    exact ⟨(List.mem_filter.mp hd.1).1, hd.2⟩
  · intro habs
    have h3 := os.without_absent w.fs _ hm habs
    rw [h3] at hfs
    cases hw : out.2 with
    | mk fs d =>
      rw [hw] at hdb hfs
      cases w with
      | mk wfs wd =>
        simp only at hdb hfs
        rw [hdb, hfs]

/-- The archive whose only member is `../../etc/passwd`, in the example
filesystem: the call ends with `INVALID_ZIP`, and the filesystem and the empty
repository are left as they were. -/
theorem ingest_error_unwound_example :
    (IngestZipFile traversalEnv exampleStorage random1 { fs := exampleFS } "/in/a.zip").1 =
      .error (.api { Code := "INVALID_ZIP"
                     Message := "failed to extract zip: invalid file path in zip: ../../etc/passwd" }) ∧
    (IngestZipFile traversalEnv exampleStorage random1 { fs := exampleFS } "/in/a.zip").2.db =
      ({ fs := exampleFS } : World).db ∧
    (IngestZipFile traversalEnv exampleStorage random1 { fs := exampleFS } "/in/a.zip").2.fs.exists
      "/data/tmp/upload_00010203" = false ∧
    (IngestZipFile traversalEnv exampleStorage random1 { fs := exampleFS } "/in/a.zip").2.fs =
      exampleFS :=
  have h := ingest_error_unwound traversalEnv exampleStorage random1 { fs := exampleFS }
    (IngestZipFile traversalEnv exampleStorage random1 { fs := exampleFS } "/in/a.zip")
    { Code := "INVALID_ZIP"
      Message := "failed to extract zip: invalid file path in zip: ../../etc/passwd" }
    (by decide) (by decide) exampleFS_hasPath rfl
    (by
      intro archive files hf
      simp only [traversalEnv, Except.ok.injEq] at hf
      rw [← hf]
      intro z hz
      rw [List.mem_singleton.mp hz]
      decide)
    (Or.inl ⟨"/in/a.zip", rfl⟩) (by decide!) (Or.inl rfl)
  ⟨by decide!, h.1, h.2.2.1, h.2.1.trans (by decide!)⟩

end ingest

end BugIt
